import Mathlib

/-!
Flashback chaincode: the content review workflow.

A shallow embedding of `chaincode/movie/movie.go` and `chaincode/movie/models.go`.

* The ledger is an association list from keys to stored documents; `GetState` is a
  lookup and `PutState` replaces the value of a key in place or appends a new key.
* `encoding/json`, `fmt.Sscanf`, `time.Now`, `uuid.New` and the failures of the ledger
  primitives are library behaviour outside the repository: they are fields of `Env`.
* Go strings are Lean strings (valid Unicode); `len` is the UTF-8 byte length.
* `int64` arithmetic wraps: `Version++` is `wrapInt64 (Version + 1)`.
-/

namespace Flashback

/-! ## Ledger -/

/-- World state of one channel: the stored value of every key that has one. -/
abbrev Store (β : Type) := List (String × β)

/-- Ledger primitive `GetState` on the world state: the value stored under `key`, if any. -/
def getState {β : Type} : Store β → String → Option β
  | [], _ => none
  | (k, v) :: rest, key => if k = key then some v else getState rest key

/-- Ledger primitive `PutState` on the world state: overwrite the value of `key`, or add
the key. -/
def putState {β : Type} : Store β → String → β → Store β
  | [], key, v => [(key, v)]
  | (k, w) :: rest, key, v =>
    if k = key then (key, v) :: rest else (k, w) :: putState rest key v

/-- The keys of the world state, in storage order. -/
def keys {β : Type} (s : Store β) : List String := s.map Prod.fst

/-! ## models.go -/

/-- The type `RequestStatus` is a string type; any string can be read back from the ledger. -/
abbrev RequestStatus := String

def StatusPendingReview : RequestStatus := "pending_review"
def StatusApproved : RequestStatus := "approved"
def StatusRejected : RequestStatus := "rejected"
def StatusInProgress : RequestStatus := "in_progress"

/-- Struct `ContentRequest` of models.go. `IMDB` is the catalog ID (movie.go writes it as
`IMDBID`).
`TorrentHashes` is the content-location map, the only field of the declaration
(models.go:20-51) that holds a torrent hash; the struct literal of `SubmitContentRequest`
names a field `TorrentHash` (movie.go:141) that the struct does not declare, so the
submitted torrent hash has no field to be stored in. -/
structure ContentRequest where
  IMDB : String
  RequestID : String
  DocType : String
  Title : String
  Director : String
  ReleaseYear : Int
  Genres : List String
  Description : String
  SubmitterID : String
  Notes : String
  TorrentHashes : List (String × String)
  Status : RequestStatus
  SubmittedAt : String
  ReviewedBy : String
  ReviewedAt : String
  RejectionReason : String
  Version : Int
deriving DecidableEq, Repr

/-- Struct `Movie` of models.go, with the counters `Views` and `Downloads` that the struct
literal of
`ApproveContentRequest` sets (movie.go:247-248). The only `AverageRating` the review
workflow writes is the literal `0.0`; it is held as the integer `0`. -/
structure Movie where
  IMDB : String
  MovieID : String
  DocType : String
  Title : String
  Director : String
  ReleaseYear : Int
  Genres : List String
  Description : String
  TorrentHashes : List (String × String)
  FileSize : Int
  Duration : Int
  ApprovedBy : String
  ApprovedAt : String
  RequestID : String
  SubmitterID : String
  CreatedAt : String
  UpdatedAt : String
  Version : Int
  Views : Int
  Downloads : Int
  Ratings : List Int
  AverageRating : Int
deriving DecidableEq, Repr

structure ValidationError where
  Field : String
  Message : String
  Code : String
deriving DecidableEq, Repr

/-- The `Data interface{}` payload of a response, as the three operations fill it. -/
inductive ResponseData where
  | null
  | request (r : ContentRequest)
  | approved (content_request : ContentRequest) (movie : Movie)
deriving DecidableEq, Repr

structure OperationResponse where
  Success : Bool
  Message : String
  Data : ResponseData
  Errors : List ValidationError
  TxnID : String
  Timestamp : String
deriving DecidableEq, Repr

def IMDBIDPrefix : String := "tt"
def IMDBIDMinLength : Nat := 9
def IMDBIDMaxLength : Nat := 10
def TitleMaxLength : Nat := 500

/-- Helper of models.go: `NewSuccessResponse`; `ts` is its own reading of the clock. -/
def NewSuccessResponse (data : ResponseData) (txnID ts : String) : OperationResponse :=
  { Success := true, Message := "Operation successful", Data := data, Errors := [],
    TxnID := txnID, Timestamp := ts }

/-- Helper of models.go: `NewErrorResponse`; `ts` is its own reading of the clock. -/
def NewErrorResponse (message : String) (errors : List ValidationError) (txnID ts : String) :
    OperationResponse :=
  { Success := false, Message := message, Data := ResponseData.null, Errors := errors,
    TxnID := txnID, Timestamp := ts }

/-- Helper of models.go: `generateUUID` is a placeholder that returns the empty string. -/
def generateUUID : String := ""

/-- Helper of models.go: `NewContentRequest`; `now` is its reading of the clock. It is not
called by movie.go. -/
def NewContentRequest (imdbID title director : String) (releaseYear : Int)
    (genres : List String) (description submitterID notes torrentHash now : String) :
    ContentRequest :=
  let torrentHashes : List (String × String) :=
    if torrentHash ≠ "" then [("primary", torrentHash)] else []
  { IMDB := imdbID, RequestID := generateUUID, DocType := "ContentRequest", Title := title,
    Director := director, ReleaseYear := releaseYear, Genres := genres,
    Description := description, SubmitterID := submitterID, Notes := notes,
    TorrentHashes := torrentHashes, Status := StatusPendingReview,
    SubmittedAt := now, ReviewedBy := "", ReviewedAt := "", RejectionReason := "",
    Version := 1 }

/-- Helper of models.go: `NewMovieFromRequest`. It is not called by movie.go. -/
def NewMovieFromRequest (req : ContentRequest) (approvedBy now : String) : Movie :=
  { IMDB := req.IMDB, MovieID := generateUUID, DocType := "Movie", Title := req.Title,
    Director := req.Director, ReleaseYear := req.ReleaseYear, Genres := req.Genres,
    Description := req.Description, TorrentHashes := req.TorrentHashes, FileSize := 0,
    Duration := 0, ApprovedBy := approvedBy, ApprovedAt := now, RequestID := req.RequestID,
    SubmitterID := req.SubmitterID, CreatedAt := now, UpdatedAt := now, Version := 1,
    Views := 0, Downloads := 0, Ratings := [], AverageRating := 0 }

/-! ## Stored documents -/

/-- A value stored on the movie channel: the JSON of a `ContentRequest`, the JSON of a
`Movie`, or bytes that `json.Unmarshal` cannot decode into a struct. -/
inductive Doc where
  | request (r : ContentRequest)
  | movie (m : Movie)
  | raw (bytes : String)
deriving DecidableEq, Repr

/-- Decoding `json.Unmarshal(bytes, &contentRequest)`: the JSON of a request decodes to
itself; the
JSON of a movie decodes too, filling the fields whose JSON names both structs share and
leaving the others at their zero value; other bytes fail. -/
def unmarshalContentRequest : Doc → Option ContentRequest
  | Doc.request r => some r
  | Doc.movie m => some
      { IMDB := m.IMDB, RequestID := m.RequestID, DocType := m.DocType, Title := m.Title,
        Director := m.Director, ReleaseYear := m.ReleaseYear, Genres := m.Genres,
        Description := m.Description, SubmitterID := m.SubmitterID, Notes := "",
        TorrentHashes := m.TorrentHashes, Status := "", SubmittedAt := "", ReviewedBy := "",
        ReviewedAt := "", RejectionReason := "", Version := m.Version }
  | Doc.raw _ => none

/-- Decoding `json.Unmarshal(bytes, &movie)`, as `GetMovieByIMDBID` uses it. -/
def unmarshalMovie : Doc → Option Movie
  | Doc.movie m => some m
  | Doc.request r => some
      { IMDB := r.IMDB, MovieID := "", DocType := r.DocType, Title := r.Title,
        Director := r.Director, ReleaseYear := r.ReleaseYear, Genres := r.Genres,
        Description := r.Description, TorrentHashes := r.TorrentHashes, FileSize := 0,
        Duration := 0, ApprovedBy := "", ApprovedAt := "", RequestID := r.RequestID,
        SubmitterID := r.SubmitterID, CreatedAt := "", UpdatedAt := "", Version := r.Version,
        Views := 0, Downloads := 0, Ratings := [], AverageRating := 0 }
  | Doc.raw _ => none

/-! ## Transaction context -/

/-- What one invocation takes from outside the repository. -/
structure Env where
  /-- Value of `ctx.GetStub().GetTxID()`. -/
  txID : String
  /-- Value of `time.Now().UTC().Format(time.RFC3339)` inside the operation. -/
  now : String
  /-- Value of the clock when the response is built. -/
  respTime : String
  /-- Value of `uuid.New().String()`. -/
  newUUID : String
  /-- Result of `json.Unmarshal([]byte(genresJSON), &genres)`; `none` is a decoding error. -/
  unmarshalGenres : String → Option (List String)
  /-- Result of `fmt.Sscanf(s, "%d", &n)`; `none` leaves `n` untouched. -/
  sscanfInt : String → Option Int
  /-- Error of `GetState` on a key, when the ledger read fails. -/
  getStateErr : String → Option String
  /-- Error of `PutState` on a key, when the ledger write fails. -/
  putStateErr : String → Option String
  /-- Message of the decoding error of `json.Unmarshal` on the bytes stored under a key. -/
  jsonErr : String → String

/-- An event set with `SetEvent`: its name and the entries of its payload map. -/
structure Event where
  name : String
  payload : List (String × String)
deriving DecidableEq, Repr

/-- Result of one invocation: the two Go return values, the successful `PutState` calls in
order, the world state after them and the event it set. -/
structure Outcome where
  response : OperationResponse
  err : Option String
  writes : List (String × Doc)
  store : Store Doc
  event : Option Event

/-- Truncation of an integer to `int64`: two's-complement wrap-around. -/
def wrapInt64 (v : Int) : Int :=
  (v + 9223372036854775808) % 18446744073709551616 - 9223372036854775808

/-! ## movie.go: helpers -/

def buildContentRequestKey (imdbID : String) : String := "ContentRequest:" ++ imdbID

def buildMovieKey (imdbID : String) : String := "Movie:" ++ imdbID

/-- Library function `strings.HasPrefix`. -/
def hasPrefix (s p : String) : Bool := p.data.isPrefixOf s.data

/-- The regular expression `^tt\d{7,8}$` on the characters of a string: the two letters,
then ASCII digits only, seven or eight of them, up to the end of the text. -/
def matchIMDBPattern : List Char → Bool
  | 't' :: 't' :: rest => rest.all Char.isDigit && (rest.length == 7 || rest.length == 8)
  | _ => false

def isValidIMDBID (imdbID : String) : Bool :=
  if imdbID.utf8ByteSize < IMDBIDMinLength || imdbID.utf8ByteSize > IMDBIDMaxLength then
    false
  else if !hasPrefix imdbID IMDBIDPrefix then
    false
  else
    matchIMDBPattern imdbID.data

def getContentRequestByIMDBID (env : Env) (s : Store Doc) (imdbID : String) :
    Except String ContentRequest :=
  match env.getStateErr (buildContentRequestKey imdbID) with
  | some e => Except.error ("error reading from ledger: " ++ e)
  | none =>
    match getState s (buildContentRequestKey imdbID) with
    | none => Except.error "ContentRequest not found"
    | some d =>
      match unmarshalContentRequest d with
      | none =>
        Except.error ("error unmarshaling ContentRequest: " ++
          env.jsonErr (buildContentRequestKey imdbID))
      | some r => Except.ok r

/-- Operation `GetMovieByIMDBID`: the point lookup of a movie. -/
def GetMovieByIMDBID (env : Env) (s : Store Doc) (imdbID : String) : Except String Movie :=
  match env.getStateErr (buildMovieKey imdbID) with
  | some e => Except.error ("error reading from ledger: " ++ e)
  | none =>
    match getState s (buildMovieKey imdbID) with
    | none => Except.error ("movie not found for IMDB ID: " ++ imdbID)
    | some d =>
      match unmarshalMovie d with
      | none => Except.error ("error unmarshaling movie: " ++ env.jsonErr (buildMovieKey imdbID))
      | some m => Except.ok m

/-! ## movie.go: the review operations -/

/-- The input validation of `SubmitContentRequest` (movie.go:52-90): the accumulated list. -/
def submitValidationErrors (env : Env) (imdbID title genresJSON : String) :
    List ValidationError :=
  (if !isValidIMDBID imdbID then
      [{ Field := "imdb_id",
         Message := "Invalid IMDb ID format. Expected format: tt[7-8 digits], got: " ++ imdbID,
         Code := "invalid_format" }]
    else []) ++
  (if title = "" then
      [{ Field := "title", Message := "Title is required", Code := "required" }]
    else if title.utf8ByteSize > TitleMaxLength then
      [{ Field := "title",
         Message := "Title exceeds maximum length of " ++ toString TitleMaxLength ++
           " characters",
         Code := "max_length" }]
    else []) ++
  (if genresJSON ≠ "" then
      match env.unmarshalGenres genresJSON with
      | none =>
        [{ Field := "genres", Message := "Genres must be a valid JSON array",
           Code := "invalid_format" }]
      | some _ => []
    else [])

/-- The request that `SubmitContentRequest` creates (movie.go:79-82, 121-145): the genres are
the decoded array (none for an empty argument), the release year is what `Sscanf` reads
(0 for an empty or unreadable argument); fields the literal leaves out are zero, the
content-location map `TorrentHashes` among them. -/
def submittedRequest (env : Env)
    (imdbID title director releaseYearStr genresJSON description submitterID notes
      torrentHash : String) : ContentRequest :=
  let genres : List String :=
    if genresJSON ≠ "" then (env.unmarshalGenres genresJSON).getD [] else []
  let releaseYear : Int :=
    if releaseYearStr ≠ "" then (env.sscanfInt releaseYearStr).getD 0 else 0
  { IMDB := imdbID, RequestID := env.newUUID, DocType := "ContentRequest",
    Title := title, Director := director, ReleaseYear := releaseYear,
    Genres := genres, Description := description, SubmitterID := submitterID,
    Notes := notes, TorrentHashes := [],
    Status := StatusPendingReview, SubmittedAt := env.now, ReviewedBy := "",
    ReviewedAt := "", RejectionReason := "", Version := 1 }

/-- The request as `ApproveContentRequest` rewrites it (movie.go:212-216). -/
def approvedRequest (env : Env) (found : ContentRequest) (moderatorID : String) :
    ContentRequest :=
  { found with
    Status := StatusApproved, ReviewedBy := moderatorID, ReviewedAt := env.now,
    Version := wrapInt64 (found.Version + 1) }

/-- The movie that `ApproveContentRequest` creates (movie.go:230-251) from the request
`cr` it has just rewritten; fields the literal leaves out are zero. -/
def approvedMovie (env : Env) (cr : ContentRequest) (imdbID moderatorID : String) :
    Movie :=
  { IMDB := imdbID, MovieID := env.newUUID, DocType := "Movie", Title := cr.Title,
    Director := cr.Director, ReleaseYear := cr.ReleaseYear, Genres := cr.Genres,
    Description := cr.Description, TorrentHashes := [], FileSize := 0, Duration := 0,
    ApprovedBy := moderatorID, ApprovedAt := env.now, RequestID := cr.RequestID,
    SubmitterID := cr.SubmitterID, CreatedAt := env.now, UpdatedAt := env.now,
    Version := 1, Views := 0, Downloads := 0, Ratings := [], AverageRating := 0 }

/-- The request as `RejectContentRequest` rewrites it (movie.go:307-312). -/
def rejectedRequest (env : Env) (found : ContentRequest)
    (moderatorID rejectionReason : String) : ContentRequest :=
  { found with
    Status := StatusRejected, ReviewedBy := moderatorID, ReviewedAt := env.now,
    RejectionReason := rejectionReason, Version := wrapInt64 (found.Version + 1) }

def SubmitContentRequest (env : Env) (s : Store Doc)
    (imdbID title director releaseYearStr genresJSON description submitterID notes
      torrentHash : String) : Outcome :=
  let txnID := env.txID
  let validationErrors := submitValidationErrors env imdbID title genresJSON
  if validationErrors.length > 0 then
    { response := NewErrorResponse
        ("Validation failed for SubmitContentRequest: " ++ toString validationErrors.length ++
          " error(s)") validationErrors txnID env.respTime,
      err := none, writes := [], store := s, event := none }
  else
    match getContentRequestByIMDBID env s imdbID with
    | Except.ok _ =>
      { response := NewErrorResponse "IMDb ID already exists"
          (validationErrors ++
            [{ Field := "imdb_id",
               Message := "Movie with IMDb ID " ++ imdbID ++
                 " has already been submitted or approved",
               Code := "duplicate" }]) txnID env.respTime,
        err := none, writes := [], store := s, event := none }
    | Except.error e =>
      if e ≠ "ContentRequest not found" then
        { response := NewErrorResponse ("Error checking for duplicate: " ++ e) [] txnID
            env.respTime,
          err := none, writes := [], store := s, event := none }
      else
        let now := env.now
        let requestID := env.newUUID
        let contentRequest : ContentRequest :=
          submittedRequest env imdbID title director releaseYearStr genresJSON description
            submitterID notes torrentHash
        match env.putStateErr (buildContentRequestKey imdbID) with
        | some pe =>
          { response := NewErrorResponse ("Error writing to ledger: " ++ pe) [] txnID
              env.respTime,
            err := none, writes := [], store := s, event := none }
        | none =>
          { response := NewSuccessResponse (ResponseData.request contentRequest) txnID
              env.respTime,
            err := none,
            writes := [(buildContentRequestKey imdbID, Doc.request contentRequest)],
            store := putState s (buildContentRequestKey imdbID) (Doc.request contentRequest),
            event := some
              { name := "ContentRequested",
                payload := [("imdb_id", imdbID), ("request_id", requestID), ("title", title),
                  ("submitter", submitterID), ("timestamp", now)] } }

def ApproveContentRequest (env : Env) (s : Store Doc) (imdbID moderatorID : String) :
    Outcome :=
  let txnID := env.txID
  match getContentRequestByIMDBID env s imdbID with
  | Except.error _ =>
    { response := NewErrorResponse ("ContentRequest not found for IMDB ID: " ++ imdbID) []
        txnID env.respTime,
      err := none, writes := [], store := s, event := none }
  | Except.ok found =>
    if found.Status = StatusApproved then
      { response := NewErrorResponse
          ("ContentRequest for IMDB ID " ++ imdbID ++ " is already approved") [] txnID
          env.respTime,
        err := none, writes := [], store := s, event := none }
    else
      let now := env.now
      let contentRequest : ContentRequest := approvedRequest env found moderatorID
      match env.putStateErr (buildContentRequestKey imdbID) with
      | some pe =>
        { response := NewErrorResponse ("Error updating ContentRequest: " ++ pe) [] txnID
            env.respTime,
          err := none, writes := [], store := s, event := none }
      | none =>
        let s1 := putState s (buildContentRequestKey imdbID) (Doc.request contentRequest)
        let movieID := env.newUUID
        let movie : Movie := approvedMovie env contentRequest imdbID moderatorID
        match env.putStateErr (buildMovieKey imdbID) with
        | some pe =>
          { response := NewErrorResponse ("Error creating Movie entry: " ++ pe) [] txnID
              env.respTime,
            err := none,
            writes := [(buildContentRequestKey imdbID, Doc.request contentRequest)],
            store := s1, event := none }
        | none =>
          { response := NewSuccessResponse (ResponseData.approved contentRequest movie) txnID
              env.respTime,
            err := none,
            writes := [(buildContentRequestKey imdbID, Doc.request contentRequest),
              (buildMovieKey imdbID, Doc.movie movie)],
            store := putState s1 (buildMovieKey imdbID) (Doc.movie movie),
            event := some
              { name := "ContentApproved",
                payload := [("imdb_id", imdbID), ("movie_id", movieID),
                  ("title", movie.Title), ("approved_by", moderatorID),
                  ("timestamp", now)] } }

def RejectContentRequest (env : Env) (s : Store Doc)
    (imdbID moderatorID rejectionReason : String) : Outcome :=
  let txnID := env.txID
  match getContentRequestByIMDBID env s imdbID with
  | Except.error _ =>
    { response := NewErrorResponse ("ContentRequest not found for IMDB ID: " ++ imdbID) []
        txnID env.respTime,
      err := none, writes := [], store := s, event := none }
  | Except.ok found =>
    let now := env.now
    let contentRequest : ContentRequest :=
      rejectedRequest env found moderatorID rejectionReason
    match env.putStateErr (buildContentRequestKey imdbID) with
    | some pe =>
      { response := NewErrorResponse ("Error updating ContentRequest: " ++ pe) [] txnID
          env.respTime,
        err := none, writes := [], store := s, event := none }
    | none =>
      { response := NewSuccessResponse (ResponseData.request contentRequest) txnID
          env.respTime,
        err := none,
        writes := [(buildContentRequestKey imdbID, Doc.request contentRequest)],
        store := putState s (buildContentRequestKey imdbID) (Doc.request contentRequest),
        event := some
          { name := "ContentRejected",
            payload := [("imdb_id", imdbID), ("rejected_by", moderatorID),
              ("reason", rejectionReason), ("timestamp", now)] } }

/-! ## Sequences of invocations -/

/-- One invocation of the review state machine, with the environment it runs in. -/
inductive Call where
  | submit (env : Env) (imdbID title director releaseYearStr genresJSON description
      submitterID notes torrentHash : String)
  | approve (env : Env) (imdbID moderatorID : String)
  | reject (env : Env) (imdbID moderatorID rejectionReason : String)

/-- Run one invocation on a world state. -/
def Call.exec (s : Store Doc) : Call → Outcome
  | Call.submit env i t d y g ds su n th => SubmitContentRequest env s i t d y g ds su n th
  | Call.approve env i m => ApproveContentRequest env s i m
  | Call.reject env i m r => RejectContentRequest env s i m r

/-- The world state after a sequence of invocations, each committed in turn. -/
def runCalls (s : Store Doc) : List Call → Store Doc
  | [] => s
  | c :: cs => runCalls (c.exec s).store cs

/-- The successful `PutState` calls of a sequence of invocations, in order. -/
def writesOfCalls (s : Store Doc) : List Call → List (String × Doc)
  | [] => []
  | c :: cs => (c.exec s).writes ++ writesOfCalls (c.exec s).store cs

/-- An environment in which every ledger primitive succeeds; the decoders of the standard
library are given fixed results, which the review operations store but never inspect. -/
def plainEnv (txID now uuid : String) : Env :=
  { txID := txID, now := now, respTime := now, newUUID := uuid,
    unmarshalGenres := fun _ => some [], sscanfInt := fun _ => none,
    getStateErr := fun _ => none, putStateErr := fun _ => none, jsonErr := fun _ => "" }

/-- The world state after a list of successful `PutState` calls. -/
def applyWrites (s : Store Doc) (ws : List (String × Doc)) : Store Doc :=
  ws.foldl (fun acc w => putState acc w.1 w.2) s

/-- Largest `int64`. -/
def maxInt64 : Int := 9223372036854775807

/-- Smallest `int64`. -/
def minInt64 : Int := -9223372036854775808

/-! ## Example transactions -/

/-- Environment of a first transaction in which every ledger primitive succeeds. -/
def tx1Env : Env := plainEnv "tx1" "2024-01-01T00:00:00Z" "u1"

/-- Environment of a second such transaction. -/
def tx2Env : Env := plainEnv "tx2" "2024-01-02T00:00:00Z" "u2"

/-- Environment of a third such transaction. -/
def tx3Env : Env := plainEnv "tx3" "2024-01-03T00:00:00Z" "u3"

/-- Environment of a fourth such transaction. -/
def tx4Env : Env := plainEnv "tx4" "2024-01-04T00:00:00Z" "u4"

/-- The request `alice` submits for `tt1375666`, with torrent hash `QmHash`. -/
def inceptionRequest : ContentRequest :=
  submittedRequest tx1Env "tt1375666" "Inception" "Nolan" "2010" "" "" "alice" "" "QmHash"

/-- The store after that submission on the empty ledger. -/
def submittedStore : Store Doc :=
  (SubmitContentRequest tx1Env [] "tt1375666" "Inception" "Nolan" "2010" "" "" "alice" ""
    "QmHash").store

/-- The store after `mod1` then approves the submission. -/
def approvedStore : Store Doc :=
  (ApproveContentRequest tx2Env submittedStore "tt1375666" "mod1").store

/-- The store after `mod1` instead rejects the submission. -/
def rejectedStore : Store Doc :=
  (RejectContentRequest tx2Env submittedStore "tt1375666" "mod1" "not a movie").store

/-! ## Predicates used in the statements -/

/-- Spec side of the catalog ID format: the two characters `tt` followed by exactly seven
or exactly eight ASCII decimal digits. -/
def IsCatalogIDFormat (s : String) : Prop :=
  ∃ ds : List Char, s = "tt" ++ String.mk ds ∧ (ds.length = 7 ∨ ds.length = 8) ∧
    ∀ c ∈ ds, '0' ≤ c ∧ c ≤ '9'

/-- Number of entries of an error list that name a given field with a given code. -/
def errorCount (field code : String) (errors : List ValidationError) : Nat :=
  (errors.filter (fun e => decide (e.Field = field) && decide (e.Code = code))).length

/-- What holds of a request stored after at most `n` invocations: its status is one of the
three the workflow sets, its version is between 1 and `n + 1`, and the status is
`pending_review` exactly when the version is 1. -/
def ReviewedWithin (n : Nat) (r : ContentRequest) : Prop :=
  (r.Status = StatusPendingReview ∨ r.Status = StatusApproved ∨ r.Status = StatusRejected) ∧
  1 ≤ r.Version ∧ r.Version ≤ (n : Int) + 1 ∧
  (r.Status = StatusPendingReview ↔ r.Version = 1)

/-- Every document under a `ContentRequest:` key is the JSON of a request that satisfies
`ReviewedWithin n`. -/
def RequestsReviewedWithin (n : Nat) (s : Store Doc) : Prop :=
  ∀ (j : String) (d : Doc), getState s (buildContentRequestKey j) = some d →
    ∃ r, d = Doc.request r ∧ ReviewedWithin n r

/-! ## Ledger: composite keys and partial-key scans -/

/-- A value stored by one of the chaincodes of `fabric/chaincode`: bytes that `json.Unmarshal`
decodes to the record `a`, or bytes that it cannot decode. -/
inductive Stored (α : Type) where
  | record (a : α)
  | raw (bytes : String)
deriving DecidableEq, Repr

/-- Decoding of a stored value with `json.Unmarshal`; `none` is a decoding error. -/
def Stored.unmarshal {α : Type} : Stored α → Option α
  | Stored.record a => some a
  | Stored.raw _ => none

/-- Equality of results is decidable when equality of errors and of values is. -/
instance instDecidableEqExcept {ε α : Type} [DecidableEq ε] [DecidableEq α] :
    DecidableEq (Except ε α) := fun a b =>
  match a, b with
  | Except.ok x, Except.ok y =>
    if h : x = y then isTrue (by rw [h]) else isFalse (fun e => h (Except.ok.inj e))
  | Except.error x, Except.error y =>
    if h : x = y then isTrue (by rw [h]) else isFalse (fun e => h (Except.error.inj e))
  | Except.ok _, Except.error _ => isFalse (fun e => Except.noConfusion e)
  | Except.error _, Except.ok _ => isFalse (fun e => Except.noConfusion e)

/-- The delimiter of composite keys, U+0000 (also the namespace mark that starts one). -/
def keyDelimiter : String := String.singleton (Char.ofNat 0)

/-- Modelled from the spec: the check the ledger applies to the object type and to each
attribute of a composite key (host library, not in the repository): the delimiter U+0000 and
the scan bound U+10FFFF may not occur in it. -/
def validKeyAttribute (str : String) : Bool :=
  str.data.all (fun c => c.toNat != 0 && c.toNat != 1114111)

/-- Modelled from the spec: composite key construction of the ledger (host library, not in
the repository). Section 4.2: a key is the namespace tag followed by the ordered tuple of
identifier components; each is closed by the delimiter, so that the key of a leading part
of the tuple is a prefix of the key of the whole tuple. An invalid component is an error. -/
def createCompositeKey (objectType : String) (attributes : List String) :
    Except String String :=
  if validKeyAttribute objectType && attributes.all validKeyAttribute then
    Except.ok (keyDelimiter ++ objectType ++ keyDelimiter ++
      String.join (attributes.map (fun a => a ++ keyDelimiter)))
  else
    Except.error "invalid composite key attribute"

/-- The Go idiom `compositeKey, _ := ctx.GetStub().CreateCompositeKey(...)`: the error is
dropped, and the key is then the empty string. -/
def compositeKeyOrEmpty (objectType : String) (attributes : List String) : String :=
  match createCompositeKey objectType attributes with
  | Except.ok k => k
  | Except.error _ => ""

/-- Order of keys in a scan: lexical, by code point. -/
def keyLe : List Char → List Char → Bool
  | [], _ => true
  | _ :: _, [] => false
  | a :: as, b :: bs =>
    if a.toNat < b.toNat then true
    else if b.toNat < a.toNat then false
    else keyLe as bs

/-- Insertion of a key-value pair into a list ordered by key, after the pairs whose key is
not greater. -/
def insertByKey {β : Type} (kv : String × β) : List (String × β) → List (String × β)
  | [] => [kv]
  | x :: rest =>
    if keyLe x.1.data kv.1.data then x :: insertByKey kv rest else kv :: x :: rest

/-- The pairs of a list ordered by key. -/
def sortByKey {β : Type} : List (String × β) → List (String × β)
  | [] => []
  | x :: rest => insertByKey x (sortByKey rest)

/-- Modelled from the spec: the partial-key scan of the ledger (host library, not in the
repository). Section 4.1 and the glossary: `scanByPrefix` enumerates, ordered by key, all
stored records whose key begins with the given prefix. -/
def scanByPrefix {β : Type} (s : Store β) (startKey : String) : List (String × β) :=
  sortByKey (s.filter (fun kv => startKey.data.isPrefixOf kv.1.data))

/-- What one invocation of a chaincode of `fabric/chaincode` takes from outside the
repository. -/
structure StubEnv where
  /-- Value of `time.Now().UTC().Format(time.RFC3339)`. -/
  now : String
  /-- Result of `strconv.Atoi`; `none` is a parse error. -/
  atoi : String → Option Int
  /-- Result of `json.Unmarshal` of a tags argument; `none` is a decoding error. -/
  unmarshalTags : String → Option (List String)
  /-- Error of `GetState` on a key, when the ledger read fails. -/
  getStateErr : String → Option String
  /-- Error of `PutState` on a key, when the ledger write fails. -/
  putStateErr : String → Option String
  /-- Error of opening the range scan that starts at a key. -/
  rangeErr : String → Option String
  /-- Error of `iterator.Next()` on reaching a key. -/
  nextErr : String → Option String
  /-- Message of the decoding error of `json.Unmarshal` on the bytes stored under a key. -/
  jsonErr : String → String

/-- The call `GetState(key)` as the operations use its two results: the bytes, which are nil
when the key is absent and also when the read fails, and the error. -/
def stubGetState {β : Type} (env : StubEnv) (s : Store β) (key : String) :
    Option β × Option String :=
  match env.getStateErr key with
  | some e => (none, some e)
  | none => (getState s key, none)

/-- The error of `PutState(key, value)`: the stub refuses the empty key, and the ledger
write may fail. -/
def stubPutStateErr (env : StubEnv) (key : String) : Option String :=
  if key = "" then some "key must not be an empty string" else env.putStateErr key

/-- The call `GetStateByPartialCompositeKey(objectType, attributes)`: the scan of the keys
that begin with the composite key of the given attributes, or an error. The reads of an
invocation see the world state as it was when the invocation began. -/
def getStateByPartialCompositeKey {β : Type} (env : StubEnv) (s : Store β)
    (objectType : String) (attributes : List String) :
    Except String (List (String × β)) :=
  match createCompositeKey objectType attributes with
  | Except.error e => Except.error e
  | Except.ok startKey =>
    match env.rangeErr startKey with
    | some e => Except.error e
    | none => Except.ok (scanByPrefix s startKey)

/-- Result of one invocation of a chaincode of `fabric/chaincode`: the returned error (none
on success), the successful `PutState` calls in order, the world state after them and the
event set. -/
structure TxResult (β : Type) where
  err : Option String
  writes : List (String × β)
  store : Store β
  event : Option (String × β)

/-- An invocation that returns an error before any write. -/
def TxResult.fail {β : Type} (s : Store β) (e : String) : TxResult β :=
  { err := some e, writes := [], store := s, event := none }

/-- The world state after a list of successful `PutState` calls of one invocation. -/
def commitWrites {β : Type} (s : Store β) (ws : List (String × β)) : Store β :=
  ws.foldl (fun acc w => putState acc w.1 w.2) s

/-- The decimal reading of an optionally signed digit string, as `strconv.Atoi` returns it
for a value that fits in an `int`; used in the example environments. -/
def decimalAtoi (str : String) : Option Int :=
  let digits : List Char → Option Nat := fun cs =>
    if cs.isEmpty || !cs.all Char.isDigit then none
    else some (cs.foldl (fun acc c => 10 * acc + (c.toNat - 48)) 0)
  match str.data with
  | '-' :: cs => (digits cs).map (fun n => -(n : Int))
  | '+' :: cs => (digits cs).map (fun n => (n : Int))
  | cs => (digits cs).map (fun n => (n : Int))

/-- An environment in which every ledger primitive succeeds. -/
def plainStubEnv (now : String) : StubEnv :=
  { now := now, atoi := decimalAtoi, unmarshalTags := fun _ => some [],
    getStateErr := fun _ => none, putStateErr := fun _ => none, rangeErr := fun _ => none,
    nextErr := fun _ => none, jsonErr := fun _ => "" }

/-! ## ratings.go -/

set_option linter.dupNamespace false in
/-- Struct `Rating` of ratings.go. -/
structure Rating where
  ID : String
  EntryID : String
  RepoName : String
  Rater : String
  Rating : Int
  Review : String
  CreatedAt : String
  UpdatedAt : String
  Status : String
deriving DecidableEq, Repr

/-- The composite key of a rating: object type `rating~entry`, attributes rating ID then
entry ID (ratings.go:62, 124, 158). -/
def ratingKey (ratingID entryID : String) : String :=
  compositeKeyOrEmpty "rating~entry" [ratingID, entryID]

def SubmitRating (env : StubEnv) (s : Store (Stored Rating)) (args : List String) :
    TxResult (Stored Rating) :=
  match args with
  | ratingID :: entryID :: repoName :: rater :: ratingStr :: rest =>
    if ratingID = "" ∨ entryID = "" ∨ repoName = "" ∨ rater = "" then
      TxResult.fail s "required fields cannot be empty"
    else
      match env.atoi ratingStr with
      | none => TxResult.fail s "rating must be an integer between 1 and 5"
      | some rating =>
        if rating < 1 ∨ rating > 5 then
          TxResult.fail s "rating must be an integer between 1 and 5"
        else
          let review : String :=
            match rest with
            | r :: _ => if r ≠ "" then r else ""
            | [] => ""
          let compositeKey := ratingKey ratingID entryID
          let existingRatingJSON := (stubGetState env s compositeKey).1
          let now := env.now
          let built : Except String Rating :=
            match existingRatingJSON with
            | some bytes =>
              match bytes.unmarshal with
              | none =>
                Except.error ("failed to unmarshal existing rating: " ++
                  env.jsonErr compositeKey)
              | some ratingObj =>
                Except.ok { ratingObj with
                  Rating := rating, Review := review, UpdatedAt := now, Status := "active" }
            | none =>
              Except.ok
                { ID := ratingID, EntryID := entryID, RepoName := repoName, Rater := rater,
                  Rating := rating, Review := review, CreatedAt := now, UpdatedAt := now,
                  Status := "active" }
          match built with
          | Except.error e => TxResult.fail s e
          | Except.ok ratingObj =>
            match stubPutStateErr env compositeKey with
            | some e => TxResult.fail s ("failed to put rating state: " ++ e)
            | none =>
              { err := none,
                writes := [(compositeKey, Stored.record ratingObj)],
                store := putState s compositeKey (Stored.record ratingObj),
                event := some
                  (if existingRatingJSON.isSome then "RatingUpdated" else "RatingSubmitted",
                    Stored.record ratingObj) }
  | _ =>
    TxResult.fail s
      ("incorrect number of arguments. Expected 5 or more, got " ++ toString args.length)

def GetRating (env : StubEnv) (s : Store (Stored Rating)) (ratingID entryID : String) :
    Except String Rating :=
  if ratingID = "" ∨ entryID = "" then
    Except.error "ratingID and entryID are required"
  else
    let compositeKey := ratingKey ratingID entryID
    match stubGetState env s compositeKey with
    | (_, some e) => Except.error ("failed to get rating: " ++ e)
    | (none, none) => Except.error ("rating " ++ ratingID ++ " not found")
    | (some bytes, none) =>
      match bytes.unmarshal with
      | none => Except.error ("failed to unmarshal rating: " ++ env.jsonErr compositeKey)
      | some rating => Except.ok rating

def DeleteRating (env : StubEnv) (s : Store (Stored Rating)) (ratingID entryID : String) :
    TxResult (Stored Rating) :=
  match GetRating env s ratingID entryID with
  | Except.error e => TxResult.fail s e
  | Except.ok found =>
    let rating : Rating := { found with Status := "deleted", UpdatedAt := env.now }
    let compositeKey := ratingKey ratingID entryID
    match stubPutStateErr env compositeKey with
    | some e => TxResult.fail s ("failed to delete rating: " ++ e)
    | none =>
      { err := none,
        writes := [(compositeKey, Stored.record rating)],
        store := putState s compositeKey (Stored.record rating),
        event := some ("RatingDeleted", Stored.record rating) }

/-- The loop of `GetEntryRatings` over the scanned pairs (ratings.go:193-209): an iterator
error ends the call, undecodable values are skipped, only active ratings are kept. -/
def entryRatingsLoop (env : StubEnv) :
    List (String × Stored Rating) → List Rating → Except String (List Rating)
  | [], ratings => Except.ok ratings
  | (key, value) :: rest, ratings =>
    match env.nextErr key with
    | some e => Except.error ("failed to iterate ratings: " ++ e)
    | none =>
      match value.unmarshal with
      | none => entryRatingsLoop env rest ratings
      | some rating =>
        if rating.Status = "active" then entryRatingsLoop env rest (ratings ++ [rating])
        else entryRatingsLoop env rest ratings

def GetEntryRatings (env : StubEnv) (s : Store (Stored Rating)) (entryID : String) :
    Except String (List Rating) :=
  if entryID = "" then
    Except.error "entryID is required"
  else
    match getStateByPartialCompositeKey env s "rating~entry" [entryID] with
    | Except.error e => Except.error ("failed to query ratings: " ++ e)
    | Except.ok pairs => entryRatingsLoop env pairs []

/-- The accumulation `totalRating += rating.Rating` of `GetAverageRating`, on `int`. -/
def totalRating (ratings : List Rating) : Int :=
  ratings.foldl (fun total rating => wrapInt64 (total + rating.Rating)) 0

/-- The operation `GetAverageRating` of ratings.go. The `float64` quotient is held as the
exact rational quotient of the two integers, which the `float64` division rounds. -/
def GetAverageRating (env : StubEnv) (s : Store (Stored Rating)) (entryID : String) :
    Except String Rat :=
  match GetEntryRatings env s entryID with
  | Except.error e => Except.error e
  | Except.ok ratings =>
    if ratings.length = 0 then Except.ok 0
    else Except.ok ((totalRating ratings : Rat) / (ratings.length : Rat))

/-- The map returned by `GetRatingDistribution`: its five keys and their counts. -/
structure Distribution where
  star1 : Nat
  stars2 : Nat
  stars3 : Nat
  stars4 : Nat
  stars5 : Nat
deriving DecidableEq, Repr

/-- One turn of the `switch` of `GetRatingDistribution` (ratings.go:251-262). -/
def Distribution.add (d : Distribution) (rating : Int) : Distribution :=
  if rating = 1 then { d with star1 := d.star1 + 1 }
  else if rating = 2 then { d with stars2 := d.stars2 + 1 }
  else if rating = 3 then { d with stars3 := d.stars3 + 1 }
  else if rating = 4 then { d with stars4 := d.stars4 + 1 }
  else if rating = 5 then { d with stars5 := d.stars5 + 1 }
  else d

/-- The entries of the returned map, by key. -/
def Distribution.toMap (d : Distribution) : List (String × Nat) :=
  [("1_star", d.star1), ("2_stars", d.stars2), ("3_stars", d.stars3),
    ("4_stars", d.stars4), ("5_stars", d.stars5)]

def GetRatingDistribution (env : StubEnv) (s : Store (Stored Rating)) (entryID : String) :
    Except String Distribution :=
  match GetEntryRatings env s entryID with
  | Except.error e => Except.error e
  | Except.ok ratings =>
    Except.ok (ratings.foldl (fun d rating => d.add rating.Rating)
      { star1 := 0, stars2 := 0, stars3 := 0, stars4 := 0, stars5 := 0 })

def GetRatingCount (env : StubEnv) (s : Store (Stored Rating)) (entryID : String) :
    Except String Nat :=
  match GetEntryRatings env s entryID with
  | Except.error e => Except.error e
  | Except.ok ratings => Except.ok ratings.length

/-! ## Example ratings -/

/-- Environment of a ratings transaction in which every ledger primitive succeeds. -/
def ratingEnv : StubEnv := plainStubEnv "2024-02-01T00:00:00Z"

/-- The ratings store after `alice` rates entry `E1` 3 under rating ID `r1`. -/
def oneRatingStore : Store (Stored Rating) :=
  (SubmitRating ratingEnv [] ["r1", "E1", "repo", "alice", "3"]).store

/-- The ratings store after `bob` then rates entry `E1` 5 under rating ID `r2`. -/
def twoRatingsStore : Store (Stored Rating) :=
  (SubmitRating ratingEnv oneRatingStore ["r2", "E1", "repo", "bob", "5", "great"]).store

/-- An active rating of entry `entryID` with the given ID and score. -/
def sampleRating (ratingID entryID : String) (score : Int) : Rating :=
  { ID := ratingID, EntryID := entryID, RepoName := "repo", Rater := "alice",
    Rating := score, Review := "", CreatedAt := "2024-02-01T00:00:00Z",
    UpdatedAt := "2024-02-01T00:00:00Z", Status := "active" }

/-- A ratings store whose scan for `E1` yields the scores 3 and 5: two records under keys
whose leading component is `E1`. -/
def scannedPairStore : Store (Stored Rating) :=
  [(ratingKey "E1" "a", Stored.record (sampleRating "E1" "a" 3)),
   (ratingKey "E1" "b", Stored.record (sampleRating "E1" "b" 5))]

/-- A ratings store whose scan for `E1` yields the scores 1, 1, 3, 5, 5, 5. -/
def scannedSixStore : Store (Stored Rating) :=
  [(ratingKey "E1" "a", Stored.record (sampleRating "E1" "a" 1)),
   (ratingKey "E1" "b", Stored.record (sampleRating "E1" "b" 1)),
   (ratingKey "E1" "c", Stored.record (sampleRating "E1" "c" 3)),
   (ratingKey "E1" "d", Stored.record (sampleRating "E1" "d" 5)),
   (ratingKey "E1" "e", Stored.record (sampleRating "E1" "e" 5)),
   (ratingKey "E1" "f", Stored.record (sampleRating "E1" "f" 5))]

/-- The number of ratings of a list whose score is `k`. -/
def scoreCount (k : Int) (ratings : List Rating) : Nat :=
  (ratings.filter (fun r => decide (r.Rating = k))).length

/-- The exact sum of the scores of a list of ratings. -/
def scoreSum (ratings : List Rating) : Int :=
  (ratings.map (fun r => r.Rating)).sum

/-! ## Sequences of invocations of the ratings chaincode -/

/-- One mutating invocation of the ratings chaincode, with the environment it runs in. -/
inductive RatingCall where
  | submit (env : StubEnv) (args : List String)
  | delete (env : StubEnv) (ratingID entryID : String)

/-- Run one invocation on a world state. -/
def RatingCall.exec (s : Store (Stored Rating)) : RatingCall → TxResult (Stored Rating)
  | RatingCall.submit env args => SubmitRating env s args
  | RatingCall.delete env ratingID entryID => DeleteRating env s ratingID entryID

/-- The world state after a sequence of invocations, each committed in turn. -/
def runRatingCalls (s : Store (Stored Rating)) : List RatingCall → Store (Stored Rating)
  | [] => s
  | c :: cs => runRatingCalls (c.exec s).store cs

/-- Every stored value is a decodable rating whose score is between 1 and 5. -/
def ScoresInRange (s : Store (Stored Rating)) : Prop :=
  ∀ kv ∈ s, ∃ r, kv.2 = Stored.record r ∧ 1 ≤ r.Rating ∧ r.Rating ≤ 5

/-! ## entries.go -/

/-- Struct `Entry` of entries.go. -/
structure Entry where
  ID : String
  RepoName : String
  Title : String
  Description : String
  Content : String
  Author : String
  CreatedAt : String
  UpdatedAt : String
  Tags : List String
  TorrentHash : String
  Status : String
  Version : Int
  EditHistory : List String
deriving DecidableEq, Repr

/-- The composite key of an entry: object type `entry~repo`, attributes entry ID then repo
name (entries.go:71, 121). -/
def entryKey (entryID repoName : String) : String :=
  compositeKeyOrEmpty "entry~repo" [entryID, repoName]

def CreateEntry (env : StubEnv) (s : Store (Stored Entry)) (args : List String) :
    TxResult (Stored Entry) :=
  match args with
  | entryID :: repoName :: title :: description :: content :: author :: torrentHash ::
      rest =>
    let parsed : Except String (List String) :=
      match rest with
      | t :: _ =>
        if t ≠ "" then
          match env.unmarshalTags t with
          | none => Except.error ("failed to parse tags: " ++ env.jsonErr t)
          | some tags => Except.ok tags
        else Except.ok []
      | [] => Except.ok []
    match parsed with
    | Except.error e => TxResult.fail s e
    | Except.ok tags =>
      if entryID = "" ∨ repoName = "" ∨ title = "" ∨ author = "" then
        TxResult.fail s "required fields cannot be empty: entryID, repoName, title, author"
      else
        let compositeKey := entryKey entryID repoName
        let existingEntry := (stubGetState env s compositeKey).1
        if existingEntry.isSome then
          TxResult.fail s ("entry " ++ entryID ++ " already exists in repo " ++ repoName)
        else
          let now := env.now
          let entry : Entry :=
            { ID := entryID, RepoName := repoName, Title := title,
              Description := description, Content := content, Author := author,
              CreatedAt := now, UpdatedAt := now, Tags := tags, TorrentHash := torrentHash,
              Status := "active", Version := 1, EditHistory := [] }
          match stubPutStateErr env compositeKey with
          | some e => TxResult.fail s ("failed to put entry state: " ++ e)
          | none =>
            { err := none,
              writes := [(compositeKey, Stored.record entry)],
              store := putState s compositeKey (Stored.record entry),
              event := some ("EntryCreated", Stored.record entry) }
  | _ =>
    TxResult.fail s
      ("incorrect number of arguments. Expected 7 or more, got " ++ toString args.length)

def GetEntry (env : StubEnv) (s : Store (Stored Entry)) (entryID repoName : String) :
    Except String Entry :=
  if entryID = "" ∨ repoName = "" then
    Except.error "entryID and repoName cannot be empty"
  else
    let compositeKey := entryKey entryID repoName
    match stubGetState env s compositeKey with
    | (_, some e) => Except.error ("failed to get entry: " ++ e)
    | (none, none) =>
      Except.error ("entry " ++ entryID ++ " does not exist in repo " ++ repoName)
    | (some bytes, none) =>
      match bytes.unmarshal with
      | none => Except.error ("failed to unmarshal entry: " ++ env.jsonErr compositeKey)
      | some entry => Except.ok entry

/-- The loop of `ListEntries` over the scanned pairs (entries.go:290-307): it stops at
`limit` kept entries; an iterator error or an undecodable value ends the call with an
error; an entry is kept when its status is the one asked for. -/
def listEntriesLoop (env : StubEnv) (status : String) (limit : Int) :
    List (String × Stored Entry) → List Entry → Nat → Except String (List Entry)
  | [], entries, _ => Except.ok entries
  | (key, value) :: rest, entries, count =>
    if (count : Int) < limit then
      match env.nextErr key with
      | some e => Except.error ("failed to iterate entries: " ++ e)
      | none =>
        match value.unmarshal with
        | none => Except.error ("failed to unmarshal entry: " ++ env.jsonErr key)
        | some entry =>
          if status = "" ∨ entry.Status = status then
            listEntriesLoop env status limit rest (entries ++ [entry]) (count + 1)
          else listEntriesLoop env status limit rest entries count
    else Except.ok entries

def ListEntries (env : StubEnv) (s : Store (Stored Entry)) (args : List String) :
    Except String (List Entry) :=
  match args with
  | [] => Except.error "repoName is required"
  | repoName :: rest =>
    let status : String :=
      match rest with
      | st :: _ => if st ≠ "" then st else "active"
      | [] => "active"
    let limit : Int :=
      match rest with
      | _ :: l :: _ =>
        if l ≠ "" then
          match env.atoi l with
          | some v => if v > 0 then v else 100
          | none => 100
        else 100
      | _ => 100
    match getStateByPartialCompositeKey env s "entry~repo" [repoName] with
    | Except.error e => Except.error ("failed to query entries: " ++ e)
    | Except.ok pairs => listEntriesLoop env status limit pairs [] 0

/-! ## Example entries -/

/-- Environment of an entries transaction in which every ledger primitive succeeds. -/
def entryEnv : StubEnv := plainStubEnv "2024-03-01T00:00:00Z"

/-- The entries store after entry `e1` is created in repo `repoA`. -/
def oneEntryStore : Store (Stored Entry) :=
  (CreateEntry entryEnv [] ["e1", "repoA", "First", "d1", "c1", "alice", "Qm1"]).store

/-- The entries store after an entry whose ID is `repoA` is then created in repo `repoB`. -/
def twoReposStore : Store (Stored Entry) :=
  (CreateEntry entryEnv oneEntryStore
    ["repoA", "repoB", "Second", "d2", "c2", "bob", "Qm2"]).store

/-- The entry those arguments create. -/
def sampleEntry (entryID repoName title description content author torrentHash : String) :
    Entry :=
  { ID := entryID, RepoName := repoName, Title := title, Description := description,
    Content := content, Author := author, CreatedAt := "2024-03-01T00:00:00Z",
    UpdatedAt := "2024-03-01T00:00:00Z", Tags := [], TorrentHash := torrentHash,
    Status := "active", Version := 1, EditHistory := [] }

/-! ## comments.go -/

/-- Struct `Comment` of comments.go. -/
structure Comment where
  ID : String
  EntryID : String
  RepoName : String
  Content : String
  Author : String
  Rating : Int
  CreatedAt : String
  UpdatedAt : String
  Status : String
  EditCount : Int
  ThreadID : String
  Replies : List String
deriving DecidableEq, Repr

/-- The composite key of a comment: object type `comment~entry`, attributes comment ID then
entry ID (comments.go:70, 107, 134). -/
def commentKey (commentID entryID : String) : String :=
  compositeKeyOrEmpty "comment~entry" [commentID, entryID]

/-- The parent as `AddComment` rewrites it (comments.go:112). -/
def withReply (parent : Comment) (commentID : String) : Comment :=
  { parent with Replies := parent.Replies ++ [commentID] }

/-- The write by which `AddComment` enters a reply in its parent's list (comments.go:106-118):
the parent is read from the world state as it was when the invocation began; nothing is
written when the read fails, the parent is absent or undecodable, or the write fails. -/
def parentWrites (env : StubEnv) (s : Store (Stored Comment))
    (threadID entryID commentID : String) : List (String × Stored Comment) :=
  if threadID ≠ "" then
    let parentKey := commentKey threadID entryID
    match stubGetState env s parentKey with
    | (some parentJSON, none) =>
      match parentJSON.unmarshal with
      | some parent =>
        match stubPutStateErr env parentKey with
        | none =>
          [(parentKey, Stored.record (withReply parent commentID))]
        | some _ => []
      | none => []
    | _ => []
  else []

/-- The rating of a new comment (comments.go:58-61): 0 when the argument does not parse or
is outside 0 to 5. -/
def commentRating (env : StubEnv) (ratingStr : String) : Int :=
  match env.atoi ratingStr with
  | none => 0
  | some v => if v < 0 ∨ v > 5 then 0 else v

/-- The thread ID of a new comment (comments.go:64-67): the seventh argument when there is
one, the empty string otherwise. -/
def commentThreadID (rest : List String) : String :=
  match rest with
  | t :: _ => if t ≠ "" then t else ""
  | [] => ""

/-- The comment that `AddComment` creates (comments.go:77-91). -/
def newComment (env : StubEnv)
    (commentID entryID repoName content author ratingStr : String) (rest : List String) :
    Comment :=
  { ID := commentID, EntryID := entryID, RepoName := repoName, Content := content,
    Author := author, Rating := commentRating env ratingStr, CreatedAt := env.now,
    UpdatedAt := env.now, Status := "active", EditCount := 0,
    ThreadID := commentThreadID rest, Replies := [] }

def AddComment (env : StubEnv) (s : Store (Stored Comment)) (args : List String) :
    TxResult (Stored Comment) :=
  match args with
  | commentID :: entryID :: repoName :: content :: author :: ratingStr :: rest =>
    if commentID = "" ∨ entryID = "" ∨ repoName = "" ∨ author = "" then
      TxResult.fail s "required fields cannot be empty"
    else if content = "" then
      TxResult.fail s "comment content cannot be empty"
    else
      let threadID : String := commentThreadID rest
      let compositeKey := commentKey commentID entryID
      let existingComment := (stubGetState env s compositeKey).1
      if existingComment.isSome then
        TxResult.fail s ("comment " ++ commentID ++ " already exists")
      else
        let comment : Comment :=
          newComment env commentID entryID repoName content author ratingStr rest
        match stubPutStateErr env compositeKey with
        | some e => TxResult.fail s ("failed to put comment state: " ++ e)
        | none =>
          let writes : List (String × Stored Comment) :=
            (compositeKey, Stored.record comment) ::
              parentWrites env s threadID entryID commentID
          { err := none,
            writes := writes,
            store := commitWrites s writes,
            event := some ("CommentAdded", Stored.record comment) }
  | _ =>
    TxResult.fail s
      ("incorrect number of arguments. Expected 6 or more, got " ++ toString args.length)

def GetComment (env : StubEnv) (s : Store (Stored Comment)) (commentID entryID : String) :
    Except String Comment :=
  if commentID = "" ∨ entryID = "" then
    Except.error "commentID and entryID are required"
  else
    let compositeKey := commentKey commentID entryID
    match stubGetState env s compositeKey with
    | (_, some e) => Except.error ("failed to get comment: " ++ e)
    | (none, none) => Except.error ("comment " ++ commentID ++ " not found")
    | (some bytes, none) =>
      match bytes.unmarshal with
      | none => Except.error ("failed to unmarshal comment: " ++ env.jsonErr compositeKey)
      | some comment => Except.ok comment

/-- The comment as `UpdateComment` rewrites it (comments.go:168-170). -/
def updatedComment (env : StubEnv) (found : Comment) (newContent : String) : Comment :=
  { found with
    Content := newContent, UpdatedAt := env.now,
    EditCount := wrapInt64 (found.EditCount + 1) }

/-- The comment as `DeleteComment` rewrites it (comments.go:202-203). -/
def deletedComment (env : StubEnv) (found : Comment) : Comment :=
  { found with Status := "deleted", UpdatedAt := env.now }

def UpdateComment (env : StubEnv) (s : Store (Stored Comment))
    (commentID entryID newContent updatedBy : String) : TxResult (Stored Comment) :=
  if commentID = "" ∨ entryID = "" ∨ newContent = "" then
    TxResult.fail s "commentID, entryID, and newContent are required"
  else
    match GetComment env s commentID entryID with
    | Except.error e => TxResult.fail s e
    | Except.ok found =>
      let comment : Comment := updatedComment env found newContent
      let compositeKey := commentKey commentID entryID
      match stubPutStateErr env compositeKey with
      | some e => TxResult.fail s ("failed to update comment: " ++ e)
      | none =>
        { err := none,
          writes := [(compositeKey, Stored.record comment)],
          store := putState s compositeKey (Stored.record comment),
          event := some ("CommentUpdated", Stored.record comment) }

def DeleteComment (env : StubEnv) (s : Store (Stored Comment))
    (commentID entryID deletedBy : String) : TxResult (Stored Comment) :=
  match GetComment env s commentID entryID with
  | Except.error e => TxResult.fail s e
  | Except.ok found =>
    let comment : Comment := deletedComment env found
    let compositeKey := commentKey commentID entryID
    match stubPutStateErr env compositeKey with
    | some e => TxResult.fail s ("failed to delete comment: " ++ e)
    | none =>
      { err := none,
        writes := [(compositeKey, Stored.record comment)],
        store := putState s compositeKey (Stored.record comment),
        event := some ("CommentDeleted", Stored.record comment) }

/-- One turn of the loop of `GetThreadReplies` (comments.go:282-285): the child it keeps, if
any. -/
def replyOf (env : StubEnv) (s : Store (Stored Comment)) (entryID replyID : String) :
    Option Comment :=
  match GetComment env s replyID entryID with
  | Except.ok reply => if reply.Status ≠ "deleted" then some reply else none
  | Except.error _ => none

/-- The loop of `GetThreadReplies` over the parent's child IDs (comments.go:281-286): a
child is kept when its lookup succeeds and its status is not `deleted`. -/
def threadRepliesLoop (env : StubEnv) (s : Store (Stored Comment)) (entryID : String) :
    List String → List Comment → List Comment
  | [], replies => replies
  | replyID :: rest, replies =>
    match replyOf env s entryID replyID with
    | some reply => threadRepliesLoop env s entryID rest (replies ++ [reply])
    | none => threadRepliesLoop env s entryID rest replies

def GetThreadReplies (env : StubEnv) (s : Store (Stored Comment))
    (threadID entryID : String) : Except String (List Comment) :=
  match GetComment env s threadID entryID with
  | Except.error e => Except.error e
  | Except.ok parent => Except.ok (threadRepliesLoop env s entryID parent.Replies [])

/-! ## Sequences of invocations of the comments chaincode -/

/-- One mutating invocation of the comments chaincode, with the environment it runs in. -/
inductive CommentCall where
  | add (env : StubEnv) (args : List String)
  | update (env : StubEnv) (commentID entryID newContent updatedBy : String)
  | delete (env : StubEnv) (commentID entryID deletedBy : String)

/-- The environment of an invocation. -/
def CommentCall.env : CommentCall → StubEnv
  | CommentCall.add env _ => env
  | CommentCall.update env _ _ _ _ => env
  | CommentCall.delete env _ _ _ => env

/-- Run one invocation on a world state. -/
def CommentCall.exec (s : Store (Stored Comment)) : CommentCall → TxResult (Stored Comment)
  | CommentCall.add env args => AddComment env s args
  | CommentCall.update env c e n u => UpdateComment env s c e n u
  | CommentCall.delete env c e d => DeleteComment env s c e d

/-- The world state after a sequence of invocations, each committed in turn. -/
def runCommentCalls (s : Store (Stored Comment)) : List CommentCall → Store (Stored Comment)
  | [] => s
  | c :: cs => runCommentCalls (c.exec s).store cs

/-- Every ledger read of the invocation succeeds. -/
def CommentCall.ReadsSucceed (c : CommentCall) : Prop :=
  ∀ key, c.env.getStateErr key = none

/-! ## Example comments -/

/-- Environment of a comments transaction in which every ledger primitive succeeds. -/
def commentEnv : StubEnv := plainStubEnv "2024-04-01T00:00:00Z"

/-- The comment those arguments create. -/
def sampleComment (commentID entryID content author threadID : String) : Comment :=
  { ID := commentID, EntryID := entryID, RepoName := "repo", Content := content,
    Author := author, Rating := 0, CreatedAt := "2024-04-01T00:00:00Z",
    UpdatedAt := "2024-04-01T00:00:00Z", Status := "active", EditCount := 0,
    ThreadID := threadID, Replies := [] }

/-- The comments store after `alice` opens a thread `C1` on entry `E1`. -/
def threadStore : Store (Stored Comment) :=
  (AddComment commentEnv [] ["C1", "E1", "repo", "root", "alice", "0"]).store

/-- The comments store after `bob` then replies to `C1` with comment `R`. -/
def replyStore : Store (Stored Comment) :=
  (AddComment commentEnv threadStore ["R", "E1", "repo", "reply", "bob", "0", "C1"]).store

/-- The comments store after `bob` replies, with comment `R`, to a thread `P` that does not
exist yet, and `alice` then creates the comment `P`. -/
def orphanReplyStore : Store (Stored Comment) :=
  (AddComment commentEnv
    (AddComment commentEnv [] ["R", "E1", "repo", "reply", "bob", "0", "P"]).store
    ["P", "E1", "repo", "root", "alice", "0"]).store

/-- The adjacency invariant of a comments store: every stored value is a comment stored under
the composite key of its own ID and entry ID; every ID in a child list is the ID of a
stored comment of the same entry whose thread ID is the owner of the list; and no child
list holds an ID twice. -/
def CommentsLinked (s : Store (Stored Comment)) : Prop :=
  (∀ kv ∈ s, ∃ a b p, kv.1 = commentKey a b ∧ kv.1 ≠ "" ∧ kv.2 = Stored.record p ∧
    p.ID = a ∧ p.EntryID = b) ∧
  (∀ a b p, getState s (commentKey a b) = some (Stored.record p) →
    ∀ x ∈ p.Replies, ∃ q, getState s (commentKey x b) = some (Stored.record q) ∧
      q.ThreadID = a) ∧
  (∀ a b p, getState s (commentKey a b) = some (Stored.record p) → p.Replies.Nodup)

/-- The invocations by which `alice` opens the thread `C1` on entry `E1`, `bob` replies to it
with the comment `R`, and `bob` then deletes `R`. -/
def replyThenDeleteCalls : List CommentCall :=
  [CommentCall.add commentEnv ["C1", "E1", "repo", "root", "alice", "0"],
   CommentCall.add commentEnv ["R", "E1", "repo", "reply", "bob", "0", "C1"],
   CommentCall.delete commentEnv "R" "E1" "bob"]

/-- The invocations that build `orphanReplyStore`. -/
def orphanReplyCalls : List CommentCall :=
  [CommentCall.add commentEnv ["R", "E1", "repo", "reply", "bob", "0", "P"],
   CommentCall.add commentEnv ["P", "E1", "repo", "root", "alice", "0"]]

/-! ## entries.go: updates and soft deletion -/

/-- The audit line of `UpdateEntry` (entries.go:190), the value of
`fmt.Sprintf("v%d updated by %s at %s", entry.Version, updatedBy, now)`. -/
def updateAuditLine (version : Int) (updatedBy now : String) : String :=
  "v" ++ toString version ++ " updated by " ++ updatedBy ++ " at " ++ now

/-- The entry as `UpdateEntry` rewrites it (entries.go:173-190); `rest` holds the arguments
after the sixth. -/
def updatedEntry (env : StubEnv) (found : Entry)
    (title description content updatedBy : String) (rest : List String) : Entry :=
  { found with
    Title := if title ≠ "" then title else found.Title,
    Description := if description ≠ "" then description else found.Description,
    Content := if content ≠ "" then content else found.Content,
    TorrentHash :=
      match rest with
      | t :: _ => if t ≠ "" then t else found.TorrentHash
      | [] => found.TorrentHash,
    UpdatedAt := env.now,
    Version := wrapInt64 (found.Version + 1),
    EditHistory := found.EditHistory ++
      [updateAuditLine (wrapInt64 (found.Version + 1)) updatedBy env.now] }

def UpdateEntry (env : StubEnv) (s : Store (Stored Entry)) (args : List String) :
    TxResult (Stored Entry) :=
  match args with
  | entryID :: repoName :: title :: description :: content :: updatedBy :: rest =>
    let compositeKey := entryKey entryID repoName
    match stubGetState env s compositeKey with
    | (_, some e) => TxResult.fail s ("failed to get entry: " ++ e)
    | (none, none) => TxResult.fail s ("entry " ++ entryID ++ " does not exist")
    | (some entryJSON, none) =>
      match entryJSON.unmarshal with
      | none => TxResult.fail s ("failed to unmarshal entry: " ++ env.jsonErr compositeKey)
      | some found =>
        let entry : Entry := updatedEntry env found title description content updatedBy rest
        match stubPutStateErr env compositeKey with
        | some e => TxResult.fail s ("failed to put updated entry: " ++ e)
        | none =>
          { err := none,
            writes := [(compositeKey, Stored.record entry)],
            store := putState s compositeKey (Stored.record entry),
            event := some ("EntryUpdated", Stored.record entry) }
  | _ =>
    TxResult.fail s
      ("incorrect number of arguments. Expected 6 or more, got " ++ toString args.length)

/-- The audit line of `DeleteEntry` (entries.go:239), the value of
`fmt.Sprintf("Deleted by %s at %s", deletedBy, now)`. -/
def deleteAuditLine (deletedBy now : String) : String :=
  "Deleted by " ++ deletedBy ++ " at " ++ now

/-- The entry as `DeleteEntry` rewrites it (entries.go:236-239): the status and the edit
history are the only fields assigned. -/
def deletedEntry (env : StubEnv) (found : Entry) (deletedBy : String) : Entry :=
  { found with
    Status := "deleted",
    EditHistory := found.EditHistory ++ [deleteAuditLine deletedBy env.now] }

def DeleteEntry (env : StubEnv) (s : Store (Stored Entry))
    (entryID repoName deletedBy : String) : TxResult (Stored Entry) :=
  if entryID = "" ∨ repoName = "" then
    TxResult.fail s "entryID and repoName cannot be empty"
  else
    let compositeKey := entryKey entryID repoName
    match stubGetState env s compositeKey with
    | (_, some e) => TxResult.fail s ("failed to get entry: " ++ e)
    | (none, none) => TxResult.fail s ("entry " ++ entryID ++ " does not exist")
    | (some entryJSON, none) =>
      match entryJSON.unmarshal with
      | none => TxResult.fail s ("failed to unmarshal entry: " ++ env.jsonErr compositeKey)
      | some found =>
        let entry : Entry := deletedEntry env found deletedBy
        match stubPutStateErr env compositeKey with
        | some e => TxResult.fail s ("failed to mark entry as deleted: " ++ e)
        | none =>
          { err := none,
            writes := [(compositeKey, Stored.record entry)],
            store := putState s compositeKey (Stored.record entry),
            event := some ("EntryDeleted", Stored.record entry) }

/-! ## comments.go: listing and average -/

/-- The loop of `GetEntryComments` over the scanned pairs (comments.go:246-264): an iterator
error ends the call, undecodable values are skipped, and a comment whose status is `deleted`
is skipped unless deleted comments were asked for. -/
def entryCommentsLoop (env : StubEnv) (includeDeleted : Bool) :
    List (String × Stored Comment) → List Comment → Except String (List Comment)
  | [], comments => Except.ok comments
  | (key, value) :: rest, comments =>
    match env.nextErr key with
    | some e => Except.error ("failed to iterate comments: " ++ e)
    | none =>
      match value.unmarshal with
      | none => entryCommentsLoop env includeDeleted rest comments
      | some comment =>
        if comment.Status = "deleted" ∧ includeDeleted = false then
          entryCommentsLoop env includeDeleted rest comments
        else entryCommentsLoop env includeDeleted rest (comments ++ [comment])

def GetEntryComments (env : StubEnv) (s : Store (Stored Comment))
    (entryID includeDeletedStr : String) : Except String (List Comment) :=
  if entryID = "" then
    Except.error "entryID is required"
  else
    let includeDeleted : Bool := if includeDeletedStr = "true" then true else false
    match getStateByPartialCompositeKey env s "comment~entry" [entryID] with
    | Except.error e => Except.error ("failed to query comments: " ++ e)
    | Except.ok pairs => entryCommentsLoop env includeDeleted pairs []

/-- The loop of the comments contract's `GetAverageRating` (comments.go:303-311): the pair of
`totalRating` and `ratingCount`, both of type `int`. -/
def ratedTotals (comments : List Comment) : Int × Int :=
  comments.foldl
    (fun acc comment =>
      if comment.Rating > 0 then
        (wrapInt64 (acc.1 + comment.Rating), wrapInt64 (acc.2 + 1))
      else acc)
    (0, 0)

/-- The operation `GetAverageRating` of comments.go. The `float64` quotient is held as the
exact rational quotient of the two integers, which the `float64` division rounds. -/
def Comments.GetAverageRating (env : StubEnv) (s : Store (Stored Comment))
    (entryID : String) : Except String Rat :=
  match GetEntryComments env s entryID "false" with
  | Except.error e => Except.error e
  | Except.ok comments =>
    if comments.length = 0 then Except.ok 0
    else if (ratedTotals comments).2 = 0 then Except.ok 0
    else Except.ok (((ratedTotals comments).1 : Rat) / ((ratedTotals comments).2 : Rat))

/-! ## Auxiliary notions for the later statements -/

/-- Ledger primitive `DelState` on the world state: the state without the value of `key`. -/
def delState {β : Type} : Store β → String → Store β
  | [], _ => []
  | (k, w) :: rest, key => if k = key then rest else (k, w) :: delState rest key

/-- The comments of a list whose rating is greater than 0. -/
def ratedComments (comments : List Comment) : List Comment :=
  comments.filter (fun c => decide (c.Rating > 0))

/-- The exact sum of the ratings of a list of comments. -/
def commentRatingSum (comments : List Comment) : Int :=
  (comments.map (fun c => c.Rating)).sum

/-- The decodable values of a list of scanned pairs, in order. -/
def decodedValues {α : Type} (pairs : List (String × Stored α)) : List α :=
  pairs.filterMap (fun kv => kv.2.unmarshal)

/-! ## Further example states -/

/-- Environment of a later entries transaction in which every ledger primitive succeeds. -/
def laterEntryEnv : StubEnv := plainStubEnv "2024-03-02T00:00:00Z"

/-- The entries store after `mod1` then deletes entry `e1` of repo `repoA`. -/
def deletedEntryStore : Store (Stored Entry) :=
  (DeleteEntry laterEntryEnv oneEntryStore "e1" "repoA" "mod1").store

/-- An environment in which every ledger read fails and every ledger write succeeds. -/
def readFailEnv : StubEnv :=
  { plainStubEnv "2024-05-01T00:00:00Z" with getStateErr := fun _ => some "ledger unavailable" }

/-- An environment of the comments chaincode in which the one failing ledger primitive is
the write of the comment `C1` of entry `E1`. -/
def parentWriteFailEnv : StubEnv :=
  { plainStubEnv "2024-04-01T00:00:00Z" with
    putStateErr := fun key =>
      if key = commentKey "C1" "E1" then some "ledger unavailable" else none }

/-- An entries store whose scan for `repoA` meets an undecodable value and then an entry. -/
def malformedEntryStore : Store (Stored Entry) :=
  [(entryKey "repoA" "x", Stored.raw "not json"),
   (entryKey "repoA" "y", Stored.record (sampleEntry "repoA" "y" "Kept" "d" "c" "alice" "Qm"))]

/-- A comments store whose scan for `E1` meets an undecodable value and then a comment. -/
def malformedCommentStore : Store (Stored Comment) :=
  [(commentKey "E1" "x", Stored.raw "not json"),
   (commentKey "E1" "y", Stored.record (sampleComment "E1" "y" "kept" "alice" ""))]

/-- A ratings store whose scan for `E1` meets an undecodable value and then a rating. -/
def malformedRatingStore : Store (Stored Rating) :=
  [(ratingKey "E1" "x", Stored.raw "not json"),
   (ratingKey "E1" "y", Stored.record (sampleRating "E1" "y" 4))]

/-- The ratings store after `alice` rates entry `E1` 3 under rating ID `r1` and the rating is
then deleted. -/
def deletedRatingStore : Store (Stored Rating) :=
  (DeleteRating ratingEnv oneRatingStore "r1" "E1").store

/-- A comment of entry `entryID` with the given ID, rating and status. -/
def ratedComment (commentID entryID : String) (rating : Int) (status : String) : Comment :=
  { sampleComment commentID entryID "text" "alice" "" with Rating := rating, Status := status }

/-- A comments store whose scan for `E1` yields comments rated 4, 0 and 2 and a deleted
comment rated 5. -/
def ratedCommentStore : Store (Stored Comment) :=
  [(commentKey "E1" "a", Stored.record (ratedComment "E1" "a" 4 "active")),
   (commentKey "E1" "b", Stored.record (ratedComment "E1" "b" 0 "active")),
   (commentKey "E1" "c", Stored.record (ratedComment "E1" "c" 5 "deleted")),
   (commentKey "E1" "d", Stored.record (ratedComment "E1" "d" 2 "flagged"))]

/-! ## entries.go: search and count -/

/-- Helper `contains` of entries.go (entries.go:352-355): it compares the two lengths with 0
and does not look at the characters. -/
def contains (s substr : String) : Bool :=
  decide (s.utf8ByteSize > 0) && decide (substr.utf8ByteSize > 0)

def Search (env : StubEnv) (s : Store (Stored Entry)) (repoName query : String) :
    Except String (List Entry) :=
  if repoName = "" then
    Except.error "repoName is required"
  else
    match ListEntries env s [repoName, ""] with
    | Except.error e => Except.error e
    | Except.ok entries =>
      Except.ok (entries.filter (fun entry =>
        decide (query = "") || contains entry.Title query ||
          contains entry.Description query || contains entry.Content query))

def GetEntryCount (env : StubEnv) (s : Store (Stored Entry)) (repoName : String) :
    Except String Nat :=
  match ListEntries env s [repoName, ""] with
  | Except.error e => Except.error e
  | Except.ok entries => Except.ok entries.length

/-- The status that `ListEntries` filters by (entries.go:268-271); `rest` holds the arguments
after the first. -/
def listStatus (rest : List String) : String :=
  match rest with
  | st :: _ => if st ≠ "" then st else "active"
  | [] => "active"

/-- The limit of `ListEntries` (entries.go:272-278); `rest` holds the arguments after the
first. -/
def listLimit (env : StubEnv) (rest : List String) : Int :=
  match rest with
  | _ :: l :: _ =>
    if l ≠ "" then
      match env.atoi l with
      | some v => if v > 0 then v else 100
      | none => 100
    else 100
  | _ => 100

/-- The entry that `CreateEntry` creates (entries.go:79-93). -/
def createdEntry (env : StubEnv)
    (entryID repoName title description content author torrentHash : String)
    (tags : List String) : Entry :=
  { ID := entryID, RepoName := repoName, Title := title, Description := description,
    Content := content, Author := author, CreatedAt := env.now, UpdatedAt := env.now,
    Tags := tags, TorrentHash := torrentHash, Status := "active", Version := 1,
    EditHistory := [] }

/-! ## Sequences of invocations of the entries chaincode -/

/-- One mutating invocation of the entries chaincode, with the environment it runs in. -/
inductive EntryCall where
  | create (env : StubEnv) (args : List String)
  | update (env : StubEnv) (args : List String)
  | delete (env : StubEnv) (entryID repoName deletedBy : String)

/-- The environment of an invocation. -/
def EntryCall.env : EntryCall → StubEnv
  | EntryCall.create env _ => env
  | EntryCall.update env _ => env
  | EntryCall.delete env _ _ _ => env

/-- Run one invocation on a world state. -/
def EntryCall.exec (s : Store (Stored Entry)) : EntryCall → TxResult (Stored Entry)
  | EntryCall.create env args => CreateEntry env s args
  | EntryCall.update env args => UpdateEntry env s args
  | EntryCall.delete env e r d => DeleteEntry env s e r d

/-- The world state after a sequence of invocations, each committed in turn. -/
def runEntryCalls (s : Store (Stored Entry)) : List EntryCall → Store (Stored Entry)
  | [] => s
  | c :: cs => runEntryCalls (c.exec s).store cs

/-- Every ledger read of the invocation succeeds. -/
def EntryCall.ReadsSucceed (c : EntryCall) : Prop :=
  ∀ key, c.env.getStateErr key = none

/-- An audit line written by `UpdateEntry` begins with the letter `v`; the one written by
`DeleteEntry` begins with `Deleted`. -/
def isUpdateLine (line : String) : Bool :=
  line.data.head? == some 'v'

/-- The update lines of an edit history, in order. -/
def updateLines (history : List String) : List String :=
  history.filter isUpdateLine

/-- The bookkeeping of a stored entry after at most `n` invocations: it is stored under the
composite key of its own ID and repo name, its title is not empty, its version is at least
1 and is one more than the number of update lines of its edit history, the update line of
index k (from 0) is the line of version k + 2, and every other line is a deletion line. -/
def EntryBookkept (n : Nat) (key : String) (e : Entry) : Prop :=
  key = entryKey e.ID e.RepoName ∧ key ≠ "" ∧
  1 ≤ e.Version ∧ e.Version ≤ (n : Int) + 1 ∧
  e.Version - 1 = ((updateLines e.EditHistory).length : Int) ∧
  (∀ (k : Nat) (line : String), (updateLines e.EditHistory)[k]? = some line →
    ∃ updatedBy now, line = updateAuditLine ((k : Int) + 2) updatedBy now) ∧
  (∀ line ∈ e.EditHistory, isUpdateLine line = false →
    ∃ deletedBy now, line = deleteAuditLine deletedBy now)

/-- Every stored value is a decodable entry that satisfies `EntryBookkept n`. -/
def EntriesBookkept (n : Nat) (s : Store (Stored Entry)) : Prop :=
  ∀ kv ∈ s, ∃ e, kv.2 = Stored.record e ∧ EntryBookkept n kv.1 e

/-- Every stored value is a decodable entry whose title is not empty. -/
def TitlesPresent (s : Store (Stored Entry)) : Prop :=
  ∀ kv ∈ s, ∃ e, kv.2 = Stored.record e ∧ e.Title ≠ ""

/-- The entries of a list whose status is `status`. -/
def withStatus (status : String) (entries : List Entry) : List Entry :=
  entries.filter (fun e => decide (e.Status = status))

/-! ## Further example entries -/

/-- The invocations that create entry `e1` of `repoA`, update it twice and delete it. -/
def entryLifeCalls : List EntryCall :=
  [EntryCall.create entryEnv ["e1", "repoA", "First", "d1", "c1", "alice", "Qm1"],
   EntryCall.update laterEntryEnv ["e1", "repoA", "Renamed", "", "c2", "bob"],
   EntryCall.delete laterEntryEnv "e1" "repoA" "mod1",
   EntryCall.update laterEntryEnv ["e1", "repoA", "", "d3", "", "carol", "Qm3"]]

/-- An entries store whose scan for `repoA` yields a deleted entry, then two active entries. -/
def mixedEntryStore : Store (Stored Entry) :=
  [(entryKey "repoA" "x",
      Stored.record { sampleEntry "repoA" "x" "Gone" "d" "c" "alice" "Qm" with
        Status := "deleted" }),
   (entryKey "repoA" "y", Stored.record (sampleEntry "repoA" "y" "Kept" "d" "c" "alice" "Qm")),
   (entryKey "repoA" "z", Stored.record (sampleEntry "repoA" "z" "Also" "d" "c" "bob" "Qm"))]

/-! ## Catalog consistency -/

/-- The descriptive fields that a movie shares with the request it was approved from. -/
def MovieMatchesRequest (m : Movie) (r : ContentRequest) : Prop :=
  m.Title = r.Title ∧ m.Director = r.Director ∧ m.ReleaseYear = r.ReleaseYear ∧
  m.Description = r.Description ∧ m.SubmitterID = r.SubmitterID ∧ m.RequestID = r.RequestID

/-- Every document under a `Movie:` key is a movie, and a request of version at least 2 is
stored at the same catalog ID, with the same descriptive fields. -/
def CatalogConsistent (s : Store Doc) : Prop :=
  ∀ (i : String) (d : Doc), getState s (buildMovieKey i) = some d →
    ∃ m r, d = Doc.movie m ∧
      getState s (buildContentRequestKey i) = some (Doc.request r) ∧
      2 ≤ r.Version ∧ MovieMatchesRequest m r

/-! ## movie.go: the queries -/

def DefaultLimit : Nat := 20
def MaxLimit : Nat := 100
def MinLimit : Nat := 1

/-- What a query operation of movie.go takes from outside the repository. -/
structure QueryEnv where
  /-- Result of `fmt.Sscanf(limitStr, "%d", &limit)`; `none` leaves `limit` untouched. -/
  sscanfInt : String → Option Int
  /-- Library function `strings.ToLower`. -/
  toLower : String → String
  /-- Error of `GetQueryResultWithPagination`, when the query fails. -/
  queryErr : Option String
  /-- Error of `resultsIterator.Next()` on reaching a key. -/
  nextErr : String → Option String
  /-- Message of the decoding error of `json.Unmarshal` on the bytes stored under a key. -/
  jsonErr : String → String

/-- The test that one list of characters occurs in another, contiguously. -/
def hasInfix : List Char → List Char → Bool
  | [], sub => sub.isEmpty
  | c :: cs, sub => sub.isPrefixOf (c :: cs) || hasInfix cs sub

/-- Library function `strings.Contains`. -/
def stringsContains (s substr : String) : Bool := hasInfix s.data substr.data

/-- The string-valued top-level fields of the JSON that `json.Marshal` writes for a stored
document, by the `json` tags of the two structs of models.go. The struct `Movie` declares
no field tagged `status`, and the struct literal of `ApproveContentRequest` sets none. -/
def Doc.stringField : Doc → String → Option String
  | Doc.request r, name =>
    [("imdb_id", r.IMDB), ("request_id", r.RequestID), ("doc_type", r.DocType),
      ("title", r.Title), ("director", r.Director), ("description", r.Description),
      ("submitter_id", r.SubmitterID), ("notes", r.Notes), ("status", r.Status),
      ("submitted_at", r.SubmittedAt), ("reviewed_by", r.ReviewedBy),
      ("reviewed_at", r.ReviewedAt), ("rejection_reason", r.RejectionReason)].lookup name
  | Doc.movie m, name =>
    [("imdb_id", m.IMDB), ("movie_id", m.MovieID), ("doc_type", m.DocType),
      ("title", m.Title), ("director", m.Director), ("description", m.Description),
      ("approved_by", m.ApprovedBy), ("approved_at", m.ApprovedAt),
      ("request_id", m.RequestID), ("submitter_id", m.SubmitterID),
      ("created_at", m.CreatedAt), ("updated_at", m.UpdatedAt)].lookup name
  | Doc.raw _, _ => none

/-- Modelled from the spec: the selector of the query string of `QueryAll` (movie.go:350-356)
as the query engine of the ledger evaluates it (host library, not in the repository): a
document is selected when its field `doc_type` is `Movie` and its field `status` is
`approved`. -/
def queryAllSelector (d : Doc) : Bool :=
  d.stringField "doc_type" == some "Movie" && d.stringField "status" == some "approved"

/-- Modelled from the spec: the selector of the query string of `SearchByTitle`
(movie.go:407-412) as the query engine of the ledger evaluates it: a document is selected
when its field `doc_type` is `Movie`. -/
def searchSelector (d : Doc) : Bool :=
  d.stringField "doc_type" == some "Movie"

/-- The value that the two query strings sort by, the field `created_at`. -/
def createdAt (d : Doc) : String := (d.stringField "created_at").getD ""

/-- Insertion of a pair into a list ordered by `created_at`, latest first, after the pairs
that are not earlier. -/
def insertByCreated (kv : String × Doc) : List (String × Doc) → List (String × Doc)
  | [] => [kv]
  | x :: rest =>
    if keyLe (createdAt kv.2).data (createdAt x.2).data then x :: insertByCreated kv rest
    else kv :: x :: rest

/-- The pairs of a list ordered by `created_at`, latest first. -/
def sortByCreatedDesc : List (String × Doc) → List (String × Doc)
  | [] => []
  | x :: rest => insertByCreated x (sortByCreatedDesc rest)

/-- Modelled from the spec: the call `GetQueryResultWithPagination(queryString, pageSize, "")`
of the ledger (host library, not in the repository), for the two query strings of
movie.go: the stored pairs whose document the selector selects, ordered by `created_at`,
latest first, at most `pageSize` of them. -/
def richQuery (s : Store Doc) (selector : Doc → Bool) (pageSize : Nat) :
    List (String × Doc) :=
  (sortByCreatedDesc (s.filter (fun kv => selector kv.2))).take pageSize

/-- The loop of `QueryAll` over the pairs the query yields (movie.go:365-378): an iterator
error or an undecodable value ends the call with that error. -/
def queryAllLoop (env : QueryEnv) :
    List (String × Doc) → List Movie → Except String (List Movie)
  | [], movies => Except.ok movies
  | (key, value) :: rest, movies =>
    match env.nextErr key with
    | some e => Except.error e
    | none =>
      match unmarshalMovie value with
      | none => Except.error (env.jsonErr key)
      | some movie => queryAllLoop env rest (movies ++ [movie])

def QueryAll (env : QueryEnv) (s : Store Doc) : Except String (List Movie) :=
  match env.queryErr with
  | some e => Except.error ("error executing query: " ++ e)
  | none => queryAllLoop env (richQuery s queryAllSelector DefaultLimit) []

/-- The limit of `SearchByTitle` (movie.go:396-405). -/
def searchLimit (env : QueryEnv) (limitStr : String) : Int :=
  if limitStr ≠ "" then
    let limit : Int :=
      match env.sscanfInt limitStr with
      | some v => v
      | none => DefaultLimit
    let limit : Int := if limit > MaxLimit then MaxLimit else limit
    if limit < MinLimit then MinLimit else limit
  else DefaultLimit

/-- The test of `SearchByTitle` on a movie (movie.go:436). -/
def titleMatches (env : QueryEnv) (titleQuery : String) (movie : Movie) : Bool :=
  stringsContains (env.toLower movie.Title) (env.toLower titleQuery)

/-- The loop of `SearchByTitle` over the pairs the query yields (movie.go:423-440): it stops
at `limit` kept movies; an iterator error or an undecodable value ends the call with that
error. -/
def searchByTitleLoop (env : QueryEnv) (titleQuery : String) (limit : Int) :
    List (String × Doc) → List Movie → Nat → Except String (List Movie)
  | [], movies, _ => Except.ok movies
  | (key, value) :: rest, movies, count =>
    if (count : Int) < limit then
      match env.nextErr key with
      | some e => Except.error e
      | none =>
        match unmarshalMovie value with
        | none => Except.error (env.jsonErr key)
        | some movie =>
          if titleMatches env titleQuery movie then
            searchByTitleLoop env titleQuery limit rest (movies ++ [movie]) (count + 1)
          else searchByTitleLoop env titleQuery limit rest movies count
    else Except.ok movies

def SearchByTitle (env : QueryEnv) (s : Store Doc) (titleQuery limitStr : String) :
    Except String (List Movie) :=
  match env.queryErr with
  | some e => Except.error ("error executing query: " ++ e)
  | none =>
    searchByTitleLoop env titleQuery (searchLimit env limitStr)
      (richQuery s searchSelector DefaultLimit) [] 0

/-- The values of a list of pairs that decode as movies, in order. -/
def decodedMovies (pairs : List (String × Doc)) : List Movie :=
  pairs.filterMap (fun kv => unmarshalMovie kv.2)

/-- A query environment in which the query and its iterator succeed; `Sscanf` reads an
optionally signed decimal number and `ToLower` lowers the letters A to Z. -/
def plainQueryEnv : QueryEnv :=
  { sscanfInt := decimalAtoi, toLower := fun str => String.mk (str.data.map Char.toLower),
    queryErr := none, nextErr := fun _ => none, jsonErr := fun _ => "" }

/-! ## Examples on the paths where a ledger call fails -/

/-- An environment of the comments chaincode in which the one failing ledger primitive is
the read of the comment `C1` of entry `E1`. -/
def parentReadFailEnv : StubEnv :=
  { plainStubEnv "2024-04-01T00:00:00Z" with
    getStateErr := fun key =>
      if key = commentKey "C1" "E1" then some "ledger unavailable" else none }

/-- The comments store after `alice` opens the thread `C1` on entry `E1` and then deletes
it. -/
def deletedThreadStore : Store (Stored Comment) :=
  (DeleteComment commentEnv threadStore "C1" "E1" "alice").store

/-- The invocations by which `alice` opens the thread `C1` on entry `E1`, `bob` replies to it
with the comment `R`, and `bob` then adds a comment `C1` on `E1` again in a transaction
whose ledger reads fail. -/
def threadReAddedCalls : List CommentCall :=
  [CommentCall.add commentEnv ["C1", "E1", "repo", "root", "alice", "0"],
   CommentCall.add commentEnv ["R", "E1", "repo", "reply", "bob", "0", "C1"],
   CommentCall.add readFailEnv ["C1", "E1", "repo", "again", "bob", "0"]]

/-- The invocations by which `alice` opens the thread `C1` on entry `E1`, `bob` replies to it
with the comment `R`, and `bob` then adds a comment `R` on `E1` again, outside any thread,
in a transaction whose ledger reads fail. -/
def replyReAddedCalls : List CommentCall :=
  [CommentCall.add commentEnv ["C1", "E1", "repo", "root", "alice", "0"],
   CommentCall.add commentEnv ["R", "E1", "repo", "reply", "bob", "0", "C1"],
   CommentCall.add readFailEnv ["R", "E1", "repo", "solo", "bob", "0"]]

/-- The invocations that create an entry `repoA` in repo `repoA`, an entry `repoA` in repo
`repoB` and an entry `e1` in repo `repoA`, and then update the second. -/
def searchedEntryCalls : List EntryCall :=
  [EntryCall.create entryEnv ["repoA", "repoA", "Same", "d", "c", "alice", "Qm"],
   EntryCall.create entryEnv ["repoA", "repoB", "Second", "d2", "c2", "bob", "Qm2"],
   EntryCall.create entryEnv ["e1", "repoA", "First", "d1", "c1", "alice", "Qm1"],
   EntryCall.update entryEnv ["repoA", "repoB", "Renamed", "", "", "bob"]]

/-- The name `a`, `aa`, `aaa`, ... of index `i`. -/
def crowdName (i : Nat) : String := String.mk (List.replicate (i + 1) 'a')

/-- An entries store that holds 101 active entries of repo `repoA`, named `a`, `aa`, ...,
each under a composite key whose first attribute is `repoA`, in ascending key order. -/
def crowdedEntryStore : Store (Stored Entry) :=
  (List.range 101).map (fun i =>
    (entryKey "repoA" (crowdName i),
      Stored.record (sampleEntry (crowdName i) "repoA" "Title" "d" "c" "alice" "Qm")))

/-! # Theorems -/

/-! ## The ledger primitives -/

theorem getState_putState_same {β : Type} (s : Store β) (key : String) (v : β) :
    getState (putState s key v) key = some v := by
  induction s with
  | nil => simp [putState, getState]
  | cons kv rest ih =>
    obtain ⟨k, w⟩ := kv
    by_cases h : k = key
    · simp [putState, getState, h]
    · simp [putState, getState, h, ih]

theorem getState_putState_other {β : Type} (s : Store β) (key other : String) (v : β)
    (h : other ≠ key) : getState (putState s key v) other = getState s other := by
  induction s with
  | nil => simp [putState, getState, Ne.symm h]
  | cons kv rest ih =>
    obtain ⟨k, w⟩ := kv
    by_cases hk : k = key
    · subst hk
      simp [putState, getState, Ne.symm h]
    · by_cases ho : k = other
      · subst ho
        simp [putState, getState, h]
      · simp [putState, getState, hk, ho, ih]

theorem getState_putState_isSome {β : Type} (s : Store β) (key other : String) (v : β)
    (h : (getState s other).isSome = true) :
    (getState (putState s key v) other).isSome = true := by
  by_cases ho : other = key
  · subst ho
    simp [getState_putState_same]
  · rw [getState_putState_other s key other v ho]
    exact h

theorem keys_putState_of_present {β : Type} (s : Store β) (key : String) (v w : β)
    (h : getState s key = some w) : keys (putState s key v) = keys s := by
  induction s with
  | nil => simp [getState] at h
  | cons kv rest ih =>
    obtain ⟨k, u⟩ := kv
    by_cases hk : k = key
    · simp [putState, keys, hk]
    · have h2 : getState rest key = some w := by simpa [getState, hk] using h
      have := ih h2
      simp only [keys] at this
      simp [putState, keys, hk, this]

theorem keys_putState_of_absent {β : Type} (s : Store β) (key : String) (v : β)
    (h : getState s key = none) : keys (putState s key v) = keys s ++ [key] := by
  induction s with
  | nil => simp [putState, keys]
  | cons kv rest ih =>
    obtain ⟨k, u⟩ := kv
    by_cases hk : k = key
    · simp [getState, hk] at h
    · have h2 : getState rest key = none := by simpa [getState, hk] using h
      have := ih h2
      simp only [keys] at this
      simp [putState, keys, hk, this]

theorem getState_none_iff_not_mem_keys {β : Type} (s : Store β) (key : String) :
    getState s key = none ↔ key ∉ keys s := by
  induction s with
  | nil => simp [getState, keys]
  | cons kv rest ih =>
    obtain ⟨k, u⟩ := kv
    by_cases hk : k = key
    · simp [getState, keys, hk]
    · simp only [keys] at ih
      simp [getState, keys, hk, ih, Ne.symm hk]

/-! ## Keys -/

theorem buildContentRequestKey_ne_buildMovieKey (i j : String) :
    buildContentRequestKey i ≠ buildMovieKey j := by
  intro h
  have h2 := congrArg String.data h
  simp [buildContentRequestKey, buildMovieKey, String.data_append] at h2

theorem buildContentRequestKey_injective (i j : String)
    (h : buildContentRequestKey i = buildContentRequestKey j) : i = j := by
  have h2 := congrArg String.data h
  simp only [buildContentRequestKey, String.data_append] at h2
  exact String.ext (List.append_cancel_left h2)

theorem buildMovieKey_injective (i j : String)
    (h : buildMovieKey i = buildMovieKey j) : i = j := by
  have h2 := congrArg String.data h
  simp only [buildMovieKey, String.data_append] at h2
  exact String.ext (List.append_cancel_left h2)

/-! ## Catalog ID format -/

theorem isDigit_iff_between (c : Char) : c.isDigit = true ↔ ('0' ≤ c ∧ c ≤ '9') := by
  simp only [Char.isDigit, Bool.and_eq_true, decide_eq_true_eq]
  exact Iff.rfl

theorem utf8Size_of_isDigit (c : Char) (h : c.isDigit = true) : c.utf8Size = 1 := by
  simp only [Char.isDigit, Bool.and_eq_true, decide_eq_true_eq] at h
  have h2 : c.val ≤ 127 := UInt32.le_trans h.2 (by decide)
  simp [Char.utf8Size, h2]

theorem utf8Len_digits (cs : List Char) (h : cs.all Char.isDigit = true) :
    String.utf8Len cs = cs.length := by
  induction cs with
  | nil => rfl
  | cons c rest ih =>
    simp only [List.all_cons, Bool.and_eq_true] at h
    rw [String.utf8Len_cons, ih h.2, utf8Size_of_isDigit c h.1, List.length_cons]

theorem matchIMDBPattern_iff (cs : List Char) :
    matchIMDBPattern cs = true ↔
      ∃ ds, cs = 't' :: 't' :: ds ∧ (ds.length = 7 ∨ ds.length = 8) ∧
        ds.all Char.isDigit = true := by
  constructor
  · intro h
    unfold matchIMDBPattern at h
    split at h
    · rename_i rest
      simp only [Bool.and_eq_true, Bool.or_eq_true, beq_iff_eq] at h
      exact ⟨rest, rfl, h.2, h.1⟩
    · exact absurd h (by decide)
  · rintro ⟨ds, rfl, hl, hd⟩
    simp [matchIMDBPattern, hd, hl]

theorem isValidIMDBID_eq_matchIMDBPattern (s : String) :
    isValidIMDBID s = matchIMDBPattern s.data := by
  obtain ⟨cs⟩ := s
  unfold isValidIMDBID
  by_cases hm : matchIMDBPattern cs = true
  · obtain ⟨ds, hcs, hl, hd⟩ := (matchIMDBPattern_iff cs).1 hm
    subst hcs
    have ht : Char.utf8Size 't' = 1 := by decide
    have hsize : String.utf8ByteSize ⟨'t' :: 't' :: ds⟩ = ds.length + 2 := by
      rw [String.utf8ByteSize_mk, String.utf8Len_cons, String.utf8Len_cons,
        utf8Len_digits ds hd, ht]
    have hp : hasPrefix ⟨'t' :: 't' :: ds⟩ IMDBIDPrefix = true := by
      simp [hasPrefix, IMDBIDPrefix, List.isPrefixOf]
    have h1 : ¬ (ds.length + 2 < IMDBIDMinLength) := by
      simp only [IMDBIDMinLength]; omega
    have h2 : ¬ (ds.length + 2 > IMDBIDMaxLength) := by
      simp only [IMDBIDMaxLength]; omega
    simp [hsize, hp, h1, h2]
  · simp only [Bool.not_eq_true] at hm
    simp only [hm]
    split
    · rfl
    · split <;> rfl

/-- C6. `isValidIMDBID s` holds exactly when `s` is `tt` followed by exactly 7 or exactly 8
ASCII decimal digits; it accepts `tt1375666` and `tt12345678`, rejects `1375666`,
`ttX123456` and every string shorter than 9 or longer than 10 (in characters or in bytes);
the length and prefix pre-checks never change the verdict of the regular expression. -/
theorem isValidIMDBID_iff_catalog_format :
    (∀ s : String, isValidIMDBID s = true ↔ IsCatalogIDFormat s) ∧
    isValidIMDBID "tt1375666" = true ∧ isValidIMDBID "tt12345678" = true ∧
    isValidIMDBID "1375666" = false ∧ isValidIMDBID "ttX123456" = false ∧
    (∀ s : String, s.length < 9 ∨ 10 < s.length → isValidIMDBID s = false) ∧
    (∀ s : String, s.utf8ByteSize < 9 ∨ 10 < s.utf8ByteSize → isValidIMDBID s = false) ∧
    (∀ s : String, isValidIMDBID s = matchIMDBPattern s.data) := by
  have hiff : ∀ s : String, isValidIMDBID s = true ↔ IsCatalogIDFormat s := by
    intro s
    rw [isValidIMDBID_eq_matchIMDBPattern, matchIMDBPattern_iff]
    constructor
    · rintro ⟨ds, hcs, hl, hd⟩
      refine ⟨ds, ?_, hl, ?_⟩
      · apply String.ext
        simp [hcs, String.data_append]
      · intro c hc
        exact (isDigit_iff_between c).1 (List.all_eq_true.1 hd c hc)
    · rintro ⟨ds, hs, hl, hd⟩
      refine ⟨ds, ?_, hl, ?_⟩
      · simp [hs, String.data_append]
      · exact List.all_eq_true.2 (fun c hc => (isDigit_iff_between c).2 (hd c hc))
  refine ⟨hiff, by decide, by decide, by decide, by decide, ?_, ?_,
    isValidIMDBID_eq_matchIMDBPattern⟩
  · intro s hlen
    cases hv : isValidIMDBID s with
    | false => rfl
    | true =>
      obtain ⟨ds, hs, hl, _⟩ := (hiff s).1 hv
      have : s.length = ds.length + 2 := by
        simp [hs, String.length, String.data_append]
      omega
  · intro s hlen
    unfold isValidIMDBID
    have : (decide (s.utf8ByteSize < IMDBIDMinLength) ||
        decide (s.utf8ByteSize > IMDBIDMaxLength)) = true := by
      simp only [IMDBIDMinLength, IMDBIDMaxLength, Bool.or_eq_true, decide_eq_true_eq]
      omega
    simp [this]

/-! ## Validation in SubmitContentRequest -/

theorem submit_of_validation_errors (env : Env) (s : Store Doc)
    (imdbID title director releaseYearStr genresJSON description submitterID notes
      torrentHash : String)
    (h : 0 < (submitValidationErrors env imdbID title genresJSON).length) :
    SubmitContentRequest env s imdbID title director releaseYearStr genresJSON description
        submitterID notes torrentHash =
      { response := NewErrorResponse
          ("Validation failed for SubmitContentRequest: " ++
            toString (submitValidationErrors env imdbID title genresJSON).length ++
            " error(s)") (submitValidationErrors env imdbID title genresJSON) env.txID
          env.respTime,
        err := none, writes := [], store := s, event := none } := by
  unfold SubmitContentRequest
  simp only [gt_iff_lt, h, if_true]

theorem submit_of_no_validation_errors_lookup (env : Env) (s : Store Doc)
    (imdbID title director releaseYearStr genresJSON description submitterID notes
      torrentHash : String)
    (h : submitValidationErrors env imdbID title genresJSON = []) (r : ContentRequest)
    (hr : getContentRequestByIMDBID env s imdbID = Except.ok r) :
    SubmitContentRequest env s imdbID title director releaseYearStr genresJSON description
        submitterID notes torrentHash =
      { response := NewErrorResponse "IMDb ID already exists"
          [{ Field := "imdb_id",
             Message := "Movie with IMDb ID " ++ imdbID ++
               " has already been submitted or approved",
             Code := "duplicate" }] env.txID env.respTime,
        err := none, writes := [], store := s, event := none } := by
  unfold SubmitContentRequest
  simp [h, hr]

theorem submitValidationErrors_count (env : Env) (imdbID title genresJSON : String) :
    (submitValidationErrors env imdbID title genresJSON).length =
      (if isValidIMDBID imdbID = false then 1 else 0) + (if title = "" then 1 else 0) +
      (if TitleMaxLength < title.utf8ByteSize then 1 else 0) +
      (if genresJSON ≠ "" ∧ env.unmarshalGenres genresJSON = none then 1 else 0) := by
  unfold submitValidationErrors
  have hempty : title = "" → ¬ (TitleMaxLength < title.utf8ByteSize) := by
    intro ht
    subst ht
    decide
  have hz : "".utf8ByteSize ≤ TitleMaxLength := by decide
  by_cases h1 : isValidIMDBID imdbID = false <;> by_cases h2 : title = "" <;>
    by_cases h3 : TitleMaxLength < title.utf8ByteSize <;>
    by_cases h4 : genresJSON = "" <;>
    cases h5 : env.unmarshalGenres genresJSON <;>
    first
      | exact absurd h3 (hempty h2)
      | simp [h1, h2, h3, h4, h5, hz]

theorem submitValidationErrors_entries (env : Env) (imdbID title genresJSON : String) :
    errorCount "imdb_id" "invalid_format" (submitValidationErrors env imdbID title genresJSON) =
        (if isValidIMDBID imdbID = false then 1 else 0) ∧
    errorCount "title" "required" (submitValidationErrors env imdbID title genresJSON) =
        (if title = "" then 1 else 0) ∧
    errorCount "title" "max_length" (submitValidationErrors env imdbID title genresJSON) =
        (if TitleMaxLength < title.utf8ByteSize then 1 else 0) ∧
    errorCount "genres" "invalid_format" (submitValidationErrors env imdbID title genresJSON) =
        (if genresJSON ≠ "" ∧ env.unmarshalGenres genresJSON = none then 1 else 0) := by
  unfold submitValidationErrors errorCount
  have hempty : title = "" → ¬ (TitleMaxLength < title.utf8ByteSize) := by
    intro ht
    subst ht
    decide
  have hz : "".utf8ByteSize ≤ TitleMaxLength := by decide
  have hz2 : ¬ (TitleMaxLength < "".utf8ByteSize) := by decide
  by_cases h1 : isValidIMDBID imdbID = false <;> by_cases h2 : title = "" <;>
    by_cases h3 : TitleMaxLength < title.utf8ByteSize <;>
    by_cases h4 : genresJSON = "" <;>
    cases h5 : env.unmarshalGenres genresJSON <;>
    first
      | exact absurd h3 (hempty h2)
      | simp [h1, h2, h3, h4, h5, hz, hz2]

/-- C5. Whenever an input of `SubmitContentRequest` fails a validation check (catalog ID
format, empty title, title longer than `TitleMaxLength` bytes, a non-empty genres argument
that does not decode as a JSON array), the operation returns a failure response and a nil
error, the error list has exactly one entry per failed check and no other entry, and the
store is unchanged (no write, no event), whatever the store holds. -/
theorem SubmitContentRequest_validation_failure (env : Env) (s : Store Doc)
    (imdbID title director releaseYearStr genresJSON description submitterID notes
      torrentHash : String)
    (h : isValidIMDBID imdbID = false ∨ title = "" ∨ TitleMaxLength < title.utf8ByteSize ∨
      (genresJSON ≠ "" ∧ env.unmarshalGenres genresJSON = none)) :
    (SubmitContentRequest env s imdbID title director releaseYearStr genresJSON description
        submitterID notes torrentHash).err = none ∧
    (SubmitContentRequest env s imdbID title director releaseYearStr genresJSON description
        submitterID notes torrentHash).response.Success = false ∧
    (SubmitContentRequest env s imdbID title director releaseYearStr genresJSON description
        submitterID notes torrentHash).store = s ∧
    (SubmitContentRequest env s imdbID title director releaseYearStr genresJSON description
        submitterID notes torrentHash).writes = [] ∧
    (SubmitContentRequest env s imdbID title director releaseYearStr genresJSON description
        submitterID notes torrentHash).event = none ∧
    (SubmitContentRequest env s imdbID title director releaseYearStr genresJSON description
        submitterID notes torrentHash).response.Errors.length =
      (if isValidIMDBID imdbID = false then 1 else 0) + (if title = "" then 1 else 0) +
      (if TitleMaxLength < title.utf8ByteSize then 1 else 0) +
      (if genresJSON ≠ "" ∧ env.unmarshalGenres genresJSON = none then 1 else 0) ∧
    errorCount "imdb_id" "invalid_format"
      (SubmitContentRequest env s imdbID title director releaseYearStr genresJSON description
        submitterID notes torrentHash).response.Errors =
      (if isValidIMDBID imdbID = false then 1 else 0) ∧
    errorCount "title" "required"
      (SubmitContentRequest env s imdbID title director releaseYearStr genresJSON description
        submitterID notes torrentHash).response.Errors =
      (if title = "" then 1 else 0) ∧
    errorCount "title" "max_length"
      (SubmitContentRequest env s imdbID title director releaseYearStr genresJSON description
        submitterID notes torrentHash).response.Errors =
      (if TitleMaxLength < title.utf8ByteSize then 1 else 0) ∧
    errorCount "genres" "invalid_format"
      (SubmitContentRequest env s imdbID title director releaseYearStr genresJSON description
        submitterID notes torrentHash).response.Errors =
      (if genresJSON ≠ "" ∧ env.unmarshalGenres genresJSON = none then 1 else 0) := by
  have hcount := submitValidationErrors_count env imdbID title genresJSON
  have hpos : 0 < (submitValidationErrors env imdbID title genresJSON).length := by
    rw [hcount]
    rcases h with h | h | h | h
    · simp [h]
    · simp [h]
    · simp [h]
    · simp [h]
  rw [submit_of_validation_errors env s imdbID title director releaseYearStr genresJSON
    description submitterID notes torrentHash hpos]
  obtain ⟨e1, e2, e3, e4⟩ := submitValidationErrors_entries env imdbID title genresJSON
  exact ⟨rfl, rfl, rfl, rfl, rfl, hcount, e1, e2, e3, e4⟩

theorem SubmitContentRequest_validation_failure_witness :
    (SubmitContentRequest (plainEnv "tx1" "2024-01-01T00:00:00Z" "u1")
        [("ContentRequest:tt0000001", Doc.raw "x")] "1375666" "" "" "" "" "" "alice" ""
        "").response.Errors.length = 2 ∧
    (SubmitContentRequest (plainEnv "tx1" "2024-01-01T00:00:00Z" "u1")
        [("ContentRequest:tt0000001", Doc.raw "x")] "1375666" "" "" "" "" "" "alice" ""
        "").store = [("ContentRequest:tt0000001", Doc.raw "x")] := by
  have h := SubmitContentRequest_validation_failure (plainEnv "tx1" "2024-01-01T00:00:00Z" "u1")
    [("ContentRequest:tt0000001", Doc.raw "x")] "1375666" "" "" "" "" "" "alice" "" ""
    (Or.inl (by decide))
  refine ⟨?_, h.2.2.1⟩
  rw [h.2.2.2.2.2.1]
  decide

/-! ## What each operation writes -/

theorem submit_store_writes (env : Env) (s : Store Doc)
    (imdbID title director releaseYearStr genresJSON description submitterID notes
      torrentHash : String) :
    (SubmitContentRequest env s imdbID title director releaseYearStr genresJSON description
        submitterID notes torrentHash).store =
      applyWrites s (SubmitContentRequest env s imdbID title director releaseYearStr
        genresJSON description submitterID notes torrentHash).writes ∧
    ∀ w ∈ (SubmitContentRequest env s imdbID title director releaseYearStr genresJSON
        description submitterID notes torrentHash).writes,
      w.1 = buildContentRequestKey imdbID := by
  unfold SubmitContentRequest
  simp only []
  split
  · simp [applyWrites]
  · split
    · simp [applyWrites]
    · split
      · simp [applyWrites]
      · split
        · simp [applyWrites]
        · simp [applyWrites]

theorem approve_store_writes (env : Env) (s : Store Doc) (imdbID moderatorID : String) :
    (ApproveContentRequest env s imdbID moderatorID).store =
      applyWrites s (ApproveContentRequest env s imdbID moderatorID).writes ∧
    ∀ w ∈ (ApproveContentRequest env s imdbID moderatorID).writes,
      w.1 = buildContentRequestKey imdbID ∨ w.1 = buildMovieKey imdbID := by
  unfold ApproveContentRequest
  simp only []
  split
  · simp [applyWrites]
  · split
    · simp [applyWrites]
    · split
      · simp [applyWrites]
      · split
        · simp [applyWrites]
        · simp [applyWrites]

theorem reject_store_writes (env : Env) (s : Store Doc)
    (imdbID moderatorID rejectionReason : String) :
    (RejectContentRequest env s imdbID moderatorID rejectionReason).store =
      applyWrites s (RejectContentRequest env s imdbID moderatorID rejectionReason).writes ∧
    ∀ w ∈ (RejectContentRequest env s imdbID moderatorID rejectionReason).writes,
      w.1 = buildContentRequestKey imdbID := by
  unfold RejectContentRequest
  simp only []
  split
  · simp [applyWrites]
  · split
    · simp [applyWrites]
    · simp [applyWrites]

theorem getState_applyWrites_isSome (ws : List (String × Doc)) (s : Store Doc) (k : String)
    (h : (getState s k).isSome = true) : (getState (applyWrites s ws) k).isSome = true := by
  induction ws generalizing s with
  | nil => simpa [applyWrites] using h
  | cons w rest ih =>
    simp only [applyWrites, List.foldl_cons]
    exact ih _ (getState_putState_isSome s w.1 k w.2 h)

theorem getState_applyWrites_other (ws : List (String × Doc)) (s : Store Doc) (k : String)
    (h : ∀ w ∈ ws, w.1 ≠ k) : getState (applyWrites s ws) k = getState s k := by
  induction ws generalizing s with
  | nil => simp [applyWrites]
  | cons w rest ih =>
    simp only [applyWrites, List.foldl_cons]
    have h1 : k ≠ w.1 := fun e => h w (List.mem_cons_self _ _) e.symm
    have h2 := ih (putState s w.1 w.2) (fun x hx => h x (List.mem_cons_of_mem _ hx))
    simp only [applyWrites] at h2
    rw [h2, getState_putState_other s w.1 k w.2 h1]

/-! ## The point lookup -/

theorem lookup_ok_of_stored (env : Env) (s : Store Doc) (imdbID : String) (d : Doc)
    (r : ContentRequest) (hread : env.getStateErr (buildContentRequestKey imdbID) = none)
    (hd : getState s (buildContentRequestKey imdbID) = some d)
    (hr : unmarshalContentRequest d = some r) :
    getContentRequestByIMDBID env s imdbID = Except.ok r := by
  simp [getContentRequestByIMDBID, hread, hd, hr]

theorem stored_of_lookup_ok (env : Env) (s : Store Doc) (imdbID : String)
    (r : ContentRequest) (h : getContentRequestByIMDBID env s imdbID = Except.ok r) :
    env.getStateErr (buildContentRequestKey imdbID) = none ∧
    ∃ d, getState s (buildContentRequestKey imdbID) = some d ∧
      unmarshalContentRequest d = some r := by
  unfold getContentRequestByIMDBID at h
  split at h
  · exact absurd h (by simp)
  · rename_i hread
    split at h
    · exact absurd h (by simp)
    · rename_i d hd
      split at h
      · exact absurd h (by simp)
      · rename_i r2 hr
        have : r2 = r := by simpa using h
        subst this
        exact ⟨hread, d, hd, hr⟩

theorem lookup_not_found_of_absent (env : Env) (s : Store Doc) (imdbID : String)
    (hread : env.getStateErr (buildContentRequestKey imdbID) = none)
    (hd : getState s (buildContentRequestKey imdbID) = none) :
    getContentRequestByIMDBID env s imdbID = Except.error "ContentRequest not found" := by
  simp [getContentRequestByIMDBID, hread, hd]

/-! ## The paths of the three operations -/

theorem approve_of_lookup_error (env : Env) (s : Store Doc) (imdbID moderatorID e : String)
    (h : getContentRequestByIMDBID env s imdbID = Except.error e) :
    (ApproveContentRequest env s imdbID moderatorID).response.Success = false ∧
    (ApproveContentRequest env s imdbID moderatorID).store = s ∧
    (ApproveContentRequest env s imdbID moderatorID).writes = [] ∧
    (ApproveContentRequest env s imdbID moderatorID).event = none := by
  simp [ApproveContentRequest, h, NewErrorResponse]

theorem approve_of_approved (env : Env) (s : Store Doc) (imdbID moderatorID : String)
    (r : ContentRequest) (h : getContentRequestByIMDBID env s imdbID = Except.ok r)
    (hs : r.Status = StatusApproved) :
    (ApproveContentRequest env s imdbID moderatorID).response.Success = false ∧
    (ApproveContentRequest env s imdbID moderatorID).store = s ∧
    (ApproveContentRequest env s imdbID moderatorID).writes = [] ∧
    (ApproveContentRequest env s imdbID moderatorID).event = none := by
  simp [ApproveContentRequest, h, hs, NewErrorResponse]

theorem approve_of_writes_ok (env : Env) (s : Store Doc) (imdbID moderatorID : String)
    (r : ContentRequest) (h : getContentRequestByIMDBID env s imdbID = Except.ok r)
    (hs : r.Status ≠ StatusApproved)
    (hw1 : env.putStateErr (buildContentRequestKey imdbID) = none)
    (hw2 : env.putStateErr (buildMovieKey imdbID) = none) :
    (ApproveContentRequest env s imdbID moderatorID).response.Success = true ∧
    (ApproveContentRequest env s imdbID moderatorID).store =
      putState (putState s (buildContentRequestKey imdbID)
        (Doc.request (approvedRequest env r moderatorID))) (buildMovieKey imdbID)
        (Doc.movie (approvedMovie env (approvedRequest env r moderatorID) imdbID
          moderatorID)) ∧
    (ApproveContentRequest env s imdbID moderatorID).writes =
      [(buildContentRequestKey imdbID, Doc.request (approvedRequest env r moderatorID)),
       (buildMovieKey imdbID,
        Doc.movie (approvedMovie env (approvedRequest env r moderatorID) imdbID
          moderatorID))] := by
  simp [ApproveContentRequest, h, hs, hw1, hw2, NewSuccessResponse, approvedRequest,
    approvedMovie]

theorem approve_success_inv (env : Env) (s : Store Doc) (imdbID moderatorID : String)
    (h : (ApproveContentRequest env s imdbID moderatorID).response.Success = true) :
    ∃ r, getContentRequestByIMDBID env s imdbID = Except.ok r ∧ r.Status ≠ StatusApproved ∧
      env.putStateErr (buildContentRequestKey imdbID) = none ∧
      env.putStateErr (buildMovieKey imdbID) = none := by
  unfold ApproveContentRequest at h
  simp only [] at h
  split at h
  · simp [NewErrorResponse] at h
  · rename_i r hr
    split at h
    · simp [NewErrorResponse] at h
    · rename_i hs
      split at h
      · simp [NewErrorResponse] at h
      · rename_i hw1
        split at h
        · simp [NewErrorResponse] at h
        · rename_i hw2
          exact ⟨r, hr, hs, hw1, hw2⟩

theorem reject_of_lookup_error (env : Env) (s : Store Doc)
    (imdbID moderatorID rejectionReason e : String)
    (h : getContentRequestByIMDBID env s imdbID = Except.error e) :
    (RejectContentRequest env s imdbID moderatorID rejectionReason).response.Success = false ∧
    (RejectContentRequest env s imdbID moderatorID rejectionReason).store = s ∧
    (RejectContentRequest env s imdbID moderatorID rejectionReason).writes = [] ∧
    (RejectContentRequest env s imdbID moderatorID rejectionReason).event = none := by
  simp [RejectContentRequest, h, NewErrorResponse]

theorem reject_of_write_ok (env : Env) (s : Store Doc)
    (imdbID moderatorID rejectionReason : String) (r : ContentRequest)
    (h : getContentRequestByIMDBID env s imdbID = Except.ok r)
    (hw : env.putStateErr (buildContentRequestKey imdbID) = none) :
    (RejectContentRequest env s imdbID moderatorID rejectionReason).response.Success = true ∧
    (RejectContentRequest env s imdbID moderatorID rejectionReason).store =
      putState s (buildContentRequestKey imdbID)
        (Doc.request (rejectedRequest env r moderatorID rejectionReason)) ∧
    (RejectContentRequest env s imdbID moderatorID rejectionReason).writes =
      [(buildContentRequestKey imdbID,
        Doc.request (rejectedRequest env r moderatorID rejectionReason))] := by
  simp [RejectContentRequest, h, hw, NewSuccessResponse, rejectedRequest]

theorem reject_success_inv (env : Env) (s : Store Doc)
    (imdbID moderatorID rejectionReason : String)
    (h : (RejectContentRequest env s imdbID moderatorID rejectionReason).response.Success =
      true) :
    ∃ r, getContentRequestByIMDBID env s imdbID = Except.ok r ∧
      env.putStateErr (buildContentRequestKey imdbID) = none := by
  unfold RejectContentRequest at h
  simp only [] at h
  split at h
  · simp [NewErrorResponse] at h
  · rename_i r hr
    split at h
    · simp [NewErrorResponse] at h
    · rename_i hw
      exact ⟨r, hr, hw⟩

theorem submitValidationErrors_nil_of_valid (env : Env) (imdbID title genresJSON : String)
    (hid : isValidIMDBID imdbID = true) (ht : title ≠ "")
    (hlen : title.utf8ByteSize ≤ TitleMaxLength)
    (hg : genresJSON = "" ∨ (env.unmarshalGenres genresJSON).isSome = true) :
    submitValidationErrors env imdbID title genresJSON = [] := by
  have hcount := submitValidationErrors_count env imdbID title genresJSON
  have h3 : ¬ (TitleMaxLength < title.utf8ByteSize) := Nat.not_lt.2 hlen
  have h4 : ¬ (genresJSON ≠ "" ∧ env.unmarshalGenres genresJSON = none) := by
    rintro ⟨hne, hnone⟩
    rcases hg with hg | hg
    · exact hne hg
    · simp [hnone] at hg
  simp only [hid, ht, h3, h4, if_false, Bool.true_eq_false] at hcount
  exact List.length_eq_zero.1 (by simpa using hcount)

theorem submit_of_write_ok (env : Env) (s : Store Doc)
    (imdbID title director releaseYearStr genresJSON description submitterID notes
      torrentHash : String)
    (hv : submitValidationErrors env imdbID title genresJSON = [])
    (hl : getContentRequestByIMDBID env s imdbID = Except.error "ContentRequest not found")
    (hw : env.putStateErr (buildContentRequestKey imdbID) = none) :
    (SubmitContentRequest env s imdbID title director releaseYearStr genresJSON description
        submitterID notes torrentHash).response.Success = true ∧
    (SubmitContentRequest env s imdbID title director releaseYearStr genresJSON description
        submitterID notes torrentHash).store =
      putState s (buildContentRequestKey imdbID)
        (Doc.request (submittedRequest env imdbID title director releaseYearStr genresJSON
          description submitterID notes torrentHash)) ∧
    (SubmitContentRequest env s imdbID title director releaseYearStr genresJSON description
        submitterID notes torrentHash).writes =
      [(buildContentRequestKey imdbID,
        Doc.request (submittedRequest env imdbID title director releaseYearStr genresJSON
          description submitterID notes torrentHash))] := by
  simp [SubmitContentRequest, hv, hl, hw, NewSuccessResponse]

theorem submit_success_inv (env : Env) (s : Store Doc)
    (imdbID title director releaseYearStr genresJSON description submitterID notes
      torrentHash : String)
    (h : (SubmitContentRequest env s imdbID title director releaseYearStr genresJSON
      description submitterID notes torrentHash).response.Success = true) :
    submitValidationErrors env imdbID title genresJSON = [] ∧
    getContentRequestByIMDBID env s imdbID = Except.error "ContentRequest not found" ∧
    env.putStateErr (buildContentRequestKey imdbID) = none := by
  unfold SubmitContentRequest at h
  simp only [] at h
  split at h
  · simp [NewErrorResponse] at h
  · rename_i hv
    have hv2 : submitValidationErrors env imdbID title genresJSON = [] :=
      List.length_eq_zero.1 (by omega)
    split at h
    · simp [NewErrorResponse] at h
    · rename_i e he
      split at h
      · simp [NewErrorResponse] at h
      · rename_i hne
        have hee : e = "ContentRequest not found" := by simpa using hne
        split at h
        · simp [NewErrorResponse] at h
        · rename_i hw
          exact ⟨hv2, by rw [he, hee], hw⟩

theorem lookup_not_found_absent (env : Env) (s : Store Doc) (imdbID : String)
    (h : getContentRequestByIMDBID env s imdbID = Except.error "ContentRequest not found") :
    getState s (buildContentRequestKey imdbID) = none := by
  unfold getContentRequestByIMDBID at h
  split at h
  · rename_i e _
    exfalso
    have h1 : "error reading from ledger: " ++ e = "ContentRequest not found" := by
      simpa using h
    have h2 := congrArg String.data h1
    simp [String.data_append] at h2
  · split at h
    · assumption
    · split at h
      · exfalso
        have h1 : "error unmarshaling ContentRequest: " ++
            env.jsonErr (buildContentRequestKey imdbID) = "ContentRequest not found" := by
          simpa using h
        have h2 := congrArg String.data h1
        simp [String.data_append] at h2
      · exact absurd h (by simp)

theorem wrapInt64_succ (v : Int) (h1 : minInt64 ≤ v) (h2 : v < maxInt64) :
    wrapInt64 (v + 1) = v + 1 := by
  unfold minInt64 at h1
  unfold maxInt64 at h2
  unfold wrapInt64
  omega

theorem exec_err_none (c : Call) (s : Store Doc) : (c.exec s).err = none := by
  cases c with
  | submit env i t d y g ds su n th =>
    simp only [Call.exec, SubmitContentRequest]
    split
    · rfl
    · split
      · rfl
      · split
        · rfl
        · split <;> rfl
  | approve env i m =>
    simp only [Call.exec, ApproveContentRequest]
    split
    · rfl
    · split
      · rfl
      · split
        · rfl
        · split <;> rfl
  | reject env i m r =>
    simp only [Call.exec, RejectContentRequest]
    split
    · rfl
    · split <;> rfl

theorem exec_store_writes (c : Call) (s : Store Doc) :
    (c.exec s).store = applyWrites s (c.exec s).writes := by
  cases c with
  | submit env i t d y g ds su n th => exact (submit_store_writes env s i t d y g ds su n th).1
  | approve env i m => exact (approve_store_writes env s i m).1
  | reject env i m r => exact (reject_store_writes env s i m r).1

theorem exec_keeps_keys (c : Call) (s : Store Doc) (k : String)
    (h : (getState s k).isSome = true) : (getState (c.exec s).store k).isSome = true := by
  rw [exec_store_writes]
  exact getState_applyWrites_isSome _ s k h

theorem submit_request_after (env : Env) (s : Store Doc)
    (imdbID title director releaseYearStr genresJSON description submitterID notes
      torrentHash : String) :
    (SubmitContentRequest env s imdbID title director releaseYearStr genresJSON description
        submitterID notes torrentHash).store = s ∨
    (getState s (buildContentRequestKey imdbID) = none ∧
      (SubmitContentRequest env s imdbID title director releaseYearStr genresJSON description
        submitterID notes torrentHash).store =
      putState s (buildContentRequestKey imdbID)
        (Doc.request (submittedRequest env imdbID title director releaseYearStr genresJSON
          description submitterID notes torrentHash))) := by
  unfold SubmitContentRequest
  simp only []
  split
  · exact Or.inl rfl
  · split
    · exact Or.inl rfl
    · rename_i e he
      split
      · exact Or.inl rfl
      · rename_i hne
        have hee : e = "ContentRequest not found" := by simpa using hne
        split
        · exact Or.inl rfl
        · exact Or.inr ⟨lookup_not_found_absent env s imdbID (by rw [he, hee]), rfl⟩

theorem approve_request_after (env : Env) (s : Store Doc) (imdbID moderatorID : String) :
    (ApproveContentRequest env s imdbID moderatorID).store = s ∨
    ∃ r, getContentRequestByIMDBID env s imdbID = Except.ok r ∧ r.Status ≠ StatusApproved ∧
      ((ApproveContentRequest env s imdbID moderatorID).store =
          putState s (buildContentRequestKey imdbID)
            (Doc.request (approvedRequest env r moderatorID)) ∨
        (ApproveContentRequest env s imdbID moderatorID).store =
          putState (putState s (buildContentRequestKey imdbID)
            (Doc.request (approvedRequest env r moderatorID))) (buildMovieKey imdbID)
            (Doc.movie (approvedMovie env (approvedRequest env r moderatorID) imdbID
              moderatorID))) := by
  unfold ApproveContentRequest
  simp only []
  split
  · exact Or.inl rfl
  · rename_i r hr
    split
    · exact Or.inl rfl
    · rename_i hs
      split
      · exact Or.inl rfl
      · split
        · exact Or.inr ⟨r, hr, hs, Or.inl rfl⟩
        · exact Or.inr ⟨r, hr, hs, Or.inr rfl⟩

theorem reject_request_after (env : Env) (s : Store Doc)
    (imdbID moderatorID rejectionReason : String) :
    (RejectContentRequest env s imdbID moderatorID rejectionReason).store = s ∨
    ∃ r, getContentRequestByIMDBID env s imdbID = Except.ok r ∧
      (RejectContentRequest env s imdbID moderatorID rejectionReason).store =
        putState s (buildContentRequestKey imdbID)
          (Doc.request (rejectedRequest env r moderatorID rejectionReason)) := by
  unfold RejectContentRequest
  simp only []
  split
  · exact Or.inl rfl
  · rename_i r hr
    split
    · exact Or.inl rfl
    · exact Or.inr ⟨r, hr, rfl⟩

/-! ## Duplicate submission -/

/-- C2. When the store already holds a ContentRequest at catalog ID `imdbID` (the ledger read
succeeding), `SubmitContentRequest` on that ID with otherwise valid arguments returns a
failure response whose error list is one validation error with code `duplicate`; it writes
nothing, the store is unchanged, and the request on record, with its version, is still
what the point lookup returns. -/
theorem SubmitContentRequest_duplicate (env : Env) (s : Store Doc)
    (imdbID title director releaseYearStr genresJSON description submitterID notes
      torrentHash : String) (d : Doc) (r : ContentRequest)
    (hread : env.getStateErr (buildContentRequestKey imdbID) = none)
    (hd : getState s (buildContentRequestKey imdbID) = some d)
    (hr : unmarshalContentRequest d = some r)
    (hid : isValidIMDBID imdbID = true) (ht : title ≠ "")
    (hlen : title.utf8ByteSize ≤ TitleMaxLength)
    (hg : genresJSON = "" ∨ (env.unmarshalGenres genresJSON).isSome = true) :
    (SubmitContentRequest env s imdbID title director releaseYearStr genresJSON description
        submitterID notes torrentHash).err = none ∧
    (SubmitContentRequest env s imdbID title director releaseYearStr genresJSON description
        submitterID notes torrentHash).response.Success = false ∧
    (∃ e, (SubmitContentRequest env s imdbID title director releaseYearStr genresJSON
        description submitterID notes torrentHash).response.Errors = [e] ∧
      e.Code = "duplicate" ∧ e.Field = "imdb_id") ∧
    (SubmitContentRequest env s imdbID title director releaseYearStr genresJSON description
        submitterID notes torrentHash).writes = [] ∧
    (SubmitContentRequest env s imdbID title director releaseYearStr genresJSON description
        submitterID notes torrentHash).store = s ∧
    getContentRequestByIMDBID env
      (SubmitContentRequest env s imdbID title director releaseYearStr genresJSON description
        submitterID notes torrentHash).store imdbID = Except.ok r := by
  have hv := submitValidationErrors_nil_of_valid env imdbID title genresJSON hid ht hlen hg
  have hl := lookup_ok_of_stored env s imdbID d r hread hd hr
  rw [submit_of_no_validation_errors_lookup env s imdbID title director releaseYearStr
    genresJSON description submitterID notes torrentHash hv r hl]
  exact ⟨rfl, rfl, ⟨_, rfl, rfl, rfl⟩, rfl, rfl, hl⟩

theorem SubmitContentRequest_duplicate_witness :
    (SubmitContentRequest (plainEnv "tx2" "2024-01-02T00:00:00Z" "u2")
        (SubmitContentRequest (plainEnv "tx1" "2024-01-01T00:00:00Z" "u1") [] "tt1375666"
          "Inception" "Nolan" "2010" "" "" "alice" "" "QmHash").store
        "tt1375666" "Inception again" "" "" "" "" "bob" "" "").store =
      (SubmitContentRequest (plainEnv "tx1" "2024-01-01T00:00:00Z" "u1") [] "tt1375666"
          "Inception" "Nolan" "2010" "" "" "alice" "" "QmHash").store :=
  (SubmitContentRequest_duplicate (plainEnv "tx2" "2024-01-02T00:00:00Z" "u2")
    (SubmitContentRequest (plainEnv "tx1" "2024-01-01T00:00:00Z" "u1") [] "tt1375666"
      "Inception" "Nolan" "2010" "" "" "alice" "" "QmHash").store
    "tt1375666" "Inception again" "" "" "" "" "bob" "" ""
    (Doc.request (submittedRequest (plainEnv "tx1" "2024-01-01T00:00:00Z" "u1") "tt1375666"
      "Inception" "Nolan" "2010" "" "" "alice" "" "QmHash"))
    (submittedRequest (plainEnv "tx1" "2024-01-01T00:00:00Z" "u1") "tt1375666"
      "Inception" "Nolan" "2010" "" "" "alice" "" "QmHash")
    rfl (by decide) rfl (by decide) (by decide) (by decide) (Or.inl rfl)).2.2.2.2.1

/-! ## Approving twice -/

/-- C3. When the ContentRequest stored at catalog ID `imdbID` has status `approved`,
`ApproveContentRequest` returns a failure response (with a nil error), performs no write
and sets no event: the store, request and Movie alike, is unchanged. This holds whether
or not the ledger read succeeds. -/
theorem ApproveContentRequest_already_approved (env : Env) (s : Store Doc)
    (imdbID moderatorID : String) (d : Doc) (r : ContentRequest)
    (hd : getState s (buildContentRequestKey imdbID) = some d)
    (hr : unmarshalContentRequest d = some r) (hs : r.Status = StatusApproved) :
    (ApproveContentRequest env s imdbID moderatorID).response.Success = false ∧
    (ApproveContentRequest env s imdbID moderatorID).err = none ∧
    (ApproveContentRequest env s imdbID moderatorID).writes = [] ∧
    (ApproveContentRequest env s imdbID moderatorID).store = s ∧
    (ApproveContentRequest env s imdbID moderatorID).event = none := by
  have herr := exec_err_none (Call.approve env imdbID moderatorID) s
  simp only [Call.exec] at herr
  cases hl : getContentRequestByIMDBID env s imdbID with
  | error e =>
    obtain ⟨h1, h2, h3, h4⟩ := approve_of_lookup_error env s imdbID moderatorID e hl
    exact ⟨h1, herr, h3, h2, h4⟩
  | ok r2 =>
    obtain ⟨_, d2, hd2, hr2⟩ := stored_of_lookup_ok env s imdbID r2 hl
    have hdd : d2 = d := by
      rw [hd] at hd2
      exact (Option.some.inj hd2).symm
    subst hdd
    have hrr : r2 = r := by
      rw [hr] at hr2
      exact (Option.some.inj hr2).symm
    subst hrr
    obtain ⟨h1, h2, h3, h4⟩ := approve_of_approved env s imdbID moderatorID r2 hl hs
    exact ⟨h1, herr, h3, h2, h4⟩

theorem ApproveContentRequest_already_approved_witness :
    (ApproveContentRequest (plainEnv "tx3" "2024-01-03T00:00:00Z" "u3")
        (runCalls []
          [Call.submit (plainEnv "tx1" "2024-01-01T00:00:00Z" "u1") "tt1375666" "Inception"
            "Nolan" "2010" "" "" "alice" "" "QmHash",
           Call.approve (plainEnv "tx2" "2024-01-02T00:00:00Z" "u2") "tt1375666" "mod1"])
        "tt1375666" "mod2").store =
      runCalls []
        [Call.submit (plainEnv "tx1" "2024-01-01T00:00:00Z" "u1") "tt1375666" "Inception"
          "Nolan" "2010" "" "" "alice" "" "QmHash",
         Call.approve (plainEnv "tx2" "2024-01-02T00:00:00Z" "u2") "tt1375666" "mod1"] :=
  (ApproveContentRequest_already_approved (plainEnv "tx3" "2024-01-03T00:00:00Z" "u3")
    (runCalls []
      [Call.submit (plainEnv "tx1" "2024-01-01T00:00:00Z" "u1") "tt1375666" "Inception"
        "Nolan" "2010" "" "" "alice" "" "QmHash",
       Call.approve (plainEnv "tx2" "2024-01-02T00:00:00Z" "u2") "tt1375666" "mod1"])
    "tt1375666" "mod2"
    (Doc.request (approvedRequest (plainEnv "tx2" "2024-01-02T00:00:00Z" "u2")
      (submittedRequest (plainEnv "tx1" "2024-01-01T00:00:00Z" "u1") "tt1375666"
        "Inception" "Nolan" "2010" "" "" "alice" "" "QmHash") "mod1"))
    (approvedRequest (plainEnv "tx2" "2024-01-02T00:00:00Z" "u2")
      (submittedRequest (plainEnv "tx1" "2024-01-01T00:00:00Z" "u1") "tt1375666"
        "Inception" "Nolan" "2010" "" "" "alice" "" "QmHash") "mod1")
    (by decide) rfl rfl).2.2.2.1

/-! ## Versions -/

theorem stored_request_unique (s : Store Doc) (k : String) (d d2 : Doc)
    (r r2 : ContentRequest) (hd : getState s k = some d)
    (hr : unmarshalContentRequest d = some r) (hd2 : getState s k = some d2)
    (hr2 : unmarshalContentRequest d2 = some r2) : r2 = r := by
  rw [hd] at hd2
  have hdd : d = d2 := Option.some.inj hd2
  subst hdd
  rw [hr] at hr2
  exact (Option.some.inj hr2).symm

theorem version_step_submit (env : Env) (s : Store Doc)
    (i t dr y g ds su n th : String) (j : String) (d d2 : Doc) (r r2 : ContentRequest)
    (hd : getState s (buildContentRequestKey j) = some d)
    (hr : unmarshalContentRequest d = some r)
    (hd2 : getState (SubmitContentRequest env s i t dr y g ds su n th).store
      (buildContentRequestKey j) = some d2)
    (hr2 : unmarshalContentRequest d2 = some r2) : r2 = r := by
  rcases submit_request_after env s i t dr y g ds su n th with h | ⟨habs, h⟩
  · rw [h] at hd2
    exact stored_request_unique s _ d d2 r r2 hd hr hd2 hr2
  · rw [h] at hd2
    by_cases hk : buildContentRequestKey j = buildContentRequestKey i
    · rw [hk, habs] at hd
      exact absurd hd (by simp)
    · rw [getState_putState_other s _ _ _ hk] at hd2
      exact stored_request_unique s _ d d2 r r2 hd hr hd2 hr2

theorem version_step_approve (env : Env) (s : Store Doc) (i m : String) (j : String)
    (d d2 : Doc) (r r2 : ContentRequest)
    (hd : getState s (buildContentRequestKey j) = some d)
    (hr : unmarshalContentRequest d = some r)
    (hd2 : getState (ApproveContentRequest env s i m).store
      (buildContentRequestKey j) = some d2)
    (hr2 : unmarshalContentRequest d2 = some r2) :
    r2 = r ∨ (j = i ∧ r2 = approvedRequest env r m) := by
  have hmk : buildContentRequestKey j ≠ buildMovieKey i :=
    buildContentRequestKey_ne_buildMovieKey j i
  rcases approve_request_after env s i m with h | ⟨r0, hl, _, h⟩
  · rw [h] at hd2
    exact Or.inl (stored_request_unique s _ d d2 r r2 hd hr hd2 hr2)
  · have hd3 : getState (putState s (buildContentRequestKey i)
        (Doc.request (approvedRequest env r0 m))) (buildContentRequestKey j) = some d2 := by
      rcases h with h | h
      · rw [h] at hd2
        exact hd2
      · rw [h, getState_putState_other _ _ _ _ hmk] at hd2
        exact hd2
    by_cases hk : buildContentRequestKey j = buildContentRequestKey i
    · have hji : j = i := buildContentRequestKey_injective j i hk
      subst hji
      obtain ⟨_, d0, hd0, hr0⟩ := stored_of_lookup_ok env s j r0 hl
      have h0 : r0 = r := stored_request_unique s _ d d0 r r0 hd hr hd0 hr0
      subst h0
      rw [getState_putState_same] at hd3
      have hdd : d2 = Doc.request (approvedRequest env r0 m) := (Option.some.inj hd3).symm
      subst hdd
      right
      exact ⟨rfl, (Option.some.inj hr2).symm⟩
    · rw [getState_putState_other s _ _ _ hk] at hd3
      exact Or.inl (stored_request_unique s _ d d2 r r2 hd hr hd3 hr2)

theorem version_step_reject (env : Env) (s : Store Doc) (i m rs : String) (j : String)
    (d d2 : Doc) (r r2 : ContentRequest)
    (hd : getState s (buildContentRequestKey j) = some d)
    (hr : unmarshalContentRequest d = some r)
    (hd2 : getState (RejectContentRequest env s i m rs).store
      (buildContentRequestKey j) = some d2)
    (hr2 : unmarshalContentRequest d2 = some r2) :
    r2 = r ∨ (j = i ∧ r2 = rejectedRequest env r m rs) := by
  rcases reject_request_after env s i m rs with h | ⟨r0, hl, h⟩
  · rw [h] at hd2
    exact Or.inl (stored_request_unique s _ d d2 r r2 hd hr hd2 hr2)
  · rw [h] at hd2
    by_cases hk : buildContentRequestKey j = buildContentRequestKey i
    · have hji : j = i := buildContentRequestKey_injective j i hk
      subst hji
      obtain ⟨_, d0, hd0, hr0⟩ := stored_of_lookup_ok env s j r0 hl
      have h0 : r0 = r := stored_request_unique s _ d d0 r r0 hd hr hd0 hr0
      subst h0
      rw [getState_putState_same] at hd2
      have hdd : d2 = Doc.request (rejectedRequest env r0 m rs) := (Option.some.inj hd2).symm
      subst hdd
      right
      exact ⟨rfl, (Option.some.inj hr2).symm⟩
    · rw [getState_putState_other s _ _ _ hk] at hd2
      exact Or.inl (stored_request_unique s _ d d2 r r2 hd hr hd2 hr2)

theorem approve_success_request (env : Env) (s : Store Doc) (imdbID moderatorID : String)
    (r : ContentRequest) (hl : getContentRequestByIMDBID env s imdbID = Except.ok r)
    (h : (ApproveContentRequest env s imdbID moderatorID).response.Success = true) :
    getState (ApproveContentRequest env s imdbID moderatorID).store
        (buildContentRequestKey imdbID) =
      some (Doc.request (approvedRequest env r moderatorID)) ∧
    getState (ApproveContentRequest env s imdbID moderatorID).store (buildMovieKey imdbID) =
      some (Doc.movie (approvedMovie env (approvedRequest env r moderatorID) imdbID
        moderatorID)) := by
  obtain ⟨r0, hl0, hs, hw1, hw2⟩ := approve_success_inv env s imdbID moderatorID h
  have h0 : r0 = r := by
    rw [hl] at hl0
    exact (Except.ok.inj hl0).symm
  subst h0
  rw [(approve_of_writes_ok env s imdbID moderatorID r0 hl hs hw1 hw2).2.1]
  constructor
  · rw [getState_putState_other _ _ _ _ (buildContentRequestKey_ne_buildMovieKey _ _),
      getState_putState_same]
  · rw [getState_putState_same]

theorem reject_success_request (env : Env) (s : Store Doc)
    (imdbID moderatorID rejectionReason : String)
    (r : ContentRequest) (hl : getContentRequestByIMDBID env s imdbID = Except.ok r)
    (h : (RejectContentRequest env s imdbID moderatorID rejectionReason).response.Success =
      true) :
    getState (RejectContentRequest env s imdbID moderatorID rejectionReason).store
        (buildContentRequestKey imdbID) =
      some (Doc.request (rejectedRequest env r moderatorID rejectionReason)) := by
  obtain ⟨r0, hl0, hw⟩ := reject_success_inv env s imdbID moderatorID rejectionReason h
  have h0 : r0 = r := by
    rw [hl] at hl0
    exact (Except.ok.inj hl0).symm
  subst h0
  rw [(reject_of_write_ok env s imdbID moderatorID rejectionReason r0 hl hw).2.1,
    getState_putState_same]

theorem submit_success_request (env : Env) (s : Store Doc)
    (imdbID title director releaseYearStr genresJSON description submitterID notes
      torrentHash : String)
    (h : (SubmitContentRequest env s imdbID title director releaseYearStr genresJSON
      description submitterID notes torrentHash).response.Success = true) :
    getState (SubmitContentRequest env s imdbID title director releaseYearStr genresJSON
        description submitterID notes torrentHash).store (buildContentRequestKey imdbID) =
      some (Doc.request (submittedRequest env imdbID title director releaseYearStr genresJSON
        description submitterID notes torrentHash)) := by
  obtain ⟨hv, hl, hw⟩ := submit_success_inv env s imdbID title director releaseYearStr
    genresJSON description submitterID notes torrentHash h
  rw [(submit_of_write_ok env s imdbID title director releaseYearStr genresJSON description
    submitterID notes torrentHash hv hl hw).2.1, getState_putState_same]

/-- C4. A request created by a successful `SubmitContentRequest` is stored with version 1;
a successful `ApproveContentRequest` or `RejectContentRequest` stores the request with
version exactly one greater than the version it read (the version read being an `int64`
below the largest one, where the increment does not wrap); so Submit then Reject yields
version 2; and no call, on any catalog ID, decreases or skips the version of a stored
request: afterwards it is the same or greater by exactly one. -/
theorem version_increments_by_one :
    (∀ (env : Env) (s : Store Doc)
        (imdbID title director releaseYearStr genresJSON description submitterID notes
          torrentHash : String),
      (SubmitContentRequest env s imdbID title director releaseYearStr genresJSON description
        submitterID notes torrentHash).response.Success = true →
      ∃ r, getState (SubmitContentRequest env s imdbID title director releaseYearStr
          genresJSON description submitterID notes torrentHash).store
          (buildContentRequestKey imdbID) = some (Doc.request r) ∧ r.Version = 1) ∧
    (∀ (env : Env) (s : Store Doc) (imdbID moderatorID : String) (r : ContentRequest),
      getContentRequestByIMDBID env s imdbID = Except.ok r →
      minInt64 ≤ r.Version → r.Version < maxInt64 →
      (ApproveContentRequest env s imdbID moderatorID).response.Success = true →
      ∃ r2, getState (ApproveContentRequest env s imdbID moderatorID).store
          (buildContentRequestKey imdbID) = some (Doc.request r2) ∧
        r2.Version = r.Version + 1) ∧
    (∀ (env : Env) (s : Store Doc) (imdbID moderatorID rejectionReason : String)
        (r : ContentRequest),
      getContentRequestByIMDBID env s imdbID = Except.ok r →
      minInt64 ≤ r.Version → r.Version < maxInt64 →
      (RejectContentRequest env s imdbID moderatorID rejectionReason).response.Success =
        true →
      ∃ r2, getState (RejectContentRequest env s imdbID moderatorID rejectionReason).store
          (buildContentRequestKey imdbID) = some (Doc.request r2) ∧
        r2.Version = r.Version + 1) ∧
    (∀ (env env2 : Env) (s : Store Doc)
        (imdbID title director releaseYearStr genresJSON description submitterID notes
          torrentHash moderatorID rejectionReason : String),
      (SubmitContentRequest env s imdbID title director releaseYearStr genresJSON description
        submitterID notes torrentHash).response.Success = true →
      (RejectContentRequest env2
        (SubmitContentRequest env s imdbID title director releaseYearStr genresJSON
          description submitterID notes torrentHash).store
        imdbID moderatorID rejectionReason).response.Success = true →
      ∃ r2, getState (RejectContentRequest env2
          (SubmitContentRequest env s imdbID title director releaseYearStr genresJSON
            description submitterID notes torrentHash).store
          imdbID moderatorID rejectionReason).store (buildContentRequestKey imdbID) =
          some (Doc.request r2) ∧ r2.Version = 2) ∧
    (∀ (c : Call) (s : Store Doc) (j : String) (d d2 : Doc) (r r2 : ContentRequest),
      getState s (buildContentRequestKey j) = some d → unmarshalContentRequest d = some r →
      minInt64 ≤ r.Version → r.Version < maxInt64 →
      getState (c.exec s).store (buildContentRequestKey j) = some d2 →
      unmarshalContentRequest d2 = some r2 →
      r2.Version = r.Version ∨ r2.Version = r.Version + 1) := by
  refine ⟨?_, ?_, ?_, ?_, ?_⟩
  · intro env s imdbID title director releaseYearStr genresJSON description submitterID
      notes torrentHash h
    exact ⟨_, submit_success_request env s imdbID title director releaseYearStr genresJSON
      description submitterID notes torrentHash h, rfl⟩
  · intro env s imdbID moderatorID r hl h1 h2 h
    exact ⟨_, (approve_success_request env s imdbID moderatorID r hl h).1,
      wrapInt64_succ r.Version h1 h2⟩
  · intro env s imdbID moderatorID rejectionReason r hl h1 h2 h
    exact ⟨_, reject_success_request env s imdbID moderatorID rejectionReason r hl h,
      wrapInt64_succ r.Version h1 h2⟩
  · intro env env2 s imdbID title director releaseYearStr genresJSON description submitterID
      notes torrentHash moderatorID rejectionReason h hrej
    have hst := submit_success_request env s imdbID title director releaseYearStr genresJSON
      description submitterID notes torrentHash h
    obtain ⟨r0, hl0, _⟩ := reject_success_inv env2 _ imdbID moderatorID rejectionReason hrej
    obtain ⟨_, d0, hd0, hr0⟩ := stored_of_lookup_ok env2 _ imdbID r0 hl0
    have h0 : r0 = submittedRequest env imdbID title director releaseYearStr genresJSON
        description submitterID notes torrentHash :=
      stored_request_unique _ _ _ d0 _ r0 hst rfl hd0 hr0
    subst h0
    refine ⟨_, reject_success_request env2 _ imdbID moderatorID rejectionReason _ hl0 hrej,
      ?_⟩
    show wrapInt64 (1 + 1) = 2
    decide
  · intro c s j d d2 r r2 hd hr h1 h2 hd2 hr2
    cases c with
    | submit env i t dr y g ds su n th =>
      exact Or.inl (congrArg ContentRequest.Version
        (version_step_submit env s i t dr y g ds su n th j d d2 r r2 hd hr hd2 hr2))
    | approve env i m =>
      rcases version_step_approve env s i m j d d2 r r2 hd hr hd2 hr2 with h | ⟨_, h⟩
      · exact Or.inl (congrArg ContentRequest.Version h)
      · right
        rw [h]
        exact wrapInt64_succ r.Version h1 h2
    | reject env i m rs =>
      rcases version_step_reject env s i m rs j d d2 r r2 hd hr hd2 hr2 with h | ⟨_, h⟩
      · exact Or.inl (congrArg ContentRequest.Version h)
      · right
        rw [h]
        exact wrapInt64_succ r.Version h1 h2

theorem version_increments_by_one_witness :
    ∃ r2, getState (RejectContentRequest (plainEnv "tx2" "2024-01-02T00:00:00Z" "u2")
        (SubmitContentRequest (plainEnv "tx1" "2024-01-01T00:00:00Z" "u1") [] "tt1375666"
          "Inception" "Nolan" "2010" "" "" "alice" "" "QmHash").store
        "tt1375666" "mod1" "not a movie").store (buildContentRequestKey "tt1375666") =
        some (Doc.request r2) ∧ r2.Version = 2 :=
  version_increments_by_one.2.2.2.1 (plainEnv "tx1" "2024-01-01T00:00:00Z" "u1")
    (plainEnv "tx2" "2024-01-02T00:00:00Z" "u2") [] "tt1375666" "Inception" "Nolan" "2010" ""
    "" "alice" "" "QmHash" "mod1" "not a movie" (by decide) (by decide)

/-! ## No request is deleted -/

theorem exec_request_doc_after (c : Call) (s : Store Doc) (j : String) :
    getState (c.exec s).store (buildContentRequestKey j) =
        getState s (buildContentRequestKey j) ∨
      ∃ r, getState (c.exec s).store (buildContentRequestKey j) = some (Doc.request r) := by
  have hmk : ∀ i, buildContentRequestKey j ≠ buildMovieKey i :=
    fun i => buildContentRequestKey_ne_buildMovieKey j i
  cases c with
  | submit env i t dr y g ds su n th =>
    simp only [Call.exec]
    rcases submit_request_after env s i t dr y g ds su n th with h | ⟨_, h⟩
    · rw [h]
      exact Or.inl rfl
    · rw [h]
      by_cases hk : buildContentRequestKey j = buildContentRequestKey i
      · rw [hk, getState_putState_same]
        exact Or.inr ⟨_, rfl⟩
      · rw [getState_putState_other s _ _ _ hk]
        exact Or.inl rfl
  | approve env i m =>
    simp only [Call.exec]
    rcases approve_request_after env s i m with h | ⟨r0, _, _, h | h⟩
    · rw [h]
      exact Or.inl rfl
    · rw [h]
      by_cases hk : buildContentRequestKey j = buildContentRequestKey i
      · rw [hk, getState_putState_same]
        exact Or.inr ⟨_, rfl⟩
      · rw [getState_putState_other s _ _ _ hk]
        exact Or.inl rfl
    · rw [h, getState_putState_other _ _ _ _ (hmk i)]
      by_cases hk : buildContentRequestKey j = buildContentRequestKey i
      · rw [hk, getState_putState_same]
        exact Or.inr ⟨_, rfl⟩
      · rw [getState_putState_other s _ _ _ hk]
        exact Or.inl rfl
  | reject env i m rs =>
    simp only [Call.exec]
    rcases reject_request_after env s i m rs with h | ⟨r0, _, h⟩
    · rw [h]
      exact Or.inl rfl
    · rw [h]
      by_cases hk : buildContentRequestKey j = buildContentRequestKey i
      · rw [hk, getState_putState_same]
        exact Or.inr ⟨_, rfl⟩
      · rw [getState_putState_other s _ _ _ hk]
        exact Or.inl rfl

/-- C10. No transition deletes a ContentRequest: for every store and every call of
`SubmitContentRequest`, `ApproveContentRequest` or `RejectContentRequest`, every key present
before the call is present after it, and a key `ContentRequest:j` that held a decodable
request still holds one; and after a successful `RejectContentRequest` the point lookup on
the catalog ID (its ledger read succeeding) returns the request, with status `rejected`. -/
theorem no_transition_deletes_request :
    (∀ (c : Call) (s : Store Doc) (k : String),
      (getState s k).isSome = true → (getState (c.exec s).store k).isSome = true) ∧
    (∀ (c : Call) (s : Store Doc) (j : String) (d : Doc) (r : ContentRequest),
      getState s (buildContentRequestKey j) = some d → unmarshalContentRequest d = some r →
      ∃ d2 r2, getState (c.exec s).store (buildContentRequestKey j) = some d2 ∧
        unmarshalContentRequest d2 = some r2) ∧
    (∀ (env env2 : Env) (s : Store Doc) (imdbID moderatorID rejectionReason : String),
      (RejectContentRequest env s imdbID moderatorID rejectionReason).response.Success =
        true →
      env2.getStateErr (buildContentRequestKey imdbID) = none →
      ∃ r2, getContentRequestByIMDBID env2
          (RejectContentRequest env s imdbID moderatorID rejectionReason).store imdbID =
          Except.ok r2 ∧
        r2.Status = StatusRejected ∧ r2.RejectionReason = rejectionReason) := by
  refine ⟨exec_keeps_keys, ?_, ?_⟩
  · intro c s j d r hd hr
    rcases exec_request_doc_after c s j with h | ⟨r2, h⟩
    · exact ⟨d, r, by rw [h, hd], hr⟩
    · exact ⟨_, r2, h, rfl⟩
  · intro env env2 s imdbID moderatorID rejectionReason h hread
    obtain ⟨r, hl, _⟩ := reject_success_inv env s imdbID moderatorID rejectionReason h
    have hst := reject_success_request env s imdbID moderatorID rejectionReason r hl h
    exact ⟨_, lookup_ok_of_stored env2 _ imdbID _ _ hread hst rfl, rfl, rfl⟩

theorem no_transition_deletes_request_witness :
    ∃ r2, getContentRequestByIMDBID (plainEnv "tx3" "2024-01-03T00:00:00Z" "u3")
        (RejectContentRequest (plainEnv "tx2" "2024-01-02T00:00:00Z" "u2")
          (SubmitContentRequest (plainEnv "tx1" "2024-01-01T00:00:00Z" "u1") [] "tt1375666"
            "Inception" "Nolan" "2010" "" "" "alice" "" "QmHash").store
          "tt1375666" "mod1" "not a movie").store "tt1375666" = Except.ok r2 ∧
      r2.Status = StatusRejected ∧ r2.RejectionReason = "not a movie" :=
  no_transition_deletes_request.2.2 (plainEnv "tx2" "2024-01-02T00:00:00Z" "u2")
    (plainEnv "tx3" "2024-01-03T00:00:00Z" "u3")
    (SubmitContentRequest (plainEnv "tx1" "2024-01-01T00:00:00Z" "u1") [] "tt1375666"
      "Inception" "Nolan" "2010" "" "" "alice" "" "QmHash").store
    "tt1375666" "mod1" "not a movie" (by decide) rfl

/-! ## Terminal states -/

/-- C7, as stated, fails: on the store left by Submit then Approve the request at
`tt1375666` has status `approved`, and `RejectContentRequest` on it succeeds and stores it
with status `rejected`. -/
theorem approved_not_terminal_under_reject :
    (∃ r, getState approvedStore (buildContentRequestKey "tt1375666") =
        some (Doc.request r) ∧ r.Status = StatusApproved) ∧
    (RejectContentRequest tx3Env approvedStore
      "tt1375666" "mod2" "withdrawn").response.Success = true ∧
    (∃ r2, getState (RejectContentRequest tx3Env
        approvedStore "tt1375666" "mod2" "withdrawn").store
        (buildContentRequestKey "tt1375666") = some (Doc.request r2) ∧
      r2.Status = StatusRejected ∧ r2.Status ≠ StatusApproved) :=
  ⟨⟨approvedRequest tx2Env inceptionRequest "mod1", by decide, by decide⟩, by decide,
    ⟨rejectedRequest tx3Env (approvedRequest tx2Env inceptionRequest "mod1") "mod2"
      "withdrawn", by decide, by decide, by decide⟩⟩

/-- C7, amended. When the ContentRequest stored at catalog ID `i` has status `approved`,
`ApproveContentRequest` and `SubmitContentRequest` on any catalog ID and
`RejectContentRequest` on any other catalog ID leave the document at `ContentRequest:i` as
it is, status `approved`; `RejectContentRequest` on `i` has no guard on the status and,
its ledger read and write succeeding, succeeds and stores the request with status
`rejected`. -/
theorem approved_status_after_call (s : Store Doc) (i : String) (d : Doc)
    (r : ContentRequest) (hd : getState s (buildContentRequestKey i) = some d)
    (hr : unmarshalContentRequest d = some r) (hs : r.Status = StatusApproved) :
    (∀ (env : Env) (j m : String),
      getState (ApproveContentRequest env s j m).store (buildContentRequestKey i) = some d) ∧
    (∀ (env : Env) (j t dr y g ds su n th : String),
      getState (SubmitContentRequest env s j t dr y g ds su n th).store
        (buildContentRequestKey i) = some d) ∧
    (∀ (env : Env) (j m rs : String), j ≠ i →
      getState (RejectContentRequest env s j m rs).store (buildContentRequestKey i) =
        some d) ∧
    (∀ (env : Env) (m rs : String),
      env.getStateErr (buildContentRequestKey i) = none →
      env.putStateErr (buildContentRequestKey i) = none →
      (RejectContentRequest env s i m rs).response.Success = true ∧
      ∃ r2, getState (RejectContentRequest env s i m rs).store (buildContentRequestKey i) =
          some (Doc.request r2) ∧ r2.Status = StatusRejected) := by
  refine ⟨?_, ?_, ?_, ?_⟩
  · intro env j m
    rcases approve_request_after env s j m with h | ⟨r0, hl, hne, h⟩
    · rw [h, hd]
    · have hij : buildContentRequestKey i ≠ buildContentRequestKey j := by
        intro hk
        have hji : i = j := buildContentRequestKey_injective i j hk
        subst hji
        obtain ⟨_, d0, hd0, hr0⟩ := stored_of_lookup_ok env s i r0 hl
        have h0 : r0 = r := stored_request_unique s _ d d0 r r0 hd hr hd0 hr0
        exact hne (by rw [h0, hs])
      rcases h with h | h
      · rw [h, getState_putState_other s _ _ _ hij, hd]
      · rw [h, getState_putState_other _ _ _ _ (buildContentRequestKey_ne_buildMovieKey i j),
          getState_putState_other s _ _ _ hij, hd]
  · intro env j t dr y g ds su n th
    rcases submit_request_after env s j t dr y g ds su n th with h | ⟨habs, h⟩
    · rw [h, hd]
    · have hij : buildContentRequestKey i ≠ buildContentRequestKey j := by
        intro hk
        rw [hk, habs] at hd
        exact absurd hd (by simp)
      rw [h, getState_putState_other s _ _ _ hij, hd]
  · intro env j m rs hji
    rcases reject_request_after env s j m rs with h | ⟨r0, _, h⟩
    · rw [h, hd]
    · have hij : buildContentRequestKey i ≠ buildContentRequestKey j :=
        fun hk => hji (buildContentRequestKey_injective i j hk).symm
      rw [h, getState_putState_other s _ _ _ hij, hd]
  · intro env m rs hread hwrite
    have hl := lookup_ok_of_stored env s i d r hread hd hr
    obtain ⟨h1, h2, _⟩ := reject_of_write_ok env s i m rs r hl hwrite
    refine ⟨h1, rejectedRequest env r m rs, ?_, rfl⟩
    rw [h2, getState_putState_same]

theorem approved_status_after_call_witness :
    getState (ApproveContentRequest tx3Env approvedStore "tt1375666" "mod2").store
        (buildContentRequestKey "tt1375666") =
      some (Doc.request (approvedRequest tx2Env inceptionRequest "mod1")) :=
  (approved_status_after_call approvedStore "tt1375666"
    (Doc.request (approvedRequest tx2Env inceptionRequest "mod1"))
    (approvedRequest tx2Env inceptionRequest "mod1") (by decide) rfl rfl).1
    tx3Env "tt1375666" "mod2"

/-- C8, as stated, fails: on the store left by Submit then Reject the request at
`tt1375666` has status `rejected` and there is no Movie; `ApproveContentRequest` on it
succeeds, stores the request with status `approved` and writes a Movie at
`Movie:tt1375666`. -/
theorem rejected_not_terminal_under_approve :
    (∃ r, getState rejectedStore (buildContentRequestKey "tt1375666") =
        some (Doc.request r) ∧ r.Status = StatusRejected) ∧
    getState rejectedStore (buildMovieKey "tt1375666") = none ∧
    (ApproveContentRequest tx3Env rejectedStore "tt1375666" "mod2").response.Success = true ∧
    (∃ r2, getState (ApproveContentRequest tx3Env rejectedStore "tt1375666" "mod2").store
        (buildContentRequestKey "tt1375666") = some (Doc.request r2) ∧
      r2.Status = StatusApproved) ∧
    (∃ m, getState (ApproveContentRequest tx3Env rejectedStore "tt1375666" "mod2").store
        (buildMovieKey "tt1375666") = some (Doc.movie m)) :=
  ⟨⟨rejectedRequest tx2Env inceptionRequest "mod1" "not a movie", by decide, by decide⟩,
    by decide, by decide,
    ⟨approvedRequest tx3Env (rejectedRequest tx2Env inceptionRequest "mod1" "not a movie")
      "mod2", by decide, by decide⟩,
    ⟨approvedMovie tx3Env
      (approvedRequest tx3Env (rejectedRequest tx2Env inceptionRequest "mod1" "not a movie")
        "mod2") "tt1375666" "mod2", by decide⟩⟩

/-- C8, amended. When the ContentRequest stored at catalog ID `i` has status `rejected`,
`ApproveContentRequest` on `i` (its ledger read and writes succeeding) succeeds, moves the
request to `approved` and writes a Movie at `Movie:i`: the only guard of approval is
"not already approved". `RejectContentRequest` on `i` (its ledger read and write
succeeding) leaves the status `rejected` while re-stamping reviewer, time and reason. -/
theorem rejected_status_after_call (s : Store Doc) (i : String) (d : Doc)
    (r : ContentRequest) (hd : getState s (buildContentRequestKey i) = some d)
    (hr : unmarshalContentRequest d = some r) (hs : r.Status = StatusRejected) :
    (∀ (env : Env) (m : String),
      env.getStateErr (buildContentRequestKey i) = none →
      env.putStateErr (buildContentRequestKey i) = none →
      env.putStateErr (buildMovieKey i) = none →
      (ApproveContentRequest env s i m).response.Success = true ∧
      (∃ r2, getState (ApproveContentRequest env s i m).store (buildContentRequestKey i) =
          some (Doc.request r2) ∧ r2.Status = StatusApproved) ∧
      (∃ mv, getState (ApproveContentRequest env s i m).store (buildMovieKey i) =
          some (Doc.movie mv) ∧ mv.IMDB = i ∧ mv.Title = r.Title)) ∧
    (∀ (env : Env) (m rs : String),
      env.getStateErr (buildContentRequestKey i) = none →
      env.putStateErr (buildContentRequestKey i) = none →
      (RejectContentRequest env s i m rs).response.Success = true ∧
      (∃ r2, getState (RejectContentRequest env s i m rs).store (buildContentRequestKey i) =
          some (Doc.request r2) ∧ r2.Status = StatusRejected ∧ r2.ReviewedBy = m ∧
        r2.ReviewedAt = env.now ∧ r2.RejectionReason = rs) ∧
      getState (RejectContentRequest env s i m rs).store (buildMovieKey i) =
        getState s (buildMovieKey i)) := by
  constructor
  · intro env m hread hw1 hw2
    have hl := lookup_ok_of_stored env s i d r hread hd hr
    have hne : r.Status ≠ StatusApproved := by
      rw [hs]
      decide
    obtain ⟨h1, _, _⟩ := approve_of_writes_ok env s i m r hl hne hw1 hw2
    obtain ⟨h2, h3⟩ := approve_success_request env s i m r hl h1
    exact ⟨h1, ⟨_, h2, rfl⟩, ⟨_, h3, rfl, rfl⟩⟩
  · intro env m rs hread hwrite
    have hl := lookup_ok_of_stored env s i d r hread hd hr
    obtain ⟨h1, h2, _⟩ := reject_of_write_ok env s i m rs r hl hwrite
    refine ⟨h1, ⟨rejectedRequest env r m rs, ?_, rfl, rfl, rfl, rfl⟩, ?_⟩
    · rw [h2, getState_putState_same]
    · rw [h2, getState_putState_other s _ _ _
        (Ne.symm (buildContentRequestKey_ne_buildMovieKey i i))]

theorem rejected_status_after_call_witness :
    (ApproveContentRequest tx3Env rejectedStore "tt1375666" "mod2").response.Success = true ∧
    (∃ r2, getState (ApproveContentRequest tx3Env rejectedStore "tt1375666" "mod2").store
        (buildContentRequestKey "tt1375666") = some (Doc.request r2) ∧
      r2.Status = StatusApproved) ∧
    (∃ mv, getState (ApproveContentRequest tx3Env rejectedStore "tt1375666" "mod2").store
        (buildMovieKey "tt1375666") = some (Doc.movie mv) ∧ mv.IMDB = "tt1375666" ∧
      mv.Title = (rejectedRequest tx2Env inceptionRequest "mod1" "not a movie").Title) :=
  (rejected_status_after_call rejectedStore "tt1375666"
    (Doc.request (rejectedRequest tx2Env inceptionRequest "mod1" "not a movie"))
    (rejectedRequest tx2Env inceptionRequest "mod1" "not a movie") (by decide) rfl rfl).1
    tx3Env "mod2" rfl rfl rfl

/-! ## The catalog entry created by approval -/

theorem submit_then_approve (env env2 : Env) (s : Store Doc)
    (imdbID title director releaseYearStr genresJSON description submitterID notes
      torrentHash moderatorID : String)
    (hid : isValidIMDBID imdbID = true) (ht : title ≠ "")
    (hlen : title.utf8ByteSize ≤ TitleMaxLength)
    (hg : genresJSON = "" ∨ (env.unmarshalGenres genresJSON).isSome = true)
    (habs : getState s (buildContentRequestKey imdbID) = none)
    (hread : env.getStateErr (buildContentRequestKey imdbID) = none)
    (hwrite : env.putStateErr (buildContentRequestKey imdbID) = none)
    (hread2 : env2.getStateErr (buildContentRequestKey imdbID) = none)
    (hwrite2 : env2.putStateErr (buildContentRequestKey imdbID) = none)
    (hwrite3 : env2.putStateErr (buildMovieKey imdbID) = none) :
    ∃ r m,
      getState (ApproveContentRequest env2
          (SubmitContentRequest env s imdbID title director releaseYearStr genresJSON
            description submitterID notes torrentHash).store imdbID moderatorID).store
        (buildContentRequestKey imdbID) = some (Doc.request r) ∧
      getState (ApproveContentRequest env2
          (SubmitContentRequest env s imdbID title director releaseYearStr genresJSON
            description submitterID notes torrentHash).store imdbID moderatorID).store
        (buildMovieKey imdbID) = some (Doc.movie m) ∧
      m.IMDB = imdbID ∧ r.IMDB = imdbID ∧ m.Title = title ∧ r.Title = title ∧
      r.Status = StatusApproved ∧ r.Version = 2 ∧
      r.TorrentHashes = [] ∧ m.TorrentHashes = [] := by
  have hv := submitValidationErrors_nil_of_valid env imdbID title genresJSON hid ht hlen hg
  have hl := lookup_not_found_of_absent env s imdbID hread habs
  obtain ⟨h1, _, _⟩ := submit_of_write_ok env s imdbID title director releaseYearStr
    genresJSON description submitterID notes torrentHash hv hl hwrite
  have hst := submit_success_request env s imdbID title director releaseYearStr genresJSON
    description submitterID notes torrentHash h1
  have hl2 := lookup_ok_of_stored env2 _ imdbID _ _ hread2 hst rfl
  have hne : (submittedRequest env imdbID title director releaseYearStr genresJSON
      description submitterID notes torrentHash).Status ≠ StatusApproved := by
    show StatusPendingReview ≠ StatusApproved
    decide
  obtain ⟨h2, _, _⟩ := approve_of_writes_ok env2 _ imdbID moderatorID _ hl2 hne hwrite2
    hwrite3
  obtain ⟨h3, h4⟩ := approve_success_request env2 _ imdbID moderatorID _ hl2 h2
  refine ⟨_, _, h3, h4, rfl, rfl, rfl, rfl, rfl, ?_, rfl, rfl⟩
  show wrapInt64 (1 + 1) = 2
  decide

/-- C1: for a valid catalog ID with no request on record and a non-empty title of at most
500 bytes, when the ledger calls succeed, `SubmitContentRequest` followed by
`ApproveContentRequest` both succeed; the approval writes the request and exactly one
Movie, at `Movie:i`; the store then holds the rewritten request at `ContentRequest:i` and
that Movie at `Movie:i`, every other key keeping its value; and the Movie's catalog ID,
title and content-location map equal those of the stored request. -/
theorem submit_approve_catalog_entry (env env2 : Env) (s : Store Doc)
    (imdbID title director releaseYearStr genresJSON description submitterID notes
      torrentHash moderatorID : String)
    (hid : isValidIMDBID imdbID = true) (ht : title ≠ "")
    (hlen : title.utf8ByteSize ≤ TitleMaxLength)
    (hg : genresJSON = "" ∨ (env.unmarshalGenres genresJSON).isSome = true)
    (habs : getState s (buildContentRequestKey imdbID) = none)
    (hread : env.getStateErr (buildContentRequestKey imdbID) = none)
    (hwrite : env.putStateErr (buildContentRequestKey imdbID) = none)
    (hread2 : env2.getStateErr (buildContentRequestKey imdbID) = none)
    (hwrite2 : env2.putStateErr (buildContentRequestKey imdbID) = none)
    (hwrite3 : env2.putStateErr (buildMovieKey imdbID) = none) :
    (SubmitContentRequest env s imdbID title director releaseYearStr genresJSON
      description submitterID notes torrentHash).response.Success = true ∧
    (ApproveContentRequest env2
      (SubmitContentRequest env s imdbID title director releaseYearStr genresJSON
        description submitterID notes torrentHash).store imdbID
      moderatorID).response.Success = true ∧
    ∃ r m,
      (ApproveContentRequest env2
          (SubmitContentRequest env s imdbID title director releaseYearStr genresJSON
            description submitterID notes torrentHash).store imdbID moderatorID).writes =
        [(buildContentRequestKey imdbID, Doc.request r),
         (buildMovieKey imdbID, Doc.movie m)] ∧
      getState (ApproveContentRequest env2
          (SubmitContentRequest env s imdbID title director releaseYearStr genresJSON
            description submitterID notes torrentHash).store imdbID moderatorID).store
        (buildContentRequestKey imdbID) = some (Doc.request r) ∧
      getState (ApproveContentRequest env2
          (SubmitContentRequest env s imdbID title director releaseYearStr genresJSON
            description submitterID notes torrentHash).store imdbID moderatorID).store
        (buildMovieKey imdbID) = some (Doc.movie m) ∧
      (∀ k, k ≠ buildContentRequestKey imdbID → k ≠ buildMovieKey imdbID →
        getState (ApproveContentRequest env2
            (SubmitContentRequest env s imdbID title director releaseYearStr genresJSON
              description submitterID notes torrentHash).store imdbID moderatorID).store
          k = getState s k) ∧
      r.IMDB = imdbID ∧ r.Title = title ∧
      m.IMDB = r.IMDB ∧ m.Title = r.Title ∧ m.TorrentHashes = r.TorrentHashes := by
  have hv := submitValidationErrors_nil_of_valid env imdbID title genresJSON hid ht hlen hg
  have hl := lookup_not_found_of_absent env s imdbID hread habs
  obtain ⟨h1, hs1, _⟩ := submit_of_write_ok env s imdbID title director releaseYearStr
    genresJSON description submitterID notes torrentHash hv hl hwrite
  have hst := submit_success_request env s imdbID title director releaseYearStr genresJSON
    description submitterID notes torrentHash h1
  have hl2 := lookup_ok_of_stored env2 _ imdbID _ _ hread2 hst rfl
  have hne : (submittedRequest env imdbID title director releaseYearStr genresJSON
      description submitterID notes torrentHash).Status ≠ StatusApproved := by
    show StatusPendingReview ≠ StatusApproved
    decide
  obtain ⟨h2, hs2, hw⟩ := approve_of_writes_ok env2 _ imdbID moderatorID _ hl2 hne hwrite2
    hwrite3
  obtain ⟨h3, h4⟩ := approve_success_request env2 _ imdbID moderatorID _ hl2 h2
  refine ⟨h1, h2, _, _, hw, h3, h4, ?_, rfl, rfl, rfl, rfl, rfl⟩
  intro k hk1 hk2
  rw [hs2, getState_putState_other _ _ _ _ hk2, getState_putState_other _ _ _ _ hk1, hs1,
    getState_putState_other _ _ _ _ hk1]

theorem submit_approve_catalog_entry_witness :
    keys approvedStore = ["ContentRequest:tt1375666", "Movie:tt1375666"] ∧
    ∃ r m,
      getState approvedStore (buildContentRequestKey "tt1375666") = some (Doc.request r) ∧
      getState approvedStore (buildMovieKey "tt1375666") = some (Doc.movie m) ∧
      r.IMDB = "tt1375666" ∧ r.Title = "Inception" ∧
      m.IMDB = r.IMDB ∧ m.Title = r.Title ∧ m.TorrentHashes = r.TorrentHashes := by
  refine ⟨by decide, ?_⟩
  obtain ⟨_, _, r, m, _, h1, h2, _, h3, h4, h5, h6, h7⟩ :=
    submit_approve_catalog_entry tx1Env tx2Env [] "tt1375666" "Inception" "Nolan" "2010" ""
      "" "alice" "" "QmHash" "mod1" (by decide) (by decide) (by decide) (Or.inl rfl) rfl rfl
      rfl rfl rfl rfl
  exact ⟨r, m, h1, h2, h3, h4, h5, h6, h7⟩

/-! ## Writes of the Movie key -/

/-- C9, evaluated at Submit, Approve, Reject, Approve on `tt1375666` from the empty store:
the key `Movie:tt1375666` is written twice, and the Movie stored by the first approval is
overwritten by a different one (new movie ID, approver and timestamps). -/
theorem movie_overwritten_after_reapproval :
    ((writesOfCalls []
        [Call.submit tx1Env "tt1375666" "Inception" "Nolan" "2010" "" "" "alice" "" "QmHash",
         Call.approve tx2Env "tt1375666" "mod1",
         Call.reject tx3Env "tt1375666" "mod2" "withdrawn",
         Call.approve tx4Env "tt1375666" "mod3"]).filter
      (fun w => decide (w.1 = buildMovieKey "tt1375666"))).length = 2 ∧
    (∃ m1 m2,
      getState approvedStore (buildMovieKey "tt1375666") = some (Doc.movie m1) ∧
      getState (runCalls approvedStore
          [Call.reject tx3Env "tt1375666" "mod2" "withdrawn",
           Call.approve tx4Env "tt1375666" "mod3"]) (buildMovieKey "tt1375666") =
        some (Doc.movie m2) ∧
      m1.MovieID = "u2" ∧ m2.MovieID = "u4" ∧ m1.ApprovedBy = "mod1" ∧
      m2.ApprovedBy = "mod3" ∧ m1 ≠ m2) :=
  ⟨by decide,
    approvedMovie tx2Env (approvedRequest tx2Env inceptionRequest "mod1") "tt1375666" "mod1",
    approvedMovie tx4Env
      (approvedRequest tx4Env
        (rejectedRequest tx3Env (approvedRequest tx2Env inceptionRequest "mod1") "mod2"
          "withdrawn") "mod3") "tt1375666" "mod3",
    by decide, by decide, by decide, by decide, by decide, by decide, by decide⟩

/-! ## Reachable statuses -/

theorem reviewedWithin_mono (n : Nat) (r : ContentRequest) (h : ReviewedWithin n r) :
    ReviewedWithin (n + 1) r := by
  obtain ⟨h1, h2, h3, h4⟩ := h
  refine ⟨h1, h2, ?_, h4⟩
  push_cast
  omega

theorem reviewedWithin_submitted (env : Env) (n : Nat)
    (i t dr y g ds su nt th : String) :
    ReviewedWithin n (submittedRequest env i t dr y g ds su nt th) := by
  refine ⟨Or.inl rfl, ?_, ?_, ?_⟩
  · show (1 : Int) ≤ 1
    omega
  · show (1 : Int) ≤ (n : Int) + 1
    omega
  · exact ⟨fun _ => rfl, fun _ => rfl⟩

theorem reviewedWithin_approved (env : Env) (n : Nat) (r : ContentRequest) (m : String)
    (h : ReviewedWithin n r) (hn : (n : Int) + 1 < maxInt64) :
    ReviewedWithin (n + 1) (approvedRequest env r m) := by
  obtain ⟨_, h2, h3, _⟩ := h
  have hmin : minInt64 ≤ r.Version := by
    unfold minInt64
    omega
  have hv : (approvedRequest env r m).Version = r.Version + 1 :=
    wrapInt64_succ r.Version hmin (by omega)
  have hs : (approvedRequest env r m).Status = StatusApproved := rfl
  refine ⟨Or.inr (Or.inl hs), ?_, ?_, ?_⟩
  · rw [hv]
    omega
  · rw [hv]
    push_cast
    omega
  · rw [hv, hs]
    constructor
    · intro hc
      exact absurd hc (by decide)
    · intro hc
      omega

theorem reviewedWithin_rejected (env : Env) (n : Nat) (r : ContentRequest) (m rs : String)
    (h : ReviewedWithin n r) (hn : (n : Int) + 1 < maxInt64) :
    ReviewedWithin (n + 1) (rejectedRequest env r m rs) := by
  obtain ⟨_, h2, h3, _⟩ := h
  have hmin : minInt64 ≤ r.Version := by
    unfold minInt64
    omega
  have hv : (rejectedRequest env r m rs).Version = r.Version + 1 :=
    wrapInt64_succ r.Version hmin (by omega)
  have hs : (rejectedRequest env r m rs).Status = StatusRejected := rfl
  refine ⟨Or.inr (Or.inr hs), ?_, ?_, ?_⟩
  · rw [hv]
    omega
  · rw [hv]
    push_cast
    omega
  · rw [hv, hs]
    constructor
    · intro hc
      exact absurd hc (by decide)
    · intro hc
      omega

theorem requestsReviewedWithin_exec (c : Call) (n : Nat) (s : Store Doc)
    (h : RequestsReviewedWithin n s) (hn : (n : Int) + 1 < maxInt64) :
    RequestsReviewedWithin (n + 1) (c.exec s).store := by
  have hold : ∀ (j : String) (d : Doc), getState s (buildContentRequestKey j) = some d →
      ∃ r, d = Doc.request r ∧ ReviewedWithin (n + 1) r := by
    intro j d hd
    obtain ⟨r, hr, hP⟩ := h j d hd
    exact ⟨r, hr, reviewedWithin_mono n r hP⟩
  have hfound : ∀ (env : Env) (i : String) (r0 : ContentRequest),
      getContentRequestByIMDBID env s i = Except.ok r0 → ReviewedWithin n r0 := by
    intro env i r0 hl
    obtain ⟨_, d0, hd0, hr0⟩ := stored_of_lookup_ok env s i r0 hl
    obtain ⟨r, hr, hP⟩ := h i d0 hd0
    subst hr
    have : r0 = r := (Option.some.inj hr0).symm
    rw [this]
    exact hP
  intro j d hd
  have hmk : ∀ i, buildContentRequestKey j ≠ buildMovieKey i :=
    fun i => buildContentRequestKey_ne_buildMovieKey j i
  cases c with
  | submit env i t dr y g ds su nt th =>
    simp only [Call.exec] at hd
    rcases submit_request_after env s i t dr y g ds su nt th with hs | ⟨_, hs⟩
    · rw [hs] at hd
      exact hold j d hd
    · rw [hs] at hd
      by_cases hk : buildContentRequestKey j = buildContentRequestKey i
      · rw [hk, getState_putState_same] at hd
        exact ⟨_, (Option.some.inj hd).symm, reviewedWithin_submitted env (n + 1) _ _ _ _ _ _ _ _ _⟩
      · rw [getState_putState_other s _ _ _ hk] at hd
        exact hold j d hd
  | approve env i m =>
    simp only [Call.exec] at hd
    rcases approve_request_after env s i m with hs | ⟨r0, hl, _, hs⟩
    · rw [hs] at hd
      exact hold j d hd
    · have hd3 : getState (putState s (buildContentRequestKey i)
          (Doc.request (approvedRequest env r0 m))) (buildContentRequestKey j) = some d := by
        rcases hs with hs | hs
        · rw [hs] at hd
          exact hd
        · rw [hs, getState_putState_other _ _ _ _ (hmk i)] at hd
          exact hd
      by_cases hk : buildContentRequestKey j = buildContentRequestKey i
      · rw [hk, getState_putState_same] at hd3
        exact ⟨_, (Option.some.inj hd3).symm,
          reviewedWithin_approved env n r0 m (hfound env i r0 hl) hn⟩
      · rw [getState_putState_other s _ _ _ hk] at hd3
        exact hold j d hd3
  | reject env i m rs =>
    simp only [Call.exec] at hd
    rcases reject_request_after env s i m rs with hs | ⟨r0, hl, hs⟩
    · rw [hs] at hd
      exact hold j d hd
    · rw [hs] at hd
      by_cases hk : buildContentRequestKey j = buildContentRequestKey i
      · rw [hk, getState_putState_same] at hd
        exact ⟨_, (Option.some.inj hd).symm,
          reviewedWithin_rejected env n r0 m rs (hfound env i r0 hl) hn⟩
      · rw [getState_putState_other s _ _ _ hk] at hd
        exact hold j d hd

theorem requestsReviewedWithin_runCalls (calls : List Call) (n : Nat) (s : Store Doc)
    (h : RequestsReviewedWithin n s) (hn : ((n + calls.length : Nat) : Int) < maxInt64) :
    RequestsReviewedWithin (n + calls.length) (runCalls s calls) := by
  induction calls generalizing n s with
  | nil => simpa [runCalls] using h
  | cons c cs ih =>
    simp only [List.length_cons] at hn ⊢
    have hstep := requestsReviewedWithin_exec c n s h (by push_cast at hn ⊢; omega)
    have := ih (n + 1) (c.exec s).store hstep (by
      have : n + 1 + cs.length = n + (cs.length + 1) := by omega
      rw [this]
      exact hn)
    have e : n + 1 + cs.length = n + (cs.length + 1) := by omega
    rw [e] at this
    simpa [runCalls] using this

/-- C11. The status `in_progress` is unreachable: in the store reached from the empty store
by any sequence of `SubmitContentRequest`, `ApproveContentRequest` and
`RejectContentRequest` calls (fewer than 2^63 - 1 of them, so that no version wraps), every
document under a `ContentRequest:` key is a request whose status is `pending_review`,
`approved` or `rejected`, never `in_progress`, and the status is `pending_review` exactly
when the version is 1. -/
theorem in_progress_unreachable (calls : List Call) (j : String) (d : Doc)
    (hlen : (calls.length : Int) < maxInt64)
    (hd : getState (runCalls [] calls) (buildContentRequestKey j) = some d) :
    ∃ r, d = Doc.request r ∧ unmarshalContentRequest d = some r ∧
      (r.Status = StatusPendingReview ∨ r.Status = StatusApproved ∨
        r.Status = StatusRejected) ∧
      r.Status ≠ StatusInProgress ∧
      (r.Status = StatusPendingReview ↔ r.Version = 1) := by
  have h0 : RequestsReviewedWithin 0 [] := by
    intro j d hd
    simp [getState] at hd
  have h := requestsReviewedWithin_runCalls calls 0 [] h0 (by simpa using hlen)
  obtain ⟨r, hr, hs, _, _, hv⟩ := h j d hd
  subst hr
  refine ⟨r, rfl, rfl, hs, ?_, hv⟩
  rcases hs with hs | hs | hs <;> rw [hs] <;> decide

theorem in_progress_unreachable_witness :
    ∃ r, Doc.request (rejectedRequest tx2Env inceptionRequest "mod1" "not a movie") =
        Doc.request r ∧
      unmarshalContentRequest
        (Doc.request (rejectedRequest tx2Env inceptionRequest "mod1" "not a movie")) =
        some r ∧
      (r.Status = StatusPendingReview ∨ r.Status = StatusApproved ∨
        r.Status = StatusRejected) ∧
      r.Status ≠ StatusInProgress ∧
      (r.Status = StatusPendingReview ↔ r.Version = 1) :=
  in_progress_unreachable
    [Call.submit tx1Env "tt1375666" "Inception" "Nolan" "2010" "" "" "alice" "" "QmHash",
     Call.reject tx2Env "tt1375666" "mod1" "not a movie"]
    "tt1375666" (Doc.request (rejectedRequest tx2Env inceptionRequest "mod1" "not a movie"))
    (by decide) (by decide)

/-! ## Ratings: the upsert -/

theorem keys_putState_of_isSome {β : Type} (s : Store β) (key : String) (v : β)
    (h : (getState s key).isSome = true) : keys (putState s key v) = keys s := by
  cases hg : getState s key with
  | none => simp [hg] at h
  | some w => exact keys_putState_of_present s key v w hg

theorem mem_putState {β : Type} (s : Store β) (key : String) (v : β) (kv : String × β)
    (h : kv ∈ putState s key v) : kv ∈ s ∨ kv = (key, v) := by
  induction s with
  | nil =>
    simp only [putState, List.mem_singleton] at h
    exact Or.inr h
  | cons x rest ih =>
    obtain ⟨k, w⟩ := x
    by_cases hk : k = key
    · simp only [putState, hk, if_true, List.mem_cons] at h
      rcases h with h | h
      · exact Or.inr h
      · exact Or.inl (List.mem_cons_of_mem _ h)
    · simp only [putState, hk, if_false, List.mem_cons] at h
      rcases h with h | h
      · exact Or.inl (by rw [h]; exact List.mem_cons_self _ _)
      · rcases ih h with h2 | h2
        · exact Or.inl (List.mem_cons_of_mem _ h2)
        · exact Or.inr h2

theorem length_putState_le {β : Type} (s : Store β) (key : String) (v : β) :
    (putState s key v).length ≤ s.length + 1 := by
  induction s with
  | nil => simp [putState]
  | cons x rest ih =>
    obtain ⟨k, w⟩ := x
    by_cases hk : k = key
    · simp [putState, hk]
    · simp only [putState, hk, if_false, List.length_cons]
      omega

theorem getRating_of_stored (env : StubEnv) (s : Store (Stored Rating))
    (ratingID entryID : String) (r : Rating) (h1 : ratingID ≠ "") (h2 : entryID ≠ "")
    (hread : env.getStateErr (ratingKey ratingID entryID) = none)
    (hs : getState s (ratingKey ratingID entryID) = some (Stored.record r)) :
    GetRating env s ratingID entryID = Except.ok r := by
  simp [GetRating, h1, h2, stubGetState, hread, hs, Stored.unmarshal]

/-- C12. `SubmitRating` is an upsert by (ratingID, entryID): when the store holds a decodable
rating at that composite key, a valid `SubmitRating` with the same two IDs and a score between
1 and 5 (its ledger write succeeding) returns no error and adds no key to the store, so the
number of records at that key is what it was; afterwards `GetRating` (its read succeeding)
returns one record, active, whose score and review are the submitted ones. -/
theorem SubmitRating_upsert (env env2 : StubEnv) (s : Store (Stored Rating))
    (ratingID entryID repoName rater ratingStr : String) (rest : List String)
    (bytes : Stored Rating) (old : Rating) (score : Int)
    (hstored : getState s (ratingKey ratingID entryID) = some bytes)
    (hold : bytes.unmarshal = some old)
    (hargs : ratingID ≠ "" ∧ entryID ≠ "" ∧ repoName ≠ "" ∧ rater ≠ "")
    (hscore : env.atoi ratingStr = some score) (hlo : 1 ≤ score) (hhi : score ≤ 5)
    (hwrite : stubPutStateErr env (ratingKey ratingID entryID) = none)
    (hread2 : env2.getStateErr (ratingKey ratingID entryID) = none) :
    (SubmitRating env s (ratingID :: entryID :: repoName :: rater :: ratingStr :: rest)).err =
      none ∧
    keys (SubmitRating env s
      (ratingID :: entryID :: repoName :: rater :: ratingStr :: rest)).store = keys s ∧
    (keys (SubmitRating env s
      (ratingID :: entryID :: repoName :: rater :: ratingStr :: rest)).store).count
        (ratingKey ratingID entryID) = (keys s).count (ratingKey ratingID entryID) ∧
    ∃ r, GetRating env2 (SubmitRating env s
        (ratingID :: entryID :: repoName :: rater :: ratingStr :: rest)).store
        ratingID entryID = Except.ok r ∧
      r.Status = "active" ∧ r.Rating = score ∧ r.Review = rest.headD "" := by
  obtain ⟨h1, h2, h3, h4⟩ := hargs
  have hrange : ¬ (score < 1 ∨ score > 5) := by omega
  have hsome : (getState s (ratingKey ratingID entryID)).isSome = true := by simp [hstored]
  have hrev : (match rest with
      | r :: _ => if r ≠ "" then r else ""
      | [] => "") = rest.headD "" := by
    cases rest with
    | nil => rfl
    | cons r tl =>
      by_cases hr : r = ""
      · simp [hr]
      · simp [hr]
  cases hg : env.getStateErr (ratingKey ratingID entryID) with
  | none =>
    have hout : SubmitRating env s
        (ratingID :: entryID :: repoName :: rater :: ratingStr :: rest) =
        { err := none,
          writes := [(ratingKey ratingID entryID, Stored.record { old with
            Rating := score, Review := rest.headD "", UpdatedAt := env.now,
            Status := "active" })],
          store := putState s (ratingKey ratingID entryID) (Stored.record { old with
            Rating := score, Review := rest.headD "", UpdatedAt := env.now,
            Status := "active" }),
          event := some ("RatingUpdated", Stored.record { old with
            Rating := score, Review := rest.headD "", UpdatedAt := env.now,
            Status := "active" }) } := by
      simp only [SubmitRating, h1, h2, h3, h4, or_self, if_false, hscore, hrange,
        stubGetState, hg, hstored, hold, hwrite, hrev, Option.isSome_some, if_true]
    rw [hout]
    have hk := keys_putState_of_isSome s (ratingKey ratingID entryID)
      (Stored.record { old with
        Rating := score, Review := rest.headD "", UpdatedAt := env.now,
        Status := "active" }) hsome
    refine ⟨rfl, hk, by rw [hk], _, getRating_of_stored env2 _ ratingID entryID _ h1 h2 hread2
      (getState_putState_same _ _ _), rfl, rfl, rfl⟩
  | some e =>
    have hout : SubmitRating env s
        (ratingID :: entryID :: repoName :: rater :: ratingStr :: rest) =
        { err := none,
          writes := [(ratingKey ratingID entryID, Stored.record
            { ID := ratingID, EntryID := entryID, RepoName := repoName, Rater := rater,
              Rating := score, Review := rest.headD "", CreatedAt := env.now,
              UpdatedAt := env.now, Status := "active" })],
          store := putState s (ratingKey ratingID entryID) (Stored.record
            { ID := ratingID, EntryID := entryID, RepoName := repoName, Rater := rater,
              Rating := score, Review := rest.headD "", CreatedAt := env.now,
              UpdatedAt := env.now, Status := "active" }),
          event := some ("RatingSubmitted", Stored.record
            { ID := ratingID, EntryID := entryID, RepoName := repoName, Rater := rater,
              Rating := score, Review := rest.headD "", CreatedAt := env.now,
              UpdatedAt := env.now, Status := "active" }) } := by
      simp only [SubmitRating, h1, h2, h3, h4, or_self, if_false, hscore, hrange,
        stubGetState, hg, hwrite, hrev, Option.isSome_none, Bool.false_eq_true]
    rw [hout]
    have hk := keys_putState_of_isSome s (ratingKey ratingID entryID)
      (Stored.record
        { ID := ratingID, EntryID := entryID, RepoName := repoName, Rater := rater,
          Rating := score, Review := rest.headD "", CreatedAt := env.now,
          UpdatedAt := env.now, Status := "active" }) hsome
    refine ⟨rfl, hk, by rw [hk], _, getRating_of_stored env2 _ ratingID entryID _ h1 h2 hread2
      (getState_putState_same _ _ _), rfl, rfl, rfl⟩

theorem SubmitRating_upsert_witness :
    keys (SubmitRating ratingEnv oneRatingStore
      ("r1" :: "E1" :: "repo" :: "alice" :: "4" :: ["better"])).store = keys oneRatingStore :=
  (SubmitRating_upsert ratingEnv ratingEnv oneRatingStore "r1" "E1" "repo" "alice" "4"
    ["better"] (Stored.record (sampleRating "r1" "E1" 3)) (sampleRating "r1" "E1" 3) 4
    (by decide) rfl (by decide) (by decide) (by decide) (by decide) (by decide) rfl).2.1

/-! ## Ratings: average and distribution -/

theorem wrapInt64_add_wrap (a b : Int) : wrapInt64 (wrapInt64 a + b) = wrapInt64 (a + b) := by
  unfold wrapInt64
  omega

theorem wrapInt64_of_fits (v : Int) (h1 : minInt64 ≤ v) (h2 : v ≤ maxInt64) :
    wrapInt64 v = v := by
  unfold minInt64 at h1
  unfold maxInt64 at h2
  unfold wrapInt64
  omega

theorem foldl_totalRating (ratings : List Rating) (acc : Int) :
    ratings.foldl (fun total rating => wrapInt64 (total + rating.Rating)) (wrapInt64 acc) =
      wrapInt64 (acc + scoreSum ratings) := by
  induction ratings generalizing acc with
  | nil => simp [scoreSum]
  | cons r rest ih =>
    simp only [List.foldl_cons, scoreSum, List.map_cons, List.sum_cons]
    rw [wrapInt64_add_wrap, ih]
    simp only [scoreSum]
    congr 1
    omega

theorem totalRating_eq_wrap (ratings : List Rating) :
    totalRating ratings = wrapInt64 (scoreSum ratings) := by
  have h := foldl_totalRating ratings 0
  have h0 : wrapInt64 0 = 0 := by decide
  rw [h0] at h
  simpa [totalRating] using h

theorem totalRating_of_fits (ratings : List Rating) (h1 : minInt64 ≤ scoreSum ratings)
    (h2 : scoreSum ratings ≤ maxInt64) : totalRating ratings = scoreSum ratings := by
  rw [totalRating_eq_wrap, wrapInt64_of_fits _ h1 h2]

theorem getAverageRating_of_ratings (env : StubEnv) (s : Store (Stored Rating))
    (entryID : String) (ratings : List Rating)
    (h : GetEntryRatings env s entryID = Except.ok ratings) (hne : ratings ≠ [])
    (h1 : minInt64 ≤ scoreSum ratings) (h2 : scoreSum ratings ≤ maxInt64) :
    GetAverageRating env s entryID =
      Except.ok ((scoreSum ratings : Rat) / (ratings.length : Rat)) := by
  have hlen : ratings.length ≠ 0 := fun h0 => hne (List.length_eq_zero.1 h0)
  simp only [GetAverageRating, h, hlen, if_false, totalRating_of_fits ratings h1 h2]

/-- C13. For every store and entry E, when `GetEntryRatings(E)` returns a list of ratings,
`GetAverageRating(E)` of the ratings contract returns 0, without error, if the list is
empty, and otherwise the sum of their scores divided by their number (the sum fitting in
an `int`; the quotient is the exact one, which the `float64` division rounds); for active
scores 3 and 5 it is 4. An error of `GetEntryRatings` is returned as it is. -/
theorem GetAverageRating_is_mean (env : StubEnv) (s : Store (Stored Rating))
    (entryID : String) :
    (∀ ratings, GetEntryRatings env s entryID = Except.ok ratings → ratings = [] →
      GetAverageRating env s entryID = Except.ok 0) ∧
    (∀ ratings, GetEntryRatings env s entryID = Except.ok ratings → ratings ≠ [] →
      minInt64 ≤ scoreSum ratings → scoreSum ratings ≤ maxInt64 →
      GetAverageRating env s entryID =
        Except.ok ((scoreSum ratings : Rat) / (ratings.length : Rat))) ∧
    (∀ ratings, GetEntryRatings env s entryID = Except.ok ratings →
      ratings.map (fun r => r.Rating) = [3, 5] →
      GetAverageRating env s entryID = Except.ok 4) ∧
    (∀ e, GetEntryRatings env s entryID = Except.error e →
      GetAverageRating env s entryID = Except.error e) := by
  have hmean : ∀ ratings, GetEntryRatings env s entryID = Except.ok ratings → ratings ≠ [] →
      minInt64 ≤ scoreSum ratings → scoreSum ratings ≤ maxInt64 →
      GetAverageRating env s entryID =
        Except.ok ((scoreSum ratings : Rat) / (ratings.length : Rat)) := by
    intro ratings h hne h1 h2
    exact getAverageRating_of_ratings env s entryID ratings h hne h1 h2
  refine ⟨?_, hmean, ?_, ?_⟩
  · intro ratings h hnil
    subst hnil
    simp [GetAverageRating, h]
  · intro ratings h hscores
    have hsum : scoreSum ratings = 8 := by
      simp [scoreSum, hscores]
    have hlen : ratings.length = 2 := by
      have := congrArg List.length hscores
      simpa using this
    have hne : ratings ≠ [] := by
      intro h0
      rw [h0] at hlen
      simp at hlen
    rw [hmean ratings h hne (by rw [hsum]; decide) (by rw [hsum]; decide), hsum, hlen]
    norm_num
  · intro e h
    simp [GetAverageRating, h]

theorem GetAverageRating_is_mean_witness :
    GetAverageRating ratingEnv scannedPairStore "E1" = Except.ok 4 :=
  (GetAverageRating_is_mean ratingEnv scannedPairStore "E1").2.2.1
    [sampleRating "E1" "a" 3, sampleRating "E1" "b" 5] (by decide) (by decide)

theorem foldl_distribution (ratings : List Rating) (d : Distribution) :
    ratings.foldl (fun d rating => d.add rating.Rating) d =
      { star1 := d.star1 + scoreCount 1 ratings, stars2 := d.stars2 + scoreCount 2 ratings,
        stars3 := d.stars3 + scoreCount 3 ratings, stars4 := d.stars4 + scoreCount 4 ratings,
        stars5 := d.stars5 + scoreCount 5 ratings } := by
  induction ratings generalizing d with
  | nil => simp [scoreCount]
  | cons r rest ih =>
    simp only [List.foldl_cons]
    rw [ih]
    by_cases h1 : r.Rating = 1
    · simp [Distribution.add, scoreCount, h1]
      omega
    · by_cases h2 : r.Rating = 2
      · simp [Distribution.add, scoreCount, h2]
        omega
      · by_cases h3 : r.Rating = 3
        · simp [Distribution.add, scoreCount, h3]
          omega
        · by_cases h4 : r.Rating = 4
          · simp [Distribution.add, scoreCount, h4]
            omega
          · by_cases h5 : r.Rating = 5
            · simp [Distribution.add, scoreCount, h5]
              omega
            · simp [Distribution.add, scoreCount, h1, h2, h3, h4, h5]

/-- C14. For every store and entry E, when `GetEntryRatings(E)` returns a list of ratings,
`GetRatingDistribution(E)` returns a map of exactly five buckets, keyed `1_star`, `2_stars`,
`3_stars`, `4_stars`, `5_stars`, and the bucket of score k is the number of returned ratings
whose score is k; for active scores 1, 1, 3, 5, 5, 5 the buckets are 2, 0, 1, 0, 3. -/
theorem GetRatingDistribution_counts (env : StubEnv) (s : Store (Stored Rating))
    (entryID : String) :
    (∀ ratings, GetEntryRatings env s entryID = Except.ok ratings →
      ∃ d, GetRatingDistribution env s entryID = Except.ok d ∧
        d.toMap = [("1_star", scoreCount 1 ratings), ("2_stars", scoreCount 2 ratings),
          ("3_stars", scoreCount 3 ratings), ("4_stars", scoreCount 4 ratings),
          ("5_stars", scoreCount 5 ratings)] ∧
        d.toMap.length = 5) ∧
    (∀ ratings, GetEntryRatings env s entryID = Except.ok ratings →
      ratings.map (fun r => r.Rating) = [1, 1, 3, 5, 5, 5] →
      ∃ d, GetRatingDistribution env s entryID = Except.ok d ∧
        d.toMap = [("1_star", 2), ("2_stars", 0), ("3_stars", 1), ("4_stars", 0),
          ("5_stars", 3)]) := by
  have hcount : ∀ (k : Int) (ratings : List Rating),
      scoreCount k ratings = ((ratings.map (fun r => r.Rating)).filter
        (fun x => decide (x = k))).length := by
    intro k ratings
    induction ratings with
    | nil => rfl
    | cons r rest ih =>
      simp only [scoreCount] at ih
      by_cases h : r.Rating = k
      · simp [scoreCount, h, ih]
      · simp [scoreCount, h, ih]
  have hgen : ∀ ratings, GetEntryRatings env s entryID = Except.ok ratings →
      ∃ d, GetRatingDistribution env s entryID = Except.ok d ∧
        d.toMap = [("1_star", scoreCount 1 ratings), ("2_stars", scoreCount 2 ratings),
          ("3_stars", scoreCount 3 ratings), ("4_stars", scoreCount 4 ratings),
          ("5_stars", scoreCount 5 ratings)] ∧
        d.toMap.length = 5 := by
    intro ratings h
    refine ⟨ratings.foldl (fun d rating => d.add rating.Rating)
      { star1 := 0, stars2 := 0, stars3 := 0, stars4 := 0, stars5 := 0 }, ?_, ?_, rfl⟩
    · simp only [GetRatingDistribution, h]
    · rw [foldl_distribution]
      simp [Distribution.toMap]
  refine ⟨hgen, ?_⟩
  intro ratings h hscores
  obtain ⟨d, hd, hmap, _⟩ := hgen ratings h
  refine ⟨d, hd, ?_⟩
  rw [hmap, hcount 1, hcount 2, hcount 3, hcount 4, hcount 5, hscores]
  decide

theorem GetRatingDistribution_counts_witness :
    ∃ d, GetRatingDistribution ratingEnv scannedSixStore "E1" = Except.ok d ∧
      d.toMap = [("1_star", 2), ("2_stars", 0), ("3_stars", 1), ("4_stars", 0),
        ("5_stars", 3)] :=
  (GetRatingDistribution_counts ratingEnv scannedSixStore "E1").2
    [sampleRating "E1" "a" 1, sampleRating "E1" "b" 1, sampleRating "E1" "c" 3,
      sampleRating "E1" "d" 5, sampleRating "E1" "e" 5, sampleRating "E1" "f" 5]
    (by decide) (by decide)

/-! ## Ratings: scores stay between 1 and 5 -/

theorem mem_insertByKey {β : Type} (kv x : String × β) (l : List (String × β)) :
    x ∈ insertByKey kv l ↔ x = kv ∨ x ∈ l := by
  induction l with
  | nil => simp [insertByKey]
  | cons y rest ih =>
    by_cases h : keyLe y.1.data kv.1.data = true
    · simp only [insertByKey, h, if_true, List.mem_cons, ih]
      constructor
      · rintro (h1 | h1 | h1)
        · exact Or.inr (Or.inl h1)
        · exact Or.inl h1
        · exact Or.inr (Or.inr h1)
      · rintro (h1 | h1 | h1)
        · exact Or.inr (Or.inl h1)
        · exact Or.inl h1
        · exact Or.inr (Or.inr h1)
    · simp only [insertByKey, h, if_false, List.mem_cons, Bool.false_eq_true]

theorem length_insertByKey {β : Type} (kv : String × β) (l : List (String × β)) :
    (insertByKey kv l).length = l.length + 1 := by
  induction l with
  | nil => simp [insertByKey]
  | cons y rest ih =>
    by_cases h : keyLe y.1.data kv.1.data = true
    · simp [insertByKey, h, ih]
    · simp [insertByKey, h]

theorem mem_sortByKey {β : Type} (x : String × β) (l : List (String × β)) :
    x ∈ sortByKey l ↔ x ∈ l := by
  induction l with
  | nil => simp [sortByKey]
  | cons y rest ih => simp [sortByKey, mem_insertByKey, ih]

theorem length_sortByKey {β : Type} (l : List (String × β)) :
    (sortByKey l).length = l.length := by
  induction l with
  | nil => simp [sortByKey]
  | cons y rest ih => simp [sortByKey, length_insertByKey, ih]

theorem mem_scanByPrefix {β : Type} (s : Store β) (startKey : String) (x : String × β) :
    x ∈ scanByPrefix s startKey ↔ x ∈ s ∧ startKey.data.isPrefixOf x.1.data = true := by
  simp [scanByPrefix, mem_sortByKey, List.mem_filter]

theorem length_scanByPrefix_le {β : Type} (s : Store β) (startKey : String) :
    (scanByPrefix s startKey).length ≤ s.length := by
  simp only [scanByPrefix, length_sortByKey]
  exact List.length_filter_le _ _

theorem entryRatingsLoop_sound (env : StubEnv) (pairs : List (String × Stored Rating))
    (acc ratings : List Rating) (h : entryRatingsLoop env pairs acc = Except.ok ratings) :
    (∀ r ∈ ratings, r ∈ acc ∨ ∃ kv ∈ pairs, kv.2 = Stored.record r) ∧
    ratings.length ≤ acc.length + pairs.length := by
  induction pairs generalizing acc with
  | nil =>
    simp only [entryRatingsLoop] at h
    have : acc = ratings := Except.ok.inj h
    subst this
    exact ⟨fun r hr => Or.inl hr, by simp⟩
  | cons kv rest ih =>
    obtain ⟨key, value⟩ := kv
    simp only [entryRatingsLoop] at h
    cases hn : env.nextErr key with
    | some e => simp [hn] at h
    | none =>
      simp only [hn] at h
      cases value with
      | raw b =>
        simp only [Stored.unmarshal] at h
        obtain ⟨h1, h2⟩ := ih acc h
        refine ⟨fun r hr => ?_, by simp only [List.length_cons]; omega⟩
        rcases h1 r hr with h3 | ⟨x, hx, hx2⟩
        · exact Or.inl h3
        · exact Or.inr ⟨x, List.mem_cons_of_mem _ hx, hx2⟩
      | record rating =>
        simp only [Stored.unmarshal] at h
        by_cases hs : rating.Status = "active"
        · simp only [hs, if_true] at h
          obtain ⟨h1, h2⟩ := ih (acc ++ [rating]) h
          refine ⟨fun r hr => ?_, by simp only [List.length_cons, List.length_append,
            List.length_singleton, List.length_nil] at h2 ⊢; omega⟩
          rcases h1 r hr with h3 | ⟨x, hx, hx2⟩
          · rcases List.mem_append.1 h3 with h4 | h4
            · exact Or.inl h4
            · have : r = rating := by simpa using h4
              subst this
              exact Or.inr ⟨(key, Stored.record r), List.mem_cons_self _ _, rfl⟩
          · exact Or.inr ⟨x, List.mem_cons_of_mem _ hx, hx2⟩
        · simp only [hs, if_false] at h
          obtain ⟨h1, h2⟩ := ih acc h
          refine ⟨fun r hr => ?_, by simp only [List.length_cons]; omega⟩
          rcases h1 r hr with h3 | ⟨x, hx, hx2⟩
          · exact Or.inl h3
          · exact Or.inr ⟨x, List.mem_cons_of_mem _ hx, hx2⟩

theorem getEntryRatings_sound (env : StubEnv) (s : Store (Stored Rating))
    (entryID : String) (ratings : List Rating)
    (h : GetEntryRatings env s entryID = Except.ok ratings) :
    (∀ r ∈ ratings, ∃ kv ∈ s, kv.2 = Stored.record r) ∧ ratings.length ≤ s.length := by
  unfold GetEntryRatings at h
  split at h
  · simp at h
  · unfold getStateByPartialCompositeKey at h
    split at h
    · simp at h
    · rename_i pairs hp
      split at hp
      · simp at hp
      · rename_i startKey _
        split at hp
        · simp at hp
        · have hpairs : scanByPrefix s startKey = pairs := Except.ok.inj hp
          obtain ⟨h1, h2⟩ := entryRatingsLoop_sound env pairs [] ratings h
          constructor
          · intro r hr
            rcases h1 r hr with h3 | ⟨x, hx, hx2⟩
            · simp at h3
            · rw [← hpairs] at hx
              exact ⟨x, ((mem_scanByPrefix s startKey x).1 hx).1, hx2⟩
          · have := length_scanByPrefix_le s startKey
            rw [hpairs] at this
            simp only [List.length_nil] at h2
            omega

theorem mem_of_getState {β : Type} (s : Store β) (key : String) (v : β)
    (h : getState s key = some v) : (key, v) ∈ s := by
  induction s with
  | nil => simp [getState] at h
  | cons x rest ih =>
    obtain ⟨k, w⟩ := x
    by_cases hk : k = key
    · simp only [getState, hk, if_true] at h
      have : w = v := Option.some.inj h
      subst this
      subst hk
      exact List.mem_cons_self _ _
    · simp only [getState, hk, if_false] at h
      exact List.mem_cons_of_mem _ (ih h)

theorem submitRating_store (env : StubEnv) (s : Store (Stored Rating)) (args : List String) :
    ((SubmitRating env s args).store = s ∧ (SubmitRating env s args).writes = [] ∧
      (SubmitRating env s args).err.isSome = true) ∨
    ∃ key r, (SubmitRating env s args).err = none ∧
      (SubmitRating env s args).store = putState s key (Stored.record r) ∧
      1 ≤ r.Rating ∧ r.Rating ≤ 5 := by
  unfold SubmitRating
  split
  · rename_i ratingID entryID repoName rater ratingStr rest
    split
    · exact Or.inl ⟨rfl, rfl, rfl⟩
    · split
      · exact Or.inl ⟨rfl, rfl, rfl⟩
      · rename_i rating _
        split
        · exact Or.inl ⟨rfl, rfl, rfl⟩
        · rename_i hrange
          have hr : 1 ≤ rating ∧ rating ≤ 5 := by omega
          simp only []
          split
          · exact Or.inl ⟨rfl, rfl, rfl⟩
          · rename_i ratingObj hb
            split
            · exact Or.inl ⟨rfl, rfl, rfl⟩
            · refine Or.inr ⟨_, ratingObj, rfl, rfl, ?_⟩
              split at hb
              · split at hb
                · simp at hb
                · have := Except.ok.inj hb
                  rw [← this]
                  exact hr
              · have := Except.ok.inj hb
                rw [← this]
                exact hr
  · exact Or.inl ⟨rfl, rfl, rfl⟩

theorem submitRating_rejects_score (env : StubEnv) (s : Store (Stored Rating))
    (ratingID entryID repoName rater ratingStr : String) (rest : List String)
    (h : env.atoi ratingStr = none ∨ ∃ v, env.atoi ratingStr = some v ∧ (v < 1 ∨ 5 < v)) :
    (SubmitRating env s
      (ratingID :: entryID :: repoName :: rater :: ratingStr :: rest)).err.isSome = true ∧
    (SubmitRating env s
      (ratingID :: entryID :: repoName :: rater :: ratingStr :: rest)).store = s ∧
    (SubmitRating env s
      (ratingID :: entryID :: repoName :: rater :: ratingStr :: rest)).writes = [] := by
  unfold SubmitRating
  simp only []
  split
  · exact ⟨rfl, rfl, rfl⟩
  · rcases h with h | ⟨v, h, hv⟩
    · simp only [h]
      exact ⟨rfl, rfl, rfl⟩
    · have hv2 : v < 1 ∨ v > 5 := by omega
      simp only [h, hv2, if_true]
      exact ⟨rfl, rfl, rfl⟩

theorem getRating_stored (env : StubEnv) (s : Store (Stored Rating))
    (ratingID entryID : String) (r : Rating)
    (h : GetRating env s ratingID entryID = Except.ok r) :
    getState s (ratingKey ratingID entryID) = some (Stored.record r) := by
  unfold GetRating at h
  split at h
  · simp at h
  · simp only [stubGetState] at h
    cases hg : env.getStateErr (ratingKey ratingID entryID) with
    | some e => simp [hg] at h
    | none =>
      simp only [hg] at h
      cases hs : getState s (ratingKey ratingID entryID) with
      | none => simp [hs] at h
      | some bytes =>
        simp only [hs] at h
        cases bytes with
        | raw b => simp [Stored.unmarshal] at h
        | record a =>
          simp only [Stored.unmarshal] at h
          rw [Except.ok.inj h]

theorem deleteRating_store (env : StubEnv) (s : Store (Stored Rating))
    (ratingID entryID : String) :
    ((DeleteRating env s ratingID entryID).store = s ∧
      (DeleteRating env s ratingID entryID).writes = []) ∨
    ∃ found, getState s (ratingKey ratingID entryID) = some (Stored.record found) ∧
      (DeleteRating env s ratingID entryID).err = none ∧
      (DeleteRating env s ratingID entryID).store =
        putState s (ratingKey ratingID entryID)
          (Stored.record { found with Status := "deleted", UpdatedAt := env.now }) := by
  unfold DeleteRating
  split
  · exact Or.inl ⟨rfl, rfl⟩
  · rename_i found hf
    simp only []
    split
    · exact Or.inl ⟨rfl, rfl⟩
    · exact Or.inr ⟨found, getRating_stored env s ratingID entryID found hf, rfl, rfl⟩

theorem scoresInRange_exec (c : RatingCall) (s : Store (Stored Rating))
    (h : ScoresInRange s) :
    ScoresInRange (c.exec s).store ∧ (c.exec s).store.length ≤ s.length + 1 := by
  cases c with
  | submit env args =>
    simp only [RatingCall.exec]
    rcases submitRating_store env s args with ⟨hs, _, _⟩ | ⟨key, r, _, hs, h1, h5⟩
    · rw [hs]
      exact ⟨h, by omega⟩
    · rw [hs]
      refine ⟨fun kv hkv => ?_, length_putState_le _ _ _⟩
      rcases mem_putState s key _ kv hkv with hm | hm
      · exact h kv hm
      · rw [hm]
        exact ⟨r, rfl, h1, h5⟩
  | delete env ratingID entryID =>
    simp only [RatingCall.exec]
    rcases deleteRating_store env s ratingID entryID with ⟨hs, _⟩ | ⟨found, hf, _, hs⟩
    · rw [hs]
      exact ⟨h, by omega⟩
    · rw [hs]
      refine ⟨fun kv hkv => ?_, length_putState_le _ _ _⟩
      rcases mem_putState s _ _ kv hkv with hm | hm
      · exact h kv hm
      · rw [hm]
        obtain ⟨r0, hr0, h1, h5⟩ := h _ (mem_of_getState s _ _ hf)
        have : found = r0 := Stored.record.inj hr0
        subst this
        exact ⟨_, rfl, h1, h5⟩

theorem scoresInRange_run (calls : List RatingCall) (s : Store (Stored Rating))
    (h : ScoresInRange s) :
    ScoresInRange (runRatingCalls s calls) ∧
    (runRatingCalls s calls).length ≤ s.length + calls.length := by
  induction calls generalizing s with
  | nil => exact ⟨h, by simp [runRatingCalls]⟩
  | cons c cs ih =>
    obtain ⟨h1, h2⟩ := scoresInRange_exec c s h
    obtain ⟨h3, h4⟩ := ih (c.exec s).store h1
    refine ⟨h3, ?_⟩
    simp only [runRatingCalls, List.length_cons] at h4 ⊢
    omega

theorem scoreSum_bounds (ratings : List Rating)
    (h : ∀ r ∈ ratings, 1 ≤ r.Rating ∧ r.Rating ≤ 5) :
    (ratings.length : Int) ≤ scoreSum ratings ∧
    scoreSum ratings ≤ 5 * (ratings.length : Int) := by
  induction ratings with
  | nil => simp [scoreSum]
  | cons r rest ih =>
    obtain ⟨h1, h2⟩ := ih (fun x hx => h x (List.mem_cons_of_mem _ hx))
    obtain ⟨h3, h4⟩ := h r (List.mem_cons_self _ _)
    simp only [scoreSum, List.map_cons, List.sum_cons, List.length_cons] at h1 h2 ⊢
    push_cast
    constructor <;> omega

theorem scoreCount_sum (ratings : List Rating)
    (h : ∀ r ∈ ratings, 1 ≤ r.Rating ∧ r.Rating ≤ 5) :
    scoreCount 1 ratings + scoreCount 2 ratings + scoreCount 3 ratings +
      scoreCount 4 ratings + scoreCount 5 ratings = ratings.length := by
  induction ratings with
  | nil => rfl
  | cons r rest ih =>
    have ih2 := ih (fun x hx => h x (List.mem_cons_of_mem _ hx))
    obtain ⟨h3, h4⟩ := h r (List.mem_cons_self _ _)
    simp only [scoreCount] at ih2 ⊢
    have hcases : r.Rating = 1 ∨ r.Rating = 2 ∨ r.Rating = 3 ∨ r.Rating = 4 ∨ r.Rating = 5 := by
      omega
    rcases hcases with hc | hc | hc | hc | hc <;>
      simp [List.filter_cons, hc] <;> omega

/-- C15. In every store reachable from the empty store through `SubmitRating` and
`DeleteRating` (at most 2^63 / 5 calls, so that no sum of scores wraps), every stored value
is a rating whose score is between 1 and 5; `SubmitRating` returns an error and writes
nothing when the score does not parse or is outside 1 to 5; hence for every entry E the five
buckets of `GetRatingDistribution(E)` sum to `GetRatingCount(E)`, and `GetAverageRating(E)`,
when it is not 0, lies between 1 and 5. -/
theorem ratings_scores_in_range (calls : List RatingCall)
    (hbound : 5 * (calls.length : Int) ≤ maxInt64) :
    (∀ kv ∈ runRatingCalls [] calls,
      ∃ r, kv.2 = Stored.record r ∧ 1 ≤ r.Rating ∧ r.Rating ≤ 5) ∧
    (∀ (env : StubEnv) (s : Store (Stored Rating))
        (ratingID entryID repoName rater ratingStr : String) (rest : List String),
      (env.atoi ratingStr = none ∨ ∃ v, env.atoi ratingStr = some v ∧ (v < 1 ∨ 5 < v)) →
      (SubmitRating env s
        (ratingID :: entryID :: repoName :: rater :: ratingStr :: rest)).err.isSome = true ∧
      (SubmitRating env s
        (ratingID :: entryID :: repoName :: rater :: ratingStr :: rest)).store = s ∧
      (SubmitRating env s
        (ratingID :: entryID :: repoName :: rater :: ratingStr :: rest)).writes = []) ∧
    (∀ (env : StubEnv) (entryID : String) (d : Distribution) (n : Nat),
      GetRatingDistribution env (runRatingCalls [] calls) entryID = Except.ok d →
      GetRatingCount env (runRatingCalls [] calls) entryID = Except.ok n →
      d.star1 + d.stars2 + d.stars3 + d.stars4 + d.stars5 = n) ∧
    (∀ (env : StubEnv) (entryID : String) (a : Rat),
      GetAverageRating env (runRatingCalls [] calls) entryID = Except.ok a → a ≠ 0 →
      1 ≤ a ∧ a ≤ 5) := by
  have h0 : ScoresInRange ([] : Store (Stored Rating)) := by
    intro kv hkv
    simp at hkv
  obtain ⟨hinv, hlen⟩ := scoresInRange_run calls [] h0
  simp only [List.length_nil, Nat.zero_add] at hlen
  have hret : ∀ (env : StubEnv) (entryID : String) (ratings : List Rating),
      GetEntryRatings env (runRatingCalls [] calls) entryID = Except.ok ratings →
      (∀ r ∈ ratings, 1 ≤ r.Rating ∧ r.Rating ≤ 5) ∧ ratings.length ≤ calls.length := by
    intro env entryID ratings h
    obtain ⟨h1, h2⟩ := getEntryRatings_sound env _ entryID ratings h
    refine ⟨fun r hr => ?_, by omega⟩
    obtain ⟨kv, hkv, hkv2⟩ := h1 r hr
    obtain ⟨r0, hr0, hb⟩ := hinv kv hkv
    rw [hkv2] at hr0
    have : r = r0 := Stored.record.inj hr0
    rw [this]
    exact hb
  refine ⟨hinv, submitRating_rejects_score, ?_, ?_⟩
  · intro env entryID d n hd hn
    cases hg : GetEntryRatings env (runRatingCalls [] calls) entryID with
    | error e => simp [GetRatingCount, hg] at hn
    | ok ratings =>
      obtain ⟨hr, _⟩ := hret env entryID ratings hg
      simp only [GetRatingCount, hg] at hn
      simp only [GetRatingDistribution, hg, foldl_distribution] at hd
      have hd2 := Except.ok.inj hd
      have hn2 : ratings.length = n := Except.ok.inj hn
      rw [← hd2, ← hn2]
      simp only [Nat.zero_add]
      exact scoreCount_sum ratings hr
  · intro env entryID a ha hne
    cases hg : GetEntryRatings env (runRatingCalls [] calls) entryID with
    | error e => simp [GetAverageRating, hg] at ha
    | ok ratings =>
      obtain ⟨hr, hl⟩ := hret env entryID ratings hg
      obtain ⟨hs1, hs2⟩ := scoreSum_bounds ratings hr
      by_cases hnil : ratings = []
      · subst hnil
        simp [GetAverageRating, hg] at ha
        exact absurd ha.symm hne
      · have hfit1 : minInt64 ≤ scoreSum ratings := by
          unfold minInt64
          omega
        have hfit2 : scoreSum ratings ≤ maxInt64 := by
          have : (ratings.length : Int) ≤ (calls.length : Int) := by exact_mod_cast hl
          omega
        have hmean := getAverageRating_of_ratings env (runRatingCalls [] calls) entryID
          ratings hg hnil hfit1 hfit2
        rw [hmean] at ha
        have ha2 := Except.ok.inj ha
        have hpos : (0 : Rat) < (ratings.length : Rat) := by
          have : 0 < ratings.length := List.length_pos.2 hnil
          exact_mod_cast this
        rw [← ha2]
        constructor
        · rw [le_div_iff₀ hpos]
          have : ((ratings.length : Int) : Rat) ≤ ((scoreSum ratings : Int) : Rat) := by
            exact_mod_cast hs1
          simpa using this
        · rw [div_le_iff₀ hpos]
          have : ((scoreSum ratings : Int) : Rat) ≤ ((5 * (ratings.length : Int) : Int) : Rat) :=
            by exact_mod_cast hs2
          simpa using this

theorem ratings_scores_in_range_witness :
    ∃ r, (ratingKey "r2" "E1", Stored.record
        { sampleRating "r2" "E1" 5 with Rater := "bob", Review := "great" }).2 =
        Stored.record r ∧ 1 ≤ r.Rating ∧ r.Rating ≤ 5 :=
  (ratings_scores_in_range
    [RatingCall.submit ratingEnv ["r1", "E1", "repo", "alice", "3"],
     RatingCall.submit ratingEnv ["r2", "E1", "repo", "bob", "5", "great"]]
    (by decide)).1
    (ratingKey "r2" "E1", Stored.record
      { sampleRating "r2" "E1" 5 with Rater := "bob", Review := "great" })
    (by decide)

/-! ## Composite keys -/

theorem append_delimiter_prefix_iff (c : Char) (xs ys zs : List Char) (hx : c ∉ xs)
    (hy : c ∉ ys) : xs ++ [c] <+: ys ++ c :: zs ↔ xs = ys := by
  induction xs generalizing ys with
  | nil =>
    cases ys with
    | nil => simp
    | cons y rest =>
      have hyc : c ≠ y := fun h => hy (by rw [h]; exact List.mem_cons_self _ _)
      simp only [List.nil_append, List.cons_append]
      constructor
      · intro h
        have := List.cons_prefix_cons.1 h
        exact absurd this.1 hyc
      · intro h
        simp at h
  | cons x rest ih =>
    cases ys with
    | nil =>
      have hxc : x ≠ c := fun h => hx (by rw [h]; exact List.mem_cons_self _ _)
      simp only [List.nil_append, List.cons_append]
      constructor
      · intro h
        have := List.cons_prefix_cons.1 h
        exact absurd this.1 hxc
      · intro h
        simp at h
    | cons y rest2 =>
      simp only [List.cons_append, List.cons_prefix_cons, List.cons.injEq]
      have ih2 := ih rest2 (fun h => hx (List.mem_cons_of_mem _ h))
        (fun h => hy (List.mem_cons_of_mem _ h))
      rw [ih2]

theorem append_delimiter_cancel (c : Char) (xs ys r1 r2 : List Char) (hx : c ∉ xs)
    (hy : c ∉ ys) (h : xs ++ c :: r1 = ys ++ c :: r2) : xs = ys ∧ r1 = r2 := by
  induction xs generalizing ys with
  | nil =>
    cases ys with
    | nil => simpa using h
    | cons y rest =>
      have hyc : c ≠ y := fun e => hy (by rw [e]; exact List.mem_cons_self _ _)
      simp only [List.nil_append, List.cons_append, List.cons.injEq] at h
      exact absurd h.1 hyc
  | cons x rest ih =>
    cases ys with
    | nil =>
      have hxc : x ≠ c := fun e => hx (by rw [e]; exact List.mem_cons_self _ _)
      simp only [List.nil_append, List.cons_append, List.cons.injEq] at h
      exact absurd h.1 hxc
    | cons y rest2 =>
      simp only [List.cons_append, List.cons.injEq] at h
      obtain ⟨h1, h2⟩ := ih rest2 (fun e => hx (List.mem_cons_of_mem _ e))
        (fun e => hy (List.mem_cons_of_mem _ e)) h.2
      exact ⟨by rw [h.1, h1], h2⟩

theorem delimiter_not_mem_of_valid (a : String) (h : validKeyAttribute a = true) :
    Char.ofNat 0 ∉ a.data := by
  intro hm
  simp only [validKeyAttribute, List.all_eq_true, Bool.and_eq_true, bne_iff_ne] at h
  exact (h _ hm).1 (by decide)

theorem createCompositeKey_two (ot a b : String) (k : String)
    (h : createCompositeKey ot [a, b] = Except.ok k) :
    validKeyAttribute a = true ∧ validKeyAttribute b = true ∧
    k.data = Char.ofNat 0 :: (ot.data ++ Char.ofNat 0 :: (a.data ++ Char.ofNat 0 ::
      (b.data ++ [Char.ofNat 0]))) := by
  unfold createCompositeKey at h
  split at h
  · rename_i hv
    simp only [List.all_cons, List.all_nil, Bool.and_true, Bool.and_eq_true] at hv
    refine ⟨hv.2.1, hv.2.2, ?_⟩
    have hk := Except.ok.inj h
    rw [← hk]
    simp [keyDelimiter, String.join, String.data_append, String.singleton]
  · simp at h

theorem createCompositeKey_one (ot e : String) (k : String)
    (h : createCompositeKey ot [e] = Except.ok k) :
    validKeyAttribute e = true ∧
    k.data = Char.ofNat 0 :: (ot.data ++ Char.ofNat 0 :: (e.data ++ [Char.ofNat 0])) := by
  unfold createCompositeKey at h
  split at h
  · rename_i hv
    simp only [List.all_cons, List.all_nil, Bool.and_true, Bool.and_eq_true] at hv
    refine ⟨hv.2, ?_⟩
    have hk := Except.ok.inj h
    rw [← hk]
    simp [keyDelimiter, String.join, String.data_append, String.singleton]
  · simp at h

/-- A composite key of two attributes is in the scan of a one-attribute partial key exactly
when its first attribute is the attribute scanned for. -/
theorem partial_key_matches_first_attribute (ot e a b ke kab : String)
    (he : createCompositeKey ot [e] = Except.ok ke)
    (hab : createCompositeKey ot [a, b] = Except.ok kab) :
    ke.data.isPrefixOf kab.data = true ↔ a = e := by
  obtain ⟨hve, hke⟩ := createCompositeKey_one ot e ke he
  obtain ⟨hva, _, hkab⟩ := createCompositeKey_two ot a b kab hab
  rw [List.isPrefixOf_iff_prefix, hke, hkab]
  have h1 : Char.ofNat 0 :: (ot.data ++ Char.ofNat 0 :: (e.data ++ [Char.ofNat 0])) =
      (Char.ofNat 0 :: (ot.data ++ [Char.ofNat 0])) ++ (e.data ++ [Char.ofNat 0]) := by simp
  have h2 : Char.ofNat 0 :: (ot.data ++ Char.ofNat 0 :: (a.data ++ Char.ofNat 0 ::
      (b.data ++ [Char.ofNat 0]))) =
      (Char.ofNat 0 :: (ot.data ++ [Char.ofNat 0])) ++
        (a.data ++ Char.ofNat 0 :: (b.data ++ [Char.ofNat 0])) := by simp
  rw [h1, h2, List.prefix_append_right_inj,
    append_delimiter_prefix_iff _ _ _ _ (delimiter_not_mem_of_valid e hve)
      (delimiter_not_mem_of_valid a hva)]
  constructor
  · intro h
    exact (String.ext h).symm
  · intro h
    rw [h]

theorem compositeKeyOrEmpty_two_injective (ot a b a2 b2 : String)
    (h : compositeKeyOrEmpty ot [a, b] = compositeKeyOrEmpty ot [a2, b2])
    (hne : compositeKeyOrEmpty ot [a, b] ≠ "") : a = a2 ∧ b = b2 := by
  unfold compositeKeyOrEmpty at h hne
  cases h1 : createCompositeKey ot [a, b] with
  | error e => simp [h1] at hne
  | ok k =>
    cases h2 : createCompositeKey ot [a2, b2] with
    | error e =>
      simp only [h1, h2] at h hne
      exact absurd h hne
    | ok k2 =>
      simp only [h1, h2] at h
      obtain ⟨hva, hvb, hk⟩ := createCompositeKey_two ot a b k h1
      obtain ⟨hva2, hvb2, hk2⟩ := createCompositeKey_two ot a2 b2 k2 h2
      rw [h, hk2] at hk
      simp only [List.cons.injEq, true_and, List.append_cancel_left_eq] at hk
      obtain ⟨e1, e2⟩ := append_delimiter_cancel _ _ _ _ _
        (delimiter_not_mem_of_valid a2 hva2) (delimiter_not_mem_of_valid a hva) hk
      have e3 : b2.data = b.data := by
        have := append_delimiter_cancel (Char.ofNat 0) b2.data b.data [] []
          (delimiter_not_mem_of_valid b2 hvb2) (delimiter_not_mem_of_valid b hvb) e2
        exact this.1
      exact ⟨(String.ext e1).symm, (String.ext e3).symm⟩

/-! ## Partial-key scans by the second attribute -/

/-- C16, evaluated after `SubmitRating(r1, E1, ..., 3)` and `SubmitRating(r2, E1, ..., 5)` on
the empty store: both ratings are stored, active, under the composite keys of (r1, E1) and
(r2, E1), and the point lookups return them; but the partial key of the single attribute
`E1` is a prefix of neither key, so `GetEntryRatings(E1)` returns no rating,
`GetRatingCount(E1)` is 0 and `GetAverageRating(E1)` is 0, while `GetEntryRatings(r1)`
returns the rating that was given to entry `E1`. -/
theorem entry_scan_misses_ratings :
    keys twoRatingsStore =
      ["\x00rating~entry\x00r1\x00E1\x00", "\x00rating~entry\x00r2\x00E1\x00"] ∧
    GetRating ratingEnv twoRatingsStore "r1" "E1" = Except.ok (sampleRating "r1" "E1" 3) ∧
    GetRating ratingEnv twoRatingsStore "r2" "E1" =
      Except.ok { sampleRating "r2" "E1" 5 with Rater := "bob", Review := "great" } ∧
    createCompositeKey "rating~entry" ["E1"] = Except.ok "\x00rating~entry\x00E1\x00" ∧
    GetEntryRatings ratingEnv twoRatingsStore "E1" = Except.ok [] ∧
    GetRatingCount ratingEnv twoRatingsStore "E1" = Except.ok 0 ∧
    GetAverageRating ratingEnv twoRatingsStore "E1" = Except.ok 0 ∧
    GetEntryRatings ratingEnv twoRatingsStore "r1" = Except.ok [sampleRating "r1" "E1" 3] :=
  ⟨by decide, by decide, by decide, by decide, by decide, by decide, by decide, by decide⟩

/-- C17, evaluated after `CreateEntry(e1, repoA, ...)` and `CreateEntry(repoA, repoB, ...)` on
the empty store: `ListEntries(repoA)` returns the entry whose ID is `repoA`, which belongs
to repo `repoB`, and does not return `e1`, the one entry of repo `repoA`;
`ListEntries(repoB)` returns nothing. -/
theorem list_entries_crosses_repos :
    keys twoReposStore =
      ["\x00entry~repo\x00e1\x00repoA\x00", "\x00entry~repo\x00repoA\x00repoB\x00"] ∧
    GetEntry entryEnv twoReposStore "e1" "repoA" =
      Except.ok (sampleEntry "e1" "repoA" "First" "d1" "c1" "alice" "Qm1") ∧
    ListEntries entryEnv twoReposStore ["repoA"] =
      Except.ok [sampleEntry "repoA" "repoB" "Second" "d2" "c2" "bob" "Qm2"] ∧
    (∃ e, ListEntries entryEnv twoReposStore ["repoA"] = Except.ok [e] ∧
      e.RepoName = "repoB" ∧ e.RepoName ≠ "repoA") ∧
    ListEntries entryEnv twoReposStore ["repoB"] = Except.ok [] :=
  ⟨by decide, by decide, by decide,
    ⟨sampleEntry "repoA" "repoB" "Second" "d2" "c2" "bob" "Qm2", by decide, by decide,
      by decide⟩,
    by decide⟩

/-! ## Comments: lookups and writes -/

theorem getComment_of_stored (env : StubEnv) (s : Store (Stored Comment))
    (commentID entryID : String) (c : Comment) (h1 : commentID ≠ "") (h2 : entryID ≠ "")
    (hread : env.getStateErr (commentKey commentID entryID) = none)
    (hs : getState s (commentKey commentID entryID) = some (Stored.record c)) :
    GetComment env s commentID entryID = Except.ok c := by
  simp [GetComment, h1, h2, stubGetState, hread, hs, Stored.unmarshal]

theorem getComment_stored (env : StubEnv) (s : Store (Stored Comment))
    (commentID entryID : String) (c : Comment)
    (h : GetComment env s commentID entryID = Except.ok c) :
    commentID ≠ "" ∧ entryID ≠ "" ∧ env.getStateErr (commentKey commentID entryID) = none ∧
    getState s (commentKey commentID entryID) = some (Stored.record c) := by
  unfold GetComment at h
  split at h
  · simp at h
  · rename_i hne
    have hn : commentID ≠ "" ∧ entryID ≠ "" := by
      constructor
      · exact fun e => hne (Or.inl e)
      · exact fun e => hne (Or.inr e)
    simp only [stubGetState] at h
    cases hg : env.getStateErr (commentKey commentID entryID) with
    | some e => simp [hg] at h
    | none =>
      simp only [hg] at h
      cases hs : getState s (commentKey commentID entryID) with
      | none => simp [hs] at h
      | some bytes =>
        simp only [hs] at h
        cases bytes with
        | raw b => simp [Stored.unmarshal] at h
        | record a =>
          simp only [Stored.unmarshal] at h
          rw [Except.ok.inj h]
          exact ⟨hn.1, hn.2, rfl, rfl⟩

theorem getComment_congr (env : StubEnv) (s s2 : Store (Stored Comment))
    (commentID entryID : String)
    (h : getState s2 (commentKey commentID entryID) =
      getState s (commentKey commentID entryID)) :
    GetComment env s2 commentID entryID = GetComment env s commentID entryID := by
  simp only [GetComment, stubGetState, h]

theorem stubPutStateErr_none_ne (env : StubEnv) (key : String)
    (h : stubPutStateErr env key = none) : key ≠ "" := by
  intro hk
  simp [stubPutStateErr, hk] at h

theorem addComment_inv (env : StubEnv) (s : Store (Stored Comment))
    (commentID entryID repoName content author ratingStr : String) (rest : List String)
    (h : (AddComment env s
      (commentID :: entryID :: repoName :: content :: author :: ratingStr :: rest)).err =
      none) :
    commentID ≠ "" ∧ entryID ≠ "" ∧
    (stubGetState env s (commentKey commentID entryID)).1 = none ∧
    stubPutStateErr env (commentKey commentID entryID) = none ∧
    (AddComment env s
      (commentID :: entryID :: repoName :: content :: author :: ratingStr :: rest)).store =
      commitWrites s ((commentKey commentID entryID,
        Stored.record (newComment env commentID entryID repoName content author ratingStr
          rest)) :: parentWrites env s (commentThreadID rest) entryID commentID) := by
  unfold AddComment at h ⊢
  simp only [] at h ⊢
  split at h
  · simp [TxResult.fail] at h
  · rename_i hne
    split at h
    · simp [TxResult.fail] at h
    · rename_i hcontent
      split at h
      · simp [TxResult.fail] at h
      · rename_i hex
        split at h
        · simp [TxResult.fail] at h
        · rename_i hput
          have hex2 : (stubGetState env s (commentKey commentID entryID)).1 = none := by
            cases hg : (stubGetState env s (commentKey commentID entryID)).1 with
            | none => rfl
            | some v => simp [hg] at hex
          refine ⟨fun e => hne (Or.inl e), fun e => hne (Or.inr (Or.inl e)), hex2, hput, ?_⟩
          simp only [hne, hcontent, if_false, hex, hput, Bool.false_eq_true]

theorem addComment_store_cases (env : StubEnv) (s : Store (Stored Comment))
    (args : List String) :
    (AddComment env s args).store = s ∨
    ∃ commentID entryID repoName content author ratingStr rest,
      args = commentID :: entryID :: repoName :: content :: author :: ratingStr :: rest ∧
      (AddComment env s args).err = none := by
  unfold AddComment
  split
  · rename_i commentID entryID repoName content author ratingStr rest
    simp only []
    split
    · exact Or.inl rfl
    · split
      · exact Or.inl rfl
      · split
        · exact Or.inl rfl
        · split
          · exact Or.inl rfl
          · exact Or.inr ⟨_, _, _, _, _, _, _, rfl, rfl⟩
  · exact Or.inl rfl

theorem parentWrites_of_parent (env : StubEnv) (s : Store (Stored Comment))
    (threadID entryID commentID : String) (parent : Comment) (ht : threadID ≠ "")
    (hread : env.getStateErr (commentKey threadID entryID) = none)
    (hs : getState s (commentKey threadID entryID) = some (Stored.record parent))
    (hw : stubPutStateErr env (commentKey threadID entryID) = none) :
    parentWrites env s threadID entryID commentID =
      [(commentKey threadID entryID, Stored.record (withReply parent commentID))] := by
  simp [parentWrites, ht, stubGetState, hread, hs, Stored.unmarshal, hw]

theorem parentWrites_cases (env : StubEnv) (s : Store (Stored Comment))
    (threadID entryID commentID : String) :
    parentWrites env s threadID entryID commentID = [] ∨
    ∃ parent, threadID ≠ "" ∧ env.getStateErr (commentKey threadID entryID) = none ∧
      getState s (commentKey threadID entryID) = some (Stored.record parent) ∧
      stubPutStateErr env (commentKey threadID entryID) = none ∧
      parentWrites env s threadID entryID commentID =
        [(commentKey threadID entryID, Stored.record (withReply parent commentID))] := by
  by_cases ht : threadID = ""
  · exact Or.inl (by simp [parentWrites, ht])
  · cases hg : env.getStateErr (commentKey threadID entryID) with
    | some e => exact Or.inl (by simp [parentWrites, ht, stubGetState, hg])
    | none =>
      cases hs : getState s (commentKey threadID entryID) with
      | none => exact Or.inl (by simp [parentWrites, ht, stubGetState, hg, hs])
      | some bytes =>
        cases bytes with
        | raw b =>
          exact Or.inl (by simp [parentWrites, ht, stubGetState, hg, hs, Stored.unmarshal])
        | record parent =>
          cases hp : stubPutStateErr env (commentKey threadID entryID) with
          | some e =>
            exact Or.inl (by simp [parentWrites, ht, stubGetState, hg, hs, Stored.unmarshal, hp])
          | none =>
            exact Or.inr ⟨parent, ht, rfl, rfl, rfl,
              parentWrites_of_parent env s threadID entryID commentID parent ht hg hs hp⟩

theorem updateComment_store_cases (env : StubEnv) (s : Store (Stored Comment))
    (commentID entryID newContent updatedBy : String) :
    (UpdateComment env s commentID entryID newContent updatedBy).store = s ∨
    ∃ found, GetComment env s commentID entryID = Except.ok found ∧
      stubPutStateErr env (commentKey commentID entryID) = none ∧
      (UpdateComment env s commentID entryID newContent updatedBy).store =
        putState s (commentKey commentID entryID)
          (Stored.record (updatedComment env found newContent)) := by
  unfold UpdateComment
  split
  · exact Or.inl rfl
  · split
    · exact Or.inl rfl
    · rename_i found hf
      simp only []
      split
      · exact Or.inl rfl
      · rename_i hp
        exact Or.inr ⟨found, hf, hp, rfl⟩

theorem deleteComment_store_cases (env : StubEnv) (s : Store (Stored Comment))
    (commentID entryID deletedBy : String) :
    ((DeleteComment env s commentID entryID deletedBy).store = s ∧
      (DeleteComment env s commentID entryID deletedBy).err.isSome = true) ∨
    ∃ found, GetComment env s commentID entryID = Except.ok found ∧
      stubPutStateErr env (commentKey commentID entryID) = none ∧
      (DeleteComment env s commentID entryID deletedBy).store =
        putState s (commentKey commentID entryID)
          (Stored.record (deletedComment env found)) := by
  unfold DeleteComment
  split
  · exact Or.inl ⟨rfl, rfl⟩
  · rename_i found hf
    simp only []
    split
    · exact Or.inl ⟨rfl, rfl⟩
    · rename_i hp
      exact Or.inr ⟨found, hf, hp, rfl⟩

theorem threadRepliesLoop_eq (env : StubEnv) (s : Store (Stored Comment))
    (entryID : String) (ids : List String) (acc : List Comment) :
    threadRepliesLoop env s entryID ids acc = acc ++ ids.filterMap (replyOf env s entryID) := by
  induction ids generalizing acc with
  | nil => simp [threadRepliesLoop]
  | cons x rest ih =>
    simp only [threadRepliesLoop, List.filterMap_cons]
    cases hx : replyOf env s entryID x with
    | none => simp [ih]
    | some r => simp [ih]

/-! ## Thread replies -/

theorem commentThreadID_cons (t : String) (more : List String) :
    commentThreadID (t :: more) = t := by
  by_cases h : t = ""
  · simp [commentThreadID, h]
  · simp [commentThreadID, h]

theorem commentKey_eq_inv (a E b : String) (h : commentKey a E = commentKey b E)
    (hne : commentKey b E ≠ "") : a = b := by
  have h2 : commentKey a E ≠ "" := by rw [h]; exact hne
  exact (compositeKeyOrEmpty_two_injective "comment~entry" a E b E h h2).1

/-- Thread replies when the parent is read and rewritten. In a store whose comments on entry
E1 are stored under the key of their own ID, where a comment C1 exists on E1 and no comment
R exists on E1: after a successful `AddComment(R, E1, ..., threadID = C1)` in which the read
and the rewrite of the parent succeed, `GetThreadReplies(C1, E1)` returns a list that
contains the new comment R; and after a subsequent successful `DeleteComment(R, E1, ...)`
it returns that same list without the comment R, every other reply being still returned,
in the same order. -/
theorem thread_replies_add_then_delete (env env2 env3 : StubEnv)
    (s : Store (Stored Comment))
    (R E1 repoName content author ratingStr C1 deletedBy : String) (more : List String)
    (c1 : Comment)
    (hwf : ∀ x c, getState s (commentKey x E1) = some (Stored.record c) → c.ID = x)
    (hC1 : C1 ≠ "")
    (hparent : getState s (commentKey C1 E1) = some (Stored.record c1))
    (hnew : getState s (commentKey R E1) = none)
    (hadd : (AddComment env s
      (R :: E1 :: repoName :: content :: author :: ratingStr :: C1 :: more)).err = none)
    (hpread : env.getStateErr (commentKey C1 E1) = none)
    (hpwrite : stubPutStateErr env (commentKey C1 E1) = none)
    (hdel : (DeleteComment env2
      (AddComment env s
        (R :: E1 :: repoName :: content :: author :: ratingStr :: C1 :: more)).store
      R E1 deletedBy).err = none)
    (hq1 : env3.getStateErr (commentKey C1 E1) = none)
    (hq2 : env3.getStateErr (commentKey R E1) = none) :
    ∃ replies reply,
      GetThreadReplies env3
        (AddComment env s
          (R :: E1 :: repoName :: content :: author :: ratingStr :: C1 :: more)).store
        C1 E1 = Except.ok replies ∧
      reply ∈ replies ∧ reply.ID = R ∧ reply.ThreadID = C1 ∧ reply.Status = "active" ∧
      GetThreadReplies env3
        (DeleteComment env2
          (AddComment env s
            (R :: E1 :: repoName :: content :: author :: ratingStr :: C1 :: more)).store
          R E1 deletedBy).store
        C1 E1 = Except.ok (replies.filter (fun c => decide (c.ID ≠ R))) := by
  obtain ⟨hR, hE, _, hput, hstore⟩ := addComment_inv env s R E1 repoName content author
    ratingStr (C1 :: more) hadd
  have hkR : commentKey R E1 ≠ "" := stubPutStateErr_none_ne env _ hput
  have hkC : commentKey C1 E1 ≠ "" := stubPutStateErr_none_ne env _ hpwrite
  have hne : commentKey C1 E1 ≠ commentKey R E1 := by
    intro h
    rw [h, hnew] at hparent
    exact absurd hparent (by simp)
  rw [commentThreadID_cons,
    parentWrites_of_parent env s C1 E1 R c1 hC1 hpread hparent hpwrite] at hstore
  simp only [commitWrites, List.foldl_cons, List.foldl_nil] at hstore
  generalize hrec : newComment env R E1 repoName content author ratingStr (C1 :: more) = recR
    at hstore
  have hrecID : recR.ID = R := by rw [← hrec]; rfl
  have hrecT : recR.ThreadID = C1 := by
    rw [← hrec]
    exact commentThreadID_cons C1 more
  have hrecS : recR.Status = "active" := by rw [← hrec]; rfl
  generalize (AddComment env s
    (R :: E1 :: repoName :: content :: author :: ratingStr :: C1 :: more)).store = s1
    at hstore hdel ⊢
  have hs1C : getState s1 (commentKey C1 E1) = some (Stored.record (withReply c1 R)) := by
    rw [hstore, getState_putState_same]
  have hs1R : getState s1 (commentKey R E1) = some (Stored.record recR) := by
    rw [hstore, getState_putState_other _ _ _ _ (Ne.symm hne), getState_putState_same]
  have hs1o : ∀ k, k ≠ commentKey C1 E1 → k ≠ commentKey R E1 →
      getState s1 k = getState s k := by
    intro k h1 h2
    rw [hstore, getState_putState_other _ _ _ _ h1, getState_putState_other _ _ _ _ h2]
  have hwf1 : ∀ x c, getState s1 (commentKey x E1) = some (Stored.record c) → c.ID = x := by
    intro x c hx
    by_cases h1 : commentKey x E1 = commentKey C1 E1
    · rw [h1, hs1C] at hx
      have hc : withReply c1 R = c := Stored.record.inj (Option.some.inj hx)
      rw [← hc, commentKey_eq_inv x E1 C1 h1 hkC]
      exact hwf C1 c1 hparent
    · by_cases h2 : commentKey x E1 = commentKey R E1
      · rw [h2, hs1R] at hx
        have hc : recR = c := Stored.record.inj (Option.some.inj hx)
        rw [← hc, commentKey_eq_inv x E1 R h2 hkR]
        exact hrecID
      · rw [hs1o _ h1 h2] at hx
        exact hwf x c hx
  have hget1 : GetComment env3 s1 C1 E1 = Except.ok (withReply c1 R) :=
    getComment_of_stored env3 s1 C1 E1 _ hC1 hE hq1 hs1C
  have hreplyR : replyOf env3 s1 E1 R = some recR := by
    simp [replyOf, getComment_of_stored env3 s1 R E1 recR hR hE hq2 hs1R, hrecS]
  rcases deleteComment_store_cases env2 s1 R E1 deletedBy with ⟨_, herr⟩ | ⟨found, hf, _, hs2⟩
  · rw [hdel] at herr
    simp at herr
  · obtain ⟨_, _, _, hfs⟩ := getComment_stored env2 s1 R E1 found hf
    have hfound : found = recR := by
      rw [hs1R] at hfs
      exact (Stored.record.inj (Option.some.inj hfs)).symm
    subst hfound
    generalize (DeleteComment env2 s1 R E1 deletedBy).store = s2 at hs2 ⊢
    have hs2R : getState s2 (commentKey R E1) =
        some (Stored.record (deletedComment env2 found)) := by
      rw [hs2, getState_putState_same]
    have hs2o : ∀ k, k ≠ commentKey R E1 → getState s2 k = getState s1 k := by
      intro k hk
      rw [hs2, getState_putState_other _ _ _ _ hk]
    have hget2 : GetComment env3 s2 C1 E1 = Except.ok (withReply c1 R) := by
      rw [getComment_congr env3 s1 s2 C1 E1 (hs2o _ hne)]
      exact hget1
    have hstep : ∀ x, replyOf env3 s2 E1 x =
        (replyOf env3 s1 E1 x).filter (fun c => decide (c.ID ≠ R)) := by
      intro x
      by_cases hk : commentKey x E1 = commentKey R E1
      · have hx : x = R := commentKey_eq_inv x E1 R hk hkR
        subst hx
        rw [hreplyR]
        simp [replyOf, getComment_of_stored env3 s2 x E1 _ hR hE hq2 hs2R, deletedComment,
          hrecID, Option.filter]
      · have hsame : replyOf env3 s2 E1 x = replyOf env3 s1 E1 x := by
          simp only [replyOf, getComment_congr env3 s1 s2 x E1 (hs2o _ hk)]
        rw [hsame]
        cases hr : replyOf env3 s1 E1 x with
        | none => rfl
        | some c =>
          have hc : GetComment env3 s1 x E1 = Except.ok c := by
            unfold replyOf at hr
            split at hr
            · rename_i reply hg
              split at hr
              · rw [hg, Option.some.inj hr]
              · simp at hr
            · simp at hr
          obtain ⟨_, _, _, hcs⟩ := getComment_stored env3 s1 x E1 c hc
          have hid : c.ID = x := hwf1 x c hcs
          have hxR : x ≠ R := fun e => hk (by rw [e])
          simp [Option.filter, hid, hxR]
    refine ⟨(c1.Replies ++ [R]).filterMap (replyOf env3 s1 E1), found, ?_, ?_, hrecID, hrecT,
      hrecS, ?_⟩
    · simp only [GetThreadReplies, hget1, threadRepliesLoop_eq, List.nil_append, withReply]
    · simp only [List.filterMap_append, List.mem_append]
      right
      simp [hreplyR]
    · simp only [GetThreadReplies, hget2, threadRepliesLoop_eq, List.nil_append, withReply,
        List.filter_filterMap]
      congr 1
      apply List.filterMap_congr
      intro x _
      exact hstep x

/-! ## Comments: the adjacency invariant -/

theorem commentKey_injective (a b a2 b2 : String) (h : commentKey a b = commentKey a2 b2)
    (hne : commentKey a b ≠ "") : a = a2 ∧ b = b2 :=
  compositeKeyOrEmpty_two_injective "comment~entry" a b a2 b2 h hne

theorem commentsLinked_stored (s : Store (Stored Comment)) (h : CommentsLinked s)
    (k : String) (v : Stored Comment) (hk : getState s k = some v) :
    ∃ a b p, k = commentKey a b ∧ k ≠ "" ∧ v = Stored.record p ∧ p.ID = a ∧ p.EntryID = b :=
  h.1 (k, v) (mem_of_getState s k v hk)

theorem commentsLinked_ids (s : Store (Stored Comment)) (h : CommentsLinked s)
    (a b : String) (p : Comment)
    (hk : getState s (commentKey a b) = some (Stored.record p)) :
    commentKey a b ≠ "" ∧ p.ID = a ∧ p.EntryID = b := by
  obtain ⟨a2, b2, p2, h1, h2, h3, h4, h5⟩ := commentsLinked_stored s h _ _ hk
  obtain ⟨e1, e2⟩ := commentKey_injective a b a2 b2 h1 (by rw [h1] at h2; rw [h1]; exact h2)
  have hp : p = p2 := Stored.record.inj h3
  rw [hp, e1, e2]
  exact ⟨by rw [← e1, ← e2]; exact h2, h4, h5⟩

theorem commentsLinked_insert (s : Store (Stored Comment)) (h : CommentsLinked s)
    (c E : String) (new : Comment) (habs : getState s (commentKey c E) = none)
    (hne : commentKey c E ≠ "") (hid : new.ID = c) (he : new.EntryID = E)
    (hr : new.Replies = []) :
    CommentsLinked (putState s (commentKey c E) (Stored.record new)) := by
  obtain ⟨hW, hI2, hI3⟩ := h
  have hother : ∀ k v, getState s k = some v →
      getState (putState s (commentKey c E) (Stored.record new)) k = some v := by
    intro k v hk
    have hkne : k ≠ commentKey c E := by
      intro e
      rw [e, habs] at hk
      exact absurd hk (by simp)
    rw [getState_putState_other _ _ _ _ hkne]
    exact hk
  refine ⟨?_, ?_, ?_⟩
  · intro kv hkv
    rcases mem_putState s _ _ kv hkv with hm | hm
    · exact hW kv hm
    · rw [hm]
      exact ⟨c, E, new, rfl, hne, rfl, hid, he⟩
  · intro a b p hp x hx
    by_cases hk : commentKey a b = commentKey c E
    · rw [hk, getState_putState_same] at hp
      have : new = p := Stored.record.inj (Option.some.inj hp)
      rw [← this, hr] at hx
      simp at hx
    · rw [getState_putState_other _ _ _ _ hk] at hp
      obtain ⟨q, hq, hqt⟩ := hI2 a b p hp x hx
      exact ⟨q, hother _ _ hq, hqt⟩
  · intro a b p hp
    by_cases hk : commentKey a b = commentKey c E
    · rw [hk, getState_putState_same] at hp
      have : new = p := Stored.record.inj (Option.some.inj hp)
      rw [← this, hr]
      exact List.nodup_nil
    · rw [getState_putState_other _ _ _ _ hk] at hp
      exact hI3 a b p hp

theorem commentsLinked_rewrite (s : Store (Stored Comment)) (h : CommentsLinked s)
    (a b : String) (p p2 : Comment)
    (hp : getState s (commentKey a b) = some (Stored.record p))
    (hid : p2.ID = p.ID) (he : p2.EntryID = p.EntryID) (ht : p2.ThreadID = p.ThreadID)
    (hnd : p2.Replies.Nodup)
    (hch : ∀ x ∈ p2.Replies, ∃ q, getState s (commentKey x b) = some (Stored.record q) ∧
      q.ThreadID = a) :
    CommentsLinked (putState s (commentKey a b) (Stored.record p2)) := by
  obtain ⟨hkne, hpid, hpe⟩ := commentsLinked_ids s h a b p hp
  obtain ⟨hW, hI2, hI3⟩ := h
  have hkeep : ∀ k q, getState s k = some (Stored.record q) →
      ∃ q2, getState (putState s (commentKey a b) (Stored.record p2)) k =
        some (Stored.record q2) ∧ q2.ThreadID = q.ThreadID := by
    intro k q hq
    by_cases hk : k = commentKey a b
    · rw [hk] at hq ⊢
      rw [hp] at hq
      have : p = q := Stored.record.inj (Option.some.inj hq)
      rw [getState_putState_same]
      exact ⟨p2, rfl, by rw [ht, this]⟩
    · rw [getState_putState_other _ _ _ _ hk]
      exact ⟨q, hq, rfl⟩
  refine ⟨?_, ?_, ?_⟩
  · intro kv hkv
    rcases mem_putState s _ _ kv hkv with hm | hm
    · exact hW kv hm
    · rw [hm]
      exact ⟨a, b, p2, rfl, hkne, rfl, by rw [hid, hpid], by rw [he, hpe]⟩
  · intro a2 b2 r hr x hx
    by_cases hk : commentKey a2 b2 = commentKey a b
    · obtain ⟨e1, e2⟩ := commentKey_injective a2 b2 a b hk (by rw [hk]; exact hkne)
      rw [hk, getState_putState_same] at hr
      have : p2 = r := Stored.record.inj (Option.some.inj hr)
      rw [← this] at hx
      obtain ⟨q, hq, hqt⟩ := hch x hx
      obtain ⟨q2, hq2, hq2t⟩ := hkeep _ q hq
      rw [e1, e2]
      exact ⟨q2, hq2, by rw [hq2t, hqt]⟩
    · rw [getState_putState_other _ _ _ _ hk] at hr
      obtain ⟨q, hq, hqt⟩ := hI2 a2 b2 r hr x hx
      obtain ⟨q2, hq2, hq2t⟩ := hkeep _ q hq
      exact ⟨q2, hq2, by rw [hq2t, hqt]⟩
  · intro a2 b2 r hr
    by_cases hk : commentKey a2 b2 = commentKey a b
    · rw [hk, getState_putState_same] at hr
      have : p2 = r := Stored.record.inj (Option.some.inj hr)
      rw [← this]
      exact hnd
    · rw [getState_putState_other _ _ _ _ hk] at hr
      exact hI3 a2 b2 r hr

theorem stubGetState_of_reads (env : StubEnv) (s : Store (Stored Comment)) (key : String)
    (hreads : ∀ k, env.getStateErr k = none) :
    (stubGetState env s key).1 = getState s key := by
  simp [stubGetState, hreads key]

theorem commentsLinked_exec (c : CommentCall) (s : Store (Stored Comment))
    (h : CommentsLinked s) (hreads : c.ReadsSucceed) : CommentsLinked (c.exec s).store := by
  cases c with
  | add env args =>
    simp only [CommentCall.exec]
    have hr : ∀ k, env.getStateErr k = none := hreads
    rcases addComment_store_cases env s args with hs | ⟨c, E, repo, content, author, rs, rest,
      hargs, herr⟩
    · rw [hs]
      exact h
    · subst hargs
      obtain ⟨_, _, hex, hput, hstore⟩ := addComment_inv env s c E repo content author rs rest
        herr
      rw [stubGetState_of_reads env s _ hr] at hex
      have hkc : commentKey c E ≠ "" := stubPutStateErr_none_ne env _ hput
      have h1 : CommentsLinked (putState s (commentKey c E)
          (Stored.record (newComment env c E repo content author rs rest))) :=
        commentsLinked_insert s h c E _ hex hkc rfl rfl rfl
      rw [hstore]
      rcases parentWrites_cases env s (commentThreadID rest) E c with hp | ⟨parent, _, _, hps,
        _, hp⟩
      · rw [hp]
        simpa [commitWrites] using h1
      · rw [hp]
        simp only [commitWrites, List.foldl_cons, List.foldl_nil]
        have hne : commentKey (commentThreadID rest) E ≠ commentKey c E := by
          intro e
          rw [e, hex] at hps
          exact absurd hps (by simp)
        have hps1 : getState (putState s (commentKey c E)
            (Stored.record (newComment env c E repo content author rs rest)))
            (commentKey (commentThreadID rest) E) = some (Stored.record parent) := by
          rw [getState_putState_other _ _ _ _ hne]
          exact hps
        have hnotin : c ∉ parent.Replies := by
          intro hc
          obtain ⟨q, hq, _⟩ := h.2.1 _ _ parent hps c hc
          rw [hex] at hq
          exact absurd hq (by simp)
        refine commentsLinked_rewrite _ h1 (commentThreadID rest) E parent (withReply parent c)
          hps1 rfl rfl rfl ?_ ?_
        · show (parent.Replies ++ [c]).Nodup
          rw [List.nodup_append]
          refine ⟨h.2.2 _ _ parent hps, List.nodup_singleton c, ?_⟩
          intro x hx hx2
          have : x = c := by simpa using hx2
          rw [this] at hx
          exact hnotin hx
        · intro x hx
          have hx2 : x ∈ parent.Replies ++ [c] := hx
          rcases List.mem_append.1 hx2 with hx3 | hx3
          · exact h1.2.1 _ _ parent hps1 x hx3
          · have : x = c := by simpa using hx3
            rw [this, getState_putState_same]
            exact ⟨_, rfl, rfl⟩
  | update env c E nc by_ =>
    simp only [CommentCall.exec]
    rcases updateComment_store_cases env s c E nc by_ with hs | ⟨found, hf, _, hs⟩
    · rw [hs]
      exact h
    · obtain ⟨_, _, _, hst⟩ := getComment_stored env s c E found hf
      rw [hs]
      exact commentsLinked_rewrite s h c E found (updatedComment env found nc) hst rfl rfl rfl
        (h.2.2 _ _ found hst) (h.2.1 _ _ found hst)
  | delete env c E by_ =>
    simp only [CommentCall.exec]
    rcases deleteComment_store_cases env s c E by_ with ⟨hs, _⟩ | ⟨found, hf, _, hs⟩
    · rw [hs]
      exact h
    · obtain ⟨_, _, _, hst⟩ := getComment_stored env s c E found hf
      rw [hs]
      exact commentsLinked_rewrite s h c E found (deletedComment env found) hst rfl rfl rfl
        (h.2.2 _ _ found hst) (h.2.1 _ _ found hst)

theorem commentsLinked_run (calls : List CommentCall) (s : Store (Stored Comment))
    (h : CommentsLinked s) (hreads : ∀ c ∈ calls, c.ReadsSucceed) :
    CommentsLinked (runCommentCalls s calls) := by
  induction calls generalizing s with
  | nil => exact h
  | cons c cs ih =>
    simp only [runCommentCalls]
    exact ih _ (commentsLinked_exec c s h (hreads c (List.mem_cons_self _ _)))
      (fun x hx => hreads x (List.mem_cons_of_mem _ hx))

theorem commentsLinked_nil : CommentsLinked [] := by
  refine ⟨?_, ?_, ?_⟩
  · intro kv hkv
    exact absurd hkv (List.not_mem_nil kv)
  · intro a b p hp
    simp [getState] at hp
  · intro a b p hp
    simp [getState] at hp

theorem comment_step (c : CommentCall) (s : Store (Stored Comment))
    (hreads : c.ReadsSucceed) (P E : String) (p : Comment)
    (hp : getState s (commentKey P E) = some (Stored.record p)) :
    ∃ p2, getState (c.exec s).store (commentKey P E) = some (Stored.record p2) ∧
      p.Replies <+: p2.Replies ∧ p2.ID = p.ID ∧ p2.EntryID = p.EntryID ∧
      p2.ThreadID = p.ThreadID := by
  have keep : ∀ s2 : Store (Stored Comment),
      getState s2 (commentKey P E) = some (Stored.record p) →
      ∃ p2, getState s2 (commentKey P E) = some (Stored.record p2) ∧
        p.Replies <+: p2.Replies ∧ p2.ID = p.ID ∧ p2.EntryID = p.EntryID ∧
        p2.ThreadID = p.ThreadID :=
    fun s2 h2 => ⟨p, h2, List.prefix_refl _, rfl, rfl, rfl⟩
  cases c with
  | add env args =>
    simp only [CommentCall.exec]
    have hr : ∀ k, env.getStateErr k = none := hreads
    rcases addComment_store_cases env s args with hs | ⟨c, E2, repo, content, author, rs, rest,
      hargs, herr⟩
    · rw [hs]
      exact keep s hp
    · subst hargs
      obtain ⟨_, _, hex, _, hstore⟩ := addComment_inv env s c E2 repo content author rs rest
        herr
      rw [stubGetState_of_reads env s _ hr] at hex
      have hne : commentKey P E ≠ commentKey c E2 := by
        intro e
        rw [e, hex] at hp
        exact absurd hp (by simp)
      rw [hstore]
      rcases parentWrites_cases env s (commentThreadID rest) E2 c with hw | ⟨parent, _, _, hps,
        _, hw⟩
      · rw [hw]
        simp only [commitWrites, List.foldl_cons, List.foldl_nil]
        apply keep
        rw [getState_putState_other _ _ _ _ hne]
        exact hp
      · rw [hw]
        simp only [commitWrites, List.foldl_cons, List.foldl_nil]
        by_cases hk : commentKey P E = commentKey (commentThreadID rest) E2
        · have hp3 := hp
          rw [hk, hps] at hp3
          have hpp : parent = p := Stored.record.inj (Option.some.inj hp3)
          refine ⟨withReply p c, ?_, List.prefix_append _ _, rfl, rfl, rfl⟩
          rw [hk, getState_putState_same, hpp]
        · apply keep
          rw [getState_putState_other _ _ _ _ hk, getState_putState_other _ _ _ _ hne]
          exact hp
  | update env c E2 nc by_ =>
    simp only [CommentCall.exec]
    rcases updateComment_store_cases env s c E2 nc by_ with hs | ⟨found, hf, _, hs⟩
    · rw [hs]
      exact keep s hp
    · obtain ⟨_, _, _, hst⟩ := getComment_stored env s c E2 found hf
      rw [hs]
      by_cases hk : commentKey P E = commentKey c E2
      · have hp3 := hp
        rw [hk, hst] at hp3
        have hpp : found = p := Stored.record.inj (Option.some.inj hp3)
        refine ⟨updatedComment env p nc, ?_, List.prefix_refl _, rfl, rfl, rfl⟩
        rw [hk, getState_putState_same, hpp]
      · apply keep
        rw [getState_putState_other _ _ _ _ hk]
        exact hp
  | delete env c E2 by_ =>
    simp only [CommentCall.exec]
    rcases deleteComment_store_cases env s c E2 by_ with ⟨hs, _⟩ | ⟨found, hf, _, hs⟩
    · rw [hs]
      exact keep s hp
    · obtain ⟨_, _, _, hst⟩ := getComment_stored env s c E2 found hf
      rw [hs]
      by_cases hk : commentKey P E = commentKey c E2
      · have hp3 := hp
        rw [hk, hst] at hp3
        have hpp : found = p := Stored.record.inj (Option.some.inj hp3)
        refine ⟨deletedComment env p, ?_, List.prefix_refl _, rfl, rfl, rfl⟩
        rw [hk, getState_putState_same, hpp]
      · apply keep
        rw [getState_putState_other _ _ _ _ hk]
        exact hp

theorem comment_run (calls : List CommentCall) (s : Store (Stored Comment))
    (hreads : ∀ c ∈ calls, c.ReadsSucceed) (P E : String) (p : Comment)
    (hp : getState s (commentKey P E) = some (Stored.record p)) :
    ∃ p2, getState (runCommentCalls s calls) (commentKey P E) = some (Stored.record p2) ∧
      p.Replies <+: p2.Replies ∧ p2.ID = p.ID ∧ p2.EntryID = p.EntryID ∧
      p2.ThreadID = p.ThreadID := by
  induction calls generalizing s p with
  | nil => exact ⟨p, hp, List.prefix_refl _, rfl, rfl, rfl⟩
  | cons c cs ih =>
    obtain ⟨p1, h1, hpre1, hid1, he1, ht1⟩ :=
      comment_step c s (hreads c (List.mem_cons_self _ _)) P E p hp
    obtain ⟨p2, h2, hpre2, hid2, he2, ht2⟩ :=
      ih (c.exec s).store (fun x hx => hreads x (List.mem_cons_of_mem _ hx)) p1 h1
    exact ⟨p2, h2, hpre1.trans hpre2, hid2.trans hid1, he2.trans he1, ht2.trans ht1⟩

theorem addComment_reply_store (env : StubEnv) (s : Store (Stored Comment))
    (c E repoName content author ratingStr P : String) (more : List String) (p : Comment)
    (hparent : getState s (commentKey P E) = some (Stored.record p))
    (hP : P ≠ "")
    (hadd : (AddComment env s
      (c :: E :: repoName :: content :: author :: ratingStr :: P :: more)).err = none)
    (hpread : env.getStateErr (commentKey P E) = none)
    (hpwrite : stubPutStateErr env (commentKey P E) = none) :
    getState (AddComment env s
      (c :: E :: repoName :: content :: author :: ratingStr :: P :: more)).store
      (commentKey P E) = some (Stored.record (withReply p c)) ∧
    getState (AddComment env s
      (c :: E :: repoName :: content :: author :: ratingStr :: P :: more)).store
      (commentKey c E) = some (Stored.record
        (newComment env c E repoName content author ratingStr (P :: more))) := by
  obtain ⟨_, _, hex, _, hstore⟩ := addComment_inv env s c E repoName content author
    ratingStr (P :: more) hadd
  have hne : commentKey c E ≠ commentKey P E := by
    intro e
    rw [e] at hex
    simp [stubGetState, hpread, hparent] at hex
  rw [hstore, commentThreadID_cons,
    parentWrites_of_parent env s P E c p hP hpread hparent hpwrite]
  simp only [commitWrites, List.foldl_cons, List.foldl_nil]
  refine ⟨getState_putState_same _ _ _, ?_⟩
  rw [getState_putState_other _ _ _ _ hne, getState_putState_same]

/-- The child lists when the ledger reads succeed. In every store reached from the empty
store through `AddComment`, `UpdateComment` and `DeleteComment` invocations whose ledger
reads succeed: every stored value is a comment
stored under the key of its own ID and entry ID; for every stored comment P on entry E, the
child list of P holds no ID twice, and every ID c in it is the ID of a comment stored on E
whose thread ID is the ID of P; and any further such invocation, the deletion of a child
included, leaves P stored with a child list that begins with its previous child list. -/
theorem child_list_invariant (calls : List CommentCall)
    (hreads : ∀ c ∈ calls, c.ReadsSucceed) :
    (∀ kv ∈ runCommentCalls [] calls, ∃ a b p, kv.1 = commentKey a b ∧
      kv.2 = Stored.record p ∧ p.ID = a ∧ p.EntryID = b) ∧
    (∀ P E p,
      getState (runCommentCalls [] calls) (commentKey P E) = some (Stored.record p) →
      p.ID = P ∧ p.Replies.Nodup ∧
      ∀ c ∈ p.Replies, ∃ q,
        getState (runCommentCalls [] calls) (commentKey c E) = some (Stored.record q) ∧
        q.ID = c ∧ q.EntryID = E ∧ q.ThreadID = p.ID) ∧
    (∀ next : CommentCall, next.ReadsSucceed → ∀ P E p,
      getState (runCommentCalls [] calls) (commentKey P E) = some (Stored.record p) →
      ∃ p2, getState (next.exec (runCommentCalls [] calls)).store (commentKey P E) =
          some (Stored.record p2) ∧
        p.Replies <+: p2.Replies) := by
  have hl : CommentsLinked (runCommentCalls [] calls) :=
    commentsLinked_run calls [] commentsLinked_nil hreads
  refine ⟨?_, ?_, ?_⟩
  · intro kv hkv
    obtain ⟨a, b, p, h1, _, h3, h4, h5⟩ := hl.1 kv hkv
    exact ⟨a, b, p, h1, h3, h4, h5⟩
  · intro P E p hp
    obtain ⟨_, hid, _⟩ := commentsLinked_ids _ hl P E p hp
    refine ⟨hid, hl.2.2 P E p hp, ?_⟩
    intro c hc
    obtain ⟨q, hq, ht⟩ := hl.2.1 P E p hp c hc
    obtain ⟨_, hqid, hqe⟩ := commentsLinked_ids _ hl c E q hq
    exact ⟨q, hq, hqid, hqe, by rw [ht, hid]⟩
  · intro next hnext P E p hp
    obtain ⟨p2, h2, hpre, _⟩ := comment_step next _ hnext P E p hp
    exact ⟨p2, h2, hpre⟩

theorem replyThenDeleteCalls_reads : ∀ c ∈ replyThenDeleteCalls, c.ReadsSucceed := by
  intro c hc
  simp only [replyThenDeleteCalls, List.mem_cons, List.mem_singleton, List.mem_nil_iff,
    or_false] at hc
  rcases hc with h | h | h <;> (subst h; intro key; rfl)

theorem child_list_invariant_witness :
    ∃ q, getState (runCommentCalls [] replyThenDeleteCalls) (commentKey "R" "E1") =
        some (Stored.record q) ∧
      q.ID = "R" ∧ q.EntryID = "E1" ∧
      q.ThreadID = (withReply (sampleComment "C1" "E1" "root" "alice" "") "R").ID :=
  ((child_list_invariant replyThenDeleteCalls replyThenDeleteCalls_reads).2.1 "C1" "E1"
    (withReply (sampleComment "C1" "E1" "root" "alice" "") "R") (by decide)).2.2 "R"
    (by decide)

/-- C19, evaluated. After `AddComment(C1, E1, ...)` and `AddComment(R, E1, ..., threadID =
C1)` the child list of `C1` is `[R]`. A further `AddComment(C1, E1, ...)` in a transaction
whose ledger reads fail returns no error and leaves `C1` stored with an empty child list,
while `R` is still stored with thread ID `C1`: the child list was shortened. A further
`AddComment(R, E1, ...)` outside any thread, in such a transaction, is accepted too and
leaves `R` in the child list of `C1` while the thread ID of `R` is empty. -/
theorem child_list_shortened_by_overwrite :
    getState (runCommentCalls [] (threadReAddedCalls.take 2)) (commentKey "C1" "E1") =
      some (Stored.record (withReply (sampleComment "C1" "E1" "root" "alice" "") "R")) ∧
    (withReply (sampleComment "C1" "E1" "root" "alice" "") "R").Replies = ["R"] ∧
    (AddComment readFailEnv (runCommentCalls [] (threadReAddedCalls.take 2))
      ["C1", "E1", "repo", "again", "bob", "0"]).err = none ∧
    getState (runCommentCalls [] threadReAddedCalls) (commentKey "C1" "E1") =
      some (Stored.record
        { sampleComment "C1" "E1" "again" "bob" "" with
          CreatedAt := "2024-05-01T00:00:00Z", UpdatedAt := "2024-05-01T00:00:00Z",
          Replies := [] }) ∧
    getState (runCommentCalls [] threadReAddedCalls) (commentKey "R" "E1") =
      some (Stored.record (sampleComment "R" "E1" "reply" "bob" "C1")) ∧
    (AddComment readFailEnv (runCommentCalls [] (replyReAddedCalls.take 2))
      ["R", "E1", "repo", "solo", "bob", "0"]).err = none ∧
    getState (runCommentCalls [] replyReAddedCalls) (commentKey "C1" "E1") =
      some (Stored.record (withReply (sampleComment "C1" "E1" "root" "alice" "") "R")) ∧
    getState (runCommentCalls [] replyReAddedCalls) (commentKey "R" "E1") =
      some (Stored.record
        { sampleComment "R" "E1" "solo" "bob" "" with
          CreatedAt := "2024-05-01T00:00:00Z", UpdatedAt := "2024-05-01T00:00:00Z" }) := by
  refine ⟨?_, ?_, ?_, ?_, ?_, ?_, ?_, ?_⟩ <;> decide

/-- C20, counterexample. The store reached from the empty store by `AddComment(R, E1, ...,
threadID = P)` followed by `AddComment(P, E1, ...)`, every ledger call succeeding: the
two invocations succeed, the comment R is stored on E1 with thread ID P, the comment P exists
on E1, and the child list of P is empty, so R is not in it. -/
theorem orphan_reply_not_listed :
    runCommentCalls [] orphanReplyCalls = orphanReplyStore ∧
    (AddComment commentEnv [] ["R", "E1", "repo", "reply", "bob", "0", "P"]).err = none ∧
    (AddComment commentEnv
      (AddComment commentEnv [] ["R", "E1", "repo", "reply", "bob", "0", "P"]).store
      ["P", "E1", "repo", "root", "alice", "0"]).err = none ∧
    ∃ r p, getState orphanReplyStore (commentKey "R" "E1") = some (Stored.record r) ∧
      r.ID = "R" ∧ r.EntryID = "E1" ∧ r.ThreadID = "P" ∧
      getState orphanReplyStore (commentKey "P" "E1") = some (Stored.record p) ∧
      p.ID = "P" ∧ p.EntryID = "E1" ∧ p.Replies = [] ∧ "R" ∉ p.Replies :=
  ⟨by decide, by decide, by decide, sampleComment "R" "E1" "reply" "bob" "P",
    sampleComment "P" "E1" "root" "alice" "", by decide, by decide, by decide, by decide,
    by decide, by decide, by decide, by decide, by decide⟩

/-- C20, amended. In every store in which a comment P exists on entry E: after a successful
`AddComment(c, E, ..., threadID = P)` whose read and rewrite of P succeed, the child list of
P is its previous child list with c appended; and after any further `AddComment`,
`UpdateComment` and `DeleteComment` invocations whose ledger reads succeed, the comment c is
stored on E with thread ID P, and P is stored with a child list that begins with that list,
so that it holds the ID c. -/
theorem reply_listed_when_parent_exists (env : StubEnv) (s : Store (Stored Comment))
    (c E repoName content author ratingStr P : String) (more : List String) (p : Comment)
    (later : List CommentCall)
    (hparent : getState s (commentKey P E) = some (Stored.record p))
    (hP : P ≠ "")
    (hadd : (AddComment env s
      (c :: E :: repoName :: content :: author :: ratingStr :: P :: more)).err = none)
    (hpread : env.getStateErr (commentKey P E) = none)
    (hpwrite : stubPutStateErr env (commentKey P E) = none)
    (hlater : ∀ x ∈ later, x.ReadsSucceed) :
    (∃ p1, getState (AddComment env s
        (c :: E :: repoName :: content :: author :: ratingStr :: P :: more)).store
        (commentKey P E) = some (Stored.record p1) ∧ p1.Replies = p.Replies ++ [c]) ∧
    ∃ p2 q,
      getState (runCommentCalls (AddComment env s
        (c :: E :: repoName :: content :: author :: ratingStr :: P :: more)).store later)
        (commentKey P E) = some (Stored.record p2) ∧
      (p.Replies ++ [c]) <+: p2.Replies ∧ c ∈ p2.Replies ∧
      getState (runCommentCalls (AddComment env s
        (c :: E :: repoName :: content :: author :: ratingStr :: P :: more)).store later)
        (commentKey c E) = some (Stored.record q) ∧
      q.ID = c ∧ q.EntryID = E ∧ q.ThreadID = P := by
  obtain ⟨h1, h2⟩ := addComment_reply_store env s c E repoName content author ratingStr P
    more p hparent hP hadd hpread hpwrite
  refine ⟨⟨withReply p c, h1, rfl⟩, ?_⟩
  obtain ⟨p2, hp2, hpre, _⟩ := comment_run later _ hlater P E _ h1
  obtain ⟨q, hq, _, hqid, hqe, hqt⟩ := comment_run later _ hlater c E _ h2
  refine ⟨p2, q, hp2, hpre, ?_, hq, hqid, hqe, ?_⟩
  · exact hpre.subset (List.mem_append_right _ (List.mem_singleton_self c))
  · rw [hqt]
    exact commentThreadID_cons P more

theorem reply_listed_when_parent_exists_witness :
    (∃ p1, getState (AddComment commentEnv threadStore
        ["R", "E1", "repo", "reply", "bob", "0", "C1"]).store
        (commentKey "C1" "E1") = some (Stored.record p1) ∧
      p1.Replies = (sampleComment "C1" "E1" "root" "alice" "").Replies ++ ["R"]) ∧
    ∃ p2 q,
      getState (runCommentCalls (AddComment commentEnv threadStore
        ["R", "E1", "repo", "reply", "bob", "0", "C1"]).store
        [CommentCall.delete commentEnv "R" "E1" "bob"])
        (commentKey "C1" "E1") = some (Stored.record p2) ∧
      ((sampleComment "C1" "E1" "root" "alice" "").Replies ++ ["R"]) <+: p2.Replies ∧
      "R" ∈ p2.Replies ∧
      getState (runCommentCalls (AddComment commentEnv threadStore
        ["R", "E1", "repo", "reply", "bob", "0", "C1"]).store
        [CommentCall.delete commentEnv "R" "E1" "bob"])
        (commentKey "R" "E1") = some (Stored.record q) ∧
      q.ID = "R" ∧ q.EntryID = "E1" ∧ q.ThreadID = "C1" :=
  reply_listed_when_parent_exists commentEnv threadStore "R" "E1" "repo" "reply" "bob" "0"
    "C1" [] (sampleComment "C1" "E1" "root" "alice" "")
    [CommentCall.delete commentEnv "R" "E1" "bob"]
    (by decide) (by decide) (by decide) (by decide) (by decide)
    (by
      intro x hx
      simp only [List.mem_singleton] at hx
      subst hx
      intro key
      rfl)

theorem threadStore_keyed (x : String) (c : Comment)
    (h : getState threadStore (commentKey x "E1") = some (Stored.record c)) : c.ID = x := by
  have hl : CommentsLinked threadStore :=
    commentsLinked_exec (CommentCall.add commentEnv ["C1", "E1", "repo", "root", "alice", "0"])
      [] commentsLinked_nil (fun _ => rfl)
  exact (commentsLinked_ids threadStore hl x "E1" c h).2.1

theorem thread_replies_add_then_delete_witness :
    ∃ replies reply,
      GetThreadReplies commentEnv
        (AddComment commentEnv threadStore
          ["R", "E1", "repo", "reply", "bob", "0", "C1"]).store
        "C1" "E1" = Except.ok replies ∧
      reply ∈ replies ∧ reply.ID = "R" ∧ reply.ThreadID = "C1" ∧ reply.Status = "active" ∧
      GetThreadReplies commentEnv
        (DeleteComment commentEnv
          (AddComment commentEnv threadStore
            ["R", "E1", "repo", "reply", "bob", "0", "C1"]).store
          "R" "E1" "bob").store
        "C1" "E1" = Except.ok (replies.filter (fun c => decide (c.ID ≠ "R"))) :=
  thread_replies_add_then_delete commentEnv commentEnv commentEnv threadStore
    "R" "E1" "repo" "reply" "bob" "0" "C1" "bob" []
    (sampleComment "C1" "E1" "root" "alice" "")
    threadStore_keyed (by decide) (by decide) (by decide) (by decide) (by decide) (by decide)
    (by decide) (by decide) (by decide)

/-- C18, evaluated on the store in which the active comment `C1` exists on entry `E1` and no
comment `R` does. `AddComment(R, E1, ..., threadID = C1)` in a transaction whose rewrite of
the parent fails returns no error and stores the reply `R` with thread ID `C1`, yet
`GetThreadReplies(C1, E1)` then returns the empty list; the same holds when it is the read
of the parent that fails. When both succeed the list returned is the reply `R`. -/
theorem thread_reply_lost_on_parent_failure :
    GetComment commentEnv threadStore "C1" "E1" =
      Except.ok (sampleComment "C1" "E1" "root" "alice" "") ∧
    getState threadStore (commentKey "R" "E1") = none ∧
    stubPutStateErr parentWriteFailEnv (commentKey "C1" "E1") = some "ledger unavailable" ∧
    (AddComment parentWriteFailEnv threadStore
      ["R", "E1", "repo", "reply", "bob", "0", "C1"]).err = none ∧
    GetComment commentEnv (AddComment parentWriteFailEnv threadStore
      ["R", "E1", "repo", "reply", "bob", "0", "C1"]).store "R" "E1" =
      Except.ok (sampleComment "R" "E1" "reply" "bob" "C1") ∧
    GetThreadReplies commentEnv (AddComment parentWriteFailEnv threadStore
      ["R", "E1", "repo", "reply", "bob", "0", "C1"]).store "C1" "E1" = Except.ok [] ∧
    parentReadFailEnv.getStateErr (commentKey "C1" "E1") = some "ledger unavailable" ∧
    (AddComment parentReadFailEnv threadStore
      ["R", "E1", "repo", "reply", "bob", "0", "C1"]).err = none ∧
    GetComment commentEnv (AddComment parentReadFailEnv threadStore
      ["R", "E1", "repo", "reply", "bob", "0", "C1"]).store "R" "E1" =
      Except.ok (sampleComment "R" "E1" "reply" "bob" "C1") ∧
    GetThreadReplies commentEnv (AddComment parentReadFailEnv threadStore
      ["R", "E1", "repo", "reply", "bob", "0", "C1"]).store "C1" "E1" = Except.ok [] ∧
    GetThreadReplies commentEnv (AddComment commentEnv threadStore
      ["R", "E1", "repo", "reply", "bob", "0", "C1"]).store "C1" "E1" =
      Except.ok [sampleComment "R" "E1" "reply" "bob" "C1"] := by
  refine ⟨?_, ?_, ?_, ?_, ?_, ?_, ?_, ?_, ?_, ?_, ?_⟩ <;> decide

/-! ## Entries: updates and soft deletion -/

theorem updateEntry_of_stored (env : StubEnv) (s : Store (Stored Entry))
    (entryID repoName title description content updatedBy : String) (rest : List String)
    (found : Entry)
    (hread : env.getStateErr (entryKey entryID repoName) = none)
    (hs : getState s (entryKey entryID repoName) = some (Stored.record found))
    (hw : stubPutStateErr env (entryKey entryID repoName) = none) :
    (UpdateEntry env s
      (entryID :: repoName :: title :: description :: content :: updatedBy :: rest)).err =
      none ∧
    (UpdateEntry env s
      (entryID :: repoName :: title :: description :: content :: updatedBy :: rest)).store =
      putState s (entryKey entryID repoName)
        (Stored.record (updatedEntry env found title description content updatedBy rest)) := by
  simp [UpdateEntry, stubGetState, hread, hs, Stored.unmarshal, hw]

theorem updateEntry_inv (env : StubEnv) (s : Store (Stored Entry))
    (entryID repoName title description content updatedBy : String) (rest : List String)
    (h : (UpdateEntry env s
      (entryID :: repoName :: title :: description :: content :: updatedBy :: rest)).err =
      none) :
    ∃ found, env.getStateErr (entryKey entryID repoName) = none ∧
      getState s (entryKey entryID repoName) = some (Stored.record found) ∧
      stubPutStateErr env (entryKey entryID repoName) = none := by
  simp only [UpdateEntry, stubGetState] at h
  cases hg : env.getStateErr (entryKey entryID repoName) with
  | some e => simp [hg, TxResult.fail] at h
  | none =>
    simp only [hg] at h
    cases hs : getState s (entryKey entryID repoName) with
    | none => simp [hs, TxResult.fail] at h
    | some bytes =>
      simp only [hs] at h
      cases bytes with
      | raw b => simp [Stored.unmarshal, TxResult.fail] at h
      | record found =>
        simp only [Stored.unmarshal] at h
        cases hp : stubPutStateErr env (entryKey entryID repoName) with
        | some e => simp [hp, TxResult.fail] at h
        | none => exact ⟨found, rfl, rfl, rfl⟩

theorem deleteEntry_of_stored (env : StubEnv) (s : Store (Stored Entry))
    (entryID repoName deletedBy : String) (found : Entry)
    (h1 : entryID ≠ "") (h2 : repoName ≠ "")
    (hread : env.getStateErr (entryKey entryID repoName) = none)
    (hs : getState s (entryKey entryID repoName) = some (Stored.record found))
    (hw : stubPutStateErr env (entryKey entryID repoName) = none) :
    (DeleteEntry env s entryID repoName deletedBy).err = none ∧
    (DeleteEntry env s entryID repoName deletedBy).store =
      putState s (entryKey entryID repoName)
        (Stored.record (deletedEntry env found deletedBy)) := by
  simp [DeleteEntry, h1, h2, stubGetState, hread, hs, Stored.unmarshal, hw]

theorem deleteEntry_inv (env : StubEnv) (s : Store (Stored Entry))
    (entryID repoName deletedBy : String)
    (h : (DeleteEntry env s entryID repoName deletedBy).err = none) :
    ∃ found, entryID ≠ "" ∧ repoName ≠ "" ∧
      env.getStateErr (entryKey entryID repoName) = none ∧
      getState s (entryKey entryID repoName) = some (Stored.record found) ∧
      stubPutStateErr env (entryKey entryID repoName) = none := by
  unfold DeleteEntry at h
  split at h
  · simp [TxResult.fail] at h
  · rename_i hne
    simp only [stubGetState] at h
    cases hg : env.getStateErr (entryKey entryID repoName) with
    | some e => simp [hg, TxResult.fail] at h
    | none =>
      simp only [hg] at h
      cases hs : getState s (entryKey entryID repoName) with
      | none => simp [hs, TxResult.fail] at h
      | some bytes =>
        simp only [hs] at h
        cases bytes with
        | raw b => simp [Stored.unmarshal, TxResult.fail] at h
        | record found =>
          simp only [Stored.unmarshal] at h
          cases hp : stubPutStateErr env (entryKey entryID repoName) with
          | some e => simp [hp, TxResult.fail] at h
          | none =>
            exact ⟨found, fun e => hne (Or.inl e), fun e => hne (Or.inr e), rfl, rfl, rfl⟩

/-- C22, evaluated. For every successful `DeleteEntry(e, R, by)` the stored entry is the
previous one with status `deleted` and one line appended to the edit history, and its
version and its update time are those of the previous entry: neither is assigned. After
`CreateEntry(e1, repoA, ...)` at 2024-03-01 and `DeleteEntry(e1, repoA, mod1)` at
2024-03-02, both succeeding, the stored entry has version 1, not 2, and update time
2024-03-01, not the deletion time. -/
theorem delete_entry_keeps_version :
    (∀ (env : StubEnv) (s : Store (Stored Entry)) (entryID repoName deletedBy : String),
      (DeleteEntry env s entryID repoName deletedBy).err = none →
      ∃ found after,
        getState s (entryKey entryID repoName) = some (Stored.record found) ∧
        getState (DeleteEntry env s entryID repoName deletedBy).store
          (entryKey entryID repoName) = some (Stored.record after) ∧
        after.Status = "deleted" ∧
        after.EditHistory = found.EditHistory ++ [deleteAuditLine deletedBy env.now] ∧
        after.Version = found.Version ∧ after.UpdatedAt = found.UpdatedAt) ∧
    (CreateEntry entryEnv [] ["e1", "repoA", "First", "d1", "c1", "alice", "Qm1"]).err =
      none ∧
    (DeleteEntry laterEntryEnv oneEntryStore "e1" "repoA" "mod1").err = none ∧
    GetEntry entryEnv oneEntryStore "e1" "repoA" =
      Except.ok (sampleEntry "e1" "repoA" "First" "d1" "c1" "alice" "Qm1") ∧
    (∃ after, GetEntry laterEntryEnv deletedEntryStore "e1" "repoA" = Except.ok after ∧
      after.Status = "deleted" ∧
      after.EditHistory = ["Deleted by mod1 at 2024-03-02T00:00:00Z"] ∧
      after.Version = 1 ∧ after.Version ≠ 1 + 1 ∧
      after.UpdatedAt = "2024-03-01T00:00:00Z" ∧ after.UpdatedAt ≠ laterEntryEnv.now) := by
  refine ⟨?_, by decide, by decide, by decide, ?_⟩
  · intro env s entryID repoName deletedBy h
    obtain ⟨found, h1, h2, hread, hs, hw⟩ := deleteEntry_inv env s entryID repoName deletedBy h
    refine ⟨found, deletedEntry env found deletedBy, hs, ?_, rfl, rfl, rfl, rfl⟩
    rw [(deleteEntry_of_stored env s entryID repoName deletedBy found h1 h2 hread hs hw).2]
    exact getState_putState_same _ _ _
  · exact ⟨deletedEntry laterEntryEnv (sampleEntry "e1" "repoA" "First" "d1" "c1" "alice" "Qm1")
      "mod1", by decide, by decide, by decide, by decide, by decide, by decide, by decide⟩

/-- C23. For every store holding an entry at (e, R) whose version is below the largest `int`,
a successful `UpdateEntry(e, R, title, description, content, by[, torrentHash])` changes no
key of the store and stores under the key of (e, R) an entry whose version is the previous
one plus 1, whose edit history is the previous one followed by the one line
`v<new version> updated by <by> at <now>`, whose update time is the time of the call, whose
title, description, content and torrent hash are the supplied values where non-empty and the
previous values otherwise, and whose ID, repo, author, tags, status and creation time are
unchanged. -/
theorem UpdateEntry_versioned (env : StubEnv) (s : Store (Stored Entry))
    (entryID repoName title description content updatedBy : String) (rest : List String)
    (old : Entry)
    (hold : getState s (entryKey entryID repoName) = some (Stored.record old))
    (hlo : minInt64 ≤ old.Version) (hhi : old.Version < maxInt64)
    (hok : (UpdateEntry env s
      (entryID :: repoName :: title :: description :: content :: updatedBy :: rest)).err =
      none) :
    keys (UpdateEntry env s
      (entryID :: repoName :: title :: description :: content :: updatedBy :: rest)).store =
      keys s ∧
    (∀ k, k ≠ entryKey entryID repoName →
      getState (UpdateEntry env s
        (entryID :: repoName :: title :: description :: content :: updatedBy :: rest)).store
        k = getState s k) ∧
    ∃ new,
      getState (UpdateEntry env s
        (entryID :: repoName :: title :: description :: content :: updatedBy :: rest)).store
        (entryKey entryID repoName) = some (Stored.record new) ∧
      new.Version = old.Version + 1 ∧
      new.EditHistory = old.EditHistory ++
        ["v" ++ toString (old.Version + 1) ++ " updated by " ++ updatedBy ++ " at " ++
          env.now] ∧
      new.UpdatedAt = env.now ∧
      new.Title = (if title = "" then old.Title else title) ∧
      new.Description = (if description = "" then old.Description else description) ∧
      new.Content = (if content = "" then old.Content else content) ∧
      new.TorrentHash = (if rest.headD "" = "" then old.TorrentHash else rest.headD "") ∧
      new.ID = old.ID ∧ new.RepoName = old.RepoName ∧ new.Author = old.Author ∧
      new.Tags = old.Tags ∧ new.Status = old.Status ∧ new.CreatedAt = old.CreatedAt := by
  obtain ⟨found, hread, hs, hw⟩ := updateEntry_inv env s entryID repoName title description
    content updatedBy rest hok
  have hf : found = old := by
    rw [hs] at hold
    exact Stored.record.inj (Option.some.inj hold)
  subst hf
  have hv : wrapInt64 (found.Version + 1) = found.Version + 1 :=
    wrapInt64_succ found.Version hlo hhi
  rw [(updateEntry_of_stored env s entryID repoName title description content updatedBy rest
    found hread hs hw).2]
  refine ⟨?_, ?_, updatedEntry env found title description content updatedBy rest,
    getState_putState_same _ _ _, hv, ?_, rfl, ?_, ?_, ?_, ?_, rfl, rfl, rfl, rfl, rfl, rfl⟩
  · exact keys_putState_of_isSome s _ _ (by rw [hs]; rfl)
  · intro k hk
    exact getState_putState_other s _ k _ hk
  · simp [updatedEntry, updateAuditLine, hv]
  · by_cases h : title = "" <;> simp [updatedEntry, h]
  · by_cases h : description = "" <;> simp [updatedEntry, h]
  · by_cases h : content = "" <;> simp [updatedEntry, h]
  · cases rest with
    | nil => simp [updatedEntry]
    | cons t tl => by_cases h : t = "" <;> simp [updatedEntry, h]

theorem UpdateEntry_versioned_witness :
    keys (UpdateEntry laterEntryEnv oneEntryStore
      ["e1", "repoA", "Renamed", "", "c2", "bob", "Qm9"]).store = keys oneEntryStore ∧
    (∀ k, k ≠ entryKey "e1" "repoA" →
      getState (UpdateEntry laterEntryEnv oneEntryStore
        ["e1", "repoA", "Renamed", "", "c2", "bob", "Qm9"]).store k =
        getState oneEntryStore k) ∧
    ∃ new,
      getState (UpdateEntry laterEntryEnv oneEntryStore
        ["e1", "repoA", "Renamed", "", "c2", "bob", "Qm9"]).store
        (entryKey "e1" "repoA") = some (Stored.record new) ∧
      new.Version = (sampleEntry "e1" "repoA" "First" "d1" "c1" "alice" "Qm1").Version + 1 ∧
      new.EditHistory =
        (sampleEntry "e1" "repoA" "First" "d1" "c1" "alice" "Qm1").EditHistory ++
        ["v" ++ toString
          ((sampleEntry "e1" "repoA" "First" "d1" "c1" "alice" "Qm1").Version + 1) ++
          " updated by " ++ "bob" ++ " at " ++ laterEntryEnv.now] ∧
      new.UpdatedAt = laterEntryEnv.now ∧
      new.Title = (if "Renamed" = "" then
        (sampleEntry "e1" "repoA" "First" "d1" "c1" "alice" "Qm1").Title else "Renamed") ∧
      new.Description = (if "" = "" then
        (sampleEntry "e1" "repoA" "First" "d1" "c1" "alice" "Qm1").Description else "") ∧
      new.Content = (if "c2" = "" then
        (sampleEntry "e1" "repoA" "First" "d1" "c1" "alice" "Qm1").Content else "c2") ∧
      new.TorrentHash = (if ["Qm9"].headD "" = "" then
        (sampleEntry "e1" "repoA" "First" "d1" "c1" "alice" "Qm1").TorrentHash
        else ["Qm9"].headD "") ∧
      new.ID = (sampleEntry "e1" "repoA" "First" "d1" "c1" "alice" "Qm1").ID ∧
      new.RepoName = (sampleEntry "e1" "repoA" "First" "d1" "c1" "alice" "Qm1").RepoName ∧
      new.Author = (sampleEntry "e1" "repoA" "First" "d1" "c1" "alice" "Qm1").Author ∧
      new.Tags = (sampleEntry "e1" "repoA" "First" "d1" "c1" "alice" "Qm1").Tags ∧
      new.Status = (sampleEntry "e1" "repoA" "First" "d1" "c1" "alice" "Qm1").Status ∧
      new.CreatedAt = (sampleEntry "e1" "repoA" "First" "d1" "c1" "alice" "Qm1").CreatedAt :=
  UpdateEntry_versioned laterEntryEnv oneEntryStore "e1" "repoA" "Renamed" "" "c2" "bob"
    ["Qm9"] (sampleEntry "e1" "repoA" "First" "d1" "c1" "alice" "Qm1")
    (by decide) (by decide) (by decide) (by decide)

/-! ## Outcomes of the mutating operations -/

theorem createEntry_outcome (env : StubEnv) (s : Store (Stored Entry)) (args : List String) :
    ((CreateEntry env s args).err.isSome = true ∧ (CreateEntry env s args).store = s ∧
      (CreateEntry env s args).writes = []) ∨
    ∃ entryID repoName tail, args = entryID :: repoName :: tail ∧
      (CreateEntry env s args).err = none ∧
      (stubGetState env s (entryKey entryID repoName)).1 = none := by
  unfold CreateEntry
  split
  · rename_i entryID repoName title description content author torrentHash rest
    simp only []
    split
    · exact Or.inl ⟨rfl, rfl, rfl⟩
    · split
      · exact Or.inl ⟨rfl, rfl, rfl⟩
      · split
        · exact Or.inl ⟨rfl, rfl, rfl⟩
        · rename_i hex
          split
          · exact Or.inl ⟨rfl, rfl, rfl⟩
          · refine Or.inr ⟨entryID, repoName, _, rfl, rfl, ?_⟩
            cases hg : (stubGetState env s (entryKey entryID repoName)).1 with
            | none => rfl
            | some v => simp [hg] at hex
  · exact Or.inl ⟨rfl, rfl, rfl⟩

theorem addComment_outcome (env : StubEnv) (s : Store (Stored Comment))
    (args : List String) :
    ((AddComment env s args).err.isSome = true ∧ (AddComment env s args).store = s ∧
      (AddComment env s args).writes = []) ∨
    ∃ commentID entryID tail, args = commentID :: entryID :: tail ∧
      (AddComment env s args).err = none ∧
      (stubGetState env s (commentKey commentID entryID)).1 = none := by
  unfold AddComment
  split
  · rename_i commentID entryID repoName content author ratingStr rest
    simp only []
    split
    · exact Or.inl ⟨rfl, rfl, rfl⟩
    · split
      · exact Or.inl ⟨rfl, rfl, rfl⟩
      · split
        · exact Or.inl ⟨rfl, rfl, rfl⟩
        · rename_i hex
          split
          · exact Or.inl ⟨rfl, rfl, rfl⟩
          · refine Or.inr ⟨commentID, entryID, _, rfl, rfl, ?_⟩
            cases hg : (stubGetState env s (commentKey commentID entryID)).1 with
            | none => rfl
            | some v => simp [hg] at hex
  · exact Or.inl ⟨rfl, rfl, rfl⟩

theorem stubGetState_of_read {β : Type} (env : StubEnv) (s : Store β) (key : String)
    (hread : env.getStateErr key = none) :
    stubGetState env s key = (getState s key, none) := by
  simp [stubGetState, hread]

theorem stubGetState_of_absent {β : Type} (env : StubEnv) (s : Store β) (key : String)
    (habs : getState s key = none) : (stubGetState env s key).1 = none := by
  unfold stubGetState
  cases env.getStateErr key with
  | some e => rfl
  | none => exact habs

theorem updateEntry_outcome (env : StubEnv) (s : Store (Stored Entry)) (args : List String) :
    ((UpdateEntry env s args).err.isSome = true ∧ (UpdateEntry env s args).store = s ∧
      (UpdateEntry env s args).writes = []) ∨
    ∃ entryID repoName tail found, args = entryID :: repoName :: tail ∧
      (UpdateEntry env s args).err = none ∧
      (stubGetState env s (entryKey entryID repoName)).1 = some (Stored.record found) := by
  unfold UpdateEntry
  split
  · rename_i entryID repoName title description content updatedBy rest
    simp only []
    split
    · exact Or.inl ⟨rfl, rfl, rfl⟩
    · exact Or.inl ⟨rfl, rfl, rfl⟩
    · rename_i entryJSON hg
      split
      · exact Or.inl ⟨rfl, rfl, rfl⟩
      · rename_i found hu
        split
        · exact Or.inl ⟨rfl, rfl, rfl⟩
        · refine Or.inr ⟨entryID, repoName, _, found, rfl, rfl, ?_⟩
          rw [hg]
          cases entryJSON with
          | raw b => simp [Stored.unmarshal] at hu
          | record a =>
            simp only [Stored.unmarshal, Option.some.injEq] at hu
            rw [hu]
  · exact Or.inl ⟨rfl, rfl, rfl⟩

theorem deleteEntry_outcome (env : StubEnv) (s : Store (Stored Entry))
    (entryID repoName deletedBy : String) :
    ((DeleteEntry env s entryID repoName deletedBy).err.isSome = true ∧
      (DeleteEntry env s entryID repoName deletedBy).store = s ∧
      (DeleteEntry env s entryID repoName deletedBy).writes = []) ∨
    ∃ found, (DeleteEntry env s entryID repoName deletedBy).err = none ∧
      (stubGetState env s (entryKey entryID repoName)).1 = some (Stored.record found) := by
  unfold DeleteEntry
  split
  · exact Or.inl ⟨rfl, rfl, rfl⟩
  · simp only []
    split
    · exact Or.inl ⟨rfl, rfl, rfl⟩
    · exact Or.inl ⟨rfl, rfl, rfl⟩
    · rename_i entryJSON hg
      split
      · exact Or.inl ⟨rfl, rfl, rfl⟩
      · rename_i found hu
        split
        · exact Or.inl ⟨rfl, rfl, rfl⟩
        · refine Or.inr ⟨found, rfl, ?_⟩
          rw [hg]
          cases entryJSON with
          | raw b => simp [Stored.unmarshal] at hu
          | record a =>
            simp only [Stored.unmarshal, Option.some.injEq] at hu
            rw [hu]

theorem getComment_error_of_absent (env : StubEnv) (s : Store (Stored Comment))
    (commentID entryID : String)
    (habs : getState s (commentKey commentID entryID) = none) :
    ∃ e, GetComment env s commentID entryID = Except.error e := by
  cases h : GetComment env s commentID entryID with
  | error e => exact ⟨e, rfl⟩
  | ok c =>
    obtain ⟨_, _, _, hst⟩ := getComment_stored env s commentID entryID c h
    rw [habs] at hst
    exact absurd hst (by simp)

theorem getRating_error_of_absent (env : StubEnv) (s : Store (Stored Rating))
    (ratingID entryID : String)
    (habs : getState s (ratingKey ratingID entryID) = none) :
    ∃ e, GetRating env s ratingID entryID = Except.error e := by
  cases h : GetRating env s ratingID entryID with
  | error e => exact ⟨e, rfl⟩
  | ok c =>
    have hst := getRating_stored env s ratingID entryID c h
    rw [habs] at hst
    exact absurd hst (by simp)

theorem lookup_error_of_absent (env : Env) (s : Store Doc) (imdbID : String)
    (habs : getState s (buildContentRequestKey imdbID) = none) :
    ∃ e, getContentRequestByIMDBID env s imdbID = Except.error e := by
  unfold getContentRequestByIMDBID
  cases env.getStateErr (buildContentRequestKey imdbID) with
  | some e => exact ⟨_, rfl⟩
  | none => exact ⟨"ContentRequest not found", by simp [habs]⟩

/-- Creation on an existing identity when the existence check reads the ledger
successfully: when the store holds a value at the composite key of (entryID, repoName),
`CreateEntry` with that identity, whatever its other arguments, returns an error, writes
nothing and leaves the store as it was; and when the store holds a value at the composite
key of (commentID, entryID), soft-deleted comment included, `AddComment` with that identity
returns an error, writes nothing and leaves the store as it was, the parent's child list
included. -/
theorem create_rejects_existing_identity :
    (∀ (env : StubEnv) (s : Store (Stored Entry)) (entryID repoName : String)
        (tail : List String),
      env.getStateErr (entryKey entryID repoName) = none →
      (getState s (entryKey entryID repoName)).isSome = true →
      (CreateEntry env s (entryID :: repoName :: tail)).err.isSome = true ∧
      (CreateEntry env s (entryID :: repoName :: tail)).store = s ∧
      (CreateEntry env s (entryID :: repoName :: tail)).writes = []) ∧
    (∀ (env : StubEnv) (s : Store (Stored Comment)) (commentID entryID : String)
        (tail : List String),
      env.getStateErr (commentKey commentID entryID) = none →
      (getState s (commentKey commentID entryID)).isSome = true →
      (AddComment env s (commentID :: entryID :: tail)).err.isSome = true ∧
      (AddComment env s (commentID :: entryID :: tail)).store = s ∧
      (AddComment env s (commentID :: entryID :: tail)).writes = []) := by
  constructor
  · intro env s entryID repoName tail hread hex
    rcases createEntry_outcome env s (entryID :: repoName :: tail) with h | ⟨e, R, t, ha, _, hn⟩
    · exact h
    · simp only [List.cons.injEq] at ha
      obtain ⟨h1, h2, _⟩ := ha
      subst h1 h2
      rw [stubGetState_of_read env s _ hread] at hn
      rw [show getState s (entryKey entryID repoName) = none from hn] at hex
      exact absurd hex (by simp)
  · intro env s commentID entryID tail hread hex
    rcases addComment_outcome env s (commentID :: entryID :: tail) with
      h | ⟨c, E, t, ha, _, hn⟩
    · exact h
    · simp only [List.cons.injEq] at ha
      obtain ⟨h1, h2, _⟩ := ha
      subst h1 h2
      rw [stubGetState_of_read env s _ hread] at hn
      rw [show getState s (commentKey commentID entryID) = none from hn] at hex
      exact absurd hex (by simp)

theorem create_rejects_existing_identity_witness :
    (AddComment commentEnv (DeleteComment commentEnv threadStore "C1" "E1" "alice").store
      ("C1" :: "E1" :: ["repo", "again", "bob", "0"])).err.isSome = true ∧
    (AddComment commentEnv (DeleteComment commentEnv threadStore "C1" "E1" "alice").store
      ("C1" :: "E1" :: ["repo", "again", "bob", "0"])).store =
      (DeleteComment commentEnv threadStore "C1" "E1" "alice").store ∧
    (AddComment commentEnv (DeleteComment commentEnv threadStore "C1" "E1" "alice").store
      ("C1" :: "E1" :: ["repo", "again", "bob", "0"])).writes = [] :=
  create_rejects_existing_identity.2 commentEnv
    (DeleteComment commentEnv threadStore "C1" "E1" "alice").store "C1" "E1"
    ["repo", "again", "bob", "0"] (by decide) (by decide)

/-- C24, evaluated in a transaction whose ledger reads fail. `CreateEntry(e1, repoA, ...)`
on the store that holds entry `e1` of `repoA` returns no error and writes a new entry over
the stored one; `AddComment(C1, E1, ...)` on the store that holds the soft-deleted comment
`C1` of `E1` returns no error and writes a new, active comment over the stored one. With
the reads succeeding both invocations return the error `already exists`. -/
theorem create_overwrites_on_failed_read :
    oneEntryStore =
      [(entryKey "e1" "repoA",
        Stored.record (sampleEntry "e1" "repoA" "First" "d1" "c1" "alice" "Qm1"))] ∧
    (CreateEntry readFailEnv oneEntryStore
      ["e1", "repoA", "Second", "d2", "c2", "bob", "Qm2"]).err = none ∧
    (CreateEntry readFailEnv oneEntryStore
      ["e1", "repoA", "Second", "d2", "c2", "bob", "Qm2"]).store =
      [(entryKey "e1" "repoA",
        Stored.record
          { sampleEntry "e1" "repoA" "Second" "d2" "c2" "bob" "Qm2" with
            CreatedAt := "2024-05-01T00:00:00Z", UpdatedAt := "2024-05-01T00:00:00Z" })] ∧
    (CreateEntry entryEnv oneEntryStore
      ["e1", "repoA", "Second", "d2", "c2", "bob", "Qm2"]).err =
      some "entry e1 already exists in repo repoA" ∧
    deletedThreadStore =
      [(commentKey "C1" "E1",
        Stored.record
          { sampleComment "C1" "E1" "root" "alice" "" with Status := "deleted" })] ∧
    (AddComment readFailEnv deletedThreadStore
      ["C1", "E1", "repo", "again", "bob", "0"]).err = none ∧
    (AddComment readFailEnv deletedThreadStore
      ["C1", "E1", "repo", "again", "bob", "0"]).store =
      [(commentKey "C1" "E1",
        Stored.record
          { sampleComment "C1" "E1" "again" "bob" "" with
            CreatedAt := "2024-05-01T00:00:00Z", UpdatedAt := "2024-05-01T00:00:00Z" })] ∧
    (AddComment commentEnv deletedThreadStore
      ["C1", "E1", "repo", "again", "bob", "0"]).err = some "comment C1 already exists" := by
  refine ⟨?_, ?_, ?_, ?_, ?_, ?_, ?_, ?_⟩ <;> decide

/-- C25. Not found leaves the store untouched: when the store holds no value at the target
key, each of `ApproveContentRequest`, `RejectContentRequest`, `UpdateEntry`, `DeleteEntry`,
`UpdateComment`, `DeleteComment` and `DeleteRating` reports failure (the two operations of
the movie contract in their response, the others in the returned error), writes nothing, and
the store after the call is the store before it. -/
theorem not_found_leaves_store_untouched :
    (∀ (env : Env) (s : Store Doc) (imdbID moderatorID : String),
      getState s (buildContentRequestKey imdbID) = none →
      (ApproveContentRequest env s imdbID moderatorID).response.Success = false ∧
      (ApproveContentRequest env s imdbID moderatorID).store = s ∧
      (ApproveContentRequest env s imdbID moderatorID).writes = []) ∧
    (∀ (env : Env) (s : Store Doc) (imdbID moderatorID rejectionReason : String),
      getState s (buildContentRequestKey imdbID) = none →
      (RejectContentRequest env s imdbID moderatorID rejectionReason).response.Success =
        false ∧
      (RejectContentRequest env s imdbID moderatorID rejectionReason).store = s ∧
      (RejectContentRequest env s imdbID moderatorID rejectionReason).writes = []) ∧
    (∀ (env : StubEnv) (s : Store (Stored Entry)) (entryID repoName : String)
        (tail : List String),
      getState s (entryKey entryID repoName) = none →
      (UpdateEntry env s (entryID :: repoName :: tail)).err.isSome = true ∧
      (UpdateEntry env s (entryID :: repoName :: tail)).store = s ∧
      (UpdateEntry env s (entryID :: repoName :: tail)).writes = []) ∧
    (∀ (env : StubEnv) (s : Store (Stored Entry)) (entryID repoName deletedBy : String),
      getState s (entryKey entryID repoName) = none →
      (DeleteEntry env s entryID repoName deletedBy).err.isSome = true ∧
      (DeleteEntry env s entryID repoName deletedBy).store = s ∧
      (DeleteEntry env s entryID repoName deletedBy).writes = []) ∧
    (∀ (env : StubEnv) (s : Store (Stored Comment))
        (commentID entryID newContent updatedBy : String),
      getState s (commentKey commentID entryID) = none →
      (UpdateComment env s commentID entryID newContent updatedBy).err.isSome = true ∧
      (UpdateComment env s commentID entryID newContent updatedBy).store = s ∧
      (UpdateComment env s commentID entryID newContent updatedBy).writes = []) ∧
    (∀ (env : StubEnv) (s : Store (Stored Comment)) (commentID entryID deletedBy : String),
      getState s (commentKey commentID entryID) = none →
      (DeleteComment env s commentID entryID deletedBy).err.isSome = true ∧
      (DeleteComment env s commentID entryID deletedBy).store = s ∧
      (DeleteComment env s commentID entryID deletedBy).writes = []) ∧
    (∀ (env : StubEnv) (s : Store (Stored Rating)) (ratingID entryID : String),
      getState s (ratingKey ratingID entryID) = none →
      (DeleteRating env s ratingID entryID).err.isSome = true ∧
      (DeleteRating env s ratingID entryID).store = s ∧
      (DeleteRating env s ratingID entryID).writes = []) := by
  refine ⟨?_, ?_, ?_, ?_, ?_, ?_, ?_⟩
  · intro env s imdbID moderatorID habs
    obtain ⟨e, he⟩ := lookup_error_of_absent env s imdbID habs
    obtain ⟨h1, h2, h3, _⟩ := approve_of_lookup_error env s imdbID moderatorID e he
    exact ⟨h1, h2, h3⟩
  · intro env s imdbID moderatorID rejectionReason habs
    obtain ⟨e, he⟩ := lookup_error_of_absent env s imdbID habs
    obtain ⟨h1, h2, h3, _⟩ :=
      reject_of_lookup_error env s imdbID moderatorID rejectionReason e he
    exact ⟨h1, h2, h3⟩
  · intro env s entryID repoName tail habs
    rcases updateEntry_outcome env s (entryID :: repoName :: tail) with
      h | ⟨e, R, t, found, ha, _, hn⟩
    · exact h
    · simp only [List.cons.injEq] at ha
      obtain ⟨h1, h2, _⟩ := ha
      subst h1 h2
      rw [stubGetState_of_absent env s _ habs] at hn
      exact absurd hn (by simp)
  · intro env s entryID repoName deletedBy habs
    rcases deleteEntry_outcome env s entryID repoName deletedBy with h | ⟨found, _, hn⟩
    · exact h
    · rw [stubGetState_of_absent env s _ habs] at hn
      exact absurd hn (by simp)
  · intro env s commentID entryID newContent updatedBy habs
    obtain ⟨e, he⟩ := getComment_error_of_absent env s commentID entryID habs
    unfold UpdateComment
    split
    · exact ⟨rfl, rfl, rfl⟩
    · rw [he]
      exact ⟨rfl, rfl, rfl⟩
  · intro env s commentID entryID deletedBy habs
    obtain ⟨e, he⟩ := getComment_error_of_absent env s commentID entryID habs
    unfold DeleteComment
    rw [he]
    exact ⟨rfl, rfl, rfl⟩
  · intro env s ratingID entryID habs
    obtain ⟨e, he⟩ := getRating_error_of_absent env s ratingID entryID habs
    unfold DeleteRating
    rw [he]
    exact ⟨rfl, rfl, rfl⟩

/-! ## Ledger failures and undecodable values -/

/-- C26, evaluated. The existence check of `CreateEntry`, of `AddComment` and of
`SubmitRating` drops the error of its ledger read: with every read failing, `CreateEntry` on
a store that holds entry `e1` of `repoA` returns no error and replaces the stored entry,
`AddComment` on a store that holds comment `C1` of `E1` returns no error and replaces the
stored comment, and `SubmitRating` on a store that holds rating `r1` of `E1` returns no
error and replaces the stored rating, rater and creation time included. `AddComment` also
drops the errors of the parent fetch and of the parent rewrite: a reply `R` to `C1` returns
no error while the child list of `C1` stays empty. -/
theorem store_failures_swallowed :
    readFailEnv.getStateErr (entryKey "e1" "repoA") = some "ledger unavailable" ∧
    (CreateEntry readFailEnv oneEntryStore
      ["e1", "repoA", "Second", "d2", "c2", "bob", "Qm2"]).err = none ∧
    getState oneEntryStore (entryKey "e1" "repoA") =
      some (Stored.record (sampleEntry "e1" "repoA" "First" "d1" "c1" "alice" "Qm1")) ∧
    getState (CreateEntry readFailEnv oneEntryStore
      ["e1", "repoA", "Second", "d2", "c2", "bob", "Qm2"]).store (entryKey "e1" "repoA") =
      some (Stored.record
        { sampleEntry "e1" "repoA" "Second" "d2" "c2" "bob" "Qm2" with
          CreatedAt := "2024-05-01T00:00:00Z", UpdatedAt := "2024-05-01T00:00:00Z" }) ∧
    (AddComment readFailEnv threadStore ["C1", "E1", "repo", "other", "bob", "0"]).err =
      none ∧
    getState threadStore (commentKey "C1" "E1") =
      some (Stored.record (sampleComment "C1" "E1" "root" "alice" "")) ∧
    getState (AddComment readFailEnv threadStore
      ["C1", "E1", "repo", "other", "bob", "0"]).store (commentKey "C1" "E1") =
      some (Stored.record
        { sampleComment "C1" "E1" "other" "bob" "" with
          CreatedAt := "2024-05-01T00:00:00Z", UpdatedAt := "2024-05-01T00:00:00Z" }) ∧
    (SubmitRating readFailEnv oneRatingStore ["r1", "E1", "repo2", "bob", "5"]).err = none ∧
    getState oneRatingStore (ratingKey "r1" "E1") =
      some (Stored.record (sampleRating "r1" "E1" 3)) ∧
    getState (SubmitRating readFailEnv oneRatingStore
      ["r1", "E1", "repo2", "bob", "5"]).store (ratingKey "r1" "E1") =
      some (Stored.record
        { sampleRating "r1" "E1" 5 with
          RepoName := "repo2", Rater := "bob", CreatedAt := "2024-05-01T00:00:00Z",
          UpdatedAt := "2024-05-01T00:00:00Z" }) ∧
    (AddComment readFailEnv threadStore
      ["R", "E1", "repo", "reply", "bob", "0", "C1"]).err = none ∧
    getState (AddComment readFailEnv threadStore
      ["R", "E1", "repo", "reply", "bob", "0", "C1"]).store (commentKey "C1" "E1") =
      some (Stored.record (sampleComment "C1" "E1" "root" "alice" "")) ∧
    stubPutStateErr parentWriteFailEnv (commentKey "C1" "E1") = some "ledger unavailable" ∧
    (AddComment parentWriteFailEnv threadStore
      ["R", "E1", "repo", "reply", "bob", "0", "C1"]).err = none ∧
    getState (AddComment parentWriteFailEnv threadStore
      ["R", "E1", "repo", "reply", "bob", "0", "C1"]).store (commentKey "C1" "E1") =
      some (Stored.record (sampleComment "C1" "E1" "root" "alice" "")) ∧
    getState (AddComment parentWriteFailEnv threadStore
      ["R", "E1", "repo", "reply", "bob", "0", "C1"]).store (commentKey "R" "E1") =
      some (Stored.record (sampleComment "R" "E1" "reply" "bob" "C1")) := by
  refine ⟨?_, ?_, ?_, ?_, ?_, ?_, ?_, ?_, ?_, ?_, ?_, ?_, ?_, ?_, ?_, ?_⟩ <;> decide

/-- C27, evaluated. On a store whose scan for `repoA` meets an undecodable value and then a
decodable active entry, `ListEntries(repoA)` returns the error `failed to unmarshal entry`
and no entry, whereas without the undecodable value it returns the entry. On the like
stores of the other two contracts `GetEntryComments` and `GetEntryRatings` succeed and
return the decodable record. -/
theorem list_entries_aborts_on_malformed :
    getStateByPartialCompositeKey entryEnv malformedEntryStore "entry~repo" ["repoA"] =
      Except.ok malformedEntryStore ∧
    ListEntries entryEnv malformedEntryStore ["repoA"] =
      Except.error "failed to unmarshal entry: " ∧
    ListEntries entryEnv (delState malformedEntryStore (entryKey "repoA" "x")) ["repoA"] =
      Except.ok [sampleEntry "repoA" "y" "Kept" "d" "c" "alice" "Qm"] ∧
    GetEntryComments commentEnv malformedCommentStore "E1" "false" =
      Except.ok [sampleComment "E1" "y" "kept" "alice" ""] ∧
    GetEntryRatings ratingEnv malformedRatingStore "E1" =
      Except.ok [sampleRating "E1" "y" 4] :=
  ⟨by decide, by decide, by decide, by decide, by decide⟩

/-! ## Ratings: resubmission -/

theorem submitRating_inv (env : StubEnv) (s : Store (Stored Rating))
    (ratingID entryID repoName rater ratingStr : String) (rest : List String)
    (h : (SubmitRating env s
      (ratingID :: entryID :: repoName :: rater :: ratingStr :: rest)).err = none) :
    (ratingID ≠ "" ∧ entryID ≠ "" ∧ repoName ≠ "" ∧ rater ≠ "") ∧
    (∃ score, env.atoi ratingStr = some score ∧ 1 ≤ score ∧ score ≤ 5) ∧
    stubPutStateErr env (ratingKey ratingID entryID) = none := by
  unfold SubmitRating at h
  simp only [] at h
  split at h
  · simp [TxResult.fail] at h
  · rename_i hne
    split at h
    · simp [TxResult.fail] at h
    · rename_i score hscore
      split at h
      · simp [TxResult.fail] at h
      · rename_i hrange
        split at h
        · simp [TxResult.fail] at h
        · split at h
          · simp [TxResult.fail] at h
          · rename_i hput
            refine ⟨⟨fun e => hne (Or.inl e), fun e => hne (Or.inr (Or.inl e)),
              fun e => hne (Or.inr (Or.inr (Or.inl e))),
              fun e => hne (Or.inr (Or.inr (Or.inr e)))⟩, ⟨score, hscore, ?_, ?_⟩, hput⟩
            · omega
            · omega

theorem submitRating_of_existing (env : StubEnv) (s : Store (Stored Rating))
    (ratingID entryID repoName rater ratingStr : String) (rest : List String)
    (old : Rating) (score : Int)
    (hargs : ratingID ≠ "" ∧ entryID ≠ "" ∧ repoName ≠ "" ∧ rater ≠ "")
    (hscore : env.atoi ratingStr = some score) (hlo : 1 ≤ score) (hhi : score ≤ 5)
    (hread : env.getStateErr (ratingKey ratingID entryID) = none)
    (hold : getState s (ratingKey ratingID entryID) = some (Stored.record old))
    (hwrite : stubPutStateErr env (ratingKey ratingID entryID) = none) :
    (SubmitRating env s
      (ratingID :: entryID :: repoName :: rater :: ratingStr :: rest)).store =
      putState s (ratingKey ratingID entryID)
        (Stored.record { old with
          Rating := score, Review := rest.headD "", UpdatedAt := env.now,
          Status := "active" }) := by
  obtain ⟨h1, h2, h3, h4⟩ := hargs
  have hrange : ¬ (score < 1 ∨ score > 5) := by omega
  have hrev : (match rest with
      | r :: _ => if r ≠ "" then r else ""
      | [] => "") = rest.headD "" := by
    cases rest with
    | nil => rfl
    | cons r tl =>
      by_cases hr : r = ""
      · simp [hr]
      · simp [hr]
  simp only [SubmitRating, h1, h2, h3, h4, or_self, if_false, hscore, hrange, stubGetState,
    hread, hold, Stored.unmarshal, hwrite, hrev]

/-- C29, counterexample. After `SubmitRating(r1, E1, repo, alice, 3)` and
`DeleteRating(r1, E1)` the stored rating has status `deleted`; the valid
`SubmitRating(r1, E1, repo, alice, 4)` then succeeds and the stored rating has status
`active`: the status is not left unchanged. -/
theorem resubmission_reactivates_rating :
    getState deletedRatingStore (ratingKey "r1" "E1") =
      some (Stored.record { sampleRating "r1" "E1" 3 with Status := "deleted" }) ∧
    (SubmitRating ratingEnv deletedRatingStore ["r1", "E1", "repo", "alice", "4"]).err =
      none ∧
    getState (SubmitRating ratingEnv deletedRatingStore
      ["r1", "E1", "repo", "alice", "4"]).store (ratingKey "r1" "E1") =
      some (Stored.record (sampleRating "r1" "E1" 4)) ∧
    (sampleRating "r1" "E1" 4).Status = "active" ∧
    (sampleRating "r1" "E1" 4).Status ≠
      ({ sampleRating "r1" "E1" 3 with Status := "deleted" } : Rating).Status :=
  ⟨by decide, by decide, by decide, by decide, by decide⟩

/-- C29, amended. For every store holding a rating at (r, E), whose read succeeds, every
successful `SubmitRating(r, E, repo', rater', s, review)` changes no key of the store, and
the record stored afterwards at (r, E) has the submitted score and review, the time of the
call as update time and the status `active`, whatever the status was; its ID, entry ID,
repo name, rater and creation time are those of the previous record, whatever repo' and
rater' are. -/
theorem SubmitRating_resubmission_frame (env : StubEnv) (s : Store (Stored Rating))
    (ratingID entryID repoName rater ratingStr : String) (rest : List String)
    (old : Rating)
    (hold : getState s (ratingKey ratingID entryID) = some (Stored.record old))
    (hread : env.getStateErr (ratingKey ratingID entryID) = none)
    (hok : (SubmitRating env s
      (ratingID :: entryID :: repoName :: rater :: ratingStr :: rest)).err = none) :
    keys (SubmitRating env s
      (ratingID :: entryID :: repoName :: rater :: ratingStr :: rest)).store = keys s ∧
    (∀ k, k ≠ ratingKey ratingID entryID →
      getState (SubmitRating env s
        (ratingID :: entryID :: repoName :: rater :: ratingStr :: rest)).store k =
        getState s k) ∧
    ∃ new,
      getState (SubmitRating env s
        (ratingID :: entryID :: repoName :: rater :: ratingStr :: rest)).store
        (ratingKey ratingID entryID) = some (Stored.record new) ∧
      env.atoi ratingStr = some new.Rating ∧ new.Review = rest.headD "" ∧
      new.UpdatedAt = env.now ∧ new.Status = "active" ∧
      new.ID = old.ID ∧ new.EntryID = old.EntryID ∧ new.RepoName = old.RepoName ∧
      new.Rater = old.Rater ∧ new.CreatedAt = old.CreatedAt := by
  obtain ⟨hargs, ⟨score, hscore, hlo, hhi⟩, hwrite⟩ :=
    submitRating_inv env s ratingID entryID repoName rater ratingStr rest hok
  rw [submitRating_of_existing env s ratingID entryID repoName rater ratingStr rest old score
    hargs hscore hlo hhi hread hold hwrite]
  refine ⟨keys_putState_of_isSome s _ _ (by rw [hold]; rfl), ?_, _,
    getState_putState_same _ _ _, hscore, rfl, rfl, rfl, rfl, rfl, rfl, rfl, rfl⟩
  intro k hk
  exact getState_putState_other s _ k _ hk

theorem SubmitRating_resubmission_frame_witness :
    keys (SubmitRating ratingEnv deletedRatingStore
      ("r1" :: "E1" :: "repo2" :: "bob" :: "4" :: ["fine"])).store = keys deletedRatingStore ∧
    (∀ k, k ≠ ratingKey "r1" "E1" →
      getState (SubmitRating ratingEnv deletedRatingStore
        ("r1" :: "E1" :: "repo2" :: "bob" :: "4" :: ["fine"])).store k =
        getState deletedRatingStore k) ∧
    ∃ new,
      getState (SubmitRating ratingEnv deletedRatingStore
        ("r1" :: "E1" :: "repo2" :: "bob" :: "4" :: ["fine"])).store
        (ratingKey "r1" "E1") = some (Stored.record new) ∧
      ratingEnv.atoi "4" = some new.Rating ∧ new.Review = ["fine"].headD "" ∧
      new.UpdatedAt = ratingEnv.now ∧ new.Status = "active" ∧
      new.ID = ({ sampleRating "r1" "E1" 3 with Status := "deleted" } : Rating).ID ∧
      new.EntryID = ({ sampleRating "r1" "E1" 3 with Status := "deleted" } : Rating).EntryID ∧
      new.RepoName =
        ({ sampleRating "r1" "E1" 3 with Status := "deleted" } : Rating).RepoName ∧
      new.Rater = ({ sampleRating "r1" "E1" 3 with Status := "deleted" } : Rating).Rater ∧
      new.CreatedAt =
        ({ sampleRating "r1" "E1" 3 with Status := "deleted" } : Rating).CreatedAt :=
  SubmitRating_resubmission_frame ratingEnv deletedRatingStore "r1" "E1" "repo2" "bob" "4"
    ["fine"] { sampleRating "r1" "E1" 3 with Status := "deleted" }
    (by decide) (by decide) (by decide)

/-! ## Comments: the listing of an entry -/

theorem entryCommentsLoop_eq (env : StubEnv) (includeDeleted : Bool)
    (pairs : List (String × Stored Comment)) (acc : List Comment)
    (hnext : ∀ kv ∈ pairs, env.nextErr kv.1 = none) :
    entryCommentsLoop env includeDeleted pairs acc =
      Except.ok (acc ++ (decodedValues pairs).filter
        (fun c => decide (c.Status ≠ "deleted") || includeDeleted)) := by
  induction pairs generalizing acc with
  | nil => simp [entryCommentsLoop, decodedValues]
  | cons kv rest ih =>
    obtain ⟨key, value⟩ := kv
    have hk : env.nextErr key = none := hnext (key, value) (List.mem_cons_self _ _)
    have hrest : ∀ kv ∈ rest, env.nextErr kv.1 = none :=
      fun kv h => hnext kv (List.mem_cons_of_mem _ h)
    simp only [entryCommentsLoop, hk]
    cases value with
    | raw b =>
      simp only [Stored.unmarshal]
      rw [ih acc hrest]
      simp [decodedValues, Stored.unmarshal]
    | record c =>
      simp only [Stored.unmarshal]
      by_cases hd : c.Status = "deleted"
      · cases includeDeleted with
        | false => simp [hd, ih acc hrest, decodedValues, Stored.unmarshal]
        | true => simp [hd, ih _ hrest, decodedValues, Stored.unmarshal]
      · simp [hd, ih _ hrest, decodedValues, Stored.unmarshal]

theorem entryCommentsLoop_next (env : StubEnv) (includeDeleted : Bool)
    (pairs : List (String × Stored Comment)) (acc comments : List Comment)
    (h : entryCommentsLoop env includeDeleted pairs acc = Except.ok comments) :
    ∀ kv ∈ pairs, env.nextErr kv.1 = none := by
  induction pairs generalizing acc with
  | nil =>
    intro kv hkv
    exact absurd hkv (List.not_mem_nil kv)
  | cons kv rest ih =>
    obtain ⟨key, value⟩ := kv
    simp only [entryCommentsLoop] at h
    cases hn : env.nextErr key with
    | some e => simp [hn] at h
    | none =>
      simp only [hn] at h
      have hrest : ∀ kv ∈ rest, env.nextErr kv.1 = none := by
        cases value with
        | raw b =>
          simp only [Stored.unmarshal] at h
          exact ih acc h
        | record c =>
          simp only [Stored.unmarshal] at h
          split at h
          · exact ih acc h
          · exact ih _ h
      intro kv hkv
      rcases List.mem_cons.1 hkv with hx | hx
      · rw [hx]
        exact hn
      · exact hrest kv hx

theorem getEntryComments_of_scan (env : StubEnv) (s : Store (Stored Comment))
    (entryID flag : String) (pairs : List (String × Stored Comment)) (hE : entryID ≠ "")
    (hscan : getStateByPartialCompositeKey env s "comment~entry" [entryID] =
      Except.ok pairs) :
    GetEntryComments env s entryID flag =
      entryCommentsLoop env (decide (flag = "true")) pairs [] := by
  by_cases hf : flag = "true"
  · simp [GetEntryComments, hE, hscan, hf]
  · simp [GetEntryComments, hE, hscan, hf]

theorem getEntryComments_inv (env : StubEnv) (s : Store (Stored Comment))
    (entryID flag : String) (comments : List Comment)
    (h : GetEntryComments env s entryID flag = Except.ok comments) :
    entryID ≠ "" ∧ ∃ pairs,
      getStateByPartialCompositeKey env s "comment~entry" [entryID] = Except.ok pairs ∧
      (∀ kv ∈ pairs, env.nextErr kv.1 = none) ∧
      comments = (decodedValues pairs).filter
        (fun c => decide (c.Status ≠ "deleted") || decide (flag = "true")) := by
  have hE : entryID ≠ "" := by
    intro hE
    simp [GetEntryComments, hE] at h
  refine ⟨hE, ?_⟩
  cases hscan : getStateByPartialCompositeKey env s "comment~entry" [entryID] with
  | error e => simp [GetEntryComments, hE, hscan] at h
  | ok pairs =>
    rw [getEntryComments_of_scan env s entryID flag pairs hE hscan] at h
    have hnext := entryCommentsLoop_next env _ pairs [] comments h
    rw [entryCommentsLoop_eq env _ pairs [] hnext] at h
    refine ⟨pairs, rfl, hnext, ?_⟩
    have := Except.ok.inj h
    simpa using this.symm

/-- C30. For every store, entry E and flag f, when the scan of `GetEntryComments(E, f)`
yields its pairs without an iterator error, the call returns the decodable values of the
scan, in scan order, without those whose status is `deleted` unless f is exactly the string
`true`: for f = `true` it returns every decodable value; for every other f, `false`, the
empty string and `TRUE` included, it returns those whose status is not `deleted`, so no
returned comment has that status; and a decodable value with any other status is returned
whatever f is. -/
theorem GetEntryComments_keeps_deleted_iff_true (env : StubEnv)
    (s : Store (Stored Comment)) (entryID flag : String)
    (pairs : List (String × Stored Comment))
    (hE : entryID ≠ "")
    (hscan : getStateByPartialCompositeKey env s "comment~entry" [entryID] =
      Except.ok pairs)
    (hnext : ∀ kv ∈ pairs, env.nextErr kv.1 = none) :
    (flag = "true" → GetEntryComments env s entryID flag = Except.ok (decodedValues pairs)) ∧
    (flag ≠ "true" → GetEntryComments env s entryID flag =
      Except.ok ((decodedValues pairs).filter (fun c => decide (c.Status ≠ "deleted")))) ∧
    ∃ comments, GetEntryComments env s entryID flag = Except.ok comments ∧
      comments.Sublist (decodedValues pairs) ∧
      (∀ c ∈ decodedValues pairs, c.Status ≠ "deleted" → c ∈ comments) ∧
      (∀ c ∈ decodedValues pairs, c.Status = "deleted" → (c ∈ comments ↔ flag = "true")) ∧
      (flag ≠ "true" → ∀ c ∈ comments, c.Status ≠ "deleted") := by
  have hget : GetEntryComments env s entryID flag =
      Except.ok ((decodedValues pairs).filter
        (fun c => decide (c.Status ≠ "deleted") || decide (flag = "true"))) := by
    rw [getEntryComments_of_scan env s entryID flag pairs hE hscan,
      entryCommentsLoop_eq env _ pairs [] hnext]
    simp
  refine ⟨?_, ?_, _, hget, List.filter_sublist _, ?_, ?_, ?_⟩
  · intro hf
    rw [hget]
    simp [hf]
  · intro hf
    rw [hget]
    simp [hf]
  · intro c hc hd
    simp [List.mem_filter, hc, hd]
  · intro c hc hd
    simp [List.mem_filter, hc, hd]
  · intro hf c hc
    simp only [List.mem_filter, hf, decide_False, Bool.or_false, decide_eq_true_eq] at hc
    exact hc.2

theorem GetEntryComments_keeps_deleted_iff_true_witness :
    GetEntryComments commentEnv ratedCommentStore "E1" "TRUE" =
      Except.ok ((decodedValues ratedCommentStore).filter
        (fun c => decide (c.Status ≠ "deleted"))) :=
  (GetEntryComments_keeps_deleted_iff_true commentEnv ratedCommentStore "E1" "TRUE"
    ratedCommentStore (by decide) (by decide) (fun _ _ => rfl)).2.1 (by decide)

/-! ## Comments: the average rating -/

theorem foldl_ratedTotals (comments : List Comment) (a n : Int) :
    comments.foldl
      (fun (acc : Int × Int) (comment : Comment) =>
        if comment.Rating > 0 then
          (wrapInt64 (acc.1 + comment.Rating), wrapInt64 (acc.2 + 1))
        else acc)
      (wrapInt64 a, wrapInt64 n) =
      (wrapInt64 (a + commentRatingSum (ratedComments comments)),
        wrapInt64 (n + ((ratedComments comments).length : Int))) := by
  induction comments generalizing a n with
  | nil => simp [ratedComments, commentRatingSum]
  | cons c rest ih =>
    simp only [List.foldl_cons]
    by_cases hc : c.Rating > 0
    · simp only [hc, if_true, wrapInt64_add_wrap]
      rw [ih]
      have h1 : ratedComments (c :: rest) = c :: ratedComments rest := by
        simp [ratedComments, hc]
      rw [h1]
      simp only [commentRatingSum, List.map_cons, List.sum_cons, List.length_cons,
        Nat.cast_add, Nat.cast_one]
      rw [add_assoc a, add_assoc n, add_comm (1 : Int)]
    · simp only [hc, if_false]
      rw [ih]
      have h1 : ratedComments (c :: rest) = ratedComments rest := by
        simp [ratedComments, hc]
      rw [h1]

theorem ratedTotals_eq_wrap (comments : List Comment) :
    ratedTotals comments =
      (wrapInt64 (commentRatingSum (ratedComments comments)),
        wrapInt64 ((ratedComments comments).length : Int)) := by
  have h := foldl_ratedTotals comments 0 0
  have h0 : wrapInt64 0 = 0 := by decide
  rw [h0] at h
  simpa [ratedTotals] using h

theorem length_le_ratingSum_rated (comments : List Comment) :
    ((ratedComments comments).length : Int) ≤ commentRatingSum (ratedComments comments) := by
  induction comments with
  | nil => simp [ratedComments, commentRatingSum]
  | cons c rest ih =>
    by_cases hc : c.Rating > 0
    · have h1 : ratedComments (c :: rest) = c :: ratedComments rest := by
        simp [ratedComments, hc]
      rw [h1]
      simp only [commentRatingSum, List.map_cons, List.sum_cons, List.length_cons,
        Nat.cast_add, Nat.cast_one] at ih ⊢
      omega
    · have h1 : ratedComments (c :: rest) = ratedComments rest := by
        simp [ratedComments, hc]
      rw [h1]
      exact ih

theorem ratedTotals_of_fits (comments : List Comment)
    (hfit : commentRatingSum (ratedComments comments) ≤ maxInt64) :
    ratedTotals comments =
      (commentRatingSum (ratedComments comments), ((ratedComments comments).length : Int)) := by
  have hlen := length_le_ratingSum_rated comments
  have h0 : (0 : Int) ≤ ((ratedComments comments).length : Int) := Int.ofNat_nonneg _
  have hmin : minInt64 ≤ 0 := by decide
  rw [ratedTotals_eq_wrap, wrapInt64_of_fits _ (by omega) hfit,
    wrapInt64_of_fits _ (by omega) (by omega)]

theorem commentRating_bounds (env : StubEnv) (ratingStr : String) :
    0 ≤ commentRating env ratingStr ∧ commentRating env ratingStr ≤ 5 ∧
    (env.atoi ratingStr = none → commentRating env ratingStr = 0) ∧
    (∀ v, env.atoi ratingStr = some v → (v < 0 ∨ 5 < v) → commentRating env ratingStr = 0) ∧
    (∀ v, env.atoi ratingStr = some v → 0 ≤ v → v ≤ 5 → commentRating env ratingStr = v) := by
  cases h : env.atoi ratingStr with
  | none =>
    have hval : commentRating env ratingStr = 0 := by simp [commentRating, h]
    rw [hval]
    exact ⟨le_refl _, by omega, fun _ => rfl, fun _ _ _ => rfl,
      fun w hw _ _ => absurd hw (by simp)⟩
  | some v =>
    have hval : commentRating env ratingStr = if v < 0 ∨ v > 5 then 0 else v := by
      simp [commentRating, h]
    rw [hval]
    by_cases hv : v < 0 ∨ v > 5
    · rw [if_pos hv]
      refine ⟨le_refl _, by omega, fun _ => rfl, fun _ _ _ => rfl, ?_⟩
      intro w hw h1 h2
      have : v = w := Option.some.inj hw
      omega
    · rw [if_neg hv]
      refine ⟨by omega, by omega, fun hn => absurd hn (by simp), ?_, ?_⟩
      · intro w hw h1
        have : v = w := Option.some.inj hw
        omega
      · intro w hw _ _
        exact Option.some.inj hw

theorem addComment_new_stored (env : StubEnv) (s : Store (Stored Comment))
    (commentID entryID repoName content author ratingStr : String) (rest : List String)
    (h : (AddComment env s
      (commentID :: entryID :: repoName :: content :: author :: ratingStr :: rest)).err =
      none) :
    getState (AddComment env s
      (commentID :: entryID :: repoName :: content :: author :: ratingStr :: rest)).store
      (commentKey commentID entryID) =
      some (Stored.record
        (newComment env commentID entryID repoName content author ratingStr rest)) := by
  obtain ⟨_, _, hex, _, hstore⟩ := addComment_inv env s commentID entryID repoName content
    author ratingStr rest h
  rw [hstore]
  rcases parentWrites_cases env s (commentThreadID rest) entryID commentID with
    hw | ⟨parent, _, hread, hps, _, hw⟩
  · rw [hw]
    simp only [commitWrites, List.foldl_cons, List.foldl_nil]
    exact getState_putState_same _ _ _
  · rw [hw]
    simp only [commitWrites, List.foldl_cons, List.foldl_nil]
    have hne : commentKey commentID entryID ≠ commentKey (commentThreadID rest) entryID := by
      intro e
      rw [e, stubGetState_of_read env s _ hread, hps] at hex
      exact absurd hex (by simp)
    rw [getState_putState_other _ _ _ _ hne]
    exact getState_putState_same _ _ _

/-- C28. For every store and entry E, when `GetEntryComments(E, "false")` returns a list of
comments, none of them has status `deleted`, and the comments contract's
`GetAverageRating(E)` returns 0, without error, if none of them has a rating greater
than 0, and otherwise the sum of the ratings greater than 0 divided by their number (the
sum fitting in an `int`; the quotient is the exact one, which the `float64` division
rounds): comments rated 0 count in neither. An error of `GetEntryComments` is returned as it
is. The comment that a successful `AddComment` stores has a rating between 0 and 5: the
parsed argument when it is in that range, and 0 when the argument does not parse or is
outside it. -/
theorem comments_average_over_rated (env : StubEnv) (s : Store (Stored Comment))
    (entryID : String) :
    (∀ comments, GetEntryComments env s entryID "false" = Except.ok comments →
      (∀ c ∈ comments, c.Status ≠ "deleted") ∧
      (ratedComments comments = [] →
        Comments.GetAverageRating env s entryID = Except.ok 0) ∧
      (ratedComments comments ≠ [] →
        commentRatingSum (ratedComments comments) ≤ maxInt64 →
        Comments.GetAverageRating env s entryID =
          Except.ok ((commentRatingSum (ratedComments comments) : Rat) /
            ((ratedComments comments).length : Rat)))) ∧
    (∀ e, GetEntryComments env s entryID "false" = Except.error e →
      Comments.GetAverageRating env s entryID = Except.error e) ∧
    (∀ (env2 : StubEnv) (s2 : Store (Stored Comment))
        (commentID entry repoName content author ratingStr : String) (rest : List String),
      (AddComment env2 s2
        (commentID :: entry :: repoName :: content :: author :: ratingStr :: rest)).err =
        none →
      ∃ r, getState (AddComment env2 s2
          (commentID :: entry :: repoName :: content :: author :: ratingStr :: rest)).store
          (commentKey commentID entry) = some (Stored.record r) ∧
        0 ≤ r.Rating ∧ r.Rating ≤ 5 ∧
        (env2.atoi ratingStr = none → r.Rating = 0) ∧
        (∀ v, env2.atoi ratingStr = some v → (v < 0 ∨ 5 < v) → r.Rating = 0) ∧
        (∀ v, env2.atoi ratingStr = some v → 0 ≤ v → v ≤ 5 → r.Rating = v)) := by
  refine ⟨?_, ?_, ?_⟩
  · intro comments h
    refine ⟨?_, ?_, ?_⟩
    · obtain ⟨_, pairs, _, _, hc⟩ := getEntryComments_inv env s entryID "false" comments h
      intro c hcm
      rw [hc] at hcm
      simp only [List.mem_filter] at hcm
      simpa using hcm.2
    · intro hnil
      have ht : ratedTotals comments = (0, 0) := by
        rw [ratedTotals_eq_wrap, hnil]
        decide
      simp [Comments.GetAverageRating, h, ht]
    · intro hne hfit
      have ht := ratedTotals_of_fits comments hfit
      have hlen : (ratedComments comments).length ≠ 0 :=
        fun h0 => hne (List.length_eq_zero.1 h0)
      have hcl : comments.length ≠ 0 := by
        intro h0
        have : comments = [] := List.length_eq_zero.1 h0
        rw [this] at hne
        exact hne rfl
      simp only [Comments.GetAverageRating, h, hcl, if_false, ht]
      have h2 : ¬ (((ratedComments comments).length : Int) = 0) := by
        intro h0
        exact hlen (Int.ofNat_eq_zero.1 h0)
      simp only [h2, if_false]
      norm_cast
  · intro e h
    simp [Comments.GetAverageRating, h]
  · intro env2 s2 commentID entry repoName content author ratingStr rest h
    exact ⟨_, addComment_new_stored env2 s2 commentID entry repoName content author ratingStr
      rest h, commentRating_bounds env2 ratingStr⟩

theorem comments_average_over_rated_witness :
    Comments.GetAverageRating commentEnv ratedCommentStore "E1" =
      Except.ok ((commentRatingSum (ratedComments
        [ratedComment "E1" "a" 4 "active", ratedComment "E1" "b" 0 "active",
          ratedComment "E1" "d" 2 "flagged"]) : Rat) /
        ((ratedComments
          [ratedComment "E1" "a" 4 "active", ratedComment "E1" "b" 0 "active",
            ratedComment "E1" "d" 2 "flagged"]).length : Rat)) :=
  ((comments_average_over_rated commentEnv ratedCommentStore "E1").1
    [ratedComment "E1" "a" 4 "active", ratedComment "E1" "b" 0 "active",
      ratedComment "E1" "d" 2 "flagged"] (by decide)).2.2 (by decide) (by decide)

/-! ## The order of a scan -/

theorem keyLe_nil (b : List Char) : keyLe [] b = true := by
  cases b <;> rfl

theorem keyLe_total (a b : List Char) : keyLe a b = true ∨ keyLe b a = true := by
  induction a generalizing b with
  | nil => exact Or.inl (keyLe_nil b)
  | cons x xs ih =>
    cases b with
    | nil => exact Or.inr (keyLe_nil _)
    | cons y ys =>
      simp only [keyLe]
      by_cases h1 : x.toNat < y.toNat
      · simp [h1]
      · by_cases h2 : y.toNat < x.toNat
        · simp [h1, h2]
        · simp only [h1, h2, if_false]
          exact ih ys

theorem keyLe_trans (a b c : List Char) (h1 : keyLe a b = true) (h2 : keyLe b c = true) :
    keyLe a c = true := by
  induction a generalizing b c with
  | nil => exact keyLe_nil c
  | cons x xs ih =>
    cases b with
    | nil => simp [keyLe] at h1
    | cons y ys =>
      cases c with
      | nil => simp [keyLe] at h2
      | cons z zs =>
        simp only [keyLe] at h1 h2 ⊢
        by_cases hxy : x.toNat < y.toNat
        · by_cases hyz : y.toNat < z.toNat
          · have : x.toNat < z.toNat := by omega
            simp [this]
          · by_cases hzy : z.toNat < y.toNat
            · simp [hyz, hzy] at h2
            · have : x.toNat < z.toNat := by omega
              simp [this]
        · by_cases hyx : y.toNat < x.toNat
          · simp [hxy, hyx] at h1
          · simp only [hxy, hyx, if_false] at h1
            by_cases hyz : y.toNat < z.toNat
            · have : x.toNat < z.toNat := by omega
              simp [this]
            · by_cases hzy : z.toNat < y.toNat
              · simp [hyz, hzy] at h2
              · simp only [hyz, hzy, if_false] at h2
                have e1 : ¬ x.toNat < z.toNat := by omega
                have e2 : ¬ z.toNat < x.toNat := by omega
                simp only [e1, e2, if_false]
                exact ih ys zs h1 h2

theorem insertByKey_sorted {β : Type} (kv : String × β) (l : List (String × β))
    (h : l.Pairwise (fun a b => keyLe a.1.data b.1.data = true)) :
    (insertByKey kv l).Pairwise (fun a b => keyLe a.1.data b.1.data = true) := by
  induction l with
  | nil => simp [insertByKey]
  | cons x rest ih =>
    obtain ⟨hx, hrest⟩ := List.pairwise_cons.1 h
    by_cases hle : keyLe x.1.data kv.1.data = true
    · simp only [insertByKey, hle, if_true]
      refine List.pairwise_cons.2 ⟨?_, ih hrest⟩
      intro b hb
      rcases (mem_insertByKey kv b rest).1 hb with hb1 | hb1
      · rw [hb1]
        exact hle
      · exact hx b hb1
    · simp only [insertByKey, hle]
      have hkx : keyLe kv.1.data x.1.data = true := by
        rcases keyLe_total kv.1.data x.1.data with h1 | h1
        · exact h1
        · exact absurd h1 hle
      refine List.pairwise_cons.2 ⟨?_, h⟩
      intro b hb
      rcases List.mem_cons.1 hb with hb1 | hb1
      · rw [hb1]
        exact hkx
      · exact keyLe_trans _ _ _ hkx (hx b hb1)

theorem sortByKey_sorted {β : Type} (l : List (String × β)) :
    (sortByKey l).Pairwise (fun a b => keyLe a.1.data b.1.data = true) := by
  induction l with
  | nil => simp [sortByKey]
  | cons x rest ih => exact insertByKey_sorted x _ ih

theorem insertByKey_split {β : Type} (x : String × β) (l : List (String × β)) :
    ∃ l1 l2, insertByKey x l = l1 ++ x :: l2 ∧ l = l1 ++ l2 := by
  induction l with
  | nil => exact ⟨[], [], rfl, rfl⟩
  | cons y rest ih =>
    by_cases hle : keyLe y.1.data x.1.data = true
    · obtain ⟨l1, l2, h1, h2⟩ := ih
      refine ⟨y :: l1, l2, ?_, ?_⟩
      · simp only [insertByKey, hle, if_true, h1, List.cons_append]
      · rw [h2, List.cons_append]
    · exact ⟨[], y :: rest, by simp [insertByKey, hle], rfl⟩

theorem insertByKey_around {β : Type} (y x : String × β) (l1 l2 : List (String × β))
    (h : (l1 ++ x :: l2).Pairwise (fun a b => keyLe a.1.data b.1.data = true)) :
    ∃ m1 m2, insertByKey y (l1 ++ x :: l2) = m1 ++ x :: m2 ∧
      insertByKey y (l1 ++ l2) = m1 ++ m2 := by
  induction l1 with
  | nil =>
    simp only [List.nil_append] at h ⊢
    obtain ⟨hx, _⟩ := List.pairwise_cons.1 h
    by_cases hle : keyLe x.1.data y.1.data = true
    · exact ⟨[], insertByKey y l2, by simp [insertByKey, hle], rfl⟩
    · refine ⟨[y], l2, by simp [insertByKey, hle], ?_⟩
      cases l2 with
      | nil => rfl
      | cons z r =>
        have hxz : keyLe x.1.data z.1.data = true := hx z (List.mem_cons_self _ _)
        have hzy : ¬ keyLe z.1.data y.1.data = true :=
          fun hzy => hle (keyLe_trans _ _ _ hxz hzy)
        simp [insertByKey, hzy]
  | cons a l1 ih =>
    simp only [List.cons_append] at h ⊢
    obtain ⟨_, htail⟩ := List.pairwise_cons.1 h
    by_cases hle : keyLe a.1.data y.1.data = true
    · obtain ⟨m1, m2, h1, h2⟩ := ih htail
      refine ⟨a :: m1, m2, ?_, ?_⟩
      · simp only [insertByKey, hle, if_true, h1, List.cons_append]
      · simp only [insertByKey, hle, if_true, h2, List.cons_append]
    · exact ⟨y :: a :: l1, l2, by simp [insertByKey, hle], by simp [insertByKey, hle]⟩

theorem sortByKey_around {β : Type} (a : List (String × β)) (x : String × β)
    (b : List (String × β)) :
    ∃ l1 l2, sortByKey (a ++ x :: b) = l1 ++ x :: l2 ∧ sortByKey (a ++ b) = l1 ++ l2 := by
  induction a with
  | nil =>
    obtain ⟨l1, l2, h1, h2⟩ := insertByKey_split x (sortByKey b)
    exact ⟨l1, l2, by simpa [sortByKey] using h1, by simpa using h2⟩
  | cons y a ih =>
    obtain ⟨l1, l2, h1, h2⟩ := ih
    have hs : (l1 ++ x :: l2).Pairwise (fun a b => keyLe a.1.data b.1.data = true) := by
      rw [← h1]
      exact sortByKey_sorted _
    obtain ⟨m1, m2, h3, h4⟩ := insertByKey_around y x l1 l2 hs
    refine ⟨m1, m2, ?_, ?_⟩
    · show insertByKey y (sortByKey (a ++ x :: b)) = m1 ++ x :: m2
      rw [h1, h3]
    · show insertByKey y (sortByKey (a ++ b)) = m1 ++ m2
      rw [h2, h4]

/-! ## A rewritten value against a removed key -/

theorem putState_delState_split {β : Type} (s : Store β) (key : String) (v w : β)
    (h : getState s key = some v) :
    ∃ l1 l2, putState s key w = l1 ++ (key, w) :: l2 ∧ delState s key = l1 ++ l2 := by
  induction s with
  | nil => simp [getState] at h
  | cons kv rest ih =>
    obtain ⟨k, u⟩ := kv
    by_cases hk : k = key
    · exact ⟨[], rest, by simp [putState, hk], by simp [delState, hk]⟩
    · simp only [getState, hk, if_false] at h
      obtain ⟨l1, l2, h1, h2⟩ := ih h
      refine ⟨(k, u) :: l1, l2, ?_, ?_⟩
      · simp only [putState, hk, if_false, h1, List.cons_append]
      · simp only [delState, hk, if_false, h2, List.cons_append]

theorem scan_putState_delState {β : Type} (s : Store β) (key startKey : String) (v w : β)
    (h : getState s key = some v) :
    scanByPrefix (putState s key w) startKey = scanByPrefix (delState s key) startKey ∨
    ∃ m1 m2, scanByPrefix (putState s key w) startKey = m1 ++ (key, w) :: m2 ∧
      scanByPrefix (delState s key) startKey = m1 ++ m2 := by
  obtain ⟨l1, l2, h1, h2⟩ := putState_delState_split s key v w h
  rw [h1, h2]
  unfold scanByPrefix
  by_cases hp : startKey.data.isPrefixOf key.data = true
  · right
    have e : List.filter (fun kv : String × β => startKey.data.isPrefixOf kv.1.data)
        (l1 ++ (key, w) :: l2) =
        List.filter (fun kv : String × β => startKey.data.isPrefixOf kv.1.data) l1 ++
          (key, w) ::
          List.filter (fun kv : String × β => startKey.data.isPrefixOf kv.1.data) l2 := by
      rw [List.filter_append, List.filter_cons]
      simp [hp]
    rw [e, List.filter_append]
    exact sortByKey_around _ _ _
  · left
    have e : List.filter (fun kv : String × β => startKey.data.isPrefixOf kv.1.data)
        (l1 ++ (key, w) :: l2) =
        List.filter (fun kv : String × β => startKey.data.isPrefixOf kv.1.data)
          (l1 ++ l2) := by
      rw [List.filter_append, List.filter_append, List.filter_cons]
      simp [hp]
    rw [e]

theorem getState_delState_other {β : Type} (s : Store β) (key other : String)
    (h : other ≠ key) : getState (delState s key) other = getState s other := by
  induction s with
  | nil => rfl
  | cons kv rest ih =>
    obtain ⟨k, u⟩ := kv
    by_cases hk : k = key
    · subst hk
      have hko : ¬ k = other := fun e => h e.symm
      simp [delState, getState, hko]
    · by_cases hko : k = other
      · subst hko
        simp [delState, getState, hk]
      · simp [delState, getState, hk, hko, ih]

theorem entryCommentsLoop_skip (env : StubEnv)
    (l1 l2 : List (String × Stored Comment)) (key : String) (d : Comment)
    (acc : List Comment) (hnext : env.nextErr key = none) (hd : d.Status = "deleted") :
    entryCommentsLoop env false (l1 ++ (key, Stored.record d) :: l2) acc =
      entryCommentsLoop env false (l1 ++ l2) acc := by
  induction l1 generalizing acc with
  | nil => simp [entryCommentsLoop, hnext, Stored.unmarshal, hd]
  | cons kv rest ih =>
    obtain ⟨k, value⟩ := kv
    simp only [List.cons_append, entryCommentsLoop]
    cases env.nextErr k with
    | some e => rfl
    | none =>
      simp only []
      cases value with
      | raw b => exact ih acc
      | record c =>
        simp only [Stored.unmarshal]
        split
        · exact ih acc
        · exact ih _

theorem getEntryComments_putState_deleted (env : StubEnv) (s : Store (Stored Comment))
    (key entryID : String) (v : Stored Comment) (d : Comment)
    (h : getState s key = some v) (hnext : env.nextErr key = none)
    (hd : d.Status = "deleted") :
    GetEntryComments env (putState s key (Stored.record d)) entryID "false" =
      GetEntryComments env (delState s key) entryID "false" := by
  by_cases hE : entryID = ""
  · simp [GetEntryComments, hE]
  · cases hk : createCompositeKey "comment~entry" [entryID] with
    | error e => simp [GetEntryComments, hE, getStateByPartialCompositeKey, hk]
    | ok startKey =>
      cases hr : env.rangeErr startKey with
      | some e => simp [GetEntryComments, hE, getStateByPartialCompositeKey, hk, hr]
      | none =>
        have h1 : ∀ st : Store (Stored Comment),
            getStateByPartialCompositeKey env st "comment~entry" [entryID] =
              Except.ok (scanByPrefix st startKey) := by
          intro st
          simp [getStateByPartialCompositeKey, hk, hr]
        rw [getEntryComments_of_scan env _ entryID "false" _ hE (h1 _),
          getEntryComments_of_scan env _ entryID "false" _ hE (h1 _)]
        have hflag : decide ("false" = "true") = false := by decide
        rw [hflag]
        rcases scan_putState_delState s key startKey v (Stored.record d) h with
          e | ⟨m1, m2, e1, e2⟩
        · rw [e]
        · rw [e1, e2]
          exact entryCommentsLoop_skip env m1 m2 key d [] hnext hd

/-! ## Comments: soft deletion -/

theorem deleteComment_inv (env : StubEnv) (s : Store (Stored Comment))
    (commentID entryID deletedBy : String)
    (h : (DeleteComment env s commentID entryID deletedBy).err = none) :
    ∃ found, commentID ≠ "" ∧ entryID ≠ "" ∧
      getState s (commentKey commentID entryID) = some (Stored.record found) ∧
      (DeleteComment env s commentID entryID deletedBy).store =
        putState s (commentKey commentID entryID)
          (Stored.record (deletedComment env found)) := by
  rcases deleteComment_store_cases env s commentID entryID deletedBy with
    ⟨_, herr⟩ | ⟨found, hf, _, hs⟩
  · rw [h] at herr
    exact absurd herr (by simp)
  · obtain ⟨h1, h2, _, hst⟩ := getComment_stored env s commentID entryID found hf
    exact ⟨found, h1, h2, hst, hs⟩

theorem getAverageRating_congr (env : StubEnv) (s s2 : Store (Stored Comment))
    (entryID : String)
    (h : GetEntryComments env s entryID "false" = GetEntryComments env s2 entryID "false") :
    Comments.GetAverageRating env s entryID = Comments.GetAverageRating env s2 entryID := by
  unfold Comments.GetAverageRating
  rw [h]

/-- C21. Soft delete of a comment: for every store holding a comment at (c, E), a successful
`DeleteComment(c, E, ...)` changes no key of the store and no value but that of the key of
(c, E); afterwards `GetComment(c, E)`, its read succeeding, returns the previous record
with status `deleted` and the time of the call as update time, every other field being
unchanged; and for every entry, `GetEntryComments(entry, "false")` and the comments
contract's `GetAverageRating(entry)` return what they return on the store from which the
key of (c, E) has been removed, the iterator not failing on that key. -/
theorem DeleteComment_is_soft (env env2 : StubEnv) (s : Store (Stored Comment))
    (commentID entryID deletedBy : String) (found : Comment)
    (hfound : getState s (commentKey commentID entryID) = some (Stored.record found))
    (hok : (DeleteComment env s commentID entryID deletedBy).err = none)
    (hread : env2.getStateErr (commentKey commentID entryID) = none)
    (hnext : env2.nextErr (commentKey commentID entryID) = none) :
    keys (DeleteComment env s commentID entryID deletedBy).store = keys s ∧
    (∀ k, k ≠ commentKey commentID entryID →
      getState (DeleteComment env s commentID entryID deletedBy).store k = getState s k) ∧
    (∃ after,
      GetComment env2 (DeleteComment env s commentID entryID deletedBy).store
        commentID entryID = Except.ok after ∧
      after.Status = "deleted" ∧ after.UpdatedAt = env.now ∧
      after.ID = found.ID ∧ after.EntryID = found.EntryID ∧
      after.RepoName = found.RepoName ∧ after.Content = found.Content ∧
      after.Author = found.Author ∧ after.Rating = found.Rating ∧
      after.CreatedAt = found.CreatedAt ∧ after.EditCount = found.EditCount ∧
      after.ThreadID = found.ThreadID ∧ after.Replies = found.Replies) ∧
    (∀ entry,
      GetEntryComments env2 (DeleteComment env s commentID entryID deletedBy).store
        entry "false" =
        GetEntryComments env2 (delState s (commentKey commentID entryID)) entry "false") ∧
    (∀ entry,
      Comments.GetAverageRating env2
        (DeleteComment env s commentID entryID deletedBy).store entry =
        Comments.GetAverageRating env2 (delState s (commentKey commentID entryID))
          entry) := by
  obtain ⟨f2, h1, h2, hst, hstore⟩ := deleteComment_inv env s commentID entryID deletedBy hok
  have hf : f2 = found := by
    rw [hst] at hfound
    exact Stored.record.inj (Option.some.inj hfound)
  subst hf
  rw [hstore]
  have hlist : ∀ entry,
      GetEntryComments env2
        (putState s (commentKey commentID entryID) (Stored.record (deletedComment env f2)))
        entry "false" =
        GetEntryComments env2 (delState s (commentKey commentID entryID)) entry "false" :=
    fun entry => getEntryComments_putState_deleted env2 s _ entry _ _ hst hnext rfl
  refine ⟨keys_putState_of_isSome s _ _ (by rw [hst]; rfl), ?_, ?_, hlist, ?_⟩
  · intro k hk
    exact getState_putState_other s _ k _ hk
  · exact ⟨deletedComment env f2,
      getComment_of_stored env2 _ commentID entryID _ h1 h2 hread
        (getState_putState_same _ _ _),
      rfl, rfl, rfl, rfl, rfl, rfl, rfl, rfl, rfl, rfl, rfl, rfl⟩
  · intro entry
    exact getAverageRating_congr env2 _ _ entry (hlist entry)

theorem DeleteComment_is_soft_witness :
    Comments.GetAverageRating commentEnv
      (DeleteComment commentEnv ratedCommentStore "E1" "a" "mod1").store "E1" =
      Comments.GetAverageRating commentEnv
        (delState ratedCommentStore (commentKey "E1" "a")) "E1" :=
  (DeleteComment_is_soft commentEnv commentEnv ratedCommentStore "E1" "a" "mod1"
    (ratedComment "E1" "a" 4 "active") (by decide) (by decide) (by decide)
    (by decide)).2.2.2.2 "E1"

/-! ## Entries: the listing of a repository -/

theorem listEntries_eq (env : StubEnv) (s : Store (Stored Entry)) (repoName : String)
    (rest : List String) :
    ListEntries env s (repoName :: rest) =
      match getStateByPartialCompositeKey env s "entry~repo" [repoName] with
      | Except.error e => Except.error ("failed to query entries: " ++ e)
      | Except.ok pairs =>
        listEntriesLoop env (listStatus rest) (listLimit env rest) pairs [] 0 := rfl

theorem listStatus_ne_empty (rest : List String) : listStatus rest ≠ "" := by
  unfold listStatus
  split
  · rename_i st _
    by_cases h : st = ""
    · simp [h]
    · simp [h]
  · decide

theorem listLimit_pos (env : StubEnv) (rest : List String) : 0 < listLimit env rest := by
  unfold listLimit
  split
  · rename_i l _
    by_cases h : l = ""
    · simp [h]
    · simp only [ne_eq, h, not_false_eq_true, if_true]
      split
      · rename_i v _
        by_cases hv : v > 0
        · simp [hv]
        · simp [hv]
      · decide
  · decide

theorem listEntriesLoop_ok (env : StubEnv) (status : String) (limit : Int)
    (pairs : List (String × Stored Entry)) (acc : List Entry) (count : Nat)
    (entries : List Entry)
    (h : listEntriesLoop env status limit pairs acc count = Except.ok entries) :
    entries = acc ++ ((decodedValues pairs).filter
      (fun e => decide (status = "" ∨ e.Status = status))).take (limit - count).toNat := by
  induction pairs generalizing acc count with
  | nil =>
    simp only [listEntriesLoop] at h
    simp [decodedValues, ← Except.ok.inj h]
  | cons kv rest ih =>
    obtain ⟨key, value⟩ := kv
    simp only [listEntriesLoop] at h
    by_cases hc : (count : Int) < limit
    · simp only [hc, if_true] at h
      cases hn : env.nextErr key with
      | some e => simp [hn] at h
      | none =>
        simp only [hn] at h
        cases value with
        | raw b => simp [Stored.unmarshal] at h
        | record entry =>
          simp only [Stored.unmarshal] at h
          by_cases hm : status = "" ∨ entry.Status = status
          · simp only [hm, if_true] at h
            have h2 := ih _ _ h
            have e1 : (limit - (count : Int)).toNat = (limit - ((count + 1 : Nat) : Int)).toNat + 1 := by
              omega
            rw [h2, e1]
            simp [decodedValues, Stored.unmarshal, hm]
          · simp only [hm, if_false] at h
            have h2 := ih _ _ h
            rw [h2]
            simp [decodedValues, Stored.unmarshal, hm]
    · simp only [hc, if_false] at h
      have e1 : (limit - (count : Int)).toNat = 0 := by omega
      rw [e1]
      simp [← Except.ok.inj h]

theorem listEntriesLoop_total (env : StubEnv) (status : String) (limit : Int)
    (pairs : List (String × Stored Entry)) (acc : List Entry) (count : Nat)
    (h : ∀ kv ∈ pairs, env.nextErr kv.1 = none ∧ ∃ e, kv.2 = Stored.record e) :
    ∃ entries, listEntriesLoop env status limit pairs acc count = Except.ok entries := by
  induction pairs generalizing acc count with
  | nil => exact ⟨acc, rfl⟩
  | cons kv rest ih =>
    obtain ⟨key, value⟩ := kv
    obtain ⟨hn, e, he⟩ := h (key, value) (List.mem_cons_self _ _)
    have hrest : ∀ kv ∈ rest, env.nextErr kv.1 = none ∧ ∃ e, kv.2 = Stored.record e :=
      fun kv hkv => h kv (List.mem_cons_of_mem _ hkv)
    simp only at hn he
    subst he
    simp only [listEntriesLoop, hn, Stored.unmarshal]
    by_cases hc : (count : Int) < limit
    · simp only [hc, if_true]
      by_cases hm : status = "" ∨ e.Status = status
      · simp only [hm, if_true]
        exact ih _ _ hrest
      · simp only [hm, if_false]
        exact ih _ _ hrest
    · simp only [hc, if_false]
      exact ⟨acc, rfl⟩

theorem listEntries_inv (env : StubEnv) (s : Store (Stored Entry)) (repoName : String)
    (rest : List String) (entries : List Entry)
    (h : ListEntries env s (repoName :: rest) = Except.ok entries) :
    ∃ pairs, getStateByPartialCompositeKey env s "entry~repo" [repoName] = Except.ok pairs ∧
      entries = (withStatus (listStatus rest) (decodedValues pairs)).take
        (listLimit env rest).toNat := by
  rw [listEntries_eq] at h
  cases hscan : getStateByPartialCompositeKey env s "entry~repo" [repoName] with
  | error e => simp [hscan] at h
  | ok pairs =>
    simp only [hscan] at h
    refine ⟨pairs, rfl, ?_⟩
    have h2 := listEntriesLoop_ok env _ _ pairs [] 0 entries h
    simp only [List.nil_append, Nat.cast_zero, sub_zero] at h2
    rw [h2]
    simp [withStatus, listStatus_ne_empty rest]

/-- C33. For every store and argument list: the status of `ListEntries` is the second
argument when it is non-empty and `active` otherwise; its limit is positive, it is the third
argument when that is non-empty and parses as a positive integer, and 100 otherwise; and
when `ListEntries` returns a list, it is the first limit entries, in scan order, of the
decodable values of its scan whose status is that status, so it has at most limit entries,
each with that status. It does return a list when the scan opens, the iterator does not
fail and every scanned value decodes. -/
theorem ListEntries_limit_and_status (env : StubEnv) (s : Store (Stored Entry))
    (repoName : String) (rest : List String) :
    listStatus rest = (if rest.headD "" = "" then "active" else rest.headD "") ∧
    0 < listLimit env rest ∧
    (∀ st l more v, rest = st :: l :: more → l ≠ "" → env.atoi l = some v → 0 < v →
      listLimit env rest = v) ∧
    ((∀ st l more v, rest = st :: l :: more → l ≠ "" → env.atoi l = some v → ¬ 0 < v) →
      listLimit env rest = 100) ∧
    (∀ entries, ListEntries env s (repoName :: rest) = Except.ok entries →
      ∃ pairs,
        getStateByPartialCompositeKey env s "entry~repo" [repoName] = Except.ok pairs ∧
        entries = (withStatus (listStatus rest) (decodedValues pairs)).take
          (listLimit env rest).toNat ∧
        (entries.length : Int) ≤ listLimit env rest ∧
        ∀ e ∈ entries, e.Status = listStatus rest) ∧
    (∀ pairs,
      getStateByPartialCompositeKey env s "entry~repo" [repoName] = Except.ok pairs →
      (∀ kv ∈ pairs, env.nextErr kv.1 = none ∧ ∃ e, kv.2 = Stored.record e) →
      ∃ entries, ListEntries env s (repoName :: rest) = Except.ok entries) := by
  refine ⟨?_, listLimit_pos env rest, ?_, ?_, ?_, ?_⟩
  · cases rest with
    | nil => simp [listStatus]
    | cons st more =>
      by_cases h : st = ""
      · simp [listStatus, h]
      · simp [listStatus, h]
  · intro st l more v hrest hl hv hpos
    subst hrest
    simp [listLimit, hl, hv, hpos]
  · intro hno
    unfold listLimit
    split
    · rename_i st l more
      by_cases hl : l = ""
      · simp [hl]
      · simp only [ne_eq, hl, not_false_eq_true, if_true]
        split
        · rename_i v hv
          have := hno st l more v rfl hl hv
          simp [this]
        · rfl
    · rfl
  · intro entries h
    obtain ⟨pairs, hscan, he⟩ := listEntries_inv env s repoName rest entries h
    refine ⟨pairs, hscan, he, ?_, ?_⟩
    · have hlen : entries.length ≤ (listLimit env rest).toNat := by
        rw [he]
        exact List.length_take_le _ _
      have := listLimit_pos env rest
      omega
    · intro e hmem
      rw [he] at hmem
      have hm := List.mem_of_mem_take hmem
      simp only [withStatus, List.mem_filter, decide_eq_true_eq] at hm
      exact hm.2
  · intro pairs hscan hall
    rw [listEntries_eq, hscan]
    exact listEntriesLoop_total env _ _ pairs [] 0 hall

theorem ListEntries_limit_and_status_witness :
    ∃ pairs,
      getStateByPartialCompositeKey entryEnv mixedEntryStore "entry~repo" ["repoA"] =
        Except.ok pairs ∧
      [sampleEntry "repoA" "y" "Kept" "d" "c" "alice" "Qm"] =
        (withStatus (listStatus ["", "1"]) (decodedValues pairs)).take
          (listLimit entryEnv ["", "1"]).toNat ∧
      (([sampleEntry "repoA" "y" "Kept" "d" "c" "alice" "Qm"] : List Entry).length : Int) ≤
        listLimit entryEnv ["", "1"] ∧
      ∀ e ∈ [sampleEntry "repoA" "y" "Kept" "d" "c" "alice" "Qm"],
        e.Status = listStatus ["", "1"] :=
  (ListEntries_limit_and_status entryEnv mixedEntryStore "repoA" ["", "1"]).2.2.2.2.1
    [sampleEntry "repoA" "y" "Kept" "d" "c" "alice" "Qm"] (by decide)

/-! ## Entries: the stores that the three mutations reach -/

theorem createEntry_cases (env : StubEnv) (s : Store (Stored Entry)) (args : List String) :
    (CreateEntry env s args).store = s ∨
    ∃ entryID repoName title description content author torrentHash tags,
      entryID ≠ "" ∧ repoName ≠ "" ∧ title ≠ "" ∧ author ≠ "" ∧
      (stubGetState env s (entryKey entryID repoName)).1 = none ∧
      stubPutStateErr env (entryKey entryID repoName) = none ∧
      (CreateEntry env s args).store = putState s (entryKey entryID repoName)
        (Stored.record (createdEntry env entryID repoName title description content author
          torrentHash tags)) := by
  unfold CreateEntry
  split
  · rename_i entryID repoName title description content author torrentHash rest
    simp only []
    split
    · exact Or.inl rfl
    · rename_i tags _
      split
      · exact Or.inl rfl
      · rename_i hne
        split
        · exact Or.inl rfl
        · rename_i hex
          split
          · exact Or.inl rfl
          · rename_i hput
            refine Or.inr ⟨entryID, repoName, title, description, content, author,
              torrentHash, tags, fun e => hne (Or.inl e), fun e => hne (Or.inr (Or.inl e)),
              fun e => hne (Or.inr (Or.inr (Or.inl e))),
              fun e => hne (Or.inr (Or.inr (Or.inr e))), ?_, hput, rfl⟩
            cases hg : (stubGetState env s (entryKey entryID repoName)).1 with
            | none => rfl
            | some v => simp [hg] at hex
  · exact Or.inl rfl

theorem updateEntry_cases (env : StubEnv) (s : Store (Stored Entry)) (args : List String) :
    (UpdateEntry env s args).store = s ∨
    ∃ entryID repoName title description content updatedBy rest found,
      env.getStateErr (entryKey entryID repoName) = none ∧
      getState s (entryKey entryID repoName) = some (Stored.record found) ∧
      (UpdateEntry env s args).store = putState s (entryKey entryID repoName)
        (Stored.record (updatedEntry env found title description content updatedBy rest)) := by
  rcases updateEntry_outcome env s args with h | ⟨e, R, tail, found, ha, herr, _⟩
  · exact Or.inl h.2.1
  · subst ha
    match tail, herr with
    | title :: description :: content :: updatedBy :: rest, herr =>
      obtain ⟨f, hread, hs, hw⟩ := updateEntry_inv env s e R title description content
        updatedBy rest herr
      exact Or.inr ⟨e, R, title, description, content, updatedBy, rest, f, hread, hs,
        (updateEntry_of_stored env s e R title description content updatedBy rest f hread hs
          hw).2⟩
    | [], herr => exact Or.inl rfl
    | [_], herr => exact Or.inl rfl
    | [_, _], herr => exact Or.inl rfl
    | [_, _, _], herr => exact Or.inl rfl

theorem deleteEntry_cases (env : StubEnv) (s : Store (Stored Entry))
    (entryID repoName deletedBy : String) :
    (DeleteEntry env s entryID repoName deletedBy).store = s ∨
    ∃ found, env.getStateErr (entryKey entryID repoName) = none ∧
      getState s (entryKey entryID repoName) = some (Stored.record found) ∧
      (DeleteEntry env s entryID repoName deletedBy).store =
        putState s (entryKey entryID repoName)
          (Stored.record (deletedEntry env found deletedBy)) := by
  rcases deleteEntry_outcome env s entryID repoName deletedBy with h | ⟨_, herr, _⟩
  · exact Or.inl h.2.1
  · obtain ⟨f, h1, h2, hread, hs, hw⟩ := deleteEntry_inv env s entryID repoName deletedBy herr
    exact Or.inr ⟨f, hread, hs,
      (deleteEntry_of_stored env s entryID repoName deletedBy f h1 h2 hread hs hw).2⟩

theorem entryCall_preserves (P Q : String → Entry → Prop) (c : EntryCall)
    (s : Store (Stored Entry))
    (h : ∀ kv ∈ s, ∃ e, kv.2 = Stored.record e ∧ P kv.1 e)
    (hmono : ∀ key e, P key e → Q key e)
    (hcreate : ∀ (env : StubEnv)
      (entryID repoName title description content author torrentHash : String)
      (tags : List String),
      entryID ≠ "" → repoName ≠ "" → title ≠ "" → entryKey entryID repoName ≠ "" →
      Q (entryKey entryID repoName)
        (createdEntry env entryID repoName title description content author torrentHash
          tags))
    (hupdate : ∀ (env : StubEnv) (key : String) (found : Entry)
      (title description content updatedBy : String) (rest : List String),
      P key found → Q key (updatedEntry env found title description content updatedBy rest))
    (hdelete : ∀ (env : StubEnv) (key : String) (found : Entry) (deletedBy : String),
      P key found → Q key (deletedEntry env found deletedBy)) :
    ∀ kv ∈ (c.exec s).store, ∃ e, kv.2 = Stored.record e ∧ Q kv.1 e := by
  have hold : ∀ kv ∈ s, ∃ e, kv.2 = Stored.record e ∧ Q kv.1 e := by
    intro kv hkv
    obtain ⟨e, h1, h2⟩ := h kv hkv
    exact ⟨e, h1, hmono _ _ h2⟩
  have hput : ∀ (key : String) (new : Entry), Q key new →
      ∀ kv ∈ putState s key (Stored.record new), ∃ e, kv.2 = Stored.record e ∧ Q kv.1 e := by
    intro key new hq kv hkv
    rcases mem_putState s key _ kv hkv with h1 | h1
    · exact hold kv h1
    · rw [h1]
      exact ⟨new, rfl, hq⟩
  have hfound : ∀ (key : String) (found : Entry),
      getState s key = some (Stored.record found) → P key found := by
    intro key found hs
    obtain ⟨e, h1, h2⟩ := h _ (mem_of_getState s key _ hs)
    have : found = e := Stored.record.inj h1
    rw [this]
    exact h2
  cases c with
  | create env args =>
    simp only [EntryCall.exec]
    rcases createEntry_cases env s args with hs | ⟨e, R, t, d, cn, a, th, tags, h1, h2, h3,
      _, _, hw, hs⟩
    · rw [hs]
      exact hold
    · rw [hs]
      exact hput _ _ (hcreate env e R t d cn a th tags h1 h2 h3
        (stubPutStateErr_none_ne env _ hw))
  | update env args =>
    simp only [EntryCall.exec]
    rcases updateEntry_cases env s args with hs | ⟨e, R, t, d, cn, u, rest, found, _, hst,
      hs⟩
    · rw [hs]
      exact hold
    · rw [hs]
      exact hput _ _ (hupdate env _ found t d cn u rest (hfound _ found hst))
  | delete env e R u =>
    simp only [EntryCall.exec]
    rcases deleteEntry_cases env s e R u with hs | ⟨found, _, hst, hs⟩
    · rw [hs]
      exact hold
    · rw [hs]
      exact hput _ _ (hdelete env _ found u (hfound _ found hst))

theorem titlesPresent_run (calls : List EntryCall) (s : Store (Stored Entry))
    (h : TitlesPresent s) : TitlesPresent (runEntryCalls s calls) := by
  induction calls generalizing s with
  | nil => exact h
  | cons c cs ih =>
    apply ih
    refine entryCall_preserves (fun _ e => e.Title ≠ "") (fun _ e => e.Title ≠ "") c s h
      (fun _ _ hp => hp) ?_ ?_ ?_
    · intro env e R t d cn a th tags _ _ ht _
      exact ht
    · intro env key found t d cn u rest hp
      by_cases ht : t = ""
      · simpa [updatedEntry, ht] using hp
      · simp [updatedEntry, ht]
    · intro env key found u hp
      exact hp

theorem utf8ByteSize_pos_iff (s : String) : s.utf8ByteSize > 0 ↔ s ≠ "" := by
  obtain ⟨cs⟩ := s
  cases cs with
  | nil => decide
  | cons c rest =>
    rw [String.utf8ByteSize_mk, String.utf8Len_cons]
    have := Char.utf8Size_pos c
    constructor
    · intro _ h
      exact absurd (congrArg String.data h) (by simp)
    · intro _
      omega

theorem contains_eq_true_iff (s substr : String) :
    contains s substr = true ↔ s ≠ "" ∧ substr ≠ "" := by
  simp [contains, utf8ByteSize_pos_iff]

theorem listEntries_default_status (env : StubEnv) (s : Store (Stored Entry))
    (repoName : String) :
    ListEntries env s [repoName, ""] = ListEntries env s [repoName] := by
  rw [listEntries_eq, listEntries_eq]
  rfl

theorem listEntries_values (env : StubEnv) (s : Store (Stored Entry)) (repoName : String)
    (rest : List String) (entries : List Entry)
    (h : ListEntries env s (repoName :: rest) = Except.ok entries) :
    ∀ e ∈ entries, ∃ kv ∈ s, kv.2 = Stored.record e := by
  obtain ⟨pairs, hscan, he⟩ := listEntries_inv env s repoName rest entries h
  intro e hmem
  rw [he] at hmem
  have hm := List.mem_of_mem_take hmem
  simp only [withStatus, List.mem_filter, decodedValues, List.mem_filterMap] at hm
  obtain ⟨⟨kv, hkv, hdec⟩, _⟩ := hm
  unfold getStateByPartialCompositeKey at hscan
  split at hscan
  · simp at hscan
  · rename_i startKey _
    split at hscan
    · simp at hscan
    · have hp : scanByPrefix s startKey = pairs := Except.ok.inj hscan
      rw [← hp] at hkv
      refine ⟨kv, ((mem_scanByPrefix s startKey kv).1 hkv).1, ?_⟩
      cases hv : kv.2 with
      | raw b => simp [hv, Stored.unmarshal] at hdec
      | record a =>
        simp only [hv, Stored.unmarshal, Option.some.injEq] at hdec
        rw [hdec]

/-- C31. `Search` ignores what the query says: `contains(s, q)` is true exactly when s and q
are both non-empty; in every store reached from the empty store through `CreateEntry`,
`UpdateEntry` and `DeleteEntry` every stored value is an entry whose title is not empty;
and so, on such a store, for every repo R (a non-empty name) and every query q, empty or
not, `Search(R, q)` returns what `ListEntries(R)` returns, the same entries in the same
order, or the same error. -/
theorem Search_ignores_query (calls : List EntryCall) (env : StubEnv)
    (repoName query : String) (hrepo : repoName ≠ "") :
    (∀ s q : String, contains s q = true ↔ s ≠ "" ∧ q ≠ "") ∧
    TitlesPresent (runEntryCalls [] calls) ∧
    Search env (runEntryCalls [] calls) repoName query =
      ListEntries env (runEntryCalls [] calls) [repoName] := by
  have ht : TitlesPresent (runEntryCalls [] calls) :=
    titlesPresent_run calls [] (fun kv hkv => absurd hkv (List.not_mem_nil kv))
  refine ⟨contains_eq_true_iff, ht, ?_⟩
  rw [← listEntries_default_status]
  unfold Search
  simp only [hrepo, if_false]
  cases h : ListEntries env (runEntryCalls [] calls) [repoName, ""] with
  | error e => rfl
  | ok entries =>
    simp only []
    congr 1
    rw [List.filter_eq_self]
    intro e he
    obtain ⟨kv, hkv, hrec⟩ := listEntries_values env _ repoName [""] entries h e he
    obtain ⟨e2, h2, htitle⟩ := ht kv hkv
    have : e = e2 := by
      rw [hrec] at h2
      exact Stored.record.inj h2
    subst this
    by_cases hq : query = ""
    · simp [hq]
    · have hc : contains e.Title query = true := (contains_eq_true_iff _ _).2 ⟨htitle, hq⟩
      simp [hc]

theorem Search_ignores_query_witness :
    Search entryEnv (runEntryCalls [] searchedEntryCalls) "repoA" "zzz" =
      ListEntries entryEnv (runEntryCalls [] searchedEntryCalls) ["repoA"] ∧
    ListEntries entryEnv (runEntryCalls [] searchedEntryCalls) ["repoA"] =
      Except.ok
        [sampleEntry "repoA" "repoA" "Same" "d" "c" "alice" "Qm",
         { sampleEntry "repoA" "repoB" "Renamed" "d2" "c2" "bob" "Qm2" with
           Version := 2, EditHistory := ["v2 updated by bob at 2024-03-01T00:00:00Z"] }] :=
  ⟨(Search_ignores_query searchedEntryCalls entryEnv "repoA" "zzz" (by decide)).2.2,
    by decide⟩

theorem getEntryCount_inv (env : StubEnv) (s : Store (Stored Entry)) (repoName : String)
    (n : Nat) (h : GetEntryCount env s repoName = Except.ok n) :
    ∃ pairs,
      getStateByPartialCompositeKey env s "entry~repo" [repoName] = Except.ok pairs ∧
      n = ((withStatus "active" (decodedValues pairs)).take 100).length := by
  unfold GetEntryCount at h
  cases hl : ListEntries env s [repoName, ""] with
  | error e => simp [hl] at h
  | ok entries =>
    simp only [hl] at h
    obtain ⟨pairs, hscan, he⟩ := listEntries_inv env s repoName [""] entries hl
    refine ⟨pairs, hscan, ?_⟩
    rw [← Except.ok.inj h, he]
    rfl

set_option maxRecDepth 100000 in
theorem crowdedEntryStore_length : crowdedEntryStore.length = 101 := by
  decide

set_option maxRecDepth 100000 in
theorem crowdedEntryStore_keys : (keys crowdedEntryStore).Nodup :=
  List.Nodup.of_map String.length (by decide)

set_option maxRecDepth 100000 in
theorem crowdedEntryStore_scan :
    getStateByPartialCompositeKey entryEnv crowdedEntryStore "entry~repo" ["repoA"] =
      Except.ok crowdedEntryStore := by
  decide

set_option maxRecDepth 100000 in
theorem crowdedEntryStore_count :
    GetEntryCount entryEnv crowdedEntryStore "repoA" = Except.ok 100 := by
  decide

/-- C32, evaluated. `GetEntryCount` calls `ListEntries(R, "")`, whose limit is then 100 and
whose status is `active`: the count it returns is the number of the first 100 decodable
values of the scan whose status is `active`, so that it exceeds 100 on no store. On a store
that holds 101 active entries of repo `repoA`, under 101 different keys, all of them reached
by the scan for `repoA`, `GetEntryCount(repoA)` returns 100. -/
theorem entry_count_capped_at_100 :
    (∀ (env : StubEnv) (s : Store (Stored Entry)) (repoName : String) (n : Nat),
      GetEntryCount env s repoName = Except.ok n →
      (∃ pairs,
        getStateByPartialCompositeKey env s "entry~repo" [repoName] = Except.ok pairs ∧
        n = ((withStatus "active" (decodedValues pairs)).take 100).length) ∧
      n ≤ 100) ∧
    crowdedEntryStore.length = 101 ∧
    (keys crowdedEntryStore).Nodup ∧
    (∀ kv ∈ crowdedEntryStore, ∃ e, kv.2 = Stored.record e ∧ e.RepoName = "repoA" ∧
      e.Status = "active") ∧
    getStateByPartialCompositeKey entryEnv crowdedEntryStore "entry~repo" ["repoA"] =
      Except.ok crowdedEntryStore ∧
    GetEntryCount entryEnv crowdedEntryStore "repoA" = Except.ok 100 := by
  refine ⟨?_, crowdedEntryStore_length, crowdedEntryStore_keys, ?_, crowdedEntryStore_scan,
    crowdedEntryStore_count⟩
  · intro env s repoName n h
    obtain ⟨pairs, hscan, hn⟩ := getEntryCount_inv env s repoName n h
    refine ⟨⟨pairs, hscan, hn⟩, ?_⟩
    rw [hn, List.length_take]
    exact Nat.min_le_left _ _
  · intro kv hkv
    simp only [crowdedEntryStore, List.mem_map] at hkv
    obtain ⟨i, _, rfl⟩ := hkv
    exact ⟨_, rfl, rfl, rfl⟩

/-! ## Entries: version bookkeeping -/

theorem isUpdateLine_updateAuditLine (version : Int) (updatedBy now : String) :
    isUpdateLine (updateAuditLine version updatedBy now) = true := by
  simp [isUpdateLine, updateAuditLine, String.data_append]

theorem isUpdateLine_deleteAuditLine (deletedBy now : String) :
    isUpdateLine (deleteAuditLine deletedBy now) = false := by
  simp [isUpdateLine, deleteAuditLine, String.data_append]

theorem entryBookkept_mono (n : Nat) (key : String) (e : Entry)
    (h : EntryBookkept n key e) : EntryBookkept (n + 1) key e := by
  obtain ⟨h1, h2, h3, h4, h5, h6, h7⟩ := h
  refine ⟨h1, h2, h3, ?_, h5, h6, h7⟩
  push_cast
  omega

theorem entryBookkept_created (n : Nat) (env : StubEnv)
    (entryID repoName title description content author torrentHash : String)
    (tags : List String) (hkey : entryKey entryID repoName ≠ "") :
    EntryBookkept n (entryKey entryID repoName)
      (createdEntry env entryID repoName title description content author torrentHash
        tags) := by
  refine ⟨rfl, hkey, ?_, ?_, ?_, ?_, ?_⟩
  · simp [createdEntry]
  · simp only [createdEntry]
    omega
  · simp [createdEntry, updateLines]
  · intro k line hk
    simp [createdEntry, updateLines] at hk
  · intro line hl
    simp [createdEntry] at hl

theorem entryBookkept_updated (n : Nat) (env : StubEnv) (key : String) (found : Entry)
    (title description content updatedBy : String) (rest : List String)
    (h : EntryBookkept n key found) (hn : (n : Int) + 1 < maxInt64) :
    EntryBookkept (n + 1) key
      (updatedEntry env found title description content updatedBy rest) := by
  obtain ⟨h1, h2, h3, h4, h5, h6, h7⟩ := h
  have hmin : minInt64 ≤ found.Version := by
    have : minInt64 ≤ 1 := by decide
    omega
  have hv : wrapInt64 (found.Version + 1) = found.Version + 1 :=
    wrapInt64_succ found.Version hmin (by omega)
  have hlines : updateLines (found.EditHistory ++
      [updateAuditLine (found.Version + 1) updatedBy env.now]) =
      updateLines found.EditHistory ++
        [updateAuditLine (found.Version + 1) updatedBy env.now] := by
    simp [updateLines, List.filter_append, isUpdateLine_updateAuditLine]
  refine ⟨h1, h2, ?_, ?_, ?_, ?_, ?_⟩
  · simp only [updatedEntry, hv]
    omega
  · simp only [updatedEntry, hv]
    push_cast
    omega
  · simp only [updatedEntry, hv, hlines, List.length_append, List.length_singleton]
    push_cast
    omega
  · intro k line hk
    simp only [updatedEntry, hv, hlines] at hk
    by_cases hlt : k < (updateLines found.EditHistory).length
    · rw [List.getElem?_append_left hlt] at hk
      exact h6 k line hk
    · rw [List.getElem?_append_right (Nat.le_of_not_lt hlt)] at hk
      have hk0 : k - (updateLines found.EditHistory).length = 0 := by
        by_contra hne
        have : 1 ≤ k - (updateLines found.EditHistory).length := Nat.one_le_iff_ne_zero.2 hne
        rw [List.getElem?_eq_none (by simpa using this)] at hk
        exact absurd hk (by simp)
      rw [hk0] at hk
      simp only [List.getElem?_cons_zero, Option.some.injEq] at hk
      refine ⟨updatedBy, env.now, ?_⟩
      rw [← hk]
      congr 1
      omega
  · intro line hl hnot
    simp only [updatedEntry, hv, List.mem_append, List.mem_singleton] at hl
    rcases hl with hl | hl
    · exact h7 line hl hnot
    · rw [hl, isUpdateLine_updateAuditLine] at hnot
      exact absurd hnot (by simp)

theorem entryBookkept_deleted (n : Nat) (env : StubEnv) (key : String) (found : Entry)
    (deletedBy : String) (h : EntryBookkept n key found) :
    EntryBookkept (n + 1) key (deletedEntry env found deletedBy) := by
  obtain ⟨h1, h2, h3, h4, h5, h6, h7⟩ := entryBookkept_mono n key found h
  have hlines : updateLines (found.EditHistory ++ [deleteAuditLine deletedBy env.now]) =
      updateLines found.EditHistory := by
    simp [updateLines, List.filter_append, isUpdateLine_deleteAuditLine]
  refine ⟨h1, h2, h3, h4, ?_, ?_, ?_⟩
  · simp only [deletedEntry, hlines]
    exact h5
  · intro k line hk
    simp only [deletedEntry, hlines] at hk
    exact h6 k line hk
  · intro line hl hnot
    simp only [deletedEntry, List.mem_append, List.mem_singleton] at hl
    rcases hl with hl | hl
    · exact h7 line hl hnot
    · exact ⟨deletedBy, env.now, hl⟩

theorem entriesBookkept_exec (c : EntryCall) (n : Nat) (s : Store (Stored Entry))
    (h : EntriesBookkept n s) (hn : (n : Int) + 1 < maxInt64) :
    EntriesBookkept (n + 1) (c.exec s).store :=
  entryCall_preserves (EntryBookkept n) (EntryBookkept (n + 1)) c s h
    (entryBookkept_mono n)
    (fun env e R t d cn a th tags _ _ _ hkey =>
      entryBookkept_created (n + 1) env e R t d cn a th tags hkey)
    (fun env key found t d cn u rest hp =>
      entryBookkept_updated n env key found t d cn u rest hp hn)
    (fun env key found u hp => entryBookkept_deleted n env key found u hp)

theorem entriesBookkept_run (calls : List EntryCall) (n : Nat) (s : Store (Stored Entry))
    (h : EntriesBookkept n s) (hn : ((n + calls.length : Nat) : Int) < maxInt64) :
    EntriesBookkept (n + calls.length) (runEntryCalls s calls) := by
  induction calls generalizing n s with
  | nil => exact h
  | cons c cs ih =>
    simp only [List.length_cons] at hn ⊢
    have hstep := entriesBookkept_exec c n s h (by push_cast at hn ⊢; omega)
    have := ih (n + 1) (c.exec s).store hstep (by
      have e : n + 1 + cs.length = n + (cs.length + 1) := by omega
      rw [e]
      exact hn)
    have e : n + 1 + cs.length = n + (cs.length + 1) := by omega
    rw [e] at this
    exact this

theorem entryKey_injective (a b a2 b2 : String) (h : entryKey a b = entryKey a2 b2)
    (hne : entryKey a b ≠ "") : a = a2 ∧ b = b2 :=
  compositeKeyOrEmpty_two_injective "entry~repo" a b a2 b2 h hne

/-- C38. Entry version bookkeeping: in every store reached from the empty store through
`CreateEntry`, `UpdateEntry` and `DeleteEntry` (fewer than 2^63 - 1 invocations, so that no
version wraps), every stored value is an entry that is stored under the composite key of
the ID and the repo name inside it, and of no other pair; its version is at least 1; its
version minus 1 is the number of update lines in its edit history; the update line of
index k, counted from 0, is the line `v<k + 2> updated by ... at ...`, so the k-th update
line names version k + 1; and every other line of the history is a deletion line. -/
theorem entry_version_bookkeeping (calls : List EntryCall)
    (hlen : (calls.length : Int) < maxInt64)
    (kv : String × Stored Entry) (hkv : kv ∈ runEntryCalls [] calls) :
    ∃ e, kv.2 = Stored.record e ∧
      kv.1 = entryKey e.ID e.RepoName ∧
      (∀ a b, kv.1 = entryKey a b → a = e.ID ∧ b = e.RepoName) ∧
      1 ≤ e.Version ∧
      e.Version - 1 = ((updateLines e.EditHistory).length : Int) ∧
      (∀ (k : Nat) (line : String), (updateLines e.EditHistory)[k]? = some line →
        ∃ updatedBy now, line =
          "v" ++ toString ((k : Int) + 2) ++ " updated by " ++ updatedBy ++ " at " ++ now) ∧
      (∀ line ∈ e.EditHistory, line ∉ updateLines e.EditHistory →
        ∃ deletedBy now, line = "Deleted by " ++ deletedBy ++ " at " ++ now) := by
  have h0 : EntriesBookkept 0 [] := fun kv hkv => absurd hkv (List.not_mem_nil kv)
  have h := entriesBookkept_run calls 0 [] h0 (by simpa using hlen)
  obtain ⟨e, he, h1, h2, h3, _, h5, h6, h7⟩ := h kv hkv
  refine ⟨e, he, h1, ?_, h3, h5, h6, ?_⟩
  · intro a b hab
    have hne : entryKey a b ≠ "" := by
      rw [← hab]
      exact h2
    obtain ⟨e1, e2⟩ := entryKey_injective a b e.ID e.RepoName (hab.symm.trans h1) hne
    exact ⟨e1, e2⟩
  · intro line hl hnot
    apply h7 line hl
    cases hu : isUpdateLine line with
    | false => rfl
    | true =>
      exfalso
      apply hnot
      simp [updateLines, List.mem_filter, hl, hu]

theorem entry_version_bookkeeping_witness :
    ∃ e, (entryKey "e1" "repoA", Stored.record
        (updatedEntry laterEntryEnv
          (deletedEntry laterEntryEnv
            (updatedEntry laterEntryEnv
              (sampleEntry "e1" "repoA" "First" "d1" "c1" "alice" "Qm1")
              "Renamed" "" "c2" "bob" [])
            "mod1")
          "" "d3" "" "carol" ["Qm3"])).2 = Stored.record e ∧
      (entryKey "e1" "repoA", Stored.record
        (updatedEntry laterEntryEnv
          (deletedEntry laterEntryEnv
            (updatedEntry laterEntryEnv
              (sampleEntry "e1" "repoA" "First" "d1" "c1" "alice" "Qm1")
              "Renamed" "" "c2" "bob" [])
            "mod1")
          "" "d3" "" "carol" ["Qm3"])).1 = entryKey e.ID e.RepoName ∧
      (∀ a b, (entryKey "e1" "repoA", Stored.record
        (updatedEntry laterEntryEnv
          (deletedEntry laterEntryEnv
            (updatedEntry laterEntryEnv
              (sampleEntry "e1" "repoA" "First" "d1" "c1" "alice" "Qm1")
              "Renamed" "" "c2" "bob" [])
            "mod1")
          "" "d3" "" "carol" ["Qm3"])).1 = entryKey a b → a = e.ID ∧ b = e.RepoName) ∧
      1 ≤ e.Version ∧
      e.Version - 1 = ((updateLines e.EditHistory).length : Int) ∧
      (∀ (k : Nat) (line : String), (updateLines e.EditHistory)[k]? = some line →
        ∃ updatedBy now, line =
          "v" ++ toString ((k : Int) + 2) ++ " updated by " ++ updatedBy ++ " at " ++ now) ∧
      (∀ line ∈ e.EditHistory, line ∉ updateLines e.EditHistory →
        ∃ deletedBy now, line = "Deleted by " ++ deletedBy ++ " at " ++ now) :=
  entry_version_bookkeeping entryLifeCalls (by decide) _ (by decide)

/-! ## Deleted records stay deleted -/

theorem entry_deleted_step (c : EntryCall) (s : Store (Stored Entry))
    (hreads : c.ReadsSucceed) (key : String) (r : Entry)
    (hr : getState s key = some (Stored.record r)) (hd : r.Status = "deleted") :
    ∃ r2, getState (c.exec s).store key = some (Stored.record r2) ∧
      r2.Status = "deleted" := by
  have keep : ∀ s2 : Store (Stored Entry), getState s2 key = some (Stored.record r) →
      ∃ r2, getState s2 key = some (Stored.record r2) ∧ r2.Status = "deleted" :=
    fun s2 h2 => ⟨r, h2, hd⟩
  cases c with
  | create env args =>
    simp only [EntryCall.exec]
    have hrd : ∀ k, env.getStateErr k = none := hreads
    rcases createEntry_cases env s args with hs | ⟨e, R, t, d, cn, a, th, tags, _, _, _, _,
      hex, _, hs⟩
    · rw [hs]
      exact keep s hr
    · rw [stubGetState_of_read env s _ (hrd _)] at hex
      have hne : key ≠ entryKey e R := by
        intro e1
        rw [e1, show getState s (entryKey e R) = none from hex] at hr
        exact absurd hr (by simp)
      rw [hs]
      apply keep
      rw [getState_putState_other _ _ _ _ hne]
      exact hr
  | update env args =>
    simp only [EntryCall.exec]
    rcases updateEntry_cases env s args with hs | ⟨e, R, t, d, cn, u, rest, found, _, hst,
      hs⟩
    · rw [hs]
      exact keep s hr
    · rw [hs]
      by_cases hk : key = entryKey e R
      · have hr3 := hr
        rw [hk, hst] at hr3
        have hf : found = r := Stored.record.inj (Option.some.inj hr3)
        refine ⟨updatedEntry env r t d cn u rest, ?_, hd⟩
        rw [hk, getState_putState_same, hf]
      · apply keep
        rw [getState_putState_other _ _ _ _ hk]
        exact hr
  | delete env e R u =>
    simp only [EntryCall.exec]
    rcases deleteEntry_cases env s e R u with hs | ⟨found, _, hst, hs⟩
    · rw [hs]
      exact keep s hr
    · rw [hs]
      by_cases hk : key = entryKey e R
      · exact ⟨deletedEntry env found u, by rw [hk, getState_putState_same], rfl⟩
      · apply keep
        rw [getState_putState_other _ _ _ _ hk]
        exact hr

theorem entry_deleted_run (calls : List EntryCall) (s : Store (Stored Entry))
    (hreads : ∀ c ∈ calls, c.ReadsSucceed) (key : String) (r : Entry)
    (hr : getState s key = some (Stored.record r)) (hd : r.Status = "deleted") :
    ∃ r2, getState (runEntryCalls s calls) key = some (Stored.record r2) ∧
      r2.Status = "deleted" := by
  induction calls generalizing s r with
  | nil => exact ⟨r, hr, hd⟩
  | cons c cs ih =>
    obtain ⟨r1, h1, hd1⟩ :=
      entry_deleted_step c s (hreads c (List.mem_cons_self _ _)) key r hr hd
    exact ih (c.exec s).store (fun x hx => hreads x (List.mem_cons_of_mem _ hx)) r1 h1 hd1

theorem comment_deleted_step (c : CommentCall) (s : Store (Stored Comment))
    (hreads : c.ReadsSucceed) (key : String) (r : Comment)
    (hr : getState s key = some (Stored.record r)) (hd : r.Status = "deleted") :
    ∃ r2, getState (c.exec s).store key = some (Stored.record r2) ∧
      r2.Status = "deleted" := by
  have keep : ∀ s2 : Store (Stored Comment), getState s2 key = some (Stored.record r) →
      ∃ r2, getState s2 key = some (Stored.record r2) ∧ r2.Status = "deleted" :=
    fun s2 h2 => ⟨r, h2, hd⟩
  cases c with
  | add env args =>
    simp only [CommentCall.exec]
    have hrd : ∀ k, env.getStateErr k = none := hreads
    rcases addComment_store_cases env s args with hs | ⟨c, E2, repo, content, author, rs,
      rest, hargs, herr⟩
    · rw [hs]
      exact keep s hr
    · subst hargs
      obtain ⟨_, _, hex, _, hstore⟩ := addComment_inv env s c E2 repo content author rs rest
        herr
      rw [stubGetState_of_reads env s _ hrd] at hex
      have hne : key ≠ commentKey c E2 := by
        intro e
        rw [e, hex] at hr
        exact absurd hr (by simp)
      rw [hstore]
      rcases parentWrites_cases env s (commentThreadID rest) E2 c with hw | ⟨parent, _, _,
        hps, _, hw⟩
      · rw [hw]
        simp only [commitWrites, List.foldl_cons, List.foldl_nil]
        apply keep
        rw [getState_putState_other _ _ _ _ hne]
        exact hr
      · rw [hw]
        simp only [commitWrites, List.foldl_cons, List.foldl_nil]
        by_cases hk : key = commentKey (commentThreadID rest) E2
        · have hr3 := hr
          rw [hk, hps] at hr3
          have hpp : parent = r := Stored.record.inj (Option.some.inj hr3)
          refine ⟨withReply r c, ?_, hd⟩
          rw [hk, getState_putState_same, hpp]
        · apply keep
          rw [getState_putState_other _ _ _ _ hk, getState_putState_other _ _ _ _ hne]
          exact hr
  | update env c E2 nc u =>
    simp only [CommentCall.exec]
    rcases updateComment_store_cases env s c E2 nc u with hs | ⟨found, hf, _, hs⟩
    · rw [hs]
      exact keep s hr
    · obtain ⟨_, _, _, hst⟩ := getComment_stored env s c E2 found hf
      rw [hs]
      by_cases hk : key = commentKey c E2
      · have hr3 := hr
        rw [hk, hst] at hr3
        have hpp : found = r := Stored.record.inj (Option.some.inj hr3)
        refine ⟨updatedComment env r nc, ?_, hd⟩
        rw [hk, getState_putState_same, hpp]
      · apply keep
        rw [getState_putState_other _ _ _ _ hk]
        exact hr
  | delete env c E2 u =>
    simp only [CommentCall.exec]
    rcases deleteComment_store_cases env s c E2 u with ⟨hs, _⟩ | ⟨found, hf, _, hs⟩
    · rw [hs]
      exact keep s hr
    · rw [hs]
      by_cases hk : key = commentKey c E2
      · exact ⟨deletedComment env found, by rw [hk, getState_putState_same], rfl⟩
      · apply keep
        rw [getState_putState_other _ _ _ _ hk]
        exact hr

theorem comment_deleted_run (calls : List CommentCall) (s : Store (Stored Comment))
    (hreads : ∀ c ∈ calls, c.ReadsSucceed) (key : String) (r : Comment)
    (hr : getState s key = some (Stored.record r)) (hd : r.Status = "deleted") :
    ∃ r2, getState (runCommentCalls s calls) key = some (Stored.record r2) ∧
      r2.Status = "deleted" := by
  induction calls generalizing s r with
  | nil => exact ⟨r, hr, hd⟩
  | cons c cs ih =>
    obtain ⟨r1, h1, hd1⟩ :=
      comment_deleted_step c s (hreads c (List.mem_cons_self _ _)) key r hr hd
    exact ih (c.exec s).store (fun x hx => hreads x (List.mem_cons_of_mem _ hx)) r1 h1 hd1

theorem updateComment_of_stored (env : StubEnv) (s : Store (Stored Comment))
    (commentID entryID newContent updatedBy : String) (found : Comment)
    (h1 : commentID ≠ "") (h2 : entryID ≠ "") (h3 : newContent ≠ "")
    (hread : env.getStateErr (commentKey commentID entryID) = none)
    (hs : getState s (commentKey commentID entryID) = some (Stored.record found))
    (hw : stubPutStateErr env (commentKey commentID entryID) = none) :
    (UpdateComment env s commentID entryID newContent updatedBy).err = none ∧
    (UpdateComment env s commentID entryID newContent updatedBy).store =
      putState s (commentKey commentID entryID)
        (Stored.record (updatedComment env found newContent)) := by
  simp [UpdateComment, h1, h2, h3,
    getComment_of_stored env s commentID entryID found h1 h2 hread hs, hw]

/-- Deleted records when the ledger reads succeed: when a
store holds an entry whose status is `deleted`, after any sequence of `CreateEntry`,
`UpdateEntry` and `DeleteEntry` invocations, successful or not, the same key holds an entry
whose status is `deleted`; likewise for a comment and any sequence of `AddComment`,
`UpdateComment` and `DeleteComment` invocations. An update of a deleted record is
accepted: `UpdateEntry` on a deleted entry, its read and write succeeding, returns no error
and stores the entry with the supplied non-empty content and status `deleted`, and
`UpdateComment` with valid arguments on a deleted comment returns no error and stores the
comment with the new content and status `deleted`. -/
theorem deleted_is_absorbing :
    (∀ (calls : List EntryCall) (s : Store (Stored Entry)) (key : String) (r : Entry),
      (∀ c ∈ calls, c.ReadsSucceed) →
      getState s key = some (Stored.record r) → r.Status = "deleted" →
      ∃ r2, getState (runEntryCalls s calls) key = some (Stored.record r2) ∧
        r2.Status = "deleted") ∧
    (∀ (calls : List CommentCall) (s : Store (Stored Comment)) (key : String) (r : Comment),
      (∀ c ∈ calls, c.ReadsSucceed) →
      getState s key = some (Stored.record r) → r.Status = "deleted" →
      ∃ r2, getState (runCommentCalls s calls) key = some (Stored.record r2) ∧
        r2.Status = "deleted") ∧
    (∀ (env : StubEnv) (s : Store (Stored Entry))
        (entryID repoName title description content updatedBy : String)
        (rest : List String) (found : Entry),
      getState s (entryKey entryID repoName) = some (Stored.record found) →
      found.Status = "deleted" →
      env.getStateErr (entryKey entryID repoName) = none →
      stubPutStateErr env (entryKey entryID repoName) = none →
      content ≠ "" →
      (UpdateEntry env s
        (entryID :: repoName :: title :: description :: content :: updatedBy :: rest)).err =
        none ∧
      ∃ new, getState (UpdateEntry env s
          (entryID :: repoName :: title :: description :: content :: updatedBy ::
            rest)).store (entryKey entryID repoName) = some (Stored.record new) ∧
        new.Content = content ∧ new.Status = "deleted") ∧
    (∀ (env : StubEnv) (s : Store (Stored Comment))
        (commentID entryID newContent updatedBy : String) (found : Comment),
      getState s (commentKey commentID entryID) = some (Stored.record found) →
      found.Status = "deleted" →
      commentID ≠ "" → entryID ≠ "" → newContent ≠ "" →
      env.getStateErr (commentKey commentID entryID) = none →
      stubPutStateErr env (commentKey commentID entryID) = none →
      (UpdateComment env s commentID entryID newContent updatedBy).err = none ∧
      ∃ new, getState (UpdateComment env s commentID entryID newContent updatedBy).store
          (commentKey commentID entryID) = some (Stored.record new) ∧
        new.Content = newContent ∧ new.Status = "deleted") := by
  refine ⟨?_, ?_, ?_, ?_⟩
  · intro calls s key r hreads hr hd
    exact entry_deleted_run calls s hreads key r hr hd
  · intro calls s key r hreads hr hd
    exact comment_deleted_run calls s hreads key r hr hd
  · intro env s entryID repoName title description content updatedBy rest found hs hd hread
      hw hc
    obtain ⟨h1, h2⟩ := updateEntry_of_stored env s entryID repoName title description content
      updatedBy rest found hread hs hw
    refine ⟨h1, updatedEntry env found title description content updatedBy rest, ?_, ?_, hd⟩
    · rw [h2]
      exact getState_putState_same _ _ _
    · simp [updatedEntry, hc]
  · intro env s commentID entryID newContent updatedBy found hs hd h1 h2 h3 hread hw
    obtain ⟨e1, e2⟩ := updateComment_of_stored env s commentID entryID newContent updatedBy
      found h1 h2 h3 hread hs hw
    refine ⟨e1, updatedComment env found newContent, ?_, rfl, hd⟩
    rw [e2]
    exact getState_putState_same _ _ _

theorem deleted_is_absorbing_witness :
    (UpdateEntry laterEntryEnv deletedEntryStore
      ("e1" :: "repoA" :: "" :: "" :: "rewritten" :: "bob" :: [])).err = none ∧
    ∃ new, getState (UpdateEntry laterEntryEnv deletedEntryStore
        ("e1" :: "repoA" :: "" :: "" :: "rewritten" :: "bob" :: [])).store
        (entryKey "e1" "repoA") = some (Stored.record new) ∧
      new.Content = "rewritten" ∧ new.Status = "deleted" :=
  deleted_is_absorbing.2.2.1 laterEntryEnv deletedEntryStore "e1" "repoA" "" "" "rewritten"
    "bob" [] (deletedEntry laterEntryEnv
      (sampleEntry "e1" "repoA" "First" "d1" "c1" "alice" "Qm1") "mod1")
    (by decide) (by decide) (by decide) (by decide) (by decide)

/-- C39, evaluated in a transaction whose ledger reads fail. On the store in which entry
`e1` of `repoA` has status `deleted`, `CreateEntry(e1, repoA, ...)` returns no error and the
entry then read back has status `active`; on the store in which comment `C1` of `E1` has
status `deleted`, `AddComment(C1, E1, ...)` returns no error and the comment then read back
has status `active`. -/
theorem deleted_record_recreated_on_failed_read :
    (GetEntry entryEnv deletedEntryStore "e1" "repoA").map (fun e => e.Status) =
      Except.ok "deleted" ∧
    (CreateEntry readFailEnv deletedEntryStore
      ["e1", "repoA", "Second", "d2", "c2", "bob", "Qm2"]).err = none ∧
    (GetEntry entryEnv (CreateEntry readFailEnv deletedEntryStore
      ["e1", "repoA", "Second", "d2", "c2", "bob", "Qm2"]).store "e1" "repoA").map
        (fun e => (e.Status, e.Title, e.EditHistory)) =
      Except.ok ("active", "Second", []) ∧
    (GetComment commentEnv deletedThreadStore "C1" "E1").map (fun c => c.Status) =
      Except.ok "deleted" ∧
    (AddComment readFailEnv deletedThreadStore
      ["C1", "E1", "repo", "again", "bob", "0"]).err = none ∧
    (GetComment commentEnv (AddComment readFailEnv deletedThreadStore
      ["C1", "E1", "repo", "again", "bob", "0"]).store "C1" "E1").map
        (fun c => (c.Status, c.Content)) =
      Except.ok ("active", "again") := by
  refine ⟨?_, ?_, ?_, ?_, ?_, ?_⟩ <;> decide

/-! ## Ratings: the event of a submission -/

theorem submitRating_result (env : StubEnv) (s : Store (Stored Rating))
    (ratingID entryID repoName rater ratingStr : String) (rest : List String)
    (h : (SubmitRating env s
      (ratingID :: entryID :: repoName :: rater :: ratingStr :: rest)).err = none) :
    ∃ ratingObj,
      (SubmitRating env s
        (ratingID :: entryID :: repoName :: rater :: ratingStr :: rest)).writes =
        [(ratingKey ratingID entryID, Stored.record ratingObj)] ∧
      (SubmitRating env s
        (ratingID :: entryID :: repoName :: rater :: ratingStr :: rest)).store =
        putState s (ratingKey ratingID entryID) (Stored.record ratingObj) ∧
      (SubmitRating env s
        (ratingID :: entryID :: repoName :: rater :: ratingStr :: rest)).event =
        some (if (stubGetState env s (ratingKey ratingID entryID)).1.isSome then "RatingUpdated"
          else "RatingSubmitted", Stored.record ratingObj) := by
  unfold SubmitRating at h ⊢
  simp only [] at h ⊢
  split at h
  · simp [TxResult.fail] at h
  · rename_i hne
    split at h
    · simp [TxResult.fail] at h
    · rename_i score hscore
      split at h
      · simp [TxResult.fail] at h
      · rename_i hrange
        split at h
        · simp [TxResult.fail] at h
        · rename_i ratingObj hb
          split at h
          · simp [TxResult.fail] at h
          · rename_i hput
            refine ⟨ratingObj, ?_, ?_, ?_⟩ <;>
              simp only [hne, if_false, hscore, hrange, hb, hput]

/-- The event of a submission whose existence check reads the ledger successfully: every
such successful `SubmitRating` makes one write, of a record under the composite key of (ratingID, entryID),
and sets one event whose payload is that written value; the event is named
`RatingSubmitted` when the store held no value at that key before the call and
`RatingUpdated` when it held one. -/
theorem SubmitRating_event (env : StubEnv) (s : Store (Stored Rating))
    (ratingID entryID repoName rater ratingStr : String) (rest : List String)
    (hread : env.getStateErr (ratingKey ratingID entryID) = none)
    (hok : (SubmitRating env s
      (ratingID :: entryID :: repoName :: rater :: ratingStr :: rest)).err = none) :
    ∃ ratingObj name,
      (SubmitRating env s
        (ratingID :: entryID :: repoName :: rater :: ratingStr :: rest)).writes =
        [(ratingKey ratingID entryID, Stored.record ratingObj)] ∧
      getState (SubmitRating env s
        (ratingID :: entryID :: repoName :: rater :: ratingStr :: rest)).store
        (ratingKey ratingID entryID) = some (Stored.record ratingObj) ∧
      (SubmitRating env s
        (ratingID :: entryID :: repoName :: rater :: ratingStr :: rest)).event =
        some (name, Stored.record ratingObj) ∧
      (getState s (ratingKey ratingID entryID) = none → name = "RatingSubmitted") ∧
      ((getState s (ratingKey ratingID entryID)).isSome = true → name = "RatingUpdated") := by
  obtain ⟨ratingObj, hw, hs, he⟩ :=
    submitRating_result env s ratingID entryID repoName rater ratingStr rest hok
  rw [stubGetState_of_read env s _ hread] at he
  refine ⟨ratingObj, _, hw, ?_, he, ?_, ?_⟩
  · rw [hs]
    exact getState_putState_same _ _ _
  · intro hnone
    simp [hnone]
  · intro hsome
    simp [hsome]

theorem SubmitRating_event_witness :
    ∃ ratingObj name,
      (SubmitRating ratingEnv oneRatingStore
        ("r1" :: "E1" :: "repo" :: "alice" :: "5" :: ["better"])).writes =
        [(ratingKey "r1" "E1", Stored.record ratingObj)] ∧
      getState (SubmitRating ratingEnv oneRatingStore
        ("r1" :: "E1" :: "repo" :: "alice" :: "5" :: ["better"])).store
        (ratingKey "r1" "E1") = some (Stored.record ratingObj) ∧
      (SubmitRating ratingEnv oneRatingStore
        ("r1" :: "E1" :: "repo" :: "alice" :: "5" :: ["better"])).event =
        some (name, Stored.record ratingObj) ∧
      (getState oneRatingStore (ratingKey "r1" "E1") = none → name = "RatingSubmitted") ∧
      ((getState oneRatingStore (ratingKey "r1" "E1")).isSome = true →
        name = "RatingUpdated") :=
  SubmitRating_event ratingEnv oneRatingStore "r1" "E1" "repo" "alice" "5" ["better"]
    (by decide) (by decide)

/-- C36, evaluated on the store that holds the rating `r1` of entry `E1`.
`SubmitRating(r1, E1, ...)` in a transaction whose ledger reads fail returns no error, and
the event it sets is named `RatingSubmitted` although a record existed at the composite key
before the call; its payload is the value written, a new record that replaces the stored
one. With the reads succeeding the event is named `RatingUpdated`. -/
theorem rating_update_named_submitted :
    getState oneRatingStore (ratingKey "r1" "E1") =
      some (Stored.record (sampleRating "r1" "E1" 3)) ∧
    (SubmitRating readFailEnv oneRatingStore ["r1", "E1", "repo2", "bob", "5"]).err = none ∧
    (SubmitRating readFailEnv oneRatingStore ["r1", "E1", "repo2", "bob", "5"]).event =
      some ("RatingSubmitted", Stored.record
        { sampleRating "r1" "E1" 5 with
          RepoName := "repo2", Rater := "bob", CreatedAt := "2024-05-01T00:00:00Z",
          UpdatedAt := "2024-05-01T00:00:00Z" }) ∧
    (SubmitRating readFailEnv oneRatingStore ["r1", "E1", "repo2", "bob", "5"]).writes =
      [(ratingKey "r1" "E1", Stored.record
        { sampleRating "r1" "E1" 5 with
          RepoName := "repo2", Rater := "bob", CreatedAt := "2024-05-01T00:00:00Z",
          UpdatedAt := "2024-05-01T00:00:00Z" })] ∧
    (SubmitRating ratingEnv oneRatingStore ["r1", "E1", "repo2", "bob", "5"]).event =
      some ("RatingUpdated", Stored.record (sampleRating "r1" "E1" 5)) := by
  refine ⟨?_, ?_, ?_, ?_, ?_⟩ <;> decide

/-! ## The catalog against the requests -/

theorem catalogConsistent_exec (c : Call) (n : Nat) (s : Store Doc)
    (hrev : RequestsReviewedWithin n s) (h : CatalogConsistent s)
    (hn : (n : Int) + 1 < maxInt64) : CatalogConsistent (c.exec s).store := by
  have hfound : ∀ (env : Env) (i : String) (r0 : ContentRequest),
      getContentRequestByIMDBID env s i = Except.ok r0 →
      getState s (buildContentRequestKey i) = some (Doc.request r0) ∧
        ReviewedWithin n r0 := by
    intro env i r0 hl
    obtain ⟨_, d0, hd0, hr0⟩ := stored_of_lookup_ok env s i r0 hl
    obtain ⟨r, hr, hP⟩ := hrev i d0 hd0
    subst hr
    have : r0 = r := (Option.some.inj hr0).symm
    rw [this]
    exact ⟨hd0, hP⟩
  have hbump : ∀ r0 : ContentRequest, ReviewedWithin n r0 →
      2 ≤ wrapInt64 (r0.Version + 1) := by
    intro r0 hP
    obtain ⟨_, h1, h2, _⟩ := hP
    have hmin : minInt64 ≤ r0.Version := by
      have : minInt64 ≤ 1 := by decide
      omega
    rw [wrapInt64_succ r0.Version hmin (by omega)]
    omega
  -- a rewrite of the request of `j` that keeps its descriptive fields
  have hrewrite : ∀ (j : String) (r0 new : ContentRequest),
      getState s (buildContentRequestKey j) = some (Doc.request r0) →
      2 ≤ new.Version → new.Title = r0.Title → new.Director = r0.Director →
      new.ReleaseYear = r0.ReleaseYear → new.Description = r0.Description →
      new.SubmitterID = r0.SubmitterID → new.RequestID = r0.RequestID →
      CatalogConsistent (putState s (buildContentRequestKey j) (Doc.request new)) := by
    intro j r0 new hs0 hv e1 e2 e3 e4 e5 e6 i d hd
    rw [getState_putState_other _ _ _ _
      (fun e => buildContentRequestKey_ne_buildMovieKey j i e.symm)] at hd
    obtain ⟨m, r, hm, hr, hrv, hmatch⟩ := h i d hd
    by_cases hk : buildContentRequestKey i = buildContentRequestKey j
    · rw [hk] at hr
      have hrr : r0 = r := Doc.request.inj (Option.some.inj (hs0.symm.trans hr))
      subst hrr
      refine ⟨m, new, hm, by rw [hk, getState_putState_same], hv, ?_⟩
      obtain ⟨m1, m2, m3, m4, m5, m6⟩ := hmatch
      exact ⟨m1.trans e1.symm, m2.trans e2.symm, m3.trans e3.symm, m4.trans e4.symm,
        m5.trans e5.symm, m6.trans e6.symm⟩
    · exact ⟨m, r, hm, by rw [getState_putState_other _ _ _ _ hk]; exact hr, hrv, hmatch⟩
  cases c with
  | submit env j t dr y g ds su nt th =>
    simp only [Call.exec]
    rcases submit_request_after env s j t dr y g ds su nt th with hs | ⟨habs, hs⟩
    · rw [hs]
      exact h
    · rw [hs]
      intro i d hd
      rw [getState_putState_other _ _ _ _
        (fun e => buildContentRequestKey_ne_buildMovieKey j i e.symm)] at hd
      obtain ⟨m, r, hm, hr, hrv, hmatch⟩ := h i d hd
      have hk : buildContentRequestKey i ≠ buildContentRequestKey j := by
        intro e
        rw [e, habs] at hr
        exact absurd hr (by simp)
      exact ⟨m, r, hm, by rw [getState_putState_other _ _ _ _ hk]; exact hr, hrv, hmatch⟩
  | approve env j mod =>
    simp only [Call.exec]
    rcases approve_request_after env s j mod with hs | ⟨r0, hl, _, hs⟩
    · rw [hs]
      exact h
    · obtain ⟨hs0, hP⟩ := hfound env j r0 hl
      have h1 : CatalogConsistent (putState s (buildContentRequestKey j)
          (Doc.request (approvedRequest env r0 mod))) :=
        hrewrite j r0 (approvedRequest env r0 mod) hs0 (hbump r0 hP) rfl rfl rfl rfl rfl rfl
      rcases hs with hs | hs
      · rw [hs]
        exact h1
      · rw [hs]
        intro i d hd
        by_cases hk : buildMovieKey i = buildMovieKey j
        · rw [hk, getState_putState_same] at hd
          have hij : i = j := buildMovieKey_injective i j hk
          subst hij
          refine ⟨_, approvedRequest env r0 mod, (Option.some.inj hd).symm, ?_, hbump r0 hP,
            rfl, rfl, rfl, rfl, rfl, rfl⟩
          rw [getState_putState_other _ _ _ _
            (buildContentRequestKey_ne_buildMovieKey i i), getState_putState_same]
        · rw [getState_putState_other _ _ _ _ hk] at hd
          obtain ⟨m, r, hm, hr, hrv, hmatch⟩ := h1 i d hd
          exact ⟨m, r, hm, by
            rw [getState_putState_other _ _ _ _
              (buildContentRequestKey_ne_buildMovieKey i j)]
            exact hr, hrv, hmatch⟩
  | reject env j mod rs =>
    simp only [Call.exec]
    rcases reject_request_after env s j mod rs with hs | ⟨r0, hl, hs⟩
    · rw [hs]
      exact h
    · obtain ⟨hs0, hP⟩ := hfound env j r0 hl
      rw [hs]
      exact hrewrite j r0 (rejectedRequest env r0 mod rs) hs0 (hbump r0 hP) rfl rfl rfl rfl
        rfl rfl

theorem catalogConsistent_runCalls (calls : List Call) (n : Nat) (s : Store Doc)
    (hrev : RequestsReviewedWithin n s) (h : CatalogConsistent s)
    (hn : ((n + calls.length : Nat) : Int) < maxInt64) :
    CatalogConsistent (runCalls s calls) := by
  induction calls generalizing n s with
  | nil => exact h
  | cons c cs ih =>
    simp only [List.length_cons] at hn
    have hn1 : (n : Int) + 1 < maxInt64 := by
      push_cast at hn
      omega
    exact ih (n + 1) (c.exec s).store (requestsReviewedWithin_exec c n s hrev hn1)
      (catalogConsistent_exec c n s hrev h hn1) (by
        have e : n + 1 + cs.length = n + (cs.length + 1) := by omega
        rw [e]
        exact hn)

/-- C37. Catalog consistency: in every store reached from the empty store through
`SubmitContentRequest`, `ApproveContentRequest` and `RejectContentRequest` (fewer than
2^63 - 1 invocations, so that no version wraps; ledger calls may fail), whenever a document
is stored under the `Movie:` key of a catalog ID i, it is a movie, a request is stored under
the `ContentRequest:` key of i with version at least 2, and the title, director, release
year, description, submitter and request ID of the movie are those of the request. -/
theorem catalog_consistency (calls : List Call) (i : String) (d : Doc)
    (hlen : (calls.length : Int) < maxInt64)
    (hd : getState (runCalls [] calls) (buildMovieKey i) = some d) :
    ∃ m r, d = Doc.movie m ∧
      getState (runCalls [] calls) (buildContentRequestKey i) = some (Doc.request r) ∧
      2 ≤ r.Version ∧
      m.Title = r.Title ∧ m.Director = r.Director ∧ m.ReleaseYear = r.ReleaseYear ∧
      m.Description = r.Description ∧ m.SubmitterID = r.SubmitterID ∧
      m.RequestID = r.RequestID := by
  have hrev : RequestsReviewedWithin 0 [] := by
    intro j d hd
    simp [getState] at hd
  have h0 : CatalogConsistent [] := by
    intro j d hd
    simp [getState] at hd
  exact catalogConsistent_runCalls calls 0 [] hrev h0 (by simpa using hlen) i d hd

theorem catalog_consistency_witness :
    ∃ m r,
      Doc.movie (approvedMovie tx4Env
        (approvedRequest tx4Env
          (rejectedRequest tx3Env (approvedRequest tx2Env inceptionRequest "mod1") "mod2"
            "withdrawn") "mod3") "tt1375666" "mod3") = Doc.movie m ∧
      getState (runCalls []
        [Call.submit tx1Env "tt1375666" "Inception" "Nolan" "2010" "" "" "alice" "" "QmHash",
         Call.approve tx2Env "tt1375666" "mod1",
         Call.reject tx3Env "tt1375666" "mod2" "withdrawn",
         Call.approve tx4Env "tt1375666" "mod3"])
        (buildContentRequestKey "tt1375666") = some (Doc.request r) ∧
      2 ≤ r.Version ∧
      m.Title = r.Title ∧ m.Director = r.Director ∧ m.ReleaseYear = r.ReleaseYear ∧
      m.Description = r.Description ∧ m.SubmitterID = r.SubmitterID ∧
      m.RequestID = r.RequestID :=
  catalog_consistency
    [Call.submit tx1Env "tt1375666" "Inception" "Nolan" "2010" "" "" "alice" "" "QmHash",
     Call.approve tx2Env "tt1375666" "mod1",
     Call.reject tx3Env "tt1375666" "mod2" "withdrawn",
     Call.approve tx4Env "tt1375666" "mod3"]
    "tt1375666" _ (by decide) (by decide)

/-! ## Movies: the queries -/

theorem hasInfix_iff (l sub : List Char) : hasInfix l sub = true ↔ sub <:+: l := by
  induction l with
  | nil =>
    cases sub with
    | nil => simp [hasInfix]
    | cons c cs => simp [hasInfix]
  | cons c cs ih =>
    simp only [hasInfix, Bool.or_eq_true, List.isPrefixOf_iff_prefix, ih,
      List.infix_cons_iff]

theorem searchLimit_bounds (env : QueryEnv) (limitStr : String) :
    1 ≤ searchLimit env limitStr ∧ searchLimit env limitStr ≤ 100 := by
  unfold searchLimit
  simp only [MaxLimit, MinLimit, DefaultLimit]
  by_cases h : limitStr = ""
  · simp [h]
  · simp only [ne_eq, h, not_false_eq_true, if_true]
    cases env.sscanfInt limitStr with
    | none => simp
    | some v =>
      simp only [Nat.cast_ofNat, Nat.cast_one]
      split_ifs <;> omega

theorem searchLimit_default (env : QueryEnv) (limitStr : String)
    (h : limitStr = "" ∨ env.sscanfInt limitStr = none) : searchLimit env limitStr = 20 := by
  unfold searchLimit
  simp only [MaxLimit, MinLimit, DefaultLimit]
  by_cases h1 : limitStr = ""
  · simp [h1]
  · rcases h with h | h
    · exact absurd h h1
    · simp [h1, h]

theorem searchLimit_parsed (env : QueryEnv) (limitStr : String) (v : Int)
    (h1 : limitStr ≠ "") (h2 : env.sscanfInt limitStr = some v) :
    searchLimit env limitStr = max 1 (min 100 v) := by
  unfold searchLimit
  simp only [MaxLimit, MinLimit, DefaultLimit, ne_eq, h1, not_false_eq_true, if_true, h2,
    Nat.cast_ofNat, Nat.cast_one]
  split_ifs <;> omega

theorem searchByTitleLoop_ok (env : QueryEnv) (titleQuery : String) (limit : Int)
    (pairs : List (String × Doc)) (acc : List Movie) (count : Nat) (movies : List Movie)
    (h : searchByTitleLoop env titleQuery limit pairs acc count = Except.ok movies) :
    movies = acc ++ ((decodedMovies pairs).filter (titleMatches env titleQuery)).take
      (limit - count).toNat := by
  induction pairs generalizing acc count with
  | nil =>
    simp only [searchByTitleLoop] at h
    simp [decodedMovies, ← Except.ok.inj h]
  | cons kv rest ih =>
    obtain ⟨key, value⟩ := kv
    simp only [searchByTitleLoop] at h
    by_cases hc : (count : Int) < limit
    · simp only [hc, if_true] at h
      cases hn : env.nextErr key with
      | some e => simp [hn] at h
      | none =>
        simp only [hn] at h
        cases hu : unmarshalMovie value with
        | none => simp [hu] at h
        | some movie =>
          simp only [hu] at h
          by_cases hm : titleMatches env titleQuery movie = true
          · simp only [hm, if_true] at h
            have h2 := ih _ _ h
            have e1 : (limit - (count : Int)).toNat =
                (limit - ((count + 1 : Nat) : Int)).toNat + 1 := by
              omega
            rw [h2, e1]
            simp [decodedMovies, hu, hm]
          · simp only [hm] at h
            have h2 := ih _ _ h
            rw [h2]
            simp [decodedMovies, hu, hm]
    · simp only [hc, if_false] at h
      have e1 : (limit - (count : Int)).toNat = 0 := by omega
      rw [e1]
      simp [← Except.ok.inj h]

theorem searchByTitleLoop_total (env : QueryEnv) (titleQuery : String) (limit : Int)
    (pairs : List (String × Doc)) (acc : List Movie) (count : Nat)
    (h : ∀ kv ∈ pairs, env.nextErr kv.1 = none ∧ (unmarshalMovie kv.2).isSome = true) :
    ∃ movies, searchByTitleLoop env titleQuery limit pairs acc count = Except.ok movies := by
  induction pairs generalizing acc count with
  | nil => exact ⟨acc, rfl⟩
  | cons kv rest ih =>
    obtain ⟨key, value⟩ := kv
    obtain ⟨hn, hsome⟩ := h (key, value) (List.mem_cons_self _ _)
    have hrest : ∀ kv ∈ rest,
        env.nextErr kv.1 = none ∧ (unmarshalMovie kv.2).isSome = true :=
      fun kv hkv => h kv (List.mem_cons_of_mem _ hkv)
    simp only at hn hsome
    cases hu : unmarshalMovie value with
    | none => simp [hu] at hsome
    | some movie =>
      simp only [searchByTitleLoop, hn, hu]
      by_cases hc : (count : Int) < limit
      · simp only [hc, if_true]
        by_cases hm : titleMatches env titleQuery movie = true
        · simp only [hm, if_true]
          exact ih _ _ hrest
        · simp only [hm]
          exact ih _ _ hrest
      · simp only [hc, if_false]
        exact ⟨acc, rfl⟩

/-- C34. For every store, query q and limit string: the effective limit of `SearchByTitle`
is between 1 and 100; it is 20 when the limit string is empty or `Sscanf` reads no number
from it, and otherwise the number read, raised to 1 or lowered to 100 when outside that
range. When `SearchByTitle` returns a list, it is the first limit movies, in the order the
query yields them, among the decodable values of the query whose lower-cased title holds
the lower-cased q as a contiguous part; so it has at most limit movies and each of them
has such a title. It does return a list when the query and its iterator do not fail and
every value the query yields decodes. -/
theorem SearchByTitle_matches_within_limit (env : QueryEnv) (s : Store Doc)
    (titleQuery limitStr : String) :
    (1 ≤ searchLimit env limitStr ∧ searchLimit env limitStr ≤ 100) ∧
    (limitStr = "" ∨ env.sscanfInt limitStr = none → searchLimit env limitStr = 20) ∧
    (∀ v, limitStr ≠ "" → env.sscanfInt limitStr = some v →
      searchLimit env limitStr = max 1 (min 100 v)) ∧
    (∀ movies, SearchByTitle env s titleQuery limitStr = Except.ok movies →
      movies = ((decodedMovies (richQuery s searchSelector DefaultLimit)).filter
        (titleMatches env titleQuery)).take (searchLimit env limitStr).toNat ∧
      movies.Sublist (decodedMovies (richQuery s searchSelector DefaultLimit)) ∧
      (movies.length : Int) ≤ searchLimit env limitStr ∧
      ∀ m ∈ movies, (env.toLower titleQuery).data <:+: (env.toLower m.Title).data) ∧
    (env.queryErr = none →
      (∀ kv ∈ richQuery s searchSelector DefaultLimit,
        env.nextErr kv.1 = none ∧ (unmarshalMovie kv.2).isSome = true) →
      ∃ movies, SearchByTitle env s titleQuery limitStr = Except.ok movies) := by
  refine ⟨searchLimit_bounds env limitStr, searchLimit_default env limitStr,
    fun v h1 h2 => searchLimit_parsed env limitStr v h1 h2, ?_, ?_⟩
  · intro movies h
    unfold SearchByTitle at h
    cases hq : env.queryErr with
    | some e => simp [hq] at h
    | none =>
      simp only [hq] at h
      have h2 := searchByTitleLoop_ok env titleQuery _ _ [] 0 movies h
      simp only [List.nil_append, Nat.cast_zero, sub_zero] at h2
      refine ⟨h2, ?_, ?_, ?_⟩
      · rw [h2]
        exact (List.take_sublist _ _).trans (List.filter_sublist _)
      · have hlen : movies.length ≤ (searchLimit env limitStr).toNat := by
          rw [h2]
          exact List.length_take_le _ _
        have := (searchLimit_bounds env limitStr).1
        omega
      · intro m hm
        rw [h2] at hm
        have hmem := List.mem_of_mem_take hm
        simp only [List.mem_filter, titleMatches, stringsContains] at hmem
        exact (hasInfix_iff _ _).1 hmem.2
  · intro hq hall
    unfold SearchByTitle
    simp only [hq]
    exact searchByTitleLoop_total env titleQuery _ _ [] 0 hall

theorem SearchByTitle_matches_within_limit_witness :
    [approvedMovie tx2Env (approvedRequest tx2Env inceptionRequest "mod1") "tt1375666"
        "mod1"] =
      ((decodedMovies (richQuery approvedStore searchSelector DefaultLimit)).filter
        (titleMatches plainQueryEnv "CEPT")).take (searchLimit plainQueryEnv "500").toNat ∧
    ([approvedMovie tx2Env (approvedRequest tx2Env inceptionRequest "mod1") "tt1375666"
        "mod1"]).Sublist (decodedMovies (richQuery approvedStore searchSelector DefaultLimit)) ∧
    (([approvedMovie tx2Env (approvedRequest tx2Env inceptionRequest "mod1") "tt1375666"
        "mod1"]).length : Int) ≤ searchLimit plainQueryEnv "500" ∧
    ∀ m ∈ [approvedMovie tx2Env (approvedRequest tx2Env inceptionRequest "mod1") "tt1375666"
        "mod1"],
      (plainQueryEnv.toLower "CEPT").data <:+: (plainQueryEnv.toLower m.Title).data :=
  (SearchByTitle_matches_within_limit plainQueryEnv approvedStore "CEPT" "500").2.2.2.1
    [approvedMovie tx2Env (approvedRequest tx2Env inceptionRequest "mod1") "tt1375666" "mod1"]
    (by decide)

theorem mem_insertByCreated (kv x : String × Doc) (l : List (String × Doc)) :
    x ∈ insertByCreated kv l ↔ x = kv ∨ x ∈ l := by
  induction l with
  | nil => simp [insertByCreated]
  | cons y rest ih =>
    by_cases h : keyLe (createdAt kv.2).data (createdAt y.2).data = true
    · simp only [insertByCreated, h, if_true, List.mem_cons, ih]
      tauto
    · simp only [insertByCreated, h, List.mem_cons]
      simp

theorem mem_sortByCreatedDesc (x : String × Doc) (l : List (String × Doc)) :
    x ∈ sortByCreatedDesc l ↔ x ∈ l := by
  induction l with
  | nil => simp [sortByCreatedDesc]
  | cons y rest ih => simp [sortByCreatedDesc, mem_insertByCreated, ih]

theorem mem_richQuery (s : Store Doc) (selector : Doc → Bool) (pageSize : Nat)
    (x : String × Doc) (h : x ∈ richQuery s selector pageSize) :
    x ∈ s ∧ selector x.2 = true := by
  have h1 := List.mem_of_mem_take h
  rw [mem_sortByCreatedDesc] at h1
  simpa [List.mem_filter] using h1

/-- C35, evaluated. The JSON of a movie has no field `status`, so no movie satisfies the
selector of `QueryAll`, and no pair that its query yields is a movie, whatever the store.
After `SubmitContentRequest(tt1375666, Inception, ...)` and
`ApproveContentRequest(tt1375666, mod1)`, both succeeding, the movie is stored and
`GetMovieByIMDBID` returns it, and `SearchByTitle`, whose selector asks for the document
type only, returns it; but `QueryAll` returns no movie. -/
theorem query_all_selects_no_movie :
    (∀ m : Movie, (Doc.movie m).stringField "status" = none ∧
      queryAllSelector (Doc.movie m) = false) ∧
    (∀ (s : Store Doc) (pageSize : Nat) (kv : String × Doc),
      kv ∈ richQuery s queryAllSelector pageSize → ∀ m : Movie, kv.2 ≠ Doc.movie m) ∧
    (ApproveContentRequest tx2Env submittedStore "tt1375666" "mod1").response.Success =
      true ∧
    getState approvedStore (buildMovieKey "tt1375666") =
      some (Doc.movie (approvedMovie tx2Env (approvedRequest tx2Env inceptionRequest "mod1")
        "tt1375666" "mod1")) ∧
    (approvedMovie tx2Env (approvedRequest tx2Env inceptionRequest "mod1") "tt1375666"
      "mod1").DocType = "Movie" ∧
    GetMovieByIMDBID tx3Env approvedStore "tt1375666" =
      Except.ok (approvedMovie tx2Env (approvedRequest tx2Env inceptionRequest "mod1")
        "tt1375666" "mod1") ∧
    SearchByTitle plainQueryEnv approvedStore "inception" "" =
      Except.ok [approvedMovie tx2Env (approvedRequest tx2Env inceptionRequest "mod1")
        "tt1375666" "mod1"] ∧
    QueryAll plainQueryEnv approvedStore = Except.ok [] := by
  refine ⟨?_, ?_, ?_, ?_, ?_, ?_, ?_, ?_⟩
  · intro m
    constructor
    · rfl
    · simp [queryAllSelector, Doc.stringField, List.lookup]
  · intro s pageSize kv hkv m hm
    have h := (mem_richQuery s queryAllSelector pageSize kv hkv).2
    rw [hm] at h
    simp [queryAllSelector, Doc.stringField, List.lookup] at h
  all_goals decide

end Flashback
